import Mathlib

/-!
ParILUT: the parallel phase of ILUT (`distributed_linear_solvers/pilut/parilut.c`)

A shallow embedding of the functions of `parilut.c` and proofs of properties of them.

Modelling conventions.

* A C `int` that holds an index, a count or a PE number is a `Nat`; where the
  source subtracts two such values and the result can be negative, the
  subtraction is done in `Int` on the casts.  `jr` holds `-1`, so it is `Int`.
* A C array is a total function from indices; `upd a i v` is the store `a[i] = v`.
* A `double` is a rational number.  The functions embedded here only compare
  magnitudes (`fabs`) and divide once; comparisons of finite doubles are exact.
* A counted loop `for (i = lo; i < hi; i++)` is `forLoop lo body (hi - lo)`;
  a loop whose bound moves while it runs takes an explicit iteration budget
  that the loop cannot exhaust.
* `CheckBounds`, `assert` and `PrintLine` are diagnostics that leave the state
  unchanged; they are not part of the state transformers. A run with the assertions in
  force is a run of these transformers that ends where an assertion fails. Where an
  assertion decides whether a result is produced at all, a definition named `..._checked`
  returns `none` when the assertion fails.
* The fields of `hypre_PilutSolverGlobals` are the names the source reaches
  through its `globals` argument (`jw`, `map`, `firstrow`, ...).
-/

set_option linter.unusedVariables false

namespace ParILUT

/-! ## Arrays and loops -/

/-- Array store: `upd a i v` is the array `a` after `a[i] = v`. -/
def upd {α : Type} (a : Nat → α) (i : Nat) (v : α) : Nat → α :=
  fun j => if j = i then v else a j

/-- Counted loop: `forLoop lo body n s` runs `body lo`, `body (lo+1)`, ...,
`body (lo+n-1)` in this order, starting from the state `s`. -/
def forLoop {σ : Type} (lo : Nat) (body : Nat → σ → σ) : Nat → σ → σ
  | 0, s => s
  | n + 1, s => body (lo + n) (forLoop lo body n s)

/-- The entries `a[lo], ..., a[lo+n-1]` of an array, as a list. -/
def slice {α : Type} (a : Nat → α) (lo n : Nat) : List α :=
  (List.range' lo n).map a

/-- Copy of `n` entries: `memcpy_idx(dest + off, src + off, n)`. -/
def memcpy_idx (dest src : Nat → Nat) (off n : Nat) : Nat → Nat :=
  fun i => if off ≤ i ∧ i < off + n then src i else dest i

/-- Magnitude of a value: `fabs`. -/
def fabs (x : ℚ) : ℚ := if x < 0 then -x else x

/-! ## Data model -/

/-- The per-PE global state reached through `globals` in the source. -/
structure hypre_PilutSolverGlobals where
  mype : Nat
  npes : Nat
  firstrow : Nat
  lastrow : Nat
  nrows : Nat
  lnrows : Nat
  ndone : Nat
  ntogo : Nat
  nleft : Nat
  global_maxnz : Nat
  vrowdist : Nat → Nat
  jr : Nat → Int
  jw : Nat → Nat
  lr : Nat → Nat
  w : Nat → ℚ
  lastjr : Nat
  lastlr : Nat
  map : Nat → Nat

/-- The reduced matrix: one CSR-like row per active local row. -/
structure ReduceMatType where
  rmat_ndone : Nat
  rmat_ntogo : Nat
  rmat_rnz : Nat → Nat
  rmat_rrowlen : Nat → Nat
  rmat_rcolind : Nat → Nat → Nat
  rmat_rvalues : Nat → Nat → ℚ

/-- The communication descriptor of one level. -/
structure CommInfoType where
  rnnbr : Nat
  snnbr : Nat
  maxntogo : Nat
  maxnrecv : Nat
  maxnsend : Nat
  rnbrind : Nat → Nat
  rnbrptr : Nat → Nat
  rrowind : Nat → Nat
  snbrind : Nat → Nat
  snbrptr : Nat → Nat
  srowind : Nat → Nat
  incolind : Nat → Nat
  invalues : Nat → ℚ

/-- The factor `L`, `D`, `U` with its permutation. -/
structure FactorMatType where
  lsrowptr : Nat → Nat
  lerowptr : Nat → Nat
  lcolind : Nat → Nat
  lvalues : Nat → ℚ
  usrowptr : Nat → Nat
  uerowptr : Nat → Nat
  ucolind : Nat → Nat
  uvalues : Nat → ℚ
  dvalues : Nat → ℚ
  nrm2s : Nat → ℚ
  perm : Nat → Nat
  iperm : Nat → Nat
  nnodes : Nat → Nat
  nlevels : Nat

/-! ## Idx2PE -/

/-- The loop of `Idx2PE`: advance `penum` while `idx >= vrowdist[penum+1]`.
The source asserts `penum < npes` after every increment, so the loop makes at
most `npes` steps; the budget is that bound. -/
def Idx2PE_loop (vrowdist : Nat → Nat) (idx : Nat) : Nat → Nat → Nat
  | 0, penum => penum
  | budget + 1, penum =>
    if idx ≥ vrowdist (penum + 1) then Idx2PE_loop vrowdist idx budget (penum + 1)
    else penum

/-- The function `Idx2PE(idx, globals)`: the PE on which row `idx` is located. -/
def Idx2PE (idx : Nat) (g : hypre_PilutSolverGlobals) : Nat :=
  Idx2PE_loop g.vrowdist idx g.npes 0

/-! ## SelectSet -/

/-- The part of the state written by the first two passes of `SelectSet`:
the count `num`, the candidate list `jw[0..num)` and the map. -/
structure MISState where
  num : Nat
  jw : Nat → Nat
  map : Nat → Nat

/-- The column scan of one row in `SelectSet`:
`for (j=1; j<nnz; j++) if (... && mype > Idx2PE(rcolind[j])) break;`
returns the final value of `j`. The loop makes fewer than `nnz` steps. -/
def SelectSet_scan (g : hypre_PilutSolverGlobals) (rcolind : Nat → Nat) (nnz : Nat) :
    Nat → Nat → Nat
  | 0, j => j
  | budget + 1, j =>
    if j < nnz then
      if (rcolind j < g.firstrow ∨ rcolind j ≥ g.lastrow) ∧ g.mype > Idx2PE (rcolind j) g then j
      else SelectSet_scan g rcolind nnz budget (j + 1)
    else j

/-- Body of the first loop of `SelectSet` for the active row number `ir`. -/
def SelectSet_pass1_body (g : hypre_PilutSolverGlobals) (rmat : ReduceMatType)
    (perm : Nat → Nat) (ir : Nat) (s : MISState) : MISState :=
  let i := perm (ir + g.ndone) + g.firstrow
  let nnz := rmat.rmat_rnz ir
  let j := SelectSet_scan g (rmat.rmat_rcolind ir) nnz nnz 1
  if j = nnz then { num := s.num + 1, jw := upd s.jw s.num i, map := upd s.map i 1 }
  else s

/-- First loop of `SelectSet`: collect the candidate rows in `jw[0..num)` and mark them. -/
def SelectSet_pass1 (g : hypre_PilutSolverGlobals) (rmat : ReduceMatType)
    (perm : Nat → Nat) : MISState :=
  forLoop 0 (SelectSet_pass1_body g rmat perm) g.ntogo { num := 0, jw := g.jw, map := g.map }

/-- The innermost loop of the asymmetry check for one entry `x = srowind[i]`:
`for (j=0; j<num; j++) if (x == jw[j]) { map[jw[j]] = 0; jw[j] = jw[--num]; }`.
`num - j` decreases at every step, so a budget of `num` steps is never exhausted. -/
def SelectSet_fix_inner (x : Nat) : Nat → Nat → MISState → MISState
  | 0, _, s => s
  | budget + 1, j, s =>
    if j < s.num then
      if x = s.jw j then
        SelectSet_fix_inner x budget (j + 1)
          { num := s.num - 1, jw := upd s.jw j (s.jw (s.num - 1)), map := upd s.map (s.jw j) 0 }
      else SelectSet_fix_inner x budget (j + 1) s
    else s

/-- The asymmetry check of `SelectSet`: every candidate named in the send list of a
lower-numbered neighbour is taken out of `jw` and unmarked. -/
def SelectSet_pass2 (g : hypre_PilutSolverGlobals) (cinfo : CommInfoType)
    (s : MISState) : MISState :=
  forLoop 0
    (fun k s =>
      if cinfo.snbrind k < g.mype then
        forLoop (cinfo.snbrptr k)
          (fun i s => SelectSet_fix_inner (cinfo.srowind i) s.num 0 s)
          (cinfo.snbrptr (k + 1) - cinfo.snbrptr k) s
      else s)
    cinfo.snnbr s

/-- The state of the last loop of `SelectSet`. -/
structure PermState where
  j : Nat
  k : Nat
  newperm : Nat → Nat
  newiperm : Nat → Nat

/-- Body of the last loop of `SelectSet` for position `ir` of `perm`. -/
def SelectSet_pass3_body (g : hypre_PilutSolverGlobals) (map perm : Nat → Nat)
    (ir : Nat) (s : PermState) : PermState :=
  let l := perm ir
  if map (l + g.firstrow) = 1 then
    { j := s.j + 1, k := s.k, newperm := upd s.newperm s.j l, newiperm := upd s.newiperm l s.j }
  else
    { j := s.j, k := s.k + 1, newperm := upd s.newperm s.k l, newiperm := upd s.newiperm l s.k }

/-- Last loop of `SelectSet`: the new permutation with the set at the beginning. -/
def SelectSet_pass3 (g : hypre_PilutSolverGlobals) (map perm newperm newiperm : Nat → Nat)
    (num : Nat) : PermState :=
  forLoop g.ndone (SelectSet_pass3_body g map perm) (g.lnrows - g.ndone)
    { j := g.ndone, k := g.ndone + num, newperm := newperm, newiperm := newiperm }

/-- What `SelectSet` returns and leaves behind. -/
structure SelectSetResult where
  num : Nat
  newperm : Nat → Nat
  newiperm : Nat → Nat
  globals : hypre_PilutSolverGlobals

/-- The function `SelectSet(rmat, cinfo, perm, iperm, newperm, newiperm, globals)`: the three
loops in order; `iperm` is not read. -/
def SelectSet (rmat : ReduceMatType) (cinfo : CommInfoType)
    (perm iperm newperm newiperm : Nat → Nat) (g : hypre_PilutSolverGlobals) :
    SelectSetResult :=
  let s2 := SelectSet_pass2 g cinfo (SelectSet_pass1 g rmat perm)
  let s3 := SelectSet_pass3 g s2.map perm newperm newiperm s2.num
  { num := s2.num, newperm := s3.newperm, newiperm := s3.newiperm,
    globals := { g with jw := s2.jw, map := s2.map } }

/-! ## ComputeCommInfo: the indices that are needed -/

/-- The part of the state written by the first loop of `ComputeCommInfo`. -/
structure RecvState where
  nrecv : Nat
  rrowind : Nat → Nat
  map : Nat → Nat

/-- Body of the column loop of `ComputeCommInfo` for column position `j` of a row:
a column outside `[firstrow, lastrow)` that is not yet marked is marked and requested. -/
def ComputeCommInfo_scan_body (g : hypre_PilutSolverGlobals) (rcolind : Nat → Nat)
    (j : Nat) (s : RecvState) : RecvState :=
  let k := rcolind j
  if (k < g.firstrow ∨ k ≥ g.lastrow) ∧ s.map k = 0 then
    { nrecv := s.nrecv + 1, rrowind := upd s.rrowind s.nrecv k, map := upd s.map k 1 }
  else s

/-- The first loop of `ComputeCommInfo` ("Determine the indices that are needed"):
afterwards `rrowind[0..nrecv)` holds the requested remote rows, before sorting. -/
def ComputeCommInfo_scan (g : hypre_PilutSolverGlobals) (rmat : ReduceMatType)
    (cinfo : CommInfoType) : RecvState :=
  forLoop 0
    (fun ir s =>
      forLoop 1 (ComputeCommInfo_scan_body g (rmat.rmat_rcolind ir)) (rmat.rmat_rnz ir - 1) s)
    g.ntogo { nrecv := 0, rrowind := cinfo.rrowind, map := g.map }

/-! ## SendFactoredRows (receiving side) and EraseMap -/

/-- Stepping loop `for (k = k0; k < hi; k += step) body`; with `step > 0` it makes
at most `hi` steps, which is the budget the callers pass. -/
def stepLoop {σ : Type} (step hi : Nat) (body : Nat → σ → σ) : Nat → Nat → σ → σ
  | 0, _, s => s
  | budget + 1, k, s =>
    if k < hi then stepLoop step hi body budget (k + step) (body k s) else s

/-- The state of the loop "Finish receiving rows" of `SendFactoredRows`. -/
structure RecvRowsState where
  j : Nat
  rnbrptr : Nat → Nat
  map : Nat → Nat

/-- The loop "Finish receiving rows" of `SendFactoredRows`. `inCnt i` is the count that
`MPI_Get_count` reports for neighbour `i`, and `cinfo.incolind` is the receive buffer with
the received records in it. Every received record's row index (slot 1 of the record) is
installed in the map with the record's offset and the flag in the lowest bit. -/
def SendFactoredRows_recv (cinfo : CommInfoType) (inCnt : Nat → Nat)
    (g : hypre_PilutSolverGlobals) : RecvRowsState :=
  let cnt := cinfo.maxntogo * (g.global_maxnz + 2)
  forLoop 0
    (fun i s =>
      { j := s.j + cnt,
        rnbrptr := upd s.rnbrptr i (inCnt i),
        map := stepLoop (g.global_maxnz + 2) (inCnt i)
                 (fun k m => upd m (cinfo.incolind (s.j + k + 1)) (((s.j + k) <<< 1) + 1))
                 (inCnt i) 0 s.map })
    cinfo.rnnbr { j := 0, rnbrptr := cinfo.rnbrptr, map := g.map }

/-- The function `SendFactoredRows`, as far as `rnbrptr` and the map go: the packing and the sends
read the factor and write only the gather buffer and the network. -/
def SendFactoredRows (cinfo : CommInfoType) (inCnt : Nat → Nat)
    (g : hypre_PilutSolverGlobals) : CommInfoType × hypre_PilutSolverGlobals :=
  let s := SendFactoredRows_recv cinfo inCnt g
  ({ cinfo with rnbrptr := s.rnbrptr }, { g with map := s.map })

/-- First loop of `EraseMap`: clear the map of all rows of the set. -/
def EraseMap_local (g : hypre_PilutSolverGlobals) (newperm : Nat → Nat) (nmis : Nat)
    (map : Nat → Nat) : Nat → Nat :=
  forLoop g.ndone (fun i m => upd m (newperm i + g.firstrow) 0) nmis map

/-- Second loop of `EraseMap`: clear the map of all received rows; the state is the
running buffer position `j` (starting at 1, the row-index slot) and the map. -/
def EraseMap_recv (g : hypre_PilutSolverGlobals) (cinfo : CommInfoType)
    (map : Nat → Nat) : Nat × (Nat → Nat) :=
  let cnt := cinfo.maxntogo * (g.global_maxnz + 2)
  forLoop 0
    (fun i s =>
      (s.1 + cnt,
       stepLoop (g.global_maxnz + 2) (cinfo.rnbrptr i)
         (fun k m => upd m (cinfo.incolind (s.1 + k)) 0) (cinfo.rnbrptr i) 0 s.2))
    cinfo.rnnbr (1, map)

/-- The function `EraseMap(cinfo, newperm, nmis, globals)` without the debugging sweep. -/
def EraseMap (cinfo : CommInfoType) (newperm : Nat → Nat) (nmis : Nat)
    (g : hypre_PilutSolverGlobals) : hypre_PilutSolverGlobals :=
  { g with map := (EraseMap_recv g cinfo (EraseMap_local g newperm nmis g.map)).2 }

/-! ## The permutation update of one level of ParILUT -/

/-- The four permutation arrays of the level driver. -/
structure PermArrays where
  perm : Nat → Nat
  iperm : Nat → Nat
  newperm : Nat → Nat
  newiperm : Nat → Nat

/-- What one iteration of the `while` loop of `ParILUT` does to the permutation arrays:
`SelectSet` writes `newperm`/`newiperm`, and at the end of the level
`memcpy_idx(perm+ndone, newperm+ndone, ntogo)` and `memcpy_idx(iperm, newiperm, lnrows)`
copy them back. `FactorLocal`, `SendFactoredRows`, `ComputeRmat` and `EraseMap`, which
run in between, only read these arrays. -/
def ParILUT_level_perm (rmat : ReduceMatType) (cinfo : CommInfoType) (p : PermArrays)
    (g : hypre_PilutSolverGlobals) : PermArrays :=
  let r := SelectSet rmat cinfo p.perm p.iperm p.newperm p.newiperm g
  { perm := memcpy_idx p.perm r.newperm g.ndone g.ntogo,
    iperm := memcpy_idx p.iperm r.newiperm 0 g.lnrows,
    newperm := r.newperm,
    newiperm := r.newiperm }

/-! ## UpdateL -/

/-- The state of the loop of `UpdateL`: the end of the row and the `L` pool. -/
structure LState where
  «end» : Nat
  lcolind : Nat → Nat
  lvalues : Nat → ℚ

/-- The search `min = start; for (j=start+1; j<end; j++) if (|lvalues[j]| < |lvalues[min]|) min = j;`
of `UpdateL`. -/
def UpdateL_min (lvalues : Nat → ℚ) (start «end» : Nat) : Nat :=
  forLoop (start + 1)
    (fun j min => if fabs (lvalues j) < fabs (lvalues min) then j else min)
    («end» - (start + 1)) start

/-- Body of the loop of `UpdateL` for the workspace entry `i`. -/
def UpdateL_body (g : hypre_PilutSolverGlobals) (start : Nat) (i : Nat) (s : LState) :
    LState :=
  if ((s.«end» : Int) - (start : Int) < (g.global_maxnz : Int)) then
    { «end» := s.«end» + 1,
      lcolind := upd s.lcolind s.«end» (g.jw i),
      lvalues := upd s.lvalues s.«end» (g.w i) }
  else
    let min := UpdateL_min s.lvalues start s.«end»
    if fabs (s.lvalues min) < fabs (g.w i) then
      { «end» := s.«end»,
        lcolind := upd s.lcolind min (g.jw i),
        lvalues := upd s.lvalues min (g.w i) }
    else s

/-- The function `UpdateL(lrow, last, ldu, globals)`: the entries `[1, last)` of the
workspace go into the `L` row `lrow`. -/
def UpdateL (lrow last : Nat) (ldu : FactorMatType) (g : hypre_PilutSolverGlobals) :
    FactorMatType :=
  let start := ldu.lsrowptr lrow
  let s := forLoop 1 (UpdateL_body g start) (last - 1)
    { «end» := ldu.lerowptr lrow, lcolind := ldu.lcolind, lvalues := ldu.lvalues }
  { ldu with lcolind := s.lcolind, lvalues := s.lvalues,
             lerowptr := upd ldu.lerowptr lrow s.«end» }

/-! ## FormDU -/

/-- The state of the loop of `FormDU`: the end of the `U` row, the `U` pool and the
workspace that the loop consumes. -/
structure UState where
  «end» : Nat
  ucolind : Nat → Nat
  uvalues : Nat → ℚ
  lastjr : Nat
  jw : Nat → Nat
  w : Nat → ℚ

/-- The search `max = first; for (j=first+1; j<lastjr; j++) if (|w[j]| > |w[max]|) max = j;`
of `FormDU`. -/
def FormDU_max (w : Nat → ℚ) (first lastjr : Nat) : Nat :=
  forLoop (first + 1)
    (fun j max => if fabs (w j) > fabs (w max) then j else max)
    (lastjr - (first + 1)) first

/-- One pass of the loop of `FormDU`: store the largest entry of `[first, lastjr)` at
the end of the `U` row and swap it out of the workspace. -/
def FormDU_step (first : Nat) (s : UState) : UState :=
  let max := FormDU_max s.w first s.lastjr
  { «end» := s.«end» + 1,
    ucolind := upd s.ucolind s.«end» (s.jw max),
    uvalues := upd s.uvalues s.«end» (s.w max),
    lastjr := s.lastjr - 1,
    jw := upd s.jw max (s.jw (s.lastjr - 1)),
    w := upd s.w max (s.w (s.lastjr - 1)) }

/-- The loop `for (nz=0; nz<global_maxnz && lastjr>first; nz++)` of `FormDU`;
the first argument is the number of values `nz` can still take. -/
def FormDU_loop (first : Nat) : Nat → UState → UState
  | 0, s => s
  | n + 1, s => if s.lastjr > first then FormDU_loop first n (FormDU_step first s) else s

/-- The function `FormDU(lrow, first, ldu, rcolind, rvalues, tol, globals)`; freeing the reduced row
has no counterpart here. -/
def FormDU (lrow first : Nat) (ldu : FactorMatType) (tol : ℚ)
    (g : hypre_PilutSolverGlobals) : FactorMatType × hypre_PilutSolverGlobals :=
  let d := if g.w 0 = 0 then 1 / tol else 1 / g.w 0
  let s := FormDU_loop first g.global_maxnz
    { «end» := ldu.uerowptr lrow, ucolind := ldu.ucolind, uvalues := ldu.uvalues,
      lastjr := g.lastjr, jw := g.jw, w := g.w }
  ({ ldu with dvalues := upd ldu.dvalues lrow d, ucolind := s.ucolind,
              uvalues := s.uvalues, uerowptr := upd ldu.uerowptr lrow s.«end» },
   { g with lastjr := s.lastjr, jw := s.jw, w := s.w })

/-! ## Example data

Small concrete states on which the theorems below are instantiated. -/

/-- An array given by the list of its first entries, `d` elsewhere. -/
def arr {α : Type} (d : α) (l : List α) : Nat → α := fun i => l.getD i d

/-- PE 0 of two PEs that own two rows each (`rowdist = [0, 2, 4]`), at level 0. -/
def exG0 : hypre_PilutSolverGlobals :=
  { mype := 0, npes := 2, firstrow := 0, lastrow := 2, nrows := 4, lnrows := 2, ndone := 0,
    ntogo := 2, nleft := 4, global_maxnz := 2, vrowdist := arr 0 [0, 2, 4],
    jr := fun _ => -1, jw := fun _ => 0, lr := fun _ => 0, w := fun _ => 0,
    lastjr := 0, lastlr := 0, map := fun _ => 0 }

/-- A workspace on PE 0 holding the diagonal and four more entries. -/
def exGw : hypre_PilutSolverGlobals :=
  { exG0 with jw := arr 0 [0, 5, 6, 7, 8], w := arr 0 [4, -3, 1, -7, 2], lastjr := 5 }

/-- An empty factor in which row `i` owns the pool positions from `10 * i` on. -/
def exLdu : FactorMatType :=
  { lsrowptr := fun i => 10 * i, lerowptr := fun i => 10 * i, lcolind := fun _ => 0,
    lvalues := fun _ => 0, usrowptr := fun i => 10 * i, uerowptr := fun i => 10 * i,
    ucolind := fun _ => 0, uvalues := fun _ => 0, dvalues := fun _ => 0,
    nrm2s := fun _ => 1, perm := id, iperm := id, nnodes := fun _ => 0, nlevels := 0 }

/-- The (column, value) pairs at positions `[lo, hi)` of a pair of parallel arrays. -/
def entries (c : Nat → Nat) (v : Nat → ℚ) (lo hi : Nat) : List (Nat × ℚ) :=
  slice (fun i => (c i, v i)) lo (hi - lo)

/-! ## Vocabulary for the statements about SelectSet -/

/-- Row `c` is owned by PE `pe` under the row distribution `rowdist`. -/
def Owns (rowdist : Nat → Nat) (pe c : Nat) : Prop :=
  rowdist pe ≤ c ∧ c < rowdist (pe + 1)

/-- The row distribution of a PE is well formed: `vrowdist` starts at 0, is non-decreasing
over the PEs, and `[firstrow, lastrow)` is the range of `mype`. -/
def RowDistOK (g : hypre_PilutSolverGlobals) : Prop :=
  g.mype < g.npes ∧ g.vrowdist 0 = 0 ∧
  (∀ p, p < g.npes → g.vrowdist p ≤ g.vrowdist (p + 1)) ∧
  g.firstrow = g.vrowdist g.mype ∧ g.lastrow = g.vrowdist (g.mype + 1)

/-- The level-start shape of a PE: the local rows are `[firstrow, firstrow + lnrows)` and
the active positions of the permutation are `[ndone, ndone + ntogo) = [ndone, lnrows)`. -/
def LevelShape (g : hypre_PilutSolverGlobals) : Prop :=
  g.lastrow = g.firstrow + g.lnrows ∧ g.ndone + g.ntogo = g.lnrows

/-- The array `perm` is a permutation of `0..n-1` and `iperm` is its exact inverse. -/
def PermInv (n : Nat) (perm iperm : Nat → Nat) : Prop :=
  (∀ i, i < n → perm i < n ∧ iperm (perm i) = i) ∧
  (∀ l, l < n → iperm l < n ∧ perm (iperm l) = l)

/-- The array `perm` takes pairwise different values on the positions `[lo, hi)`. -/
def InjOnRange (perm : Nat → Nat) (lo hi : Nat) : Prop :=
  ∀ i j, lo ≤ i → i < hi → lo ≤ j → j < hi → perm i = perm j → i = j

/-- The test `j == nnz` after the column scan of active row `ir` in `SelectSet`. -/
def SelectSet_passes (g : hypre_PilutSolverGlobals) (rmat : ReduceMatType) (ir : Nat) : Bool :=
  decide (SelectSet_scan g (rmat.rmat_rcolind ir) (rmat.rmat_rnz ir) (rmat.rmat_rnz ir) 1
    = rmat.rmat_rnz ir)

/-- The global index of the active row number `ir`: `perm[ir+ndone]+firstrow`. -/
def activeRow (g : hypre_PilutSolverGlobals) (perm : Nat → Nat) (ir : Nat) : Nat :=
  perm (ir + g.ndone) + g.firstrow

/-- All entries `srowind[t]` that belong to a send neighbour whose PE id is strictly
less than `mype`, in the order in which `SelectSet` visits them. -/
def lowerSendRows (g : hypre_PilutSolverGlobals) (cinfo : CommInfoType) : List Nat :=
  (List.range cinfo.snnbr).flatMap
    (fun k =>
      if cinfo.snbrind k < g.mype then
        slice cinfo.srowind (cinfo.snbrptr k) (cinfo.snbrptr (k + 1) - cinfo.snbrptr k)
      else [])

/-- The candidate rows among the first `n` active rows, in the order of the first loop of
`SelectSet`. -/
def candRows (g : hypre_PilutSolverGlobals) (rmat : ReduceMatType) (perm : Nat → Nat)
    (n : Nat) : List Nat :=
  ((List.range n).filter (SelectSet_passes g rmat)).map (activeRow g perm)

instance instDecidableOwns (rowdist : Nat → Nat) (pe c : Nat) : Decidable (Owns rowdist pe c) := by
  unfold Owns
  infer_instance

/-- Column `c` is owned by a PE numbered strictly lower than this PE. -/
def onLowerPE (g : hypre_PilutSolverGlobals) (c : Nat) : Prop :=
  ∃ pe, pe < g.mype ∧ Owns g.vrowdist pe c

instance instDecidableOnLowerPE (g : hypre_PilutSolverGlobals) (c : Nat) :
    Decidable (onLowerPE g c) := by
  unfold onLowerPE
  infer_instance

/-- Column `c` is owned by a PE numbered strictly higher than this PE. -/
def onHigherPE (g : hypre_PilutSolverGlobals) (c : Nat) : Prop :=
  ∃ pe, pe < g.npes ∧ g.mype < pe ∧ Owns g.vrowdist pe c

instance instDecidableOnHigherPE (g : hypre_PilutSolverGlobals) (c : Nat) :
    Decidable (onHigherPE g c) := by
  unfold onHigherPE
  infer_instance

/-- No off-diagonal column of the active row number `ir` is owned by a lower-numbered PE. -/
def noLowerColumn (g : hypre_PilutSolverGlobals) (rmat : ReduceMatType) (ir : Nat) : Bool :=
  decide (∀ j : Nat, 1 ≤ j → j < rmat.rmat_rnz ir → ¬ onLowerPE g (rmat.rmat_rcolind ir j))

instance instDecidableRowDistOK (g : hypre_PilutSolverGlobals) : Decidable (RowDistOK g) := by
  unfold RowDistOK
  infer_instance

instance instDecidableLevelShape (g : hypre_PilutSolverGlobals) : Decidable (LevelShape g) := by
  unfold LevelShape
  infer_instance

instance instDecidablePermInv (n : Nat) (perm iperm : Nat → Nat) :
    Decidable (PermInv n perm iperm) := by
  unfold PermInv
  infer_instance

instance instDecidableInjOnRange (perm : Nat → Nat) (lo hi : Nat) :
    Decidable (InjOnRange perm lo hi) :=
  decidable_of_iff
    (∀ i : Nat, lo ≤ i → i < hi → ∀ j : Nat, lo ≤ j → j < hi → perm i = perm j → i = j)
    ⟨fun h i j a b c d e => h i a b j c d e, fun h i a b j c d e => h i j a b c d e⟩

/-! ### Two PEs with a coupled pair of rows

Rows 0, 1 live on PE 0 and rows 2, 3 on PE 1. Row 1 has a column into row 2 and row 2 has
a column back into row 1; rows 0 and 3 have local columns only. -/

/-- PE 1 of the two PEs, at level 0. -/
def exG1 : hypre_PilutSolverGlobals :=
  { exG0 with mype := 1, firstrow := 2, lastrow := 4 }

/-- The reduced rows of PE 0: row 0 has columns `0, 1`, row 1 has columns `1, 2`. -/
def exRm0 : ReduceMatType :=
  { rmat_ndone := 0, rmat_ntogo := 2, rmat_rnz := arr 0 [2, 2], rmat_rrowlen := arr 0 [2, 2],
    rmat_rcolind := fun ir => arr 0 ([[0, 1], [1, 2]].getD ir []),
    rmat_rvalues := fun _ _ => 1 }

/-- The reduced rows of PE 1: row 2 has columns `2, 1`, row 3 has columns `3, 2`. -/
def exRm1 : ReduceMatType :=
  { exRm0 with rmat_rcolind := fun ir => arr 0 ([[2, 1], [3, 2]].getD ir []) }

/-- The communication descriptor of PE 0: it requests row 2 from PE 1 and sends row 1. -/
def exCi0 : CommInfoType :=
  { rnnbr := 1, snnbr := 1, maxntogo := 2, maxnrecv := 0, maxnsend := 0,
    rnbrind := arr 0 [1], rnbrptr := arr 0 [0, 1], rrowind := arr 0 [2],
    snbrind := arr 0 [1], snbrptr := arr 0 [0, 1], srowind := arr 0 [1],
    incolind := fun _ => 0, invalues := fun _ => 0 }

/-- The communication descriptor of PE 1: it requests row 1 from PE 0 and sends row 2. -/
def exCi1 : CommInfoType :=
  { exCi0 with
    rnbrind := arr 0 [0], rrowind := arr 0 [1], snbrind := arr 0 [0], srowind := arr 0 [2] }

/-! ### The middle PE of three

Three PEs with two rows each. On PE 1 row 2 has columns `2, 3` and row 3 has columns
`3, 4`; PE 0 requests row 2 and PE 2 requests row 3. -/

/-- PE 1 of three PEs (`rowdist = [0, 2, 4, 6]`), at level 0. -/
def exGm : hypre_PilutSolverGlobals :=
  { exG0 with
    mype := 1, npes := 3, firstrow := 2, lastrow := 4, nrows := 6, nleft := 6,
    vrowdist := arr 0 [0, 2, 4, 6] }

/-- The reduced rows of the middle PE. -/
def exRmm : ReduceMatType :=
  { exRm0 with rmat_rcolind := fun ir => arr 0 ([[2, 3], [3, 4]].getD ir []) }

/-- The communication descriptor of the middle PE: send neighbours PE 0 (row 2) and
PE 2 (row 3). -/
def exCim : CommInfoType :=
  { exCi0 with
    rnbrind := arr 0 [2], rrowind := arr 0 [4], snnbr := 2, snbrind := arr 0 [0, 2],
    snbrptr := arr 0 [0, 1, 2], srowind := arr 0 [2, 3] }

/-- The permutation arrays at the start of level 0: all four are the identity. -/
def exPerm : PermArrays :=
  { perm := id, iperm := id, newperm := id, newiperm := id }

/-! ## Vocabulary for the statements about the map -/

/-- The values of `k` that the loop `for (k = k0; k < hi; k += step)` visits. -/
def recordOffsets (step hi : Nat) : Nat → Nat → List Nat
  | 0, _ => []
  | budget + 1, k => if k < hi then k :: recordOffsets step hi budget (k + step) else []

/-- The global indices of the rows of the set: `newperm[i] + firstrow` for `i` in
`[ndone, ndone + nmis)`. -/
def selectedRows (g : hypre_PilutSolverGlobals) (newperm : Nat → Nat) (nmis : Nat) : List Nat :=
  slice (fun i => newperm i + g.firstrow) g.ndone nmis

/-- The row indices (slot 1) of all received records: neighbour `i` delivers `inCnt i`
integers into the buffer at `i * maxntogo * (global_maxnz + 2)`, one record every
`global_maxnz + 2` integers. -/
def recvDiagCols (g : hypre_PilutSolverGlobals) (cinfo : CommInfoType) (inCnt : Nat → Nat) :
    List Nat :=
  (List.range cinfo.rnnbr).flatMap
    (fun i =>
      (recordOffsets (g.global_maxnz + 2) (inCnt i) (inCnt i) 0).map
        (fun k => cinfo.incolind (i * (cinfo.maxntogo * (g.global_maxnz + 2)) + k + 1)))

/-- The middle PE after receiving one record from PE 2: the record of row 4, with
columns 4 and 5, sits at offset 0 of the receive buffer. -/
def exCimRecv : CommInfoType :=
  { exCim with rnnbr := 1, maxntogo := 2, incolind := arr 0 [2, 4, 5, 0] }

/-! ## SecondDropSmall -/

/-- The packed workspace lists and their length, the state of the loops that compact or
rearrange them. -/
structure WorkSpace where
  lastjr : Nat
  jw : Nat → Nat
  w : Nat → ℚ

/-- The second loop of `SecondDropSmall`:
`for (i=1; i<lastjr;) if (fabs(w[i]) < rtol) { jw[i] = jw[--lastjr]; w[i] = w[lastjr]; } else i++;`.
Every pass lowers `lastjr - i` by one, so a budget of `lastjr` passes is never exhausted. -/
def SecondDropSmall_loop (rtol : ℚ) : Nat → Nat → WorkSpace → WorkSpace
  | 0, _, s => s
  | budget + 1, i, s =>
    if i < s.lastjr then
      if fabs (s.w i) < rtol then
        SecondDropSmall_loop rtol budget i
          { lastjr := s.lastjr - 1,
            jw := upd s.jw i (s.jw (s.lastjr - 1)),
            w := upd s.w i (s.w (s.lastjr - 1)) }
      else SecondDropSmall_loop rtol budget (i + 1) s
    else s

/-- The function `SecondDropSmall(rtol, globals)`: reset `jr` at every column of the
workspace, then remove the off-diagonal entries below the tolerance. -/
def SecondDropSmall (rtol : ℚ) (g : hypre_PilutSolverGlobals) : hypre_PilutSolverGlobals :=
  let jr := forLoop 0 (fun i jr => upd jr (g.jw i) (-1)) g.lastjr g.jr
  let s := SecondDropSmall_loop rtol g.lastjr 1 { lastjr := g.lastjr, jw := g.jw, w := g.w }
  { g with jr := jr, lastjr := s.lastjr, jw := s.jw, w := s.w }

/-- A workspace on PE 0 whose diagonal is 0, with four more entries. -/
def exGz : hypre_PilutSolverGlobals :=
  { exG0 with jw := arr 0 [0, 5, 6, 7, 8], w := arr 0 [0, -3, 1, -7, 2], lastjr := 5 }

/-! ## SeperateLU_byDIAG and SeperateLU_byMIS -/

/-- Modelled from the spec: the macro `IsInMIS` is not among the source files. The map
holds 0 for a row that is not in the set, 1 for a locally selected row and
`(offset << 1) | 1` for a received row, so a map value marks a row of the set iff its
lowest bit is set. -/
def IsInMIS (a : Nat) : Bool := decide (a % 2 = 1)

/-- The state of the partition pass: the two cursors and the workspace lists. -/
structure PartState where
  last : Nat
  first : Nat
  jw : Nat → Nat
  w : Nat → ℚ

/-- The scan `while (last < first && [last] is in L) last++;` of the partition pass;
it makes at most `first - last` steps. -/
def SeperateLU_up (inL : Nat → Bool) (jw : Nat → Nat) (first : Nat) : Nat → Nat → Nat
  | 0, last => last
  | budget + 1, last =>
    if last < first ∧ inL (jw last) = true then SeperateLU_up inL jw first budget (last + 1)
    else last

/-- The scan `while (last < first && [first] is not in L) first--;` of the partition pass;
it makes at most `first - last` steps. -/
def SeperateLU_down (inL : Nat → Bool) (jw : Nat → Nat) (last : Nat) : Nat → Nat → Nat
  | 0, first => first
  | budget + 1, first =>
    if last < first ∧ inL (jw first) = false then SeperateLU_down inL jw last budget (first - 1)
    else first

/-- The loop `while (true)` of the partition pass; `inL c` is the test "column `c` is in
L". The result is `none` when the budget of passes is used up before a `break`. The macro
`SWAP(a, b, tmp)` exchanges `a` and `b`. -/
def SeperateLU_loop (inL : Nat → Bool) : Nat → PartState → Option PartState
  | 0, _ => none
  | budget + 1, s =>
    let last1 := SeperateLU_up inL s.jw s.first s.first s.last
    let first1 := SeperateLU_down inL s.jw last1 s.first s.first
    let s2 : PartState :=
      if last1 < first1 then
        { last := last1 + 1, first := first1 - 1,
          jw := upd (upd s.jw first1 (s.jw last1)) last1 (s.jw first1),
          w := upd (upd s.w first1 (s.w last1)) last1 (s.w first1) }
      else { last := last1, first := first1, jw := s.jw, w := s.w }
    if s2.last = s2.first then
      if inL (s2.jw s2.last) = true then
        some { last := s2.last + 1, first := s2.first + 1, jw := s2.jw, w := s2.w }
      else some s2
    else if s2.last > s2.first then
      some { last := s2.last, first := s2.first + 1, jw := s2.jw, w := s2.w }
    else SeperateLU_loop inL budget s2

/-- The body that `SeperateLU_byDIAG` and `SeperateLU_byMIS` share; they differ only in
the test `inL`. It returns the separation point `first` and the rearranged workspace. With
`lastjr == 0`, which no caller produces, the source starts from `first = -1`, fails every
test that reads the workspace and returns `first + 1 = 0`. The loop is given `lastjr`
passes. -/
def SeperateLU_by (inL : Nat → Bool) (g : hypre_PilutSolverGlobals) :
    Option (Nat × hypre_PilutSolverGlobals) :=
  if g.lastjr = 1 then some (1, g)
  else if g.lastjr = 0 then some (0, g)
  else
    match SeperateLU_loop inL g.lastjr
        { last := 1, first := g.lastjr - 1, jw := g.jw, w := g.w } with
    | none => none
    | some s => some (s.first, { g with jw := s.jw, w := s.w })

/-- The test of `SeperateLU_byDIAG`: the column is a local row whose new permutation index
is less than `diag`. -/
def inL_byDIAG (g : hypre_PilutSolverGlobals) (diag : Nat) (newiperm : Nat → Nat)
    (c : Nat) : Bool :=
  decide (c ≥ g.firstrow ∧ c < g.lastrow ∧ newiperm (c - g.firstrow) < diag)

/-- The test of `SeperateLU_byMIS`: the column is marked in the map. -/
def inL_byMIS (g : hypre_PilutSolverGlobals) (c : Nat) : Bool :=
  IsInMIS (g.map c)

/-- The function `SeperateLU_byDIAG(diag, newiperm, globals)`. -/
def SeperateLU_byDIAG (diag : Nat) (newiperm : Nat → Nat) (g : hypre_PilutSolverGlobals) :
    Option (Nat × hypre_PilutSolverGlobals) :=
  SeperateLU_by (inL_byDIAG g diag newiperm) g

/-- The function `SeperateLU_byMIS(globals)`. -/
def SeperateLU_byMIS (g : hypre_PilutSolverGlobals) :
    Option (Nat × hypre_PilutSolverGlobals) :=
  SeperateLU_by (inL_byMIS g) g

/-- A workspace on PE 0 with the diagonal and five more entries, columns 1 and 9 marked in
the map. -/
def exGp : hypre_PilutSolverGlobals :=
  { exG0 with
    nrows := 10, jw := arr 0 [0, 5, 1, 7, 9, 6], w := arr 0 [4, -3, 1, -7, 2, 5], lastjr := 6,
    map := arr 0 [0, 1, 0, 0, 0, 0, 0, 0, 0, 3] }


/-! ## Vocabulary for the insertion policy of UpdateL -/

/-- The state of the `L` row `lrow` when the loop of `UpdateL` reaches the workspace entry
`i` (that is, after the entries `1 .. i-1` have been processed in this order). -/
def UpdateL_before (lrow : Nat) (ldu : FactorMatType) (g : hypre_PilutSolverGlobals)
    (i : Nat) : LState :=
  forLoop 1 (UpdateL_body g (ldu.lsrowptr lrow)) (i - 1)
    { «end» := ldu.lerowptr lrow, lcolind := ldu.lcolind, lvalues := ldu.lvalues }


/-! ## FormNRmat -/

/-- The state of the loops of `FormNRmat`: the count `nz`, the row being written and the
workspace that the selection loop consumes. -/
structure NRState where
  nz : Nat
  rcolind : Nat → Nat
  rvalues : Nat → ℚ
  lastjr : Nat
  jw : Nat → Nat
  w : Nat → ℚ

/-- Body of the loop `for (nz=1, j=first; j<lastjr; nz++, j++)` of `FormNRmat` (simple
copy). -/
def FormNRmat_copy (j : Nat) (s : NRState) : NRState :=
  { s with nz := s.nz + 1,
           rcolind := upd s.rcolind s.nz (s.jw j),
           rvalues := upd s.rvalues s.nz (s.w j) }

/-- Body of the loop `for (nz=1; nz<out_rowlen; nz++)` of `FormNRmat`: the search
`max = first; for (j=first+1; j<lastjr; j++) if (|w[j]| > |w[max]|) max = j;` is the one
of `FormDU`; the entry found is stored at `nz` and swapped out of the workspace. -/
def FormNRmat_step (first : Nat) (s : NRState) : NRState :=
  let max := FormDU_max s.w first s.lastjr
  { nz := s.nz + 1,
    rcolind := upd s.rcolind s.nz (s.jw max),
    rvalues := upd s.rvalues s.nz (s.w max),
    lastjr := s.lastjr - 1,
    jw := upd s.jw max (s.jw (s.lastjr - 1)),
    w := upd s.w max (s.w (s.lastjr - 1)) }

/-- The row length `out_rowlen = hypre_min(max_rowlen, lastjr-first+1)` of `FormNRmat`. -/
def FormNRmat_out_rowlen (first max_rowlen : Nat) (g : hypre_PilutSolverGlobals) : Int :=
  min (max_rowlen : Int) ((g.lastjr : Int) - (first : Int) + 1)

/-- The loops of `FormNRmat` from the state in which slot 0 of the row has been written. -/
def FormNRmat_fill (first max_rowlen : Nat) (g : hypre_PilutSolverGlobals)
    (rcolind : Nat → Nat) (rvalues : Nat → ℚ) : NRState :=
  let s0 : NRState :=
    { nz := 1, rcolind := upd rcolind 0 (g.jw 0), rvalues := upd rvalues 0 (g.w 0),
      lastjr := g.lastjr, jw := g.jw, w := g.w }
  if (g.lastjr : Int) - (first : Int) + 1 ≤ (max_rowlen : Int) then
    forLoop first FormNRmat_copy (g.lastjr - first) s0
  else
    forLoop 1 (fun _ s => FormNRmat_step first s)
      ((FormNRmat_out_rowlen first max_rowlen g).toNat - 1) s0

/-- The function `FormNRmat(rrow, first, nrmat, max_rowlen, in_rowlen, in_colind, in_values,
globals)`. The arrays `fresh_colind`, `fresh_values` are the (uninitialised) storage that
`idx_malloc` and `fp_malloc` return when the row has to grow. The recorded row length is
`out_rowlen`, which is not negative when `first <= lastjr + 1`. -/
def FormNRmat (rrow first : Nat) (nrmat : ReduceMatType) (max_rowlen in_rowlen : Nat)
    (in_colind : Nat → Nat) (in_values : Nat → ℚ)
    (fresh_colind : Nat → Nat) (fresh_values : Nat → ℚ)
    (g : hypre_PilutSolverGlobals) : ReduceMatType × hypre_PilutSolverGlobals :=
  let out_rowlen := FormNRmat_out_rowlen first max_rowlen g
  let rcolind := if out_rowlen > (in_rowlen : Int) then fresh_colind else in_colind
  let rvalues := if out_rowlen > (in_rowlen : Int) then fresh_values else in_values
  let s := FormNRmat_fill first max_rowlen g rcolind rvalues
  ({ nrmat with rmat_rnz := upd nrmat.rmat_rnz rrow s.nz,
                rmat_rrowlen := upd nrmat.rmat_rrowlen rrow out_rowlen.toNat,
                rmat_rcolind := upd nrmat.rmat_rcolind rrow s.rcolind,
                rmat_rvalues := upd nrmat.rmat_rvalues rrow s.rvalues },
   { g with lastjr := s.lastjr, jw := s.jw, w := s.w })

/-- An empty reduced matrix. -/
def exNr : ReduceMatType :=
  { rmat_ndone := 0, rmat_ntogo := 0, rmat_rnz := fun _ => 0, rmat_rrowlen := fun _ => 0,
    rmat_rcolind := fun _ _ => 0, rmat_rvalues := fun _ _ => 0 }

/-- The state of the selection loop of `FormNRmat` read as a state of the loop of `FormDU`
(`nz` for `end`, the reduced row for the `U` pool). -/
def NRState.toU (s : NRState) : UState :=
  { «end» := s.nz, ucolind := s.rcolind, uvalues := s.rvalues,
    lastjr := s.lastjr, jw := s.jw, w := s.w }


/-! ## The end of a row in FactorLocal and ComputeRmat -/

/-- The last four calls of the row loop of `FactorLocal` for the local row `i`:
`SecondDropSmall(rtol); m = SeperateLU_byDIAG(diag, newiperm); UpdateL(i, m, ldu);
FormDU(i, m, ldu, rcolind, rvalues, tol)` with `rtol = nrm2s[i]*tol`. -/
def FactorLocal_store (i diag : Nat) (newiperm : Nat → Nat) (tol : ℚ) (ldu : FactorMatType)
    (g : hypre_PilutSolverGlobals) : Option (FactorMatType × hypre_PilutSolverGlobals) :=
  let rtol := ldu.nrm2s i * tol
  let g1 := SecondDropSmall rtol g
  match SeperateLU_byDIAG diag newiperm g1 with
  | none => none
  | some (m, g2) => some (FormDU i m (UpdateL i m ldu g2) tol g2)

/-- The last four calls of the row loop of `ComputeRmat` for the local row `i`:
`SecondDropSmall(rtol); m = SeperateLU_byMIS(); UpdateL(i, m, ldu);
FormNRmat(inr, m, nrmat, global_maxnz, rrowlen, rcolind, rvalues)` with
`rtol = nrm2s[i]*tol`. -/
def ComputeRmat_store (i inr : Nat) (nrmat : ReduceMatType) (rrowlen : Nat)
    (rcolind : Nat → Nat) (rvalues : Nat → ℚ)
    (fresh_colind : Nat → Nat) (fresh_values : Nat → ℚ) (tol : ℚ) (ldu : FactorMatType)
    (g : hypre_PilutSolverGlobals) :
    Option (FactorMatType × ReduceMatType × hypre_PilutSolverGlobals) :=
  let rtol := ldu.nrm2s i * tol
  let g1 := SecondDropSmall rtol g
  match SeperateLU_byMIS g1 with
  | none => none
  | some (m, g2) =>
    let r := FormNRmat inr m nrmat g2.global_maxnz rrowlen rcolind rvalues
      fresh_colind fresh_values g2
    some (UpdateL i m ldu g2, r.1, r.2)


/-! ## Row formation in FactorLocal and ComputeRmat -/

/-- Modelled from the spec: the macro `IsLocal` is not among the source files. An entry of
`lr` carries its origin in the lowest bit, 0 for a local row. -/
def IsLocal (k : Nat) : Bool := decide (k % 2 = 0)

/-- Modelled from the spec: the macro `StripLocal` is not among the source files. It removes
the origin bit of an entry of `lr`; the upper bits are the index in `newperm` or the offset
in the receive buffer. -/
def StripLocal (k : Nat) : Nat := k / 2

/-- Modelled from the spec: the function `ExtractMinLR` is not among the source files. It
takes the smallest of the pending entries `lr[0..lastlr)` out of `lr` and returns it; here
the entry at the end of the list takes the place of the one removed. -/
def ExtractMinLR (g : hypre_PilutSolverGlobals) : Nat × hypre_PilutSolverGlobals :=
  let min := forLoop 1 (fun j m => if g.lr j < g.lr m then j else m) (g.lastlr - 1) 0
  (g.lr min, { g with lr := upd g.lr min (g.lr (g.lastlr - 1)), lastlr := g.lastlr - 1 })

/-- The statement pair `lr[lastlr] = key; lastlr++;` under its guard: `key` is `none` when the
guard fails. -/
def lr_push (key : Option Nat) (s : hypre_PilutSolverGlobals) : hypre_PilutSolverGlobals :=
  match key with
  | none => s
  | some v => { s with lr := upd s.lr s.lastlr v, lastlr := s.lastlr + 1 }

/-- The entry that `FactorLocal` records in `lr` for the column `c`: a local column placed
before `diag` in the new permutation is recorded by its new position. -/
def FactorLocal_key (g : hypre_PilutSolverGlobals) (diag : Nat) (newiperm : Nat → Nat)
    (c : Nat) : Option Nat :=
  if c ≥ g.firstrow ∧ c < g.lastrow ∧ newiperm (c - g.firstrow) < diag then
    some (newiperm (c - g.firstrow))
  else none

/-- The entry that the seeding loop of `ComputeRmat` records in `lr` for the column `c`:
a marked local column is recorded as `newiperm << 1`, a marked remote one by its map
value. -/
def ComputeRmat_key (g : hypre_PilutSolverGlobals) (newiperm : Nat → Nat) (c : Nat) :
    Option Nat :=
  if IsInMIS (g.map c) = true then
    if c ≥ g.firstrow ∧ c < g.lastrow then some (newiperm (c - g.firstrow) * 2)
    else some (g.map c)
  else none

/-- The entry that `ComputeRmat` records in `lr` for a fill column `c` of a local row: a
marked column is recorded as `newiperm << 1`. -/
def ComputeRmat_key_local (g : hypre_PilutSolverGlobals) (newiperm : Nat → Nat) (c : Nat) :
    Option Nat :=
  if IsInMIS (g.map c) = true then some (newiperm (c - g.firstrow) * 2) else none

/-- The entry that `ComputeRmat` records in `lr` for a fill column `c` of a received row: a
marked column is recorded by its map value. -/
def ComputeRmat_key_remote (g : hypre_PilutSolverGlobals) (c : Nat) : Option Nat :=
  if IsInMIS (g.map c) = true then some (g.map c) else none

/-- Body of the seeding loop `for (lastjr=1; lastjr<nnz; lastjr++)` of `FactorLocal` and
`ComputeRmat`, which differ in the entry `key` they record in `lr`: record the `L`
element, then `jr[rcolind[j]] = j; jw[j] = rcolind[j]; w[j] = rvalues[j];`. -/
def seed_body (key : Nat → Option Nat) (rcolind : Nat → Nat) (rvalues : Nat → ℚ) (j : Nat)
    (s : hypre_PilutSolverGlobals) : hypre_PilutSolverGlobals :=
  let s1 := lr_push (key (rcolind j)) s
  { s1 with jr := upd s1.jr (rcolind j) (j : Int),
            jw := upd s1.jw j (rcolind j),
            w := upd s1.w j (rvalues j) }

/-- The seeding of the workspace with the reduced row `rcolind/rvalues[0..nnz)`:
`jr[rcolind[0]] = 0; jw[0] = rcolind[0]; w[0] = rvalues[0]; lastlr = 0;` and the seeding
loop, after which `lastjr` is `nnz` (1 when `nnz` is 0). -/
def seed_row (key : Nat → Option Nat) (nnz : Nat) (rcolind : Nat → Nat) (rvalues : Nat → ℚ)
    (g : hypre_PilutSolverGlobals) : hypre_PilutSolverGlobals :=
  let g0 : hypre_PilutSolverGlobals :=
    { g with jr := upd g.jr (rcolind 0) 0, jw := upd g.jw 0 (rcolind 0),
             w := upd g.w 0 (rvalues 0), lastlr := 0 }
  let g1 := forLoop 1 (seed_body key rcolind rvalues) (nnz - 1) g0
  { g1 with lastjr := max 1 nnz }

/-- Body of the loop over the entries `cols/vals[l]` of the row that is applied with the
multiplier `mult`: a column that is not in the workspace (`jr == -1`) becomes a fill entry
at `lastjr` unless `|mult*vals[l]| < rtol`, after its `L` element has been recorded; a
column that is in the workspace is updated in place. -/
def fill_body (key : Nat → Option Nat) (cols : Nat → Nat) (vals : Nat → ℚ) (mult rtol : ℚ)
    (l : Nat) (s : hypre_PilutSolverGlobals) : hypre_PilutSolverGlobals :=
  let m := s.jr (cols l)
  if m = -1 then
    if fabs (mult * vals l) < rtol then s
    else
      let s1 := lr_push (key (cols l)) s
      { s1 with jr := upd s1.jr (cols l) (s1.lastjr : Int),
                jw := upd s1.jw s1.lastjr (cols l),
                w := upd s1.w s1.lastjr (-mult * vals l),
                lastjr := s1.lastjr + 1 }
  else { s with w := upd s.w m.toNat (s.w m.toNat - mult * vals l) }

/-- The multiplier step `mult = w[jr[k]]*d; w[jr[k]] = mult; if (fabs(mult) < rtol) continue;`
followed by the loop over the entries `[lo, lo + n)` of the row that is applied. The code
asserts `jw[jr[k]] == k`, so `jr[k]` is a position of the workspace. -/
def apply_row (key : Nat → Option Nat) (cols : Nat → Nat) (vals : Nat → ℚ) (rtol : ℚ)
    (k : Nat) (d : ℚ) (lo n : Nat) (g : hypre_PilutSolverGlobals) :
    hypre_PilutSolverGlobals :=
  let mult := g.w (g.jr k).toNat * d
  let g1 : hypre_PilutSolverGlobals := { g with w := upd g.w (g.jr k).toNat mult }
  if fabs mult < rtol then g1
  else forLoop lo (fill_body key cols vals mult rtol) n g1

/-- One pass of the loop `while (lastlr != 0)` of `FactorLocal`. -/
def FactorLocal_elim_step (diag : Nat) (newperm newiperm : Nat → Nat) (rtol : ℚ)
    (ldu : FactorMatType) (g : hypre_PilutSolverGlobals) : hypre_PilutSolverGlobals :=
  let r := ExtractMinLR g
  let kk := newperm r.1
  apply_row (FactorLocal_key g diag newiperm) ldu.ucolind ldu.uvalues rtol
    (kk + g.firstrow) (ldu.dvalues kk) (ldu.usrowptr kk)
    (ldu.uerowptr kk - ldu.usrowptr kk) r.2

/-- One pass of the loop `while (lastlr != 0)` of `ComputeRmat`: a local row is applied
from `U`, a received row from `incolind/invalues`, where it is stored as
`length, diagonal, columns`. -/
def ComputeRmat_elim_step (newperm newiperm : Nat → Nat) (rtol : ℚ) (ldu : FactorMatType)
    (cinfo : CommInfoType) (g : hypre_PilutSolverGlobals) : hypre_PilutSolverGlobals :=
  let r := ExtractMinLR g
  if IsLocal r.1 = true then
    let kk := newperm (StripLocal r.1)
    apply_row (ComputeRmat_key_local g newiperm) ldu.ucolind ldu.uvalues rtol
      (kk + g.firstrow) (ldu.dvalues kk) (ldu.usrowptr kk)
      (ldu.uerowptr kk - ldu.usrowptr kk) r.2
  else
    let start := StripLocal r.1
    let fin := start + cinfo.incolind start
    apply_row (ComputeRmat_key_remote g) cinfo.incolind cinfo.invalues rtol
      (cinfo.incolind (start + 1)) (cinfo.invalues (start + 1)) (start + 2)
      (fin + 1 - (start + 2)) r.2

/-- The loop `while (lastlr != 0)` run for at most `n` passes of the body `step`. The loop
has ended when `lastlr` is 0 in the state returned. -/
def elim_loop (step : hypre_PilutSolverGlobals → hypre_PilutSolverGlobals) :
    Nat → hypre_PilutSolverGlobals → hypre_PilutSolverGlobals
  | 0, g => g
  | n + 1, g => if g.lastlr ≠ 0 then elim_loop step n (step g) else g

/-- The workspace of `FactorLocal` for one row after the seeding and at most `n` passes of
the elimination loop. -/
def FactorLocal_form (diag : Nat) (newperm newiperm : Nat → Nat) (rtol : ℚ)
    (ldu : FactorMatType) (nnz : Nat) (rcolind : Nat → Nat) (rvalues : Nat → ℚ)
    (g : hypre_PilutSolverGlobals) (n : Nat) : hypre_PilutSolverGlobals :=
  elim_loop (FactorLocal_elim_step diag newperm newiperm rtol ldu) n
    (seed_row (FactorLocal_key g diag newiperm) nnz rcolind rvalues g)

/-- The workspace of `ComputeRmat` for one row after the seeding and at most `n` passes of
the elimination loop. -/
def ComputeRmat_form (newperm newiperm : Nat → Nat) (rtol : ℚ) (ldu : FactorMatType)
    (cinfo : CommInfoType) (nnz : Nat) (rcolind : Nat → Nat) (rvalues : Nat → ℚ)
    (g : hypre_PilutSolverGlobals) (n : Nat) : hypre_PilutSolverGlobals :=
  elim_loop (ComputeRmat_elim_step newperm newiperm rtol ldu cinfo) n
    (seed_row (ComputeRmat_key g newiperm) nnz rcolind rvalues g)

/-- The workspace invariant: `jr[jw[p]] = p` for every position `p < lastjr`, and
`jr[c] = -1` for every column `c` that is not in `jw[0..lastjr)`. -/
def WSInv (g : hypre_PilutSolverGlobals) : Prop :=
  (∀ p, p < g.lastjr → g.jr (g.jw p) = (p : Int)) ∧
  (∀ c, (∀ p, p < g.lastjr → g.jw p ≠ c) → g.jr c = -1)


/-- One pass of the row loop of `ComputeRmat` for the local row `i`, whose reduced row is
`rcolind/rvalues[0..nnz)` with capacity `rrowlen`: seeding, the elimination loop (at most
`budget` passes; `none` when it has not ended by then) and the end of the row. -/
def ComputeRmat_row (budget : Nat) (newperm newiperm : Nat → Nat) (tol : ℚ)
    (ldu : FactorMatType) (cinfo : CommInfoType) (i inr : Nat) (nrmat : ReduceMatType)
    (nnz rrowlen : Nat) (rcolind : Nat → Nat) (rvalues : Nat → ℚ)
    (fresh_colind : Nat → Nat) (fresh_values : Nat → ℚ) (g : hypre_PilutSolverGlobals) :
    Option (FactorMatType × ReduceMatType × hypre_PilutSolverGlobals) :=
  let g1 := ComputeRmat_form newperm newiperm (ldu.nrm2s i * tol) ldu cinfo nnz rcolind
    rvalues g budget
  if g1.lastlr = 0 then
    ComputeRmat_store i inr nrmat rrowlen rcolind rvalues fresh_colind fresh_values tol ldu g1
  else none

/-- One pass of the row loop of `FactorLocal` for the local row `i` with new position
`diag`: seeding, the elimination loop (at most `budget` passes; `none` when it has not
ended by then) and the end of the row. -/
def FactorLocal_row (budget : Nat) (diag : Nat) (newperm newiperm : Nat → Nat) (tol : ℚ)
    (ldu : FactorMatType) (i : Nat) (nnz : Nat) (rcolind : Nat → Nat) (rvalues : Nat → ℚ)
    (g : hypre_PilutSolverGlobals) : Option (FactorMatType × hypre_PilutSolverGlobals) :=
  let g1 := FactorLocal_form diag newperm newiperm (ldu.nrm2s i * tol) ldu nnz rcolind
    rvalues g budget
  if g1.lastlr = 0 then FactorLocal_store i diag newiperm tol ldu g1 else none

/-- A level on PE 0 (rows 0 and 1 of 10): the local row 1 and the remote row 9 are in the
independent set (`map[1] = 1`, and `map[9] = 3` is the offset 1 in the receive buffer), the
local row 0 is not; the workspace is clean. -/
def exGl : hypre_PilutSolverGlobals :=
  { exG0 with nrows := 10, global_maxnz := 3, map := arr 0 [0, 1, 0, 0, 0, 0, 0, 0, 0, 3] }

/-- The factor after row 1 has been factored at this level: `D[1] = 1`, `U[1]` holds the
columns 7 and 8, row 1 owns the pool positions from 10 on; `L` is empty. -/
def exLdul : FactorMatType :=
  { exLdu with uerowptr := fun i => if i = 1 then 12 else 10 * i,
               ucolind := upd (upd (fun _ => 0) 10 7) 11 8,
               uvalues := upd (upd (fun _ => 0) 10 2) 11 1,
               dvalues := fun _ => 1 }

/-- The receive buffer holding the factored row 9 at offset 1: length 2, diagonal column 9
with `D = 1`, and one `U` entry in column 8. -/
def exCil : CommInfoType :=
  { exCi0 with incolind := arr 0 [0, 2, 9, 8], invalues := arr 0 [0, 0, 1, 3] }


/-! ## Vocabulary for the records that SendFactoredRows receives -/

/-- The buffer offsets of all received records: neighbour `i` delivers `inCnt i` integers
into the buffer at `i * maxntogo * (global_maxnz + 2)`, one record every
`global_maxnz + 2` integers. -/
def recvOffsets (g : hypre_PilutSolverGlobals) (cinfo : CommInfoType) (inCnt : Nat → Nat)
    (n : Nat) : List Nat :=
  (List.range n).flatMap
    (fun i =>
      (recordOffsets (g.global_maxnz + 2) (inCnt i) (inCnt i) 0).map
        (fun k => i * (cinfo.maxntogo * (g.global_maxnz + 2)) + k))


/-! ## SendFactoredRows: packing the rows of the set -/

/-- Body of the loop "pack the colind for sending" of `SendFactoredRows` for position `j`
of the new permutation; the state is the running offset `l` and `sgatherbuf`. The length
`uerowptr[k]-usrowptr[k]+1` counts the diagonal; a `U` row has `usrowptr <= uerowptr`. -/
def SendFactoredRows_pack_colind_body (ldu : FactorMatType) (newperm : Nat → Nat)
    (g : hypre_PilutSolverGlobals) (j : Nat) (s : Nat × (Nat → Nat)) : Nat × (Nat → Nat) :=
  let k := newperm j
  let b1 := upd s.2 s.1 (ldu.uerowptr k - ldu.usrowptr k + 1)
  let b2 := upd b1 (s.1 + 1) (k + g.firstrow)
  let b3 := forLoop (ldu.usrowptr k)
    (fun ku b => upd b (s.1 + 2 + (ku - ldu.usrowptr k)) (ldu.ucolind ku))
    (ldu.uerowptr k - ldu.usrowptr k) b2
  (s.1 + 2 + g.global_maxnz, b3)

/-- The loop "pack the colind for sending" of `SendFactoredRows`: returns the packed length
`l` and `sgatherbuf`. -/
def SendFactoredRows_pack_colind (ldu : FactorMatType) (newperm : Nat → Nat) (nmis : Nat)
    (g : hypre_PilutSolverGlobals) (sgatherbuf : Nat → Nat) : Nat × (Nat → Nat) :=
  forLoop g.ndone (SendFactoredRows_pack_colind_body ldu newperm g) nmis (0, sgatherbuf)

/-- Body of the loop "pack the values" of `SendFactoredRows` for position `j` of the new
permutation: `l++` skips the first element of the record. -/
def SendFactoredRows_pack_values_body (ldu : FactorMatType) (newperm : Nat → Nat)
    (g : hypre_PilutSolverGlobals) (j : Nat) (s : Nat × (Nat → ℚ)) : Nat × (Nat → ℚ) :=
  let k := newperm j
  let b2 := upd s.2 (s.1 + 1) (ldu.dvalues k)
  let b3 := forLoop (ldu.usrowptr k)
    (fun ku b => upd b (s.1 + 2 + (ku - ldu.usrowptr k)) (ldu.uvalues ku))
    (ldu.uerowptr k - ldu.usrowptr k) b2
  (s.1 + 2 + g.global_maxnz, b3)

/-- The loop "pack the values" of `SendFactoredRows`: returns the packed length `l` and
`dgatherbuf`. -/
def SendFactoredRows_pack_values (ldu : FactorMatType) (newperm : Nat → Nat) (nmis : Nat)
    (g : hypre_PilutSolverGlobals) (dgatherbuf : Nat → ℚ) : Nat × (Nat → ℚ) :=
  forLoop g.ndone (SendFactoredRows_pack_values_body ldu newperm g) nmis (0, dgatherbuf)

/-- A factor on PE 0 in which the rows 0 and 1 are factored: `U[0]` holds the column 5,
`U[1]` holds the columns 7 and 8. -/
def exLdus : FactorMatType :=
  { exLdu with uerowptr := fun i => if i = 0 then 1 else if i = 1 then 12 else 10 * i,
               ucolind := upd (upd (upd (fun _ => 0) 0 5) 10 7) 11 8,
               uvalues := upd (upd (upd (fun _ => 0) 0 6) 10 2) 11 1,
               dvalues := arr 0 [3, 4] }


/-! ## ComputeCommInfo: sorting, bucketing and the announcement -/

/-- Modelled from the spec: the function `sincsort_fast` is not among the source files. It
sorts the first `n` entries of the array in increasing order. -/
def sincsort_fast (n : Nat) (a : Nat → Nat) : Nat → Nat :=
  fun i => if i < n then ((slice a 0 n).insertionSort (fun x y => x ≤ y)).getD i 0 else a i

/-- The state of the loop "Determine processor boundaries in the rowind" of
`ComputeCommInfo`. -/
structure BucketState where
  j : Nat
  rnnbr : Nat
  rnbrind : Nat → Nat
  rnbrptr : Nat → Nat

/-- The inner loop `for (; j<nrecv; j++) if (rrowind[j] >= rowdist[penum+1]) break;` of
`ComputeCommInfo`, with `bound = rowdist[penum+1]`; it makes at most `nrecv` steps. -/
def ComputeCommInfo_advance (rrowind : Nat → Nat) (bound nrecv : Nat) : Nat → Nat → Nat
  | 0, j => j
  | budget + 1, j =>
    if j < nrecv then
      if rrowind j ≥ bound then j
      else ComputeCommInfo_advance rrowind bound nrecv budget (j + 1)
    else j

/-- Body of the loop over `penum` in `ComputeCommInfo`: the requests owned by PE `penum`
are `[k, j)`; a PE that owns one is recorded as a neighbour. -/
def ComputeCommInfo_bucket_body (rrowind rowdist : Nat → Nat) (nrecv penum : Nat)
    (s : BucketState) : BucketState :=
  let k := s.j
  let j := ComputeCommInfo_advance rrowind (rowdist (penum + 1)) nrecv nrecv s.j
  if j - k > 0 then
    { j := j, rnnbr := s.rnnbr + 1, rnbrind := upd s.rnbrind s.rnnbr penum,
      rnbrptr := upd s.rnbrptr (s.rnnbr + 1) j }
  else { s with j := j }

/-- The loop `for (penum=0, j=0; penum<npes && j<nrecv; penum++)` of `ComputeCommInfo`;
the first argument is `npes - penum`. -/
def ComputeCommInfo_bucket (rrowind rowdist : Nat → Nat) (nrecv : Nat) :
    Nat → Nat → BucketState → BucketState
  | 0, _, s => s
  | n + 1, penum, s =>
    if s.j < nrecv then
      ComputeCommInfo_bucket rrowind rowdist nrecv n (penum + 1)
        (ComputeCommInfo_bucket_body rrowind rowdist nrecv penum s)
    else s

/-- The two loops that fill `pilu_send` in `ComputeCommInfo`: zero for every PE, then the
number of rows needed from each neighbour. -/
def ComputeCommInfo_announce (npes rnnbr : Nat) (rnbrind rnbrptr : Nat → Nat)
    (pilu_send : Nat → Nat) : Nat → Nat :=
  forLoop 0 (fun i p => upd p (rnbrind i) (rnbrptr (i + 1) - rnbrptr i)) rnnbr
    (forLoop 0 (fun i p => upd p i 0) npes pilu_send)

/-- What `ComputeCommInfo` has computed when it calls `MPI_Alltoall`. -/
structure CommInfoLocal where
  nrecv : Nat
  cinfo : CommInfoType
  map : Nat → Nat
  pilu_send : Nat → Nat

/-- The function `ComputeCommInfo(rmat, cinfo, rowdist, globals)` up to the call of
`MPI_Alltoall`: the scan for the indices that are needed, the sort, the processor
boundaries, the reset of the map, and the announcement in `pilu_send`. `maxntogo` is the
value of `GlobalSEMax(ntogo)`. The reallocation of the receive buffers and the exchange
that follows (which fill the send side of `cinfo`) are not part of this definition; they
do not touch the map or the receive side. -/
def ComputeCommInfo_local (rmat : ReduceMatType) (cinfo : CommInfoType) (rowdist : Nat → Nat)
    (maxntogo : Nat) (pilu_send : Nat → Nat) (g : hypre_PilutSolverGlobals) : CommInfoLocal :=
  let s := ComputeCommInfo_scan g rmat cinfo
  let rrowind := sincsort_fast s.nrecv s.rrowind
  let b := ComputeCommInfo_bucket rrowind rowdist s.nrecv g.npes 0
    { j := 0, rnnbr := 0, rnbrind := cinfo.rnbrind, rnbrptr := upd cinfo.rnbrptr 0 0 }
  let map := forLoop 0 (fun i m => upd m (rrowind i) 0) s.nrecv s.map
  { nrecv := s.nrecv,
    cinfo := { cinfo with rrowind := rrowind, rnbrind := b.rnbrind, rnbrptr := b.rnbrptr,
                          rnnbr := b.rnnbr, maxntogo := maxntogo },
    map := map,
    pilu_send := ComputeCommInfo_announce g.npes b.rnnbr b.rnbrind b.rnbrptr pilu_send }

/-- The off-diagonal column indices of the active reduced rows, in the order of the scan of
`ComputeCommInfo`. -/
def offDiagCols (g : hypre_PilutSolverGlobals) (rmat : ReduceMatType) : List Nat :=
  (List.range g.ntogo).flatMap
    (fun ir => slice (rmat.rmat_rcolind ir) 1 (rmat.rmat_rnz ir - 1))

/-- The reduced rows of the middle PE (rows 2 and 3 of 6) with columns on both other
PEs. -/
def exRmq : ReduceMatType :=
  { exRm0 with rmat_rnz := arr 0 [4, 4],
               rmat_rcolind := fun ir => arr 0 ([[2, 5, 0, 3], [3, 4, 1, 5]].getD ir []) }


/-! ## The level loop of ParILUT -/

/-- Modelled from the spec: the function `GlobalSESum` is not among the source files. It
returns the sum of its argument over all PEs; `others` is the sum of the arguments of the
other PEs. -/
def GlobalSESum (others : Int) (x : Int) : Int := x + others

/-- The counters of the level loop of `ParILUT`: the local `nlevel`, the globals `ndone`,
`ntogo`, `nleft`, and `ldu->nnodes`. -/
structure LevelCounters where
  nlevel : Nat
  ndone : Int
  ntogo : Int
  nleft : Int
  nnodes : Nat → Int

/-- The statements "setup next rmat" at the end of a level of `ParILUT`:
`nlevel++; ndone = ndone+nmis; ntogo = ntogo-nmis; nleft = GlobalSESum(ntogo)`. Here
`nmis l` is the value that `SelectSet` returns in the pass of the loop that starts with
`nlevel == l`, and `others l` is what the other PEs contribute to the call number `l` of
`GlobalSESum`. The calls between `SelectSet` and this point do not write the counters. -/
def ParILUT_level (nmis : Nat → Nat) (others : Nat → Int) (c : LevelCounters) :
    LevelCounters :=
  { nlevel := c.nlevel + 1,
    ndone := c.ndone + (nmis c.nlevel : Int),
    ntogo := c.ntogo - (nmis c.nlevel : Int),
    nleft := GlobalSESum (others (c.nlevel + 1)) (c.ntogo - (nmis c.nlevel : Int)),
    nnodes := c.nnodes }

/-- How the level loop of `ParILUT` ends: by `errexit` (`fatal`) or by leaving the loop; the
number `iters` of passes of the loop body that were started, and the counters. -/
structure ParILUTExit where
  fatal : Bool
  iters : Nat
  c : LevelCounters

/-- The loop `while (nleft > 0)` of `ParILUT` on the counters, with the test
`if (nlevel > MAXNLEVEL) errexit(...)` before `ldu->nnodes[nlevel] = ndone`. The constant
`MAXNLEVEL` is not among the source files and is a parameter. The first argument bounds the
number of passes; `none` means that the bound was too small. -/
def ParILUT_loop (MAXNLEVEL : Nat) (nmis : Nat → Nat) (others : Nat → Int) :
    Nat → Nat → LevelCounters → Option ParILUTExit
  | 0, _, _ => none
  | fuel + 1, iters, c =>
    if c.nleft > 0 then
      if (ParILUT_level nmis others c).nlevel > MAXNLEVEL then
        some { fatal := true, iters := iters + 1, c := ParILUT_level nmis others c }
      else
        ParILUT_loop MAXNLEVEL nmis others fuel (iters + 1)
          { ParILUT_level nmis others c with
            nnodes := upd (ParILUT_level nmis others c).nnodes
              (ParILUT_level nmis others c).nlevel (ParILUT_level nmis others c).ndone }
    else some { fatal := false, iters := iters, c := c }

/-- The counters of `ParILUT` at the start of the loop: `ndone = rmat->rmat_ndone`,
`ntogo = rmat->rmat_ntogo`, `nleft = GlobalSESum(ntogo)`, `ldu->nnodes[0] = ndone`,
`nlevel = 0`. -/
def ParILUT_init (others : Nat → Int) (rmat_ndone rmat_ntogo : Nat) (nnodes : Nat → Int) :
    LevelCounters :=
  { nlevel := 0, ndone := (rmat_ndone : Int), ntogo := (rmat_ntogo : Int),
    nleft := GlobalSESum (others 0) (rmat_ntogo : Int),
    nnodes := upd nnodes 0 (rmat_ndone : Int) }

/-- The function `ParILUT` on its counters; `ldu->nlevels` is the final `nlevel`. The loop
is given `MAXNLEVEL + 2` passes. -/
def ParILUT_counters (MAXNLEVEL : Nat) (nmis : Nat → Nat) (others : Nat → Int)
    (rmat_ndone rmat_ntogo : Nat) (nnodes : Nat → Int) : Option ParILUTExit :=
  ParILUT_loop MAXNLEVEL nmis others (MAXNLEVEL + 2) 0
    (ParILUT_init others rmat_ndone rmat_ntogo nnodes)

/-- The counters at the boundary after `l` levels, when no level ends the loop. -/
def ParILUT_levels (nmis : Nat → Nat) (others : Nat → Int) (c0 : LevelCounters) :
    Nat → LevelCounters
  | 0 => c0
  | l + 1 =>
    { ParILUT_level nmis others (ParILUT_levels nmis others c0 l) with
      nnodes := upd (ParILUT_level nmis others (ParILUT_levels nmis others c0 l)).nnodes
        (ParILUT_level nmis others (ParILUT_levels nmis others c0 l)).nlevel
        (ParILUT_level nmis others (ParILUT_levels nmis others c0 l)).ndone }

/-- The globals of a run on one PE that owns the rows 0, 1 and has both of them active. -/
def exGs : hypre_PilutSolverGlobals :=
  { exG0 with npes := 1, nrows := 2, vrowdist := arr 0 [0, 2] }

/-- The reduced rows on the single PE: row 0 has columns `0, 1`, row 1 has columns `1, 0`. -/
def exRms : ReduceMatType :=
  { exRm0 with rmat_rcolind := fun ir => arr 0 ([[0, 1], [1, 0]].getD ir []) }

/-- The communication descriptor of a single PE: no neighbours. -/
def exCis : CommInfoType :=
  { exCi0 with rnnbr := 0, snnbr := 0, rnbrptr := arr 0 [0], snbrptr := arr 0 [0] }


/-! ## The row loop of ComputeRmat -/

/-- The globals with the workspace (`jr`, `jw`, `lr`, `w`, `lastjr`, `lastlr`) blanked: two
states have the same `Env` iff they agree on every field that the formation of a row does
not write (the PE and row numbers, the counters, `global_maxnz`, `vrowdist` and the map). -/
def Env (g : hypre_PilutSolverGlobals) : hypre_PilutSolverGlobals :=
  { g with jr := fun _ => 0, jw := fun _ => 0, lr := fun _ => 0, w := fun _ => 0,
           lastjr := 0, lastlr := 0 }

/-- The state of the row loop of `ComputeRmat`: the counter `inr`, the factor, the next
reduced matrix and the globals. -/
structure RmatState where
  inr : Nat
  ldu : FactorMatType
  nrmat : ReduceMatType
  globals : hypre_PilutSolverGlobals

/-- Body of the loop `for (ir=ndone+nmis; ir<lnrows; ir++)` of `ComputeRmat`:
`i = newperm[ir]`, the row `k = iperm[i]-ndone` of the current reduced matrix is reduced and
emitted as row `inr` of the next one, then `inr++`. The elimination loop of a row is given
`budget` passes; the state is `none` once a row has not ended within them. The arrays
`fresh_colind inr`, `fresh_values inr` are the storage that the allocation for the row `inr`
returns when the row has to grow. -/
def ComputeRmat_body (budget : Nat) (rmat : ReduceMatType) (cinfo : CommInfoType)
    (iperm newperm newiperm : Nat → Nat) (tol : ℚ)
    (fresh_colind : Nat → Nat → Nat) (fresh_values : Nat → Nat → ℚ)
    (ir : Nat) (s : Option RmatState) : Option RmatState :=
  match s with
  | none => none
  | some t =>
    let i := newperm ir
    let k := iperm i - t.globals.ndone
    match ComputeRmat_row budget newperm newiperm tol t.ldu cinfo i t.inr t.nrmat
        (rmat.rmat_rnz k) (rmat.rmat_rrowlen k) (rmat.rmat_rcolind k) (rmat.rmat_rvalues k)
        (fresh_colind t.inr) (fresh_values t.inr) t.globals with
    | none => none
    | some r => some { inr := t.inr + 1, ldu := r.1, nrmat := r.2.1, globals := r.2.2 }

/-- The function `ComputeRmat(ldu, rmat, nrmat, cinfo, perm, iperm, newperm, newiperm, nmis,
tol, globals)`; `perm` is not read. -/
def ComputeRmat (budget : Nat) (ldu : FactorMatType) (rmat nrmat : ReduceMatType)
    (cinfo : CommInfoType) (perm iperm newperm newiperm : Nat → Nat) (nmis : Nat) (tol : ℚ)
    (fresh_colind : Nat → Nat → Nat) (fresh_values : Nat → Nat → ℚ)
    (g : hypre_PilutSolverGlobals) : Option RmatState :=
  forLoop (g.ndone + nmis)
    (ComputeRmat_body budget rmat cinfo iperm newperm newiperm tol fresh_colind fresh_values)
    (g.lnrows - (g.ndone + nmis))
    (some { inr := 0, ldu := ldu, nrmat := nrmat, globals := g })

/-- The reduced rows of PE 0 at the level of `exGl`: row 0 has the columns `0, 9, 1, 7`,
row 1 has the columns `1, 7, 8`. -/
def exRml : ReduceMatType :=
  { rmat_ndone := 0, rmat_ntogo := 2, rmat_rnz := arr 0 [4, 3], rmat_rrowlen := arr 0 [4, 3],
    rmat_rcolind := fun ir => arr 0 ([[0, 9, 1, 7], [1, 7, 8]].getD ir []),
    rmat_rvalues := fun ir => arr 0 ([[4, 2, 1, -7], [2, 2, 1]].getD ir []) }

/-- The number of columns below `N` that are not in the workspace (`jr[c] == -1`). -/
def absentCols (N : Nat) (jr : Nat → Int) : Nat :=
  (List.range N).countP (fun c => decide (jr c = -1))

/-- The level of `exGl` with the received row 9 at offset 0 of the receive buffer
(`map[9] = (0 << 1) | 1`). -/
def exGr : hypre_PilutSolverGlobals :=
  { exGl with map := arr 0 [0, 1, 0, 0, 0, 0, 0, 0, 0, 1] }

/-- The receive buffer of one neighbour holding the record of the factored row 9 at offset
0: length 2, diagonal column 9 with `D = 1`, one `U` entry in column 8, then padding. -/
def exCir : CommInfoType :=
  { exCi0 with incolind := arr 0 [2, 9, 8, 0, 0], invalues := arr 0 [0, 1, 3, 0, 0] }


/-! ## Vocabulary for one elimination step -/

/-- The number of fill entries that the first `m` entries `cols/vals[lo .. lo+m)` of the row
applied with the multiplier `mult` create: an entry creates one when its column is not in
the workspace (`jr == -1`) and `|mult * v| >= rtol`. -/
def fillCount (jr : Nat → Int) (cols : Nat → Nat) (vals : Nat → ℚ) (mult rtol : ℚ)
    (lo : Nat) : Nat → Nat
  | 0 => 0
  | m + 1 =>
    fillCount jr cols vals mult rtol lo m +
      (if jr (cols (lo + m)) = -1 ∧ ¬ fabs (mult * vals (lo + m)) < rtol then 1 else 0)


/-! ### A record sent by PE 1 and received by PE 0 -/

/-- The globals of the sending PE 1, which owns the rows 8 and 9. -/
def exGsnd : hypre_PilutSolverGlobals :=
  { exG0 with mype := 1, firstrow := 8, lastrow := 10, nrows := 10, global_maxnz := 3 }

/-- The factor of the sending PE: its local row 1 (global row 9) is factored with `D = 1`
and one `U` entry, the column 8 with the value 3. -/
def exLdur : FactorMatType :=
  { exLdu with uerowptr := fun i => if i = 1 then 11 else 10 * i,
               ucolind := upd (fun _ => 0) 10 8,
               uvalues := upd (fun _ => 0) 10 3,
               dvalues := fun _ => 1 }

/-- The receive buffer `exCir` with the length slot of the record at offset 0 changed from 2
to 1; every other slot is the same. -/
def exCirShort : CommInfoType :=
  { exCir with incolind := upd exCir.incolind 0 1 }

/-- The workspace of PE 0 seeded with the row `0, 9, 7` at the level of `exGr`: the received
row 9 is pending. -/
def exGseed : hypre_PilutSolverGlobals :=
  seed_row (ComputeRmat_key exGr (arr 0 [1, 0])) 3 (arr 0 [0, 9, 7]) (arr 0 [4, 2, -7]) exGr


/-! ## Vocabulary for the order of elimination -/

/-- The entries that the first `n` passes of a loop `while (lastlr != 0)` with the body
`step` take out of `lr`, in the order of the passes. -/
def elim_keys (step : hypre_PilutSolverGlobals → hypre_PilutSolverGlobals) :
    Nat → hypre_PilutSolverGlobals → List Nat
  | 0, _ => []
  | n + 1, g => if g.lastlr ≠ 0 then (ExtractMinLR g).1 :: elim_keys step n (step g) else []

/-- The invariant of the pending list while `FactorLocal` forms the row with the new index
`diag`, `E` being the entries extracted so far in their order: the workspace invariant
holds; the pending entries `lr[0..lastlr)` together with `E` are the keys of the columns at
the positions `[1, lastjr)` of the workspace; `E` is strictly increasing, and every pending
entry is greater than every entry of `E`. -/
def PendInv (g : hypre_PilutSolverGlobals) (diag : Nat) (newiperm : Nat → Nat)
    (s : hypre_PilutSolverGlobals) (E : List Nat) : Prop :=
  WSInv s ∧ 1 ≤ s.lastjr ∧ Env s = Env g ∧
  List.Perm (slice s.lr 0 s.lastlr ++ E)
    ((slice s.jw 1 (s.lastjr - 1)).filterMap (FactorLocal_key g diag newiperm)) ∧
  E.Pairwise (fun a b => a < b) ∧
  ∀ e ∈ E, ∀ p ∈ slice s.lr 0 s.lastlr, e < p

/-- A level on PE 0 with three local rows, all in the set: globals. -/
def exG3 : hypre_PilutSolverGlobals :=
  { exG0 with lastrow := 3, nrows := 10, lnrows := 3, ntogo := 3, global_maxnz := 3 }

/-- The factor after the rows 0 and 1 have been factored at this level: `U[0]` holds the
local column 1, `U[1]` holds the column 7, `D = 1`. -/
def exLdu3 : FactorMatType :=
  { exLdu with uerowptr := fun i => if i = 0 then 1 else if i = 1 then 11 else 10 * i,
               ucolind := upd (upd (fun _ => 0) 0 1) 10 7,
               uvalues := upd (upd (fun _ => 0) 0 2) 10 1,
               dvalues := fun _ => 1 }

/-! ## FormNRmat with its assertions -/

/-- The function `FormNRmat` with the assertions of the source in force. The result is
`none` when one of them fails, in which case the run ends and no row is emitted:
`assert(in_colind[0] == jw[0])` on entry, `assert(nz == lastjr-first+1)` after the simple
copy (which leaves `lastjr` as it is), `assert(nz == out_rowlen)` after the selection loop, and
`assert(nz <= max_rowlen)` before the row is linked. Otherwise the result is that of
`FormNRmat`. -/
def FormNRmat_checked (rrow first : Nat) (nrmat : ReduceMatType) (max_rowlen in_rowlen : Nat)
    (in_colind : Nat → Nat) (in_values : Nat → ℚ)
    (fresh_colind : Nat → Nat) (fresh_values : Nat → ℚ)
    (g : hypre_PilutSolverGlobals) : Option (ReduceMatType × hypre_PilutSolverGlobals) :=
  let out_rowlen := FormNRmat_out_rowlen first max_rowlen g
  let rcolind := if out_rowlen > (in_rowlen : Int) then fresh_colind else in_colind
  let rvalues := if out_rowlen > (in_rowlen : Int) then fresh_values else in_values
  let s := FormNRmat_fill first max_rowlen g rcolind rvalues
  if in_colind 0 = g.jw 0 ∧
      (if (g.lastjr : Int) - (first : Int) + 1 ≤ (max_rowlen : Int) then
        (s.nz : Int) = (g.lastjr : Int) - (first : Int) + 1
       else (s.nz : Int) = out_rowlen) ∧
      s.nz ≤ max_rowlen then
    some (FormNRmat rrow first nrmat max_rowlen in_rowlen in_colind in_values fresh_colind
      fresh_values g)
  else none

/-! ## ComputeCommInfo: the receive buffers and their assertions -/

/-- The allocation state of the receive buffers of `cinfo`: whether `cinfo->incolind` and
`cinfo->invalues` are `NULL`, and the capacity `cinfo->maxnrecv` (in rows). -/
structure CommAlloc where
  incolind_null : Bool
  invalues_null : Bool
  maxnrecv : Nat

/-- The receive buffers as `ParINIT` leaves them: `cinfo->incolind = NULL;
cinfo->invalues = NULL; cinfo->maxnrecv = 0;`. -/
def ParINIT_alloc : CommAlloc :=
  { incolind_null := true, invalues_null := true, maxnrecv := 0 }

/-- The statements of `ComputeCommInfo` that size the receive buffers:
`maxnrecv = rnnbr*(cinfo->maxntogo); if (cinfo->maxnrecv < maxnrecv) { ... allocate ... }`
followed by `assert(cinfo->incolind != NULL); assert(cinfo->invalues != NULL);`. The
allocators `idx_malloc` and `fp_malloc`, which are not among the source files, are called
with the positive size `maxnrecv*(global_maxnz+2)` and return storage. The result is `none`
when an assertion fails. -/
def ComputeCommInfo_alloc (rnnbr maxntogo : Nat) (a : CommAlloc) : Option CommAlloc :=
  let maxnrecv := rnnbr * maxntogo
  let a1 : CommAlloc :=
    if a.maxnrecv < maxnrecv then
      { incolind_null := false, invalues_null := false, maxnrecv := maxnrecv }
    else a
  if a1.incolind_null = false ∧ a1.invalues_null = false then some a1 else none

/-- The function `ComputeCommInfo` up to the assertions on the receive buffers, with these
assertions in force: the local part `ComputeCommInfo_local` (whose announcement in
`pilu_send` does not depend on the buffers) and the sizing of the buffers. The result is
`none` when an assertion fails. -/
def ComputeCommInfo_checked (rmat : ReduceMatType) (cinfo : CommInfoType)
    (rowdist : Nat → Nat) (maxntogo : Nat) (pilu_send : Nat → Nat) (a : CommAlloc)
    (g : hypre_PilutSolverGlobals) : Option (CommInfoLocal × CommAlloc) :=
  let c := ComputeCommInfo_local rmat cinfo rowdist maxntogo pilu_send g
  match ComputeCommInfo_alloc c.cinfo.rnnbr maxntogo a with
  | none => none
  | some a1 => some (c, a1)

/-! ## The row loop of FactorLocal -/

/-- Body of the loop `for (ir=ndone; ir<ndone+nmis; ir++)` of `FactorLocal`:
`i = newperm[ir]`, `diag = newiperm[i]`, the row `k = iperm[i]-ndone` of the reduced matrix is
seeded, eliminated and stored in `L`, `D` and `U`. The elimination loop of a row is given
`budget` passes; the state is `none` once a row has not ended within them. -/
def FactorLocal_body (budget : Nat) (rmat : ReduceMatType)
    (iperm newperm newiperm : Nat → Nat) (tol : ℚ) (ir : Nat)
    (s : Option (FactorMatType × hypre_PilutSolverGlobals)) :
    Option (FactorMatType × hypre_PilutSolverGlobals) :=
  match s with
  | none => none
  | some t =>
    let i := newperm ir
    let k := iperm i - t.2.ndone
    FactorLocal_row budget (newiperm i) newperm newiperm tol t.1 i (rmat.rmat_rnz k)
      (rmat.rmat_rcolind k) (rmat.rmat_rvalues k) t.2

/-- The function `FactorLocal(ldu, rmat, nrmat, cinfo, perm, iperm, newperm, newiperm, nmis,
tol, globals)`; `nrmat`, `cinfo` and `perm` are not read. -/
def FactorLocal (budget : Nat) (ldu : FactorMatType) (rmat nrmat : ReduceMatType)
    (cinfo : CommInfoType) (perm iperm newperm newiperm : Nat → Nat) (nmis : Nat) (tol : ℚ)
    (g : hypre_PilutSolverGlobals) : Option (FactorMatType × hypre_PilutSolverGlobals) :=
  forLoop g.ndone (FactorLocal_body budget rmat iperm newperm newiperm tol) nmis
    (some (ldu, g))

/-! ## One pass of the level loop of ParILUT -/

/-- The state of the loop over `penum` that `ComputeCommInfo` runs after `MPI_Alltoall`. -/
structure SendNbrState where
  nsend : Nat
  snnbr : Nat
  snbrind : Nat → Nat
  snbrptr : Nat → Nat

/-- The loop of `ComputeCommInfo` over the counts `pilu_recv` that `MPI_Alltoall` delivers:
`nsend = 0; snnbr = 0; snbrptr[0] = 0; for (penum=0; penum<npes; penum++)
if (pilu_recv[penum] > 0) { nsend += pilu_recv[penum]; snbrind[snnbr] = penum;
snbrptr[++snnbr] = nsend; }`. -/
def ComputeCommInfo_senders (npes : Nat) (pilu_recv snbrind snbrptr : Nat → Nat) :
    SendNbrState :=
  forLoop 0
    (fun penum s =>
      if pilu_recv penum > 0 then
        { nsend := s.nsend + pilu_recv penum, snnbr := s.snnbr + 1,
          snbrind := upd s.snbrind s.snnbr penum,
          snbrptr := upd s.snbrptr (s.snnbr + 1) (s.nsend + pilu_recv penum) }
      else s)
    npes { nsend := 0, snnbr := 0, snbrind := snbrind, snbrptr := upd snbrptr 0 0 }

/-- What reaches one pass of the level loop from outside this PE's code: the results of the
collective calls (`GlobalSEMax(ntogo)`, `GlobalSEMax(nsend)`, the counts `pilu_recv` of
`MPI_Alltoall`, the contribution `others` of the other PEs to `GlobalSESum(ntogo)`), the
content of `srowind` after the receives of `ComputeCommInfo`, the content of the receive
buffers `incolind`, `invalues` after the receives of `SendFactoredRows` with the counts
`inCnt` that `MPI_Get_count` reports, and the storage that the allocator returns for the
rows of the next reduced matrix. -/
structure LevelInput where
  maxntogo : Nat
  maxnsend : Nat
  pilu_recv : Nat → Nat
  srowind : Nat → Nat
  incolind : Nat → Nat
  invalues : Nat → ℚ
  inCnt : Nat → Nat
  others : Int
  fresh_colind : Nat → Nat → Nat
  fresh_values : Nat → Nat → ℚ

/-- The state of the level loop of `ParILUT`: the factor, the current reduced matrix
`rmats[nlevel%2]` and the other one `rmats[(nlevel+1)%2]`, the communication descriptor, the
array `pilu_send`, the permutation arrays (`perm` and `iperm` are `ldu->perm` and
`ldu->iperm`), the globals and `nlevel`. -/
structure ParState where
  ldu : FactorMatType
  rmat : ReduceMatType
  nrmat : ReduceMatType
  cinfo : CommInfoType
  pilu_send : Nat → Nat
  p : PermArrays
  globals : hypre_PilutSolverGlobals
  nlevel : Nat

/-- The function `ComputeCommInfo` as far as the level loop goes: the local part, the loop
over `pilu_recv`, and the send list that the receives fill. The capacities `maxnrecv` and
`maxnsend` grow when more is needed; the receive buffers are filled in `SendFactoredRows`. -/
def ComputeCommInfo (rmat : ReduceMatType) (cinfo : CommInfoType) (rowdist : Nat → Nat)
    (inp : LevelInput) (pilu_send : Nat → Nat) (g : hypre_PilutSolverGlobals) :
    CommInfoLocal :=
  let c := ComputeCommInfo_local rmat cinfo rowdist inp.maxntogo pilu_send g
  let sn := ComputeCommInfo_senders g.npes inp.pilu_recv c.cinfo.snbrind c.cinfo.snbrptr
  { c with
    cinfo := { c.cinfo with
      snnbr := sn.snnbr, snbrind := sn.snbrind, snbrptr := sn.snbrptr,
      srowind := inp.srowind,
      maxnrecv := max c.cinfo.maxnrecv (c.cinfo.rnnbr * inp.maxntogo),
      maxnsend := max c.cinfo.maxnsend inp.maxnsend } }

/-- One pass of the body of the loop `while (nleft > 0)` of `ParILUT`, up to and including
`nleft = GlobalSESum(ntogo)`: `ComputeCommInfo`, `SelectSet`, `FactorLocal`,
`SendFactoredRows` (the receive buffers hold what the neighbours have sent),
`ComputeRmat`, `EraseMap`, the two copies of the new permutation, and "setup next rmat":
`nlevel++`, `ndone = ndone+nmis`, `ntogo = ntogo-nmis` (`SelectSet` returns `nmis <= ntogo`),
the two reduced matrices change roles. The elimination loops are given `budget` passes per
row; the result is `none` when one of them has not ended within them. -/
def ParILUT_pass (budget : Nat) (tol : ℚ) (rowdist : Nat → Nat) (inp : LevelInput)
    (s : ParState) : Option ParState :=
  let c := ComputeCommInfo s.rmat s.cinfo rowdist inp s.pilu_send s.globals
  let r := SelectSet s.rmat c.cinfo s.p.perm s.p.iperm s.p.newperm s.p.newiperm
    { s.globals with map := c.map }
  match FactorLocal budget s.ldu s.rmat s.nrmat c.cinfo s.p.perm s.p.iperm r.newperm
      r.newiperm r.num tol r.globals with
  | none => none
  | some f =>
    let sf := SendFactoredRows
      { c.cinfo with incolind := inp.incolind, invalues := inp.invalues } inp.inCnt f.2
    match ComputeRmat budget f.1 s.rmat s.nrmat sf.1 s.p.perm s.p.iperm r.newperm r.newiperm
        r.num tol inp.fresh_colind inp.fresh_values sf.2 with
    | none => none
    | some t =>
      let g4 := EraseMap sf.1 r.newperm r.num t.globals
      let perm1 := memcpy_idx s.p.perm r.newperm s.globals.ndone s.globals.ntogo
      let iperm1 := memcpy_idx s.p.iperm r.newiperm 0 s.globals.lnrows
      some
        { ldu := { t.ldu with perm := perm1, iperm := iperm1 },
          rmat := { t.nrmat with rmat_ndone := s.globals.ndone + r.num,
                                 rmat_ntogo := s.globals.ntogo - r.num },
          nrmat := s.rmat,
          cinfo := sf.1,
          pilu_send := c.pilu_send,
          p := { perm := perm1, iperm := iperm1, newperm := r.newperm,
                 newiperm := r.newiperm },
          globals := { g4 with
            ndone := s.globals.ndone + r.num,
            ntogo := s.globals.ntogo - r.num,
            nleft := (GlobalSESum inp.others ((s.globals.ntogo - r.num : Nat) : Int)).toNat },
          nlevel := s.nlevel + 1 }

/-- The state in which `ParILUT` enters its level loop. `ddist_nrows`, `ddist_lnrows` and
`rowdist` are the fields of `ddist`; `others` is what the other PEs contribute to the first
call of `GlobalSESum`; `g0` gives `mype`, `npes` and the content of the storage that `ParINIT`
allocates without initialising it (`jw`, `w`, and `lr`, whose initial entries are never
read); `nrmat0`, `cinfo0` and `pilu_send0` are the content of the other storage that `ParINIT`
allocates. `ParINIT` fills `jr` with `-1` and `map` with 0, and `ParILUT` copies `perm` and
`iperm` to `newperm` and `newiperm` and sets `ldu->nnodes[0] = ndone`. -/
def ParILUT_start (ddist_nrows ddist_lnrows : Nat) (rowdist : Nat → Nat)
    (ldu : FactorMatType) (rmat : ReduceMatType) (gmaxnz : Nat) (others : Int)
    (nrmat0 : ReduceMatType) (cinfo0 : CommInfoType) (pilu_send0 : Nat → Nat)
    (newperm0 newiperm0 : Nat → Nat) (g0 : hypre_PilutSolverGlobals) : ParState :=
  { ldu := { ldu with nnodes := upd ldu.nnodes 0 rmat.rmat_ndone },
    rmat := rmat,
    nrmat := nrmat0,
    cinfo := { cinfo0 with maxnrecv := 0, maxnsend := 0 },
    pilu_send := pilu_send0,
    p := { perm := ldu.perm, iperm := ldu.iperm,
           newperm := memcpy_idx newperm0 ldu.perm 0 ddist_lnrows,
           newiperm := memcpy_idx newiperm0 ldu.iperm 0 ddist_lnrows },
    globals := { g0 with
      global_maxnz := gmaxnz, nrows := ddist_nrows, lnrows := ddist_lnrows,
      firstrow := rowdist g0.mype, lastrow := rowdist (g0.mype + 1),
      ndone := rmat.rmat_ndone, ntogo := rmat.rmat_ntogo,
      nleft := (GlobalSESum others (rmat.rmat_ntogo : Int)).toNat,
      vrowdist := memcpy_idx g0.vrowdist rowdist 0 (g0.npes + 1),
      jr := fun _ => -1, map := fun _ => 0 },
    nlevel := 0 }

/-- The state at the boundary after `n` passes of the loop `while (nleft > 0)` of `ParILUT`
that starts in `s0`; `inp l` is what reaches the pass that starts with `nlevel == l`. The
result is `none` when the loop does not make `n` passes: it has ended before (`nleft` is 0,
or `nlevel > MAXNLEVEL` and `errexit` is called), or an elimination loop has not ended within
`budget` passes. After a pass `ldu->nnodes[nlevel] = ndone` is recorded. The constant
`MAXNLEVEL` is not among the source files and is a parameter. -/
def ParILUT_passes (MAXNLEVEL budget : Nat) (tol : ℚ) (rowdist : Nat → Nat)
    (inp : Nat → LevelInput) (s0 : ParState) : Nat → Option ParState
  | 0 => some s0
  | n + 1 =>
    match ParILUT_passes MAXNLEVEL budget tol rowdist inp s0 n with
    | none => none
    | some s =>
      if s.globals.nleft > 0 then
        match ParILUT_pass budget tol rowdist (inp s.nlevel) s with
        | none => none
        | some t =>
          if t.nlevel > MAXNLEVEL then none
          else some { t with ldu := { t.ldu with nnodes := upd t.ldu.nnodes t.nlevel
                                                   t.globals.ndone } }
      else none

/-! ## Vocabulary for the levels of the factor -/

/-- The columns of the `L` part of the local row `i`. -/
def Lcols (ldu : FactorMatType) (i : Nat) : List Nat :=
  slice ldu.lcolind (ldu.lsrowptr i) (ldu.lerowptr i - ldu.lsrowptr i)

/-- The local row `i` is eliminated in the pass number `l` of the level loop (the pass that
starts with `nlevel == l`): the pass is made, and the position of `i` in the permutation
after the pass is one of the positions `[ndone, ndone + nmis)` that the pass has filled with
the rows of its set. -/
def EliminatedAt (MAXNLEVEL budget : Nat) (tol : ℚ) (rowdist : Nat → Nat)
    (inp : Nat → LevelInput) (s0 : ParState) (l i : Nat) : Prop :=
  match ParILUT_passes MAXNLEVEL budget tol rowdist inp s0 l,
      ParILUT_passes MAXNLEVEL budget tol rowdist inp s0 (l + 1) with
  | some t, some t1 => t.globals.ndone ≤ t1.p.iperm i ∧ t1.p.iperm i < t1.globals.ndone
  | _, _ => False

/-- The rows received in the pass number `l` of the level loop: the row indices of the
records in the receive buffer after the pass (the entries that `EraseMap` has cleared),
none when the pass is not made. -/
def ReceivedAt (MAXNLEVEL budget : Nat) (tol : ℚ) (rowdist : Nat → Nat)
    (inp : Nat → LevelInput) (s0 : ParState) (l : Nat) : List Nat :=
  match ParILUT_passes MAXNLEVEL budget tol rowdist inp s0 (l + 1) with
  | none => []
  | some t => recvDiagCols t.globals t.cinfo t.cinfo.rnbrptr

/-- The `L` rows of the `lnrows` local rows have room for `maxnz` entries each, in pairwise
disjoint parts of the pool, and hold at most `maxnz` entries. -/
def LRoom (maxnz lnrows : Nat) (ldu : FactorMatType) : Prop :=
  (∀ i, i < lnrows → ldu.lsrowptr i ≤ ldu.lerowptr i ∧
    ldu.lerowptr i ≤ ldu.lsrowptr i + maxnz) ∧
  ∀ i, i < lnrows → ∀ j, j < lnrows → i ≠ j →
    ldu.lsrowptr i + maxnz ≤ ldu.lsrowptr j ∨ ldu.lsrowptr j + maxnz ≤ ldu.lsrowptr i

instance instDecidableLRoom (maxnz lnrows : Nat) (ldu : FactorMatType) :
    Decidable (LRoom maxnz lnrows ldu) := by
  unfold LRoom
  infer_instance

/-! ### PE 1 of two PEs, with three rows and two levels -/

/-- The globals of PE 1 of two PEs: PE 0 owns the rows 0 and 1, PE 1 the rows 2, 3 and 4. -/
def exG2 : hypre_PilutSolverGlobals :=
  { exG0 with mype := 1, nrows := 5, lnrows := 3, global_maxnz := 3 }

/-- The reduced rows of PE 1: row 2 has the columns `2, 3`, row 3 has the columns `3, 2, 4`
and row 4 has the columns `4, 1, 3`; the column 1 is a row of PE 0. -/
def exRm2 : ReduceMatType :=
  { rmat_ndone := 0, rmat_ntogo := 3, rmat_rnz := arr 0 [2, 3, 3],
    rmat_rrowlen := arr 0 [2, 3, 3],
    rmat_rcolind := fun ir => arr 0 ([[2, 3], [3, 2, 4], [4, 1, 3]].getD ir []),
    rmat_rvalues := fun ir => arr 0 ([[1, 1], [2, 1, 1], [3, 1, 1]].getD ir []) }

/-- What reaches the two passes on PE 1. PE 0 has one active row, row 1 with the columns
`1, 4`, which it eliminates in the first pass. In the first pass `GlobalSEMax(ntogo) = 3` and
`GlobalSEMax(nsend) = 1`, PE 0 asks for one row (row 4), and PE 0 sends the record of its
factored row 1 (`maxnz + 2 = 5` integers: length 2, row 1, one `U` entry in column 4, with
`D = 1`); after the pass the other PE has no row left. In the second pass
`GlobalSEMax(ntogo) = 1` and nothing is exchanged, so the buffers keep their content. -/
def exInp (l : Nat) : LevelInput :=
  { maxntogo := if l = 0 then 3 else 1, maxnsend := if l = 0 then 1 else 0,
    pilu_recv := if l = 0 then arr 0 [1] else fun _ => 0, srowind := arr 0 [4],
    incolind := arr 0 [2, 1, 4, 0, 0], invalues := arr 0 [0, 1, 1, 0, 0],
    inCnt := if l = 0 then arr 0 [5] else fun _ => 0, others := 0,
    fresh_colind := fun _ _ => 0, fresh_values := fun _ _ => 0 }

/-- The state in which PE 1 enters the level loop: `maxnz = 3`, an empty factor, the
identity permutation, all three rows active, and one active row on the other PE. -/
def exS2 : ParState :=
  ParILUT_start 5 3 (arr 0 [0, 2, 5]) exLdu exRm2 3 1 exNr exCi0 (fun _ => 0) (fun _ => 0)
    (fun _ => 0) exG2

instance instDecidableEliminatedAt (MAXNLEVEL budget : Nat) (tol : ℚ) (rowdist : Nat → Nat)
    (inp : Nat → LevelInput) (s0 : ParState) (l i : Nat) :
    Decidable (EliminatedAt MAXNLEVEL budget tol rowdist inp s0 l i) := by
  unfold EliminatedAt
  split <;> infer_instance

/-- Every column of the `L` part of every local row `i` has the property `Q i`. -/
def LColsSat (lnrows : Nat) (Q : Nat → Nat → Prop) (ldu : FactorMatType) : Prop :=
  ∀ i, i < lnrows → ∀ c, c ∈ Lcols ldu i → Q i c

/-- What holds of a column `c` of the `L` part of a local row `i` at a boundary of the level
loop, when `i` is one of the rows that were active on entry to `ParILUT` (position at least
`nd0`): a local `c` is already eliminated (its position is below `ndone`) and placed before
`i` in the permutation; a remote `c` has been received in a pass after which `ndone` was `b`
(this is `Rem c b`), with `b` at most the present `ndone` and at most the position of `i`. -/
def LColOK (nd0 : Nat) (Rem : Nat → Nat → Prop) (s : ParState) (i c : Nat) : Prop :=
  nd0 ≤ s.p.iperm i →
    (s.globals.firstrow ≤ c ∧ c < s.globals.lastrow →
      s.p.iperm (c - s.globals.firstrow) < s.globals.ndone ∧
      s.p.iperm (c - s.globals.firstrow) < s.p.iperm i) ∧
    (¬ (s.globals.firstrow ≤ c ∧ c < s.globals.lastrow) →
      ∃ b, Rem c b ∧ b ≤ s.globals.ndone ∧ b ≤ s.p.iperm i)

/-- The invariant of the level loop of `ParILUT` at its boundaries: the level-start shape,
`perm`/`iperm` inverse permutations of the local rows with `newperm`/`newiperm` equal to
them, the map 0, room for `maxnz` entries in every `L` row, and `LColOK` for every column of
the `L` part of every local row. -/
def LevelInv (maxnz nd0 : Nat) (Rem : Nat → Nat → Prop) (s : ParState) : Prop :=
  LevelShape s.globals ∧ s.globals.global_maxnz = maxnz ∧ 1 ≤ maxnz ∧
  nd0 ≤ s.globals.ndone ∧
  PermInv s.globals.lnrows s.p.perm s.p.iperm ∧
  (∀ i, i < s.globals.lnrows →
    s.p.newperm i = s.p.perm i ∧ s.p.newiperm i = s.p.iperm i) ∧
  (∀ x, s.globals.map x = 0) ∧
  LRoom maxnz s.globals.lnrows s.ldu ∧
  LColsSat s.globals.lnrows (LColOK nd0 Rem s) s.ldu

/-- The communication descriptor, the map and `pilu_send` after the call of `ComputeCommInfo`
in the pass that starts in `s`. -/
def ParILUT_pass_comm (rowdist : Nat → Nat) (inp : LevelInput) (s : ParState) :
    CommInfoLocal :=
  ComputeCommInfo s.rmat s.cinfo rowdist inp s.pilu_send s.globals

/-- What `SelectSet` returns in the pass that starts in `s`. -/
def ParILUT_pass_set (rowdist : Nat → Nat) (inp : LevelInput) (s : ParState) :
    SelectSetResult :=
  SelectSet s.rmat (ParILUT_pass_comm rowdist inp s).cinfo s.p.perm s.p.iperm s.p.newperm
    s.p.newiperm { s.globals with map := (ParILUT_pass_comm rowdist inp s).map }

/-- The communication descriptor in the pass that starts in `s` when the receives of
`SendFactoredRows` have filled the receive buffers. -/
def ParILUT_pass_buf (rowdist : Nat → Nat) (inp : LevelInput) (s : ParState) :
    CommInfoType :=
  { (ParILUT_pass_comm rowdist inp s).cinfo with
    incolind := inp.incolind, invalues := inp.invalues }

/-- The state of PE 1 at the boundary after the two passes of the example. -/
def exS2_end : ParState :=
  (ParILUT_passes 10 20 0 (arr 0 [0, 2, 5]) exInp exS2 2).getD exS2

/-! ## Basic facts about arrays and loops -/

@[simp] theorem upd_same {α : Type} (a : Nat → α) (i : Nat) (v : α) : upd a i v i = v := by
  simp [upd]

theorem upd_other {α : Type} (a : Nat → α) (i j : Nat) (v : α) (h : j ≠ i) :
    upd a i v j = a j := by
  simp [upd, h]

@[simp] theorem forLoop_zero {σ : Type} (lo : Nat) (body : Nat → σ → σ) (s : σ) :
    forLoop lo body 0 s = s := rfl

theorem forLoop_succ {σ : Type} (lo : Nat) (body : Nat → σ → σ) (n : Nat) (s : σ) :
    forLoop lo body (n + 1) s = body (lo + n) (forLoop lo body n s) := rfl

/-- Invariant rule for counted loops. -/
theorem forLoop_inv {σ : Type} (I : Nat → σ → Prop) (lo : Nat) (body : Nat → σ → σ)
    (N : Nat) (s : σ) (h0 : I 0 s)
    (hstep : ∀ n t, n < N → I n t → I (n + 1) (body (lo + n) t)) :
    I N (forLoop lo body N s) := by
  induction N with
  | zero => simpa using h0
  | succ m ih =>
    rw [forLoop_succ]
    exact hstep m _ (Nat.lt_succ_self m)
      (ih (fun n t hn hI => hstep n t (Nat.lt_succ_of_lt hn) hI))

@[simp] theorem slice_length {α : Type} (a : Nat → α) (lo n : Nat) :
    (slice a lo n).length = n := by
  simp [slice]

theorem slice_succ {α : Type} (a : Nat → α) (lo n : Nat) :
    slice a lo (n + 1) = slice a lo n ++ [a (lo + n)] := by
  simp [slice, List.range'_concat]

theorem mem_slice {α : Type} (a : Nat → α) (lo n : Nat) (x : α) :
    x ∈ slice a lo n ↔ ∃ i, lo ≤ i ∧ i < lo + n ∧ a i = x := by
  unfold slice
  rw [List.mem_map]
  constructor
  · rintro ⟨i, hi, h3⟩
    rw [List.mem_range'_1] at hi
    exact ⟨i, hi.1, hi.2, h3⟩
  · rintro ⟨i, h1, h2, h3⟩
    exact ⟨i, List.mem_range'_1.mpr ⟨h1, h2⟩, h3⟩

theorem slice_congr {α : Type} (a b : Nat → α) (lo n : Nat)
    (h : ∀ i, lo ≤ i → i < lo + n → a i = b i) : slice a lo n = slice b lo n := by
  unfold slice
  apply List.map_congr_left
  intro i hi
  rw [List.mem_range'] at hi
  obtain ⟨k, hk, rfl⟩ := hi
  exact h _ (by omega) (by omega)


/-! ## UpdateL: length of the row -/

theorem UpdateL_body_end (g : hypre_PilutSolverGlobals) (start i : Nat) (s : LState) :
    ((UpdateL_body g start i s).«end» : Int) =
      if ((s.«end» : Int) - (start : Int) < (g.global_maxnz : Int)) then (s.«end» : Int) + 1
      else (s.«end» : Int) := by
  unfold UpdateL_body
  by_cases h : ((s.«end» : Int) - (start : Int) < (g.global_maxnz : Int))
  · simp [h]
  · simp only [h, if_false]
    split <;> rfl

theorem UpdateL_loop_end (g : hypre_PilutSolverGlobals) (start n : Nat) (s : LState)
    (h : (s.«end» : Int) - (start : Int) ≤ (g.global_maxnz : Int)) :
    ((forLoop 1 (UpdateL_body g start) n s).«end» : Int) - (start : Int) =
      min (g.global_maxnz : Int) ((s.«end» : Int) - (start : Int) + (n : Int)) := by
  induction n with
  | zero => simp [min_eq_right h]
  | succ m ih =>
    rw [forLoop_succ, UpdateL_body_end]
    split
    · rename_i hlt
      rw [ih] at hlt
      have := ih
      push_cast
      omega
    · rename_i hlt
      rw [ih] at hlt
      push_cast
      omega

/-- C8. Bounded L: when the `L` row `lrow` holds at most `global_maxnz` entries, then
after `UpdateL(lrow, last)` it holds `min(global_maxnz, old length + (last - 1))` entries,
which is at most `global_maxnz`, and `lsrowptr` is unchanged. -/
theorem UpdateL_length (lrow last : Nat) (ldu : FactorMatType) (g : hypre_PilutSolverGlobals)
    (h : (ldu.lerowptr lrow : Int) - (ldu.lsrowptr lrow : Int) ≤ (g.global_maxnz : Int)) :
    (((UpdateL lrow last ldu g).lerowptr lrow : Int) - ((UpdateL lrow last ldu g).lsrowptr lrow : Int)
        = min (g.global_maxnz : Int)
            ((ldu.lerowptr lrow : Int) - (ldu.lsrowptr lrow : Int) + ((last - 1 : Nat) : Int)))
    ∧ (((UpdateL lrow last ldu g).lerowptr lrow : Int)
        - ((UpdateL lrow last ldu g).lsrowptr lrow : Int) ≤ (g.global_maxnz : Int))
    ∧ (UpdateL lrow last ldu g).lsrowptr = ldu.lsrowptr := by
  have key := UpdateL_loop_end g (ldu.lsrowptr lrow) (last - 1)
    { «end» := ldu.lerowptr lrow, lcolind := ldu.lcolind, lvalues := ldu.lvalues } h
  simp only [UpdateL, upd_same]
  refine ⟨key, ?_, trivial⟩
  rw [key]
  exact min_le_left _ _

/-! ## FormDU: length of the row -/

theorem FormDU_loop_counts (first : Nat) (n : Nat) (s : UState) :
    (FormDU_loop first n s).«end» = s.«end» + min n (s.lastjr - first) ∧
    (FormDU_loop first n s).lastjr = s.lastjr - min n (s.lastjr - first) := by
  induction n generalizing s with
  | zero => simp [FormDU_loop]
  | succ m ih =>
    unfold FormDU_loop
    split
    · rename_i hgt
      obtain ⟨h1, h2⟩ := ih (FormDU_step first s)
      rw [h1, h2]
      simp only [FormDU_step]
      omega
    · rename_i hgt
      have : s.lastjr - first = 0 := by omega
      simp [this]

/-- C9. Bounded U: when the `U` part of row `lrow` is empty and `first <= lastjr`, then
`FormDU(lrow, first)` stores `min(global_maxnz, lastjr - first)` entries in `U`,
which is at most `global_maxnz`. -/
theorem FormDU_length (lrow first : Nat) (ldu : FactorMatType) (tol : ℚ)
    (g : hypre_PilutSolverGlobals)
    (hempty : ldu.usrowptr lrow = ldu.uerowptr lrow) (hfirst : first ≤ g.lastjr) :
    (((FormDU lrow first ldu tol g).1.uerowptr lrow : Int)
        - ((FormDU lrow first ldu tol g).1.usrowptr lrow : Int)
        = min (g.global_maxnz : Int) ((g.lastjr : Int) - (first : Int)))
    ∧ (((FormDU lrow first ldu tol g).1.uerowptr lrow : Int)
        - ((FormDU lrow first ldu tol g).1.usrowptr lrow : Int) ≤ (g.global_maxnz : Int)) := by
  have key := (FormDU_loop_counts first g.global_maxnz
    { «end» := ldu.uerowptr lrow, ucolind := ldu.ucolind, uvalues := ldu.uvalues,
      lastjr := g.lastjr, jw := g.jw, w := g.w }).1
  simp only [FormDU, upd_same]
  rw [key]
  simp only
  rw [hempty]
  omega

/-- Instance of C8: four workspace entries into an empty `L` row with `global_maxnz = 2`. -/
theorem UpdateL_length_witness :
    ((exLdu.lerowptr 0 : Int) - (exLdu.lsrowptr 0 : Int) ≤ (exGw.global_maxnz : Int)) ∧
    ((((UpdateL 0 5 exLdu exGw).lerowptr 0 : Int) - ((UpdateL 0 5 exLdu exGw).lsrowptr 0 : Int)
        = min (exGw.global_maxnz : Int)
            ((exLdu.lerowptr 0 : Int) - (exLdu.lsrowptr 0 : Int) + ((5 - 1 : Nat) : Int)))
    ∧ (((UpdateL 0 5 exLdu exGw).lerowptr 0 : Int)
        - ((UpdateL 0 5 exLdu exGw).lsrowptr 0 : Int) ≤ (exGw.global_maxnz : Int))
    ∧ (UpdateL 0 5 exLdu exGw).lsrowptr = exLdu.lsrowptr) :=
  ⟨by decide, UpdateL_length 0 5 exLdu exGw (by decide)⟩

/-- Instance of C9: three entries `[2, 5)` of the workspace with `global_maxnz = 2`. -/
theorem FormDU_length_witness :
    (exLdu.usrowptr 0 = exLdu.uerowptr 0 ∧ 2 ≤ exGw.lastjr) ∧
    ((((FormDU 0 2 exLdu 1 exGw).1.uerowptr 0 : Int)
        - ((FormDU 0 2 exLdu 1 exGw).1.usrowptr 0 : Int)
        = min (exGw.global_maxnz : Int) ((exGw.lastjr : Int) - (2 : Int)))
    ∧ (((FormDU 0 2 exLdu 1 exGw).1.uerowptr 0 : Int)
        - ((FormDU 0 2 exLdu 1 exGw).1.usrowptr 0 : Int) ≤ (exGw.global_maxnz : Int))) :=
  ⟨⟨by decide, by decide⟩, FormDU_length 0 2 exLdu 1 exGw (by decide) (by decide)⟩

/-! ## FormDU: the largest entries are kept -/

theorem slice_cons {α : Type} (a : Nat → α) (lo n : Nat) :
    slice a lo (n + 1) = a lo :: slice a (lo + 1) n := by
  simp [slice, List.range'_succ]

theorem slice_append {α : Type} (a : Nat → α) (lo m n : Nat) :
    slice a lo (m + n) = slice a lo m ++ slice a (lo + m) n := by
  unfold slice
  rw [← List.map_append]
  congr 1
  have := List.range'_append lo m n 1
  simp only [Nat.one_mul] at this
  rw [Nat.add_comm m n]
  exact this.symm

/-- Swapping the last entry into position `m` removes the entry at `m` from the slice. -/
theorem slice_swap_out {α : Type} (f : Nat → α) (lo n m : Nat) (h1 : lo ≤ m)
    (h2 : m < lo + (n + 1)) :
    List.Perm (slice f lo (n + 1)) (f m :: slice (upd f m (f (lo + n))) lo n) := by
  by_cases hm : m = lo + n
  · subst hm
    rw [slice_succ]
    have : slice (upd f (lo + n) (f (lo + n))) lo n = slice f lo n := by
      apply slice_congr
      intro i _ hi
      exact upd_other _ _ _ _ (by omega)
    rw [this]
    exact List.perm_append_singleton _ _
  · obtain ⟨k, rfl⟩ : ∃ k, m = lo + k := ⟨m - lo, by omega⟩
    have hk : k < n := by omega
    obtain ⟨r, rfl⟩ : ∃ r, n = k + (1 + r) := ⟨n - k - 1, by omega⟩
    have e1 : slice f lo (k + (1 + r) + 1) =
        slice f lo k ++ (f (lo + k) :: slice f (lo + k + 1) r) ++ [f (lo + (k + (1 + r)))] := by
      rw [slice_succ, slice_append, slice_append, slice_cons (n := 0)]
      simp [slice]
    have e2 : slice (upd f (lo + k) (f (lo + (k + (1 + r))))) lo (k + (1 + r)) =
        slice f lo k ++ (f (lo + (k + (1 + r))) :: slice f (lo + k + 1) r) := by
      rw [slice_append, slice_append, slice_cons (n := 0)]
      have a1 : slice (upd f (lo + k) (f (lo + (k + (1 + r))))) lo k = slice f lo k := by
        apply slice_congr
        intro i _ hi
        exact upd_other _ _ _ _ (by omega)
      have a2 : slice (upd f (lo + k) (f (lo + (k + (1 + r))))) (lo + k + 1) r =
          slice f (lo + k + 1) r := by
        apply slice_congr
        intro i hi _
        exact upd_other _ _ _ _ (by omega)
      rw [a1, a2]
      simp [slice]
    rw [e1, e2]
    classical
    rw [List.perm_iff_count]
    intro a
    simp only [List.count_append, List.count_cons, List.count_nil]
    omega

theorem FormDU_max_spec (w : Nat → ℚ) (first lastjr : Nat) (h : first < lastjr) :
    first ≤ FormDU_max w first lastjr ∧ FormDU_max w first lastjr < lastjr ∧
    ∀ j, first ≤ j → j < lastjr → fabs (w j) ≤ fabs (w (FormDU_max w first lastjr)) := by
  have key := forLoop_inv
    (fun n m => first ≤ m ∧ m < first + 1 + n ∧
      ∀ j, first ≤ j → j < first + 1 + n → fabs (w j) ≤ fabs (w m))
    (first + 1) (fun j max => if fabs (w j) > fabs (w max) then j else max)
    (lastjr - (first + 1)) first
    ⟨le_refl _, by omega, by
      intro j h1 h2
      have : j = first := by omega
      rw [this]⟩
    (by
      intro n m _ ⟨i1, i2, i3⟩
      by_cases hc : fabs (w (first + 1 + n)) > fabs (w m)
      · simp only [hc, if_true]
        refine ⟨by omega, by omega, ?_⟩
        intro j h1 h2
        by_cases hj : j = first + 1 + n
        · rw [hj]
        · exact le_trans (i3 j h1 (by omega)) (le_of_lt hc)
      · simp only [hc, if_false]
        refine ⟨i1, by omega, ?_⟩
        intro j h1 h2
        by_cases hj : j = first + 1 + n
        · rw [hj]; exact not_lt.mp hc
        · exact i3 j h1 (by omega))
  have e : first + 1 + (lastjr - (first + 1)) = lastjr := by omega
  beta_reduce at key
  rw [e] at key
  exact key

theorem mem_entries (c : Nat → Nat) (v : Nat → ℚ) (lo hi : Nat) (x : Nat × ℚ) :
    x ∈ entries c v lo hi ↔ ∃ i, lo ≤ i ∧ i < hi ∧ (c i, v i) = x := by
  unfold entries
  rw [mem_slice]
  constructor
  · rintro ⟨i, h1, h2, h3⟩; exact ⟨i, h1, by omega, h3⟩
  · rintro ⟨i, h1, h2, h3⟩; exact ⟨i, h1, by omega, h3⟩

/-- One pass of the loop of `FormDU` takes the entry at the arg-max out of the workspace. -/
theorem FormDU_step_entries (first : Nat) (s : UState) (h : first < s.lastjr) :
    List.Perm (entries s.jw s.w first s.lastjr)
      ((s.jw (FormDU_max s.w first s.lastjr), s.w (FormDU_max s.w first s.lastjr))
        :: entries (FormDU_step first s).jw (FormDU_step first s).w first
            (FormDU_step first s).lastjr) := by
  obtain ⟨m1, m2, _⟩ := FormDU_max_spec s.w first s.lastjr h
  obtain ⟨n, hn⟩ : ∃ n, s.lastjr - first = n + 1 := ⟨s.lastjr - first - 1, by omega⟩
  have hl : s.lastjr - 1 = first + n := by omega
  have key := slice_swap_out (fun i => (s.jw i, s.w i)) first n
    (FormDU_max s.w first s.lastjr) m1 (by omega)
  unfold entries
  simp only [FormDU_step]
  rw [hn, hl]
  have e : (first + n - first) = n := by omega
  rw [e]
  have f : (fun i => (upd s.jw (FormDU_max s.w first s.lastjr) (s.jw (first + n)) i,
                      upd s.w (FormDU_max s.w first s.lastjr) (s.w (first + n)) i)) =
      upd (fun i => (s.jw i, s.w i)) (FormDU_max s.w first s.lastjr)
        (s.jw (first + n), s.w (first + n)) := by
    funext i
    unfold upd
    split <;> rfl
  rw [f]
  exact key

theorem FormDU_loop_spec (first : Nat) (n : Nat) (s : UState) :
    (∀ i, i < s.«end» → (FormDU_loop first n s).ucolind i = s.ucolind i ∧
        (FormDU_loop first n s).uvalues i = s.uvalues i) ∧
    s.«end» ≤ (FormDU_loop first n s).«end» ∧
    List.Perm (entries s.jw s.w first s.lastjr)
      (entries (FormDU_loop first n s).ucolind (FormDU_loop first n s).uvalues s.«end»
          (FormDU_loop first n s).«end»
        ++ entries (FormDU_loop first n s).jw (FormDU_loop first n s).w first
          (FormDU_loop first n s).lastjr) ∧
    (∀ a ∈ entries (FormDU_loop first n s).ucolind (FormDU_loop first n s).uvalues s.«end»
          (FormDU_loop first n s).«end»,
      ∀ r ∈ entries (FormDU_loop first n s).jw (FormDU_loop first n s).w first
          (FormDU_loop first n s).lastjr, fabs r.2 ≤ fabs a.2) ∧
    List.Pairwise (fun a b => fabs b.2 ≤ fabs a.2)
      (entries (FormDU_loop first n s).ucolind (FormDU_loop first n s).uvalues s.«end»
          (FormDU_loop first n s).«end») := by
  induction n generalizing s with
  | zero =>
    simp [FormDU_loop, entries, slice]
  | succ k ih =>
    unfold FormDU_loop
    split
    · rename_i hgt
      obtain ⟨f1, f2, f3, f4, f5⟩ := ih (FormDU_step first s)
      obtain ⟨m1, m2, m3⟩ := FormDU_max_spec s.w first s.lastjr hgt
      have hstep := FormDU_step_entries first s hgt
      have hend : (FormDU_step first s).«end» = s.«end» + 1 := rfl
      rw [hend] at f1 f2 f3 f4 f5
      -- the entry stored by this pass
      have hs : ((FormDU_loop first k (FormDU_step first s)).ucolind s.«end»,
                 (FormDU_loop first k (FormDU_step first s)).uvalues s.«end») =
          (s.jw (FormDU_max s.w first s.lastjr), s.w (FormDU_max s.w first s.lastjr)) := by
        obtain ⟨a1, a2⟩ := f1 s.«end» (by omega)
        rw [a1, a2]
        simp [FormDU_step]
      have hcons : entries (FormDU_loop first k (FormDU_step first s)).ucolind
            (FormDU_loop first k (FormDU_step first s)).uvalues s.«end»
            (FormDU_loop first k (FormDU_step first s)).«end» =
          (s.jw (FormDU_max s.w first s.lastjr), s.w (FormDU_max s.w first s.lastjr)) ::
          entries (FormDU_loop first k (FormDU_step first s)).ucolind
            (FormDU_loop first k (FormDU_step first s)).uvalues (s.«end» + 1)
            (FormDU_loop first k (FormDU_step first s)).«end» := by
        unfold entries
        have e : (FormDU_loop first k (FormDU_step first s)).«end» - s.«end» =
            ((FormDU_loop first k (FormDU_step first s)).«end» - (s.«end» + 1)) + 1 := by omega
        rw [e, slice_cons]
        simp only [hs]
      -- every entry of the workspace is dominated by the arg-max
      have hdom : ∀ x ∈ entries s.jw s.w first s.lastjr,
          fabs x.2 ≤ fabs (s.w (FormDU_max s.w first s.lastjr)) := by
        intro x hx
        rw [mem_entries] at hx
        obtain ⟨i, i1, i2, rfl⟩ := hx
        exact m3 i i1 i2
      have hsub1 : ∀ x ∈ entries (FormDU_step first s).jw (FormDU_step first s).w first
          (FormDU_step first s).lastjr, x ∈ entries s.jw s.w first s.lastjr := by
        intro x hx
        exact hstep.symm.subset (List.mem_cons_of_mem _ hx)
      refine ⟨?_, by omega, ?_, ?_, ?_⟩
      · intro i hi
        obtain ⟨a1, a2⟩ := f1 i (by omega)
        rw [a1, a2]
        simp only [FormDU_step]
        exact ⟨upd_other _ _ _ _ (by omega), upd_other _ _ _ _ (by omega)⟩
      · rw [hcons]
        exact hstep.trans (List.Perm.cons _ f3)
      · rw [hcons]
        intro a ha r hr
        rcases List.mem_cons.mp ha with rfl | ha
        · exact hdom r (hsub1 r (f3.symm.subset (List.mem_append_right _ hr)))
        · exact f4 a ha r hr
      · rw [hcons]
        refine List.Pairwise.cons ?_ f5
        intro t ht
        exact hdom t (hsub1 t (f3.symm.subset (List.mem_append_left _ ht)))
    · rename_i hgt
      simp [entries, slice]

/-- C10. U keeps the largest entries: the pairs that `FormDU` stores into `U` at
`[old uerowptr, new uerowptr)`, together with the entries it leaves in the workspace
`[first, lastjr)`, are a rearrangement of the workspace entries `[first, lastjr)` before the
call; every stored entry has a magnitude at least that of every entry left behind, and the
stored entries are in non-increasing order of magnitude. -/
theorem FormDU_keeps_largest (lrow first : Nat) (ldu : FactorMatType) (tol : ℚ)
    (g : hypre_PilutSolverGlobals) :
    List.Perm (entries g.jw g.w first g.lastjr)
      (entries (FormDU lrow first ldu tol g).1.ucolind (FormDU lrow first ldu tol g).1.uvalues
          (ldu.uerowptr lrow) ((FormDU lrow first ldu tol g).1.uerowptr lrow)
        ++ entries (FormDU lrow first ldu tol g).2.jw (FormDU lrow first ldu tol g).2.w first
          (FormDU lrow first ldu tol g).2.lastjr) ∧
    (∀ a ∈ entries (FormDU lrow first ldu tol g).1.ucolind
          (FormDU lrow first ldu tol g).1.uvalues
          (ldu.uerowptr lrow) ((FormDU lrow first ldu tol g).1.uerowptr lrow),
      ∀ r ∈ entries (FormDU lrow first ldu tol g).2.jw (FormDU lrow first ldu tol g).2.w first
          (FormDU lrow first ldu tol g).2.lastjr, fabs r.2 ≤ fabs a.2) ∧
    List.Pairwise (fun a b => fabs b.2 ≤ fabs a.2)
      (entries (FormDU lrow first ldu tol g).1.ucolind (FormDU lrow first ldu tol g).1.uvalues
          (ldu.uerowptr lrow) ((FormDU lrow first ldu tol g).1.uerowptr lrow)) := by
  obtain ⟨_, _, h3, h4, h5⟩ := FormDU_loop_spec first g.global_maxnz
    { «end» := ldu.uerowptr lrow, ucolind := ldu.ucolind, uvalues := ldu.uvalues,
      lastjr := g.lastjr, jw := g.jw, w := g.w }
  simp only [FormDU, upd_same]
  exact ⟨h3, h4, h5⟩

/-! ## SelectSet: loops as folds -/

theorem forLoop_eq_foldl {σ α : Type} (a : Nat → α) (f : α → σ → σ) (lo n : Nat) (s : σ) :
    forLoop lo (fun i t => f (a i) t) n s = (slice a lo n).foldl (fun t x => f x t) s := by
  induction n with
  | zero => simp [slice]
  | succ m ih => rw [forLoop_succ, slice_succ, List.foldl_append, ih]; rfl

theorem SelectSet_pass2_eq_foldl (g : hypre_PilutSolverGlobals) (cinfo : CommInfoType)
    (s : MISState) :
    SelectSet_pass2 g cinfo s =
      (lowerSendRows g cinfo).foldl (fun t x => SelectSet_fix_inner x t.num 0 t) s := by
  unfold SelectSet_pass2 lowerSendRows
  induction cinfo.snnbr with
  | zero => simp
  | succ m ih =>
    rw [forLoop_succ, List.range_succ, List.flatMap_append, List.foldl_append, ih]
    simp only [Nat.zero_add, List.flatMap_cons, List.flatMap_nil, List.append_nil]
    split
    · exact forLoop_eq_foldl cinfo.srowind (fun x t => SelectSet_fix_inner x t.num 0 t) _ _ _
    · rfl

/-! ## SelectSet: the asymmetry check -/

theorem SelectSet_fix_inner_no_match (x : Nat) (budget j : Nat) (s : MISState)
    (h : ∀ i, j ≤ i → i < s.num → s.jw i ≠ x) : SelectSet_fix_inner x budget j s = s := by
  induction budget generalizing j with
  | zero => rfl
  | succ b ih =>
    unfold SelectSet_fix_inner
    split
    · rename_i hj
      have hne : ¬ x = s.jw j := fun e => h j (le_refl _) hj e.symm
      simp only [hne, if_false]
      exact ih (j + 1) (fun i hi hi2 => h i (by omega) hi2)
    · rfl

theorem SelectSet_fix_inner_match (x : Nat) (budget j p : Nat) (s : MISState)
    (hjp : j ≤ p) (hp : p < s.num) (hx : s.jw p = x)
    (hbefore : ∀ i, j ≤ i → i < p → s.jw i ≠ x)
    (hafter : ∀ i, p < i → i < s.num → s.jw i ≠ x) (hb : p - j < budget) :
    SelectSet_fix_inner x budget j s =
      { num := s.num - 1, jw := upd s.jw p (s.jw (s.num - 1)), map := upd s.map x 0 } := by
  induction budget generalizing j with
  | zero => omega
  | succ b ih =>
    unfold SelectSet_fix_inner
    have hj : j < s.num := by omega
    simp only [hj, if_true]
    by_cases hm : x = s.jw j
    · have hjp2 : j = p := by
        by_contra hne
        exact hbefore j (le_refl _) (by omega) hm.symm
      subst hjp2
      simp only [hm, if_true]
      rw [SelectSet_fix_inner_no_match]
      intro i hi1 hi2
      simp only at hi2 ⊢
      rw [upd_other _ _ _ _ (by omega)]
      rw [← hm]
      exact hafter i (by omega) (by omega)
    · simp only [hm, if_false]
      have hjp2 : j ≠ p := fun e => hm (by rw [e]; exact hx.symm)
      exact ih (j + 1) (by omega) (fun i hi1 hi2 => hbefore i (by omega) hi2) (by omega)

theorem nodup_slice_iff (a : Nat → Nat) (lo n : Nat) :
    (slice a lo n).Nodup ↔ InjOnRange a lo (lo + n) := by
  induction n with
  | zero =>
    simp only [slice, List.range'_zero, List.map_nil, List.nodup_nil, true_iff]
    intro i j h1 h2
    omega
  | succ m ih =>
    rw [slice_succ, List.nodup_append, ih]
    constructor
    · rintro ⟨h1, _, h3⟩ i j hi1 hi2 hj1 hj2 e
      by_cases ci : i = lo + m <;> by_cases cj : j = lo + m
      · omega
      · exfalso
        have hm : a j ∈ slice a lo m := (mem_slice a lo m _).mpr ⟨j, hj1, by omega, rfl⟩
        exact h3 hm (List.mem_singleton.mpr (by rw [← e, ci]))
      · exfalso
        have hm : a i ∈ slice a lo m := (mem_slice a lo m _).mpr ⟨i, hi1, by omega, rfl⟩
        exact h3 hm (List.mem_singleton.mpr (by rw [e, cj]))
      · exact h1 i j hi1 (by omega) hj1 (by omega) e
    · intro h
      refine ⟨fun i j hi1 hi2 hj1 hj2 e => h i j hi1 (by omega) hj1 (by omega) e,
        List.nodup_singleton _, ?_⟩
      intro x hx hx2 
      rw [mem_slice] at hx
      obtain ⟨i, i1, i2, i3⟩ := hx
      rw [List.mem_singleton] at hx2
      have := h i (lo + m) i1 (by omega) (by omega) (by omega) (by rw [i3, hx2])
      omega

/-- One entry `x` of a send list: if the candidates are pairwise different, the inner loop
removes exactly `x` from them and clears its map entry. -/
theorem SelectSet_fix_inner_spec (x : Nat) (s : MISState)
    (hnd : (slice s.jw 0 s.num).Nodup) :
    List.Perm (slice (SelectSet_fix_inner x s.num 0 s).jw 0 (SelectSet_fix_inner x s.num 0 s).num)
      ((slice s.jw 0 s.num).filter (fun y => decide (y ≠ x))) ∧
    (SelectSet_fix_inner x s.num 0 s).map =
      (if x ∈ slice s.jw 0 s.num then upd s.map x 0 else s.map) := by
  by_cases hmem : x ∈ slice s.jw 0 s.num
  · rw [mem_slice] at hmem
    obtain ⟨p, _, hp, hx⟩ := hmem
    have hinj := (nodup_slice_iff s.jw 0 s.num).mp hnd
    have hother : ∀ i, i < s.num → i ≠ p → s.jw i ≠ x := by
      intro i hi hne e
      exact hne (hinj i p (Nat.zero_le _) (by omega) (Nat.zero_le _) (by omega) (by rw [e, hx]))
    have key := SelectSet_fix_inner_match x s.num 0 p s (Nat.zero_le _) (by omega) hx
      (fun i _ hi => hother i (by omega) (by omega))
      (fun i hi hi2 => hother i hi2 (by omega)) (by omega)
    rw [key]
    have hmem' : x ∈ slice s.jw 0 s.num := (mem_slice _ _ _ _).mpr ⟨p, Nat.zero_le _, hp, hx⟩
    simp only [hmem', if_true, and_true]
    obtain ⟨n, hn⟩ : ∃ n, s.num = n + 1 := ⟨s.num - 1, by omega⟩
    have hsw := slice_swap_out s.jw 0 n p (Nat.zero_le _) (by omega)
    simp only [hn, Nat.add_sub_cancel, Nat.zero_add] at hsw ⊢
    rw [hn] at hnd
    have hnd2 := (hsw.nodup_iff).mp hnd
    rw [List.nodup_cons] at hnd2
    have hf := hsw.filter (fun y => decide (y ≠ x))
    rw [hx] at hf hnd2
    have e1 : List.filter (fun y => decide (y ≠ x)) (x :: slice (upd s.jw p (s.jw n)) 0 n)
        = slice (upd s.jw p (s.jw n)) 0 n := by
      rw [List.filter_cons_of_neg (by simp)]
      rw [List.filter_eq_self]
      intro a ha
      have : a ≠ x := fun e => hnd2.1 (e ▸ ha)
      simpa using this
    rw [e1] at hf
    exact hf.symm
  · have hno : ∀ i, 0 ≤ i → i < s.num → s.jw i ≠ x := by
      intro i _ hi e
      exact hmem ((mem_slice _ _ _ _).mpr ⟨i, Nat.zero_le _, by omega, e⟩)
    rw [SelectSet_fix_inner_no_match x s.num 0 s hno]
    simp only [hmem, if_false, and_true]
    have : List.filter (fun y => decide (y ≠ x)) (slice s.jw 0 s.num) = slice s.jw 0 s.num := by
      rw [List.filter_eq_self]
      intro a ha
      have : a ≠ x := fun e => hmem (e ▸ ha)
      simpa using this
    rw [this]

/-- The asymmetry check as a whole, on pairwise different candidates: what is left in
`jw[0..num)` is a rearrangement of the candidates that are not in the list `X` of visited
send entries, and exactly the map entries of the removed candidates are cleared. -/
theorem SelectSet_fix_fold_spec (X : List Nat) (s : MISState)
    (hnd : (slice s.jw 0 s.num).Nodup) :
    List.Perm
      (slice (X.foldl (fun t x => SelectSet_fix_inner x t.num 0 t) s).jw 0
        (X.foldl (fun t x => SelectSet_fix_inner x t.num 0 t) s).num)
      ((slice s.jw 0 s.num).filter (fun y => decide (y ∉ X))) ∧
    ∀ z, (X.foldl (fun t x => SelectSet_fix_inner x t.num 0 t) s).map z =
      if z ∈ slice s.jw 0 s.num ∧ z ∈ X then 0 else s.map z := by
  induction X generalizing s with
  | nil => simp
  | cons x X ih =>
    obtain ⟨h1, h2⟩ := SelectSet_fix_inner_spec x s hnd
    have hnd1 : (slice (SelectSet_fix_inner x s.num 0 s).jw 0
        (SelectSet_fix_inner x s.num 0 s).num).Nodup :=
      (h1.nodup_iff).mpr (hnd.filter _)
    obtain ⟨i1, i2⟩ := ih (SelectSet_fix_inner x s.num 0 s) hnd1
    rw [List.foldl_cons]
    have hmem1 : ∀ z, z ∈ slice (SelectSet_fix_inner x s.num 0 s).jw 0
        (SelectSet_fix_inner x s.num 0 s).num ↔ z ∈ slice s.jw 0 s.num ∧ z ≠ x := by
      intro z
      rw [h1.mem_iff, List.mem_filter]
      simp
    constructor
    · refine i1.trans ?_
      have := (h1.filter (fun y => decide (y ∉ X)))
      refine this.trans ?_
      rw [List.filter_filter]
      apply List.Perm.of_eq
      apply List.filter_congr
      intro y _
      simp only [List.mem_cons, not_or, Bool.decide_and, Bool.and_comm]
    · intro z
      rw [i2 z, h2]
      have hm := hmem1 z
      by_cases hz : z ∈ slice s.jw 0 s.num
      · by_cases hzx : z = x
        · subst hzx
          simp [hz]
        · by_cases hzX : z ∈ X
          · have : z ∈ slice (SelectSet_fix_inner x s.num 0 s).jw 0
                (SelectSet_fix_inner x s.num 0 s).num := hm.mpr ⟨hz, hzx⟩
            simp [hz, hzX, this]
          · simp only [hz, hzx, hzX, List.mem_cons, or_self, and_false, if_false]
            split
            · exact upd_other _ _ _ _ hzx
            · rfl
      · have hn : ¬ z ∈ slice (SelectSet_fix_inner x s.num 0 s).jw 0
            (SelectSet_fix_inner x s.num 0 s).num := fun h => hz (hm.mp h).1
        simp only [hz, hn, false_and, if_false]
        split
        · rename_i hx
          have hzx : z ≠ x := fun e => hz (e ▸ hx)
          exact upd_other _ _ _ _ hzx
        · rfl

/-! ## SelectSet: the candidates -/

theorem SelectSet_pass1_loop_spec (g : hypre_PilutSolverGlobals) (rmat : ReduceMatType)
    (perm : Nat → Nat) (n : Nat) :
    slice (forLoop 0 (SelectSet_pass1_body g rmat perm) n
        { num := 0, jw := g.jw, map := g.map }).jw 0
      (forLoop 0 (SelectSet_pass1_body g rmat perm) n
        { num := 0, jw := g.jw, map := g.map }).num = candRows g rmat perm n ∧
    ∀ z, (forLoop 0 (SelectSet_pass1_body g rmat perm) n
        { num := 0, jw := g.jw, map := g.map }).map z =
      if z ∈ candRows g rmat perm n then 1 else g.map z := by
  induction n with
  | zero => simp [slice, candRows]
  | succ m ih =>
    obtain ⟨h1, h2⟩ := ih
    rw [forLoop_succ]
    generalize forLoop 0 (SelectSet_pass1_body g rmat perm) m
      { num := 0, jw := g.jw, map := g.map } = s at h1 h2
    have hc : candRows g rmat perm (m + 1) =
        candRows g rmat perm m ++
          (if SelectSet_passes g rmat m then [activeRow g perm m] else []) := by
      unfold candRows
      rw [List.range_succ, List.filter_append, List.map_append]
      congr 1
      by_cases hp : SelectSet_passes g rmat m <;> simp [hp]
    rw [hc]
    unfold SelectSet_pass1_body
    simp only [Nat.zero_add]
    by_cases hp : SelectSet_passes g rmat m
    · have hp' : SelectSet_scan g (rmat.rmat_rcolind m) (rmat.rmat_rnz m) (rmat.rmat_rnz m) 1
          = rmat.rmat_rnz m := by simpa [SelectSet_passes] using hp
      simp only [hp', if_true, hp]
      constructor
      · rw [slice_succ, Nat.zero_add, upd_same]
        have : slice (upd s.jw s.num (perm (m + g.ndone) + g.firstrow)) 0 s.num
            = slice s.jw 0 s.num := by
          apply slice_congr
          intro i _ hi
          exact upd_other _ _ _ _ (by omega)
        rw [this, h1]
        rfl
      · intro z
        by_cases hz : z = activeRow g perm m
        · subst hz
          simp [activeRow]
        · have hz' : z ≠ perm (m + g.ndone) + g.firstrow := hz
          rw [upd_other _ _ _ _ hz', h2 z]
          simp [hz]
    · have hp' : ¬ SelectSet_scan g (rmat.rmat_rcolind m) (rmat.rmat_rnz m) (rmat.rmat_rnz m) 1
          = rmat.rmat_rnz m := by simpa [SelectSet_passes] using hp
      have hb : SelectSet_passes g rmat m = false := by simpa using hp
      simp only [hp', if_false, hb, Bool.false_eq_true, List.append_nil]
      exact ⟨h1, h2⟩

theorem SelectSet_pass1_spec (g : hypre_PilutSolverGlobals) (rmat : ReduceMatType)
    (perm : Nat → Nat) :
    slice (SelectSet_pass1 g rmat perm).jw 0 (SelectSet_pass1 g rmat perm).num
      = candRows g rmat perm g.ntogo ∧
    ∀ z, (SelectSet_pass1 g rmat perm).map z =
      if z ∈ candRows g rmat perm g.ntogo then 1 else g.map z :=
  SelectSet_pass1_loop_spec g rmat perm g.ntogo

theorem mem_candRows (g : hypre_PilutSolverGlobals) (rmat : ReduceMatType)
    (perm : Nat → Nat) (n x : Nat) :
    x ∈ candRows g rmat perm n ↔
      ∃ ir, ir < n ∧ SelectSet_passes g rmat ir = true ∧ activeRow g perm ir = x := by
  unfold candRows
  rw [List.mem_map]
  constructor
  · rintro ⟨ir, h1, h2⟩
    rw [List.mem_filter, List.mem_range] at h1
    exact ⟨ir, h1.1, h1.2, h2⟩
  · rintro ⟨ir, h1, h2, h3⟩
    exact ⟨ir, List.mem_filter.mpr ⟨List.mem_range.mpr h1, h2⟩, h3⟩

theorem candRows_nodup (g : hypre_PilutSolverGlobals) (rmat : ReduceMatType)
    (perm : Nat → Nat) (hinj : InjOnRange perm g.ndone (g.ndone + g.ntogo)) :
    (candRows g rmat perm g.ntogo).Nodup := by
  unfold candRows
  apply List.Nodup.map_on
  · intro a ha b hb e
    rw [List.mem_filter, List.mem_range] at ha hb
    unfold activeRow at e
    have := hinj (a + g.ndone) (b + g.ndone) (by omega) (by omega) (by omega) (by omega)
      (by omega)
    omega
  · exact (List.nodup_range _).filter _

/-! ## SelectSet: the new permutation -/

theorem filter_slice_length_mono (perm : Nat → Nat) (p : Nat → Bool) (lo n N : Nat)
    (h : n ≤ N) :
    ((slice perm lo n).filter p).length ≤ ((slice perm lo N).filter p).length := by
  obtain ⟨r, rfl⟩ : ∃ r, N = n + r := ⟨N - n, by omega⟩
  rw [slice_append, List.filter_append, List.length_append]
  omega

theorem filter_length_add_not (l : List Nat) (p : Nat → Bool) :
    (l.filter p).length + (l.filter (fun x => !p x)).length = l.length :=
  (List.length_eq_length_filter_add p).symm

/-- The state of the last loop of `SelectSet` after `n` of its `N` passes, when the marked
active rows are at most `num` and `perm` does not repeat a row on the active positions. -/
theorem SelectSet_pass3_loop_spec (g : hypre_PilutSolverGlobals)
    (map perm newperm newiperm : Nat → Nat) (num N n : Nat)
    (hinj : InjOnRange perm g.ndone (g.ndone + N))
    (hcnt : ((slice perm g.ndone N).filter
      (fun l => decide (map (l + g.firstrow) = 1))).length ≤ num)
    (hn : n ≤ N) :
    (forLoop g.ndone (SelectSet_pass3_body g map perm) n
        { j := g.ndone, k := g.ndone + num, newperm := newperm, newiperm := newiperm }).j
      = g.ndone + ((slice perm g.ndone n).filter
          (fun l => decide (map (l + g.firstrow) = 1))).length ∧
    (forLoop g.ndone (SelectSet_pass3_body g map perm) n
        { j := g.ndone, k := g.ndone + num, newperm := newperm, newiperm := newiperm }).k
      = g.ndone + num + ((slice perm g.ndone n).filter
          (fun l => !decide (map (l + g.firstrow) = 1))).length ∧
    slice (forLoop g.ndone (SelectSet_pass3_body g map perm) n
        { j := g.ndone, k := g.ndone + num, newperm := newperm, newiperm := newiperm }).newperm
        g.ndone ((slice perm g.ndone n).filter
          (fun l => decide (map (l + g.firstrow) = 1))).length
      = (slice perm g.ndone n).filter (fun l => decide (map (l + g.firstrow) = 1)) ∧
    slice (forLoop g.ndone (SelectSet_pass3_body g map perm) n
        { j := g.ndone, k := g.ndone + num, newperm := newperm, newiperm := newiperm }).newperm
        (g.ndone + num) ((slice perm g.ndone n).filter
          (fun l => !decide (map (l + g.firstrow) = 1))).length
      = (slice perm g.ndone n).filter (fun l => !decide (map (l + g.firstrow) = 1)) ∧
    (∀ x, (g.ndone ≤ x ∧ x < g.ndone + ((slice perm g.ndone n).filter
            (fun l => decide (map (l + g.firstrow) = 1))).length) ∨
          (g.ndone + num ≤ x ∧ x < g.ndone + num + ((slice perm g.ndone n).filter
            (fun l => !decide (map (l + g.firstrow) = 1))).length) →
      (forLoop g.ndone (SelectSet_pass3_body g map perm) n
        { j := g.ndone, k := g.ndone + num, newperm := newperm, newiperm := newiperm }).newiperm
        ((forLoop g.ndone (SelectSet_pass3_body g map perm) n
        { j := g.ndone, k := g.ndone + num, newperm := newperm, newiperm := newiperm }).newperm x)
        = x ∧
      (forLoop g.ndone (SelectSet_pass3_body g map perm) n
        { j := g.ndone, k := g.ndone + num, newperm := newperm, newiperm := newiperm }).newperm x
        ∈ slice perm g.ndone n) ∧
    (∀ x, ¬ ((g.ndone ≤ x ∧ x < g.ndone + ((slice perm g.ndone n).filter
            (fun l => decide (map (l + g.firstrow) = 1))).length) ∨
          (g.ndone + num ≤ x ∧ x < g.ndone + num + ((slice perm g.ndone n).filter
            (fun l => !decide (map (l + g.firstrow) = 1))).length)) →
      (forLoop g.ndone (SelectSet_pass3_body g map perm) n
        { j := g.ndone, k := g.ndone + num, newperm := newperm, newiperm := newiperm }).newperm x
        = newperm x) ∧
    (∀ l, l ∉ slice perm g.ndone n →
      (forLoop g.ndone (SelectSet_pass3_body g map perm) n
        { j := g.ndone, k := g.ndone + num, newperm := newperm, newiperm := newiperm }).newiperm l
        = newiperm l) := by
  induction n with
  | zero =>
    simp [slice]
  | succ m ih =>
    obtain ⟨h1, h2, h3, h4, h5, h6, h7⟩ := ih (by omega)
    rw [forLoop_succ]
    generalize forLoop g.ndone (SelectSet_pass3_body g map perm) m
      { j := g.ndone, k := g.ndone + num, newperm := newperm, newiperm := newiperm } = s
      at h1 h2 h3 h4 h5 h6 h7
    have hmono := filter_slice_length_mono perm
      (fun l => decide (map (l + g.firstrow) = 1)) g.ndone (m + 1) N (by omega)
    have hfresh : perm (g.ndone + m) ∉ slice perm g.ndone m := by
      intro hmem
      rw [mem_slice] at hmem
      obtain ⟨i, i1, i2, i3⟩ := hmem
      have := hinj i (g.ndone + m) i1 (by omega) (by omega) (by omega) i3
      omega
    have hsl : slice perm g.ndone (m + 1) = slice perm g.ndone m ++ [perm (g.ndone + m)] :=
      slice_succ _ _ _
    rw [hsl] at hmono ⊢
    simp only [List.filter_append, List.length_append] at hmono ⊢
    unfold SelectSet_pass3_body
    by_cases hsel : map (perm (g.ndone + m) + g.firstrow) = 1
    · simp only [hsel, if_true, List.filter_cons_of_pos, decide_True, List.filter_nil,
        List.length_singleton, Bool.not_true, Bool.false_eq_true, not_false_eq_true,
        List.filter_cons_of_neg, List.length_nil, Nat.add_zero, List.append_nil] at hmono ⊢
      refine ⟨by omega, h2, ?_, ?_, ?_, ?_, ?_⟩
      · rw [slice_succ, h1, upd_same]
        congr 1
        refine (slice_congr _ _ _ _ ?_).trans h3
        intro i _ hi
        exact upd_other _ _ _ _ (by omega)
      · refine (slice_congr _ _ _ _ ?_).trans h4
        intro i hi _
        exact upd_other _ _ _ _ (by omega)
      · intro x hx
        by_cases hxj : x = s.j
        · rw [hxj, upd_same, upd_same]
          exact ⟨rfl, List.mem_append_right _ (List.mem_singleton.mpr rfl)⟩
        · have hx' : (g.ndone ≤ x ∧ x < g.ndone + (List.filter (fun l =>
              decide (map (l + g.firstrow) = 1)) (slice perm g.ndone m)).length) ∨
              (g.ndone + num ≤ x ∧ x < g.ndone + num + (List.filter (fun l =>
              !decide (map (l + g.firstrow) = 1)) (slice perm g.ndone m)).length) := by
            omega
          obtain ⟨a1, a2⟩ := h5 x hx'
          rw [upd_other _ _ _ _ hxj]
          have hne : s.newperm x ≠ perm (g.ndone + m) := fun e => hfresh (e ▸ a2)
          rw [upd_other _ _ _ _ hne]
          exact ⟨a1, List.mem_append_left _ a2⟩
      · intro x hx
        have hxj : x ≠ s.j := by omega
        rw [upd_other _ _ _ _ hxj]
        exact h6 x (by omega)
      · intro l hl
        rw [List.mem_append, List.mem_singleton] at hl
        have hne : l ≠ perm (g.ndone + m) := fun e => hl (Or.inr e)
        rw [upd_other _ _ _ _ hne]
        exact h7 l (fun h => hl (Or.inl h))
    · simp only [hsel, if_false, decide_False, Bool.false_eq_true, not_false_eq_true,
        List.filter_cons_of_neg, List.filter_nil, List.length_nil, Nat.add_zero,
        List.append_nil, Bool.not_false, List.filter_cons_of_pos, List.length_singleton]
        at hmono ⊢
      have hle := filter_slice_length_mono perm
        (fun l => decide (map (l + g.firstrow) = 1)) g.ndone m N (by omega)
      refine ⟨h1, by omega, ?_, ?_, ?_, ?_, ?_⟩
      · refine (slice_congr _ _ _ _ ?_).trans h3
        intro i _ hi
        exact upd_other _ _ _ _ (by omega)
      · rw [slice_succ, h2]
        have e : g.ndone + num + (List.filter (fun l => !decide (map (l + g.firstrow) = 1))
            (slice perm g.ndone m)).length = s.k := h2.symm
        rw [upd_same]
        congr 1
        refine (slice_congr _ _ _ _ ?_).trans h4
        intro i _ hi
        exact upd_other _ _ _ _ (by omega)
      · intro x hx
        by_cases hxk : x = s.k
        · rw [hxk, upd_same, upd_same]
          exact ⟨rfl, List.mem_append_right _ (List.mem_singleton.mpr rfl)⟩
        · have hx' : (g.ndone ≤ x ∧ x < g.ndone + (List.filter (fun l =>
              decide (map (l + g.firstrow) = 1)) (slice perm g.ndone m)).length) ∨
              (g.ndone + num ≤ x ∧ x < g.ndone + num + (List.filter (fun l =>
              !decide (map (l + g.firstrow) = 1)) (slice perm g.ndone m)).length) := by
            omega
          obtain ⟨a1, a2⟩ := h5 x hx'
          rw [upd_other _ _ _ _ hxk]
          have hne : s.newperm x ≠ perm (g.ndone + m) := fun e => hfresh (e ▸ a2)
          rw [upd_other _ _ _ _ hne]
          exact ⟨a1, List.mem_append_left _ a2⟩
      · intro x hx
        have hxk : x ≠ s.k := by omega
        rw [upd_other _ _ _ _ hxk]
        exact h6 x (by omega)
      · intro l hl
        rw [List.mem_append, List.mem_singleton] at hl
        have hne : l ≠ perm (g.ndone + m) := fun e => hl (Or.inr e)
        rw [upd_other _ _ _ _ hne]
        exact h7 l (fun h => hl (Or.inl h))

/-! ## SelectSet: the selected set -/

/-- The candidates left in `jw[0..num)` by `SelectSet` are a rearrangement of the candidates
of the first loop that no lower-numbered send neighbour names, and the map is 1 exactly on
them as far as the candidates go; other entries of the map are unchanged. -/
theorem SelectSet_set_spec (rmat : ReduceMatType) (cinfo : CommInfoType)
    (perm iperm newperm newiperm : Nat → Nat) (g : hypre_PilutSolverGlobals)
    (hinj : InjOnRange perm g.ndone (g.ndone + g.ntogo)) :
    List.Perm
      (slice (SelectSet rmat cinfo perm iperm newperm newiperm g).globals.jw 0
        (SelectSet rmat cinfo perm iperm newperm newiperm g).num)
      ((candRows g rmat perm g.ntogo).filter (fun y => decide (y ∉ lowerSendRows g cinfo))) ∧
    ∀ z, (SelectSet rmat cinfo perm iperm newperm newiperm g).globals.map z =
      if z ∈ candRows g rmat perm g.ntogo then
        (if z ∈ lowerSendRows g cinfo then 0 else 1)
      else g.map z := by
  obtain ⟨p1, p2⟩ := SelectSet_pass1_spec g rmat perm
  have hnd : (slice (SelectSet_pass1 g rmat perm).jw 0 (SelectSet_pass1 g rmat perm).num).Nodup := by
    rw [p1]
    exact candRows_nodup g rmat perm hinj
  obtain ⟨q1, q2⟩ := SelectSet_fix_fold_spec (lowerSendRows g cinfo)
    (SelectSet_pass1 g rmat perm) hnd
  rw [← SelectSet_pass2_eq_foldl, p1] at q1 q2
  refine ⟨q1, ?_⟩
  intro z
  show (SelectSet_pass2 g cinfo (SelectSet_pass1 g rmat perm)).map z = _
  rw [q2 z, p2 z]
  by_cases h1 : z ∈ candRows g rmat perm g.ntogo <;>
    by_cases h2 : z ∈ lowerSendRows g cinfo <;> simp [h1, h2]

theorem slice_eq_map_range (perm : Nat → Nat) (lo n : Nat) :
    slice perm lo n = (List.range n).map (fun ir => perm (ir + lo)) := by
  induction n with
  | zero => simp [slice]
  | succ m ih =>
    rw [slice_succ, ih, List.range_succ, List.map_append]
    simp [Nat.add_comm]

/-- The number of active rows that `SelectSet` leaves marked in the map is the `num` it
returns, when the map is 0 on the active rows on entry. -/
theorem SelectSet_marked_count (rmat : ReduceMatType) (cinfo : CommInfoType)
    (perm iperm newperm newiperm : Nat → Nat) (g : hypre_PilutSolverGlobals)
    (hinj : InjOnRange perm g.ndone (g.ndone + g.ntogo))
    (hmap : ∀ ir, ir < g.ntogo → g.map (activeRow g perm ir) = 0) :
    ((slice perm g.ndone g.ntogo).filter
      (fun l => decide ((SelectSet rmat cinfo perm iperm newperm newiperm g).globals.map
        (l + g.firstrow) = 1))).length
      = (SelectSet rmat cinfo perm iperm newperm newiperm g).num := by
  obtain ⟨h1, h2⟩ := SelectSet_set_spec rmat cinfo perm iperm newperm newiperm g hinj
  have hJ : (List.filter (fun y => decide (y ∉ lowerSendRows g cinfo))
      (candRows g rmat perm g.ntogo)).Nodup := (candRows_nodup g rmat perm hinj).filter _
  have hA : (slice perm g.ndone g.ntogo).Nodup :=
    (nodup_slice_iff perm g.ndone g.ntogo).mpr hinj
  have hF : (((slice perm g.ndone g.ntogo).filter
      (fun l => decide ((SelectSet rmat cinfo perm iperm newperm newiperm g).globals.map
        (l + g.firstrow) = 1))).map (fun l => l + g.firstrow)).Nodup := by
    apply List.Nodup.map_on
    · intro a _ b _ e
      simpa using e
    · exact hA.filter _
  have hperm : List.Perm
      (((slice perm g.ndone g.ntogo).filter
        (fun l => decide ((SelectSet rmat cinfo perm iperm newperm newiperm g).globals.map
          (l + g.firstrow) = 1))).map (fun l => l + g.firstrow))
      (List.filter (fun y => decide (y ∉ lowerSendRows g cinfo))
        (candRows g rmat perm g.ntogo)) := by
    rw [List.perm_ext_iff_of_nodup hF hJ]
    intro z
    rw [List.mem_map, List.mem_filter]
    constructor
    · rintro ⟨l, hl, rfl⟩
      rw [List.mem_filter, mem_slice] at hl
      obtain ⟨⟨i, i1, i2, i3⟩, hm⟩ := hl
      have hm' := of_decide_eq_true hm
      rw [h2] at hm'
      have h0 : g.map (l + g.firstrow) = 0 := by
        have := hmap (i - g.ndone) (by omega)
        unfold activeRow at this
        rw [show i - g.ndone + g.ndone = i by omega, i3] at this
        exact this
      by_cases c1 : l + g.firstrow ∈ candRows g rmat perm g.ntogo
      · by_cases c2 : l + g.firstrow ∈ lowerSendRows g cinfo
        · simp [c1, c2] at hm'
        · exact ⟨c1, by simpa using c2⟩
      · simp [c1, h0] at hm'
    · rintro ⟨c1, c2⟩
      have c2' : z ∉ lowerSendRows g cinfo := by simpa using c2
      rw [mem_candRows] at c1
      obtain ⟨ir, i1, _, i3⟩ := c1
      refine ⟨perm (ir + g.ndone), ?_, i3⟩
      rw [List.mem_filter, mem_slice]
      refine ⟨⟨ir + g.ndone, by omega, by omega, rfl⟩, ?_⟩
      apply decide_eq_true
      have hz : perm (ir + g.ndone) + g.firstrow = z := i3
      rw [hz, h2]
      have c1' : z ∈ candRows g rmat perm g.ntogo :=
        (mem_candRows _ _ _ _ _).mpr ⟨ir, i1, by assumption, i3⟩
      simp [c1', c2']
  have e1 := hperm.length_eq
  have e2 := h1.length_eq
  rw [List.length_map] at e1
  rw [slice_length] at e2
  omega

/-- The layout of the new permutation written by `SelectSet`. -/
theorem SelectSet_layout (rmat : ReduceMatType) (cinfo : CommInfoType)
    (perm iperm newperm newiperm : Nat → Nat) (g : hypre_PilutSolverGlobals)
    (hshape : LevelShape g)
    (hinj : InjOnRange perm g.ndone g.lnrows)
    (hmap : ∀ ir, ir < g.ntogo → g.map (activeRow g perm ir) = 0) :
    (SelectSet rmat cinfo perm iperm newperm newiperm g).num ≤ g.ntogo ∧
    slice (SelectSet rmat cinfo perm iperm newperm newiperm g).newperm g.ndone
        (SelectSet rmat cinfo perm iperm newperm newiperm g).num
      = (slice perm g.ndone g.ntogo).filter
          (fun l => decide ((SelectSet rmat cinfo perm iperm newperm newiperm g).globals.map
            (l + g.firstrow) = 1)) ∧
    slice (SelectSet rmat cinfo perm iperm newperm newiperm g).newperm
        (g.ndone + (SelectSet rmat cinfo perm iperm newperm newiperm g).num)
        (g.ntogo - (SelectSet rmat cinfo perm iperm newperm newiperm g).num)
      = (slice perm g.ndone g.ntogo).filter
          (fun l => !decide ((SelectSet rmat cinfo perm iperm newperm newiperm g).globals.map
            (l + g.firstrow) = 1)) ∧
    (∀ x, g.ndone ≤ x → x < g.lnrows →
      (SelectSet rmat cinfo perm iperm newperm newiperm g).newiperm
        ((SelectSet rmat cinfo perm iperm newperm newiperm g).newperm x) = x ∧
      (SelectSet rmat cinfo perm iperm newperm newiperm g).newperm x
        ∈ slice perm g.ndone g.ntogo) ∧
    (∀ x, ¬ (g.ndone ≤ x ∧ x < g.lnrows) →
      (SelectSet rmat cinfo perm iperm newperm newiperm g).newperm x = newperm x) ∧
    (∀ l, l ∉ slice perm g.ndone g.ntogo →
      (SelectSet rmat cinfo perm iperm newperm newiperm g).newiperm l = newiperm l) := by
  obtain ⟨hs1, hs2⟩ := hshape
  have hN : g.lnrows - g.ndone = g.ntogo := by omega
  have hinj' : InjOnRange perm g.ndone (g.ndone + g.ntogo) := by rw [hs2]; exact hinj
  have hcnt := SelectSet_marked_count rmat cinfo perm iperm newperm newiperm g hinj' hmap
  have key := SelectSet_pass3_loop_spec g
    (SelectSet rmat cinfo perm iperm newperm newiperm g).globals.map perm newperm newiperm
    (SelectSet rmat cinfo perm iperm newperm newiperm g).num g.ntogo g.ntogo hinj'
    (le_of_eq hcnt) (le_refl _)
  have hnot := filter_length_add_not (slice perm g.ndone g.ntogo)
    (fun l => decide ((SelectSet rmat cinfo perm iperm newperm newiperm g).globals.map
            (l + g.firstrow) = 1))
  rw [slice_length, hcnt] at hnot
  have hnp : (SelectSet rmat cinfo perm iperm newperm newiperm g).newperm =
      (forLoop g.ndone (SelectSet_pass3_body g
        (SelectSet rmat cinfo perm iperm newperm newiperm g).globals.map perm) g.ntogo
        { j := g.ndone, k := g.ndone + (SelectSet rmat cinfo perm iperm newperm newiperm g).num,
          newperm := newperm, newiperm := newiperm }).newperm := by
    show (SelectSet_pass3 g _ perm newperm newiperm _).newperm = _
    unfold SelectSet_pass3
    rw [hN]
    rfl
  have hnip : (SelectSet rmat cinfo perm iperm newperm newiperm g).newiperm =
      (forLoop g.ndone (SelectSet_pass3_body g
        (SelectSet rmat cinfo perm iperm newperm newiperm g).globals.map perm) g.ntogo
        { j := g.ndone, k := g.ndone + (SelectSet rmat cinfo perm iperm newperm newiperm g).num,
          newperm := newperm, newiperm := newiperm }).newiperm := by
    show (SelectSet_pass3 g _ perm newperm newiperm _).newiperm = _
    unfold SelectSet_pass3
    rw [hN]
    rfl
  obtain ⟨_, _, k3, k4, k5, k6, k7⟩ := key
  rw [hcnt] at k3 k5 k6
  have hlen0 : (List.filter (fun l => !decide
      ((SelectSet rmat cinfo perm iperm newperm newiperm g).globals.map (l + g.firstrow) = 1))
      (slice perm g.ndone g.ntogo)).length
      = g.ntogo - (SelectSet rmat cinfo perm iperm newperm newiperm g).num := by omega
  rw [hlen0] at k4 k5 k6
  refine ⟨by omega, ?_, ?_, ?_, ?_, ?_⟩
  · rw [hnp]; exact k3
  · rw [hnp]; exact k4
  · intro x x1 x2
    rw [hnip, hnp]
    exact k5 x (by omega)
  · intro x hx
    rw [hnp]
    exact k6 x (by omega)
  · intro l hl
    rw [hnip]
    exact k7 l hl

theorem activeRow_map_zero (g : hypre_PilutSolverGlobals) (perm : Nat → Nat)
    (hshape : LevelShape g) (hperm : ∀ i, i < g.lnrows → perm i < g.lnrows)
    (hmap : ∀ x, g.firstrow ≤ x → x < g.lastrow → g.map x = 0) :
    ∀ ir, ir < g.ntogo → g.map (activeRow g perm ir) = 0 := by
  intro ir hir
  obtain ⟨h1, h2⟩ := hshape
  have := hperm (ir + g.ndone) (by omega)
  exact hmap _ (by unfold activeRow; omega) (by unfold activeRow; omega)

theorem InjOnRange_mono (perm : Nat → Nat) (lo hi lo2 hi2 : Nat) (h1 : lo ≤ lo2) (h2 : hi2 ≤ hi)
    (h : InjOnRange perm lo hi) : InjOnRange perm lo2 hi2 :=
  fun i j a b c d e => h i j (by omega) (by omega) (by omega) (by omega) e

/-- C4. Symmetry fix: when `perm` does not repeat a row on the active positions (as it
does not when it is a permutation), the candidates of the first loop are pairwise
different, and after `SelectSet` no row left in `jw[0..num)` is an entry of the send list
of a lower-numbered neighbour; every candidate that is such an entry is gone from `jw` and
its map entry is 0; `num` has gone down by the number of candidates removed; and every
other candidate is still in `jw[0..num)` with its map entry 1. -/
theorem SelectSet_symmetry_fix (rmat : ReduceMatType) (cinfo : CommInfoType)
    (perm iperm newperm newiperm : Nat → Nat) (g : hypre_PilutSolverGlobals)
    (hinj : InjOnRange perm g.ndone (g.ndone + g.ntogo)) :
    (slice (SelectSet_pass1 g rmat perm).jw 0 (SelectSet_pass1 g rmat perm).num).Nodup ∧
    (∀ x ∈ slice (SelectSet rmat cinfo perm iperm newperm newiperm g).globals.jw 0
        (SelectSet rmat cinfo perm iperm newperm newiperm g).num,
      x ∉ lowerSendRows g cinfo) ∧
    (∀ x ∈ slice (SelectSet_pass1 g rmat perm).jw 0 (SelectSet_pass1 g rmat perm).num,
      x ∈ lowerSendRows g cinfo →
      x ∉ slice (SelectSet rmat cinfo perm iperm newperm newiperm g).globals.jw 0
        (SelectSet rmat cinfo perm iperm newperm newiperm g).num ∧
      (SelectSet rmat cinfo perm iperm newperm newiperm g).globals.map x = 0) ∧
    ((SelectSet rmat cinfo perm iperm newperm newiperm g).num +
        ((slice (SelectSet_pass1 g rmat perm).jw 0 (SelectSet_pass1 g rmat perm).num).filter
          (fun x => decide (x ∈ lowerSendRows g cinfo))).length
      = (SelectSet_pass1 g rmat perm).num) ∧
    (∀ x ∈ slice (SelectSet_pass1 g rmat perm).jw 0 (SelectSet_pass1 g rmat perm).num,
      x ∉ lowerSendRows g cinfo →
      x ∈ slice (SelectSet rmat cinfo perm iperm newperm newiperm g).globals.jw 0
        (SelectSet rmat cinfo perm iperm newperm newiperm g).num ∧
      (SelectSet rmat cinfo perm iperm newperm newiperm g).globals.map x = 1) := by
  obtain ⟨p1, _⟩ := SelectSet_pass1_spec g rmat perm
  obtain ⟨h1, h2⟩ := SelectSet_set_spec rmat cinfo perm iperm newperm newiperm g hinj
  rw [p1]
  refine ⟨candRows_nodup g rmat perm hinj, ?_, ?_, ?_, ?_⟩
  · intro x hx
    have := (h1.mem_iff).mp hx
    rw [List.mem_filter] at this
    simpa using this.2
  · intro x hx hX
    refine ⟨?_, ?_⟩
    · intro hmem
      have := (h1.mem_iff).mp hmem
      rw [List.mem_filter] at this
      exact (by simpa using this.2 : x ∉ lowerSendRows g cinfo) hX
    · rw [h2 x]
      simp [hx, hX]
  · have e1 := h1.length_eq
    rw [slice_length] at e1
    have e2 := filter_length_add_not (candRows g rmat perm g.ntogo)
      (fun x => decide (x ∈ lowerSendRows g cinfo))
    have e3 : (candRows g rmat perm g.ntogo).length = (SelectSet_pass1 g rmat perm).num := by
      rw [← p1, slice_length]
    have e4 : (List.filter (fun x => !decide (x ∈ lowerSendRows g cinfo))
        (candRows g rmat perm g.ntogo)) =
        (List.filter (fun y => decide (y ∉ lowerSendRows g cinfo))
        (candRows g rmat perm g.ntogo)) := by
      apply List.filter_congr
      intro x _
      simp
    rw [e4] at e2
    omega
  · intro x hx hX
    refine ⟨?_, ?_⟩
    · apply (h1.mem_iff).mpr
      rw [List.mem_filter]
      exact ⟨hx, by simpa using hX⟩
    · rw [h2 x]
      simp [hx, hX]

/-- C5. New permutation layout: when `perm` is a permutation of `0..lnrows-1` and the map
is 0 on all local rows on entry, `SelectSet` returns `num` such that
`newperm[ndone..ndone+num)` lists exactly the active rows with map entry 1 in the order
of `perm[ndone..lnrows)`, `newperm[ndone+num..lnrows)` lists exactly the other active rows
in that order, and `newiperm[newperm[j]] = j` for every `j` in `[ndone, lnrows)`. -/
theorem SelectSet_new_permutation_layout (rmat : ReduceMatType) (cinfo : CommInfoType)
    (perm iperm newperm newiperm : Nat → Nat) (g : hypre_PilutSolverGlobals)
    (hshape : LevelShape g)
    (hperm : ∀ i, i < g.lnrows → perm i < g.lnrows)
    (hinj : InjOnRange perm 0 g.lnrows)
    (hmap : ∀ x, g.firstrow ≤ x → x < g.lastrow → g.map x = 0) :
    g.ndone + (SelectSet rmat cinfo perm iperm newperm newiperm g).num ≤ g.lnrows ∧
    slice (SelectSet rmat cinfo perm iperm newperm newiperm g).newperm g.ndone
        (SelectSet rmat cinfo perm iperm newperm newiperm g).num
      = (slice perm g.ndone (g.lnrows - g.ndone)).filter
          (fun l => decide ((SelectSet rmat cinfo perm iperm newperm newiperm g).globals.map
            (l + g.firstrow) = 1)) ∧
    slice (SelectSet rmat cinfo perm iperm newperm newiperm g).newperm
        (g.ndone + (SelectSet rmat cinfo perm iperm newperm newiperm g).num)
        (g.lnrows - (g.ndone + (SelectSet rmat cinfo perm iperm newperm newiperm g).num))
      = (slice perm g.ndone (g.lnrows - g.ndone)).filter
          (fun l => !decide ((SelectSet rmat cinfo perm iperm newperm newiperm g).globals.map
            (l + g.firstrow) = 1)) ∧
    (∀ j, g.ndone ≤ j → j < g.lnrows →
      (SelectSet rmat cinfo perm iperm newperm newiperm g).newiperm
        ((SelectSet rmat cinfo perm iperm newperm newiperm g).newperm j) = j) := by
  obtain ⟨l1, l2, l3, l4, _, _⟩ := SelectSet_layout rmat cinfo perm iperm newperm newiperm g
    hshape (InjOnRange_mono perm 0 g.lnrows g.ndone g.lnrows (Nat.zero_le _) (le_refl _) hinj)
    (activeRow_map_zero g perm hshape hperm hmap)
  have hN : g.lnrows - g.ndone = g.ntogo := by have := hshape.2; omega
  have hM : g.lnrows - (g.ndone + (SelectSet rmat cinfo perm iperm newperm newiperm g).num)
      = g.ntogo - (SelectSet rmat cinfo perm iperm newperm newiperm g).num := by
    have := hshape.2; omega
  rw [hN, hM]
  exact ⟨by have := hshape.2; omega, l2, l3, fun j h1 h2 => (l4 j h1 h2).1⟩

/-- C6. Permutation invariant of the level driver: if at the start of a level (map 0 on
the local rows, `lastrow = firstrow + lnrows`, `ndone + ntogo = lnrows`) `perm` is a
permutation of `0..lnrows-1`, `iperm` is its inverse and `newperm`/`newiperm` equal
`perm`/`iperm`, then after `SelectSet` and the two copies of `ParILUT` `perm` is again a
permutation of `0..lnrows-1`, `iperm` is its exact inverse, `newperm`/`newiperm` again
equal `perm`/`iperm`, and `perm[0..ndone)` is unchanged. -/
theorem ParILUT_level_perm_invariant (rmat : ReduceMatType) (cinfo : CommInfoType)
    (p : PermArrays) (g : hypre_PilutSolverGlobals)
    (hshape : LevelShape g)
    (hmap : ∀ x, g.firstrow ≤ x → x < g.lastrow → g.map x = 0)
    (hpi : PermInv g.lnrows p.perm p.iperm)
    (hnew : ∀ i, i < g.lnrows → p.newperm i = p.perm i ∧ p.newiperm i = p.iperm i) :
    PermInv g.lnrows (ParILUT_level_perm rmat cinfo p g).perm
      (ParILUT_level_perm rmat cinfo p g).iperm ∧
    (∀ i, i < g.lnrows →
      (ParILUT_level_perm rmat cinfo p g).newperm i = (ParILUT_level_perm rmat cinfo p g).perm i ∧
      (ParILUT_level_perm rmat cinfo p g).newiperm i
        = (ParILUT_level_perm rmat cinfo p g).iperm i) ∧
    (∀ i, i < g.ndone → (ParILUT_level_perm rmat cinfo p g).perm i = p.perm i) := by
  obtain ⟨hp1, hp2⟩ := hpi
  have hinj : InjOnRange p.perm 0 g.lnrows := by
    intro i j _ hi _ hj e
    have a := (hp1 i hi).2
    have b := (hp1 j hj).2
    rw [e] at a
    omega
  obtain ⟨l1, l2, l3, l4, l5, l6⟩ := SelectSet_layout rmat cinfo p.perm p.iperm p.newperm
    p.newiperm g hshape
    (InjOnRange_mono p.perm 0 g.lnrows g.ndone g.lnrows (Nat.zero_le _) (le_refl _) hinj)
    (activeRow_map_zero g p.perm hshape (fun i hi => (hp1 i hi).1) hmap)
  obtain ⟨hs1, hs2⟩ := hshape
  generalize hr : SelectSet rmat cinfo p.perm p.iperm p.newperm p.newiperm g = r
    at l1 l2 l3 l4 l5 l6
  have hperm' : ∀ i, (ParILUT_level_perm rmat cinfo p g).perm i =
      if g.ndone ≤ i ∧ i < g.ndone + g.ntogo then r.newperm i else p.perm i := by
    intro i; simp only [ParILUT_level_perm, memcpy_idx, hr]
  have hiperm' : ∀ l, (ParILUT_level_perm rmat cinfo p g).iperm l =
      if 0 ≤ l ∧ l < 0 + g.lnrows then r.newiperm l else p.iperm l := by
    intro i; simp only [ParILUT_level_perm, memcpy_idx, hr]
  have hnp' : (ParILUT_level_perm rmat cinfo p g).newperm = r.newperm := by
    simp only [ParILUT_level_perm, hr]
  have hnip' : (ParILUT_level_perm rmat cinfo p g).newiperm = r.newiperm := by
    simp only [ParILUT_level_perm, hr]
  have hA : ∀ l, l ∈ slice p.perm g.ndone g.ntogo → l < g.lnrows := by
    intro l hl
    rw [mem_slice] at hl
    obtain ⟨i, _, i2, rfl⟩ := hl
    exact (hp1 i (by omega)).1
  have hnotA : ∀ i, i < g.ndone → p.perm i ∉ slice p.perm g.ndone g.ntogo := by
    intro i hi hmem
    rw [mem_slice] at hmem
    obtain ⟨j, j1, j2, j3⟩ := hmem
    have := hinj j i (Nat.zero_le _) (by omega) (Nat.zero_le _) (by omega) j3
    omega
  refine ⟨⟨?_, ?_⟩, ?_, ?_⟩
  · intro i hi
    rw [hperm' i]
    by_cases hc : g.ndone ≤ i
    · have hc' : g.ndone ≤ i ∧ i < g.ndone + g.ntogo := ⟨hc, by omega⟩
      simp only [hc', and_self, if_true]
      obtain ⟨a1, a2⟩ := l4 i hc hi
      have hlt := hA _ a2
      refine ⟨hlt, ?_⟩
      rw [hiperm']
      simp only [Nat.zero_le, Nat.zero_add, hlt, and_self, if_true]
      exact a1
    · have hc' : ¬ (g.ndone ≤ i ∧ i < g.ndone + g.ntogo) := fun h => hc h.1
      simp only [hc', if_false]
      obtain ⟨b1, b2⟩ := hp1 i hi
      refine ⟨b1, ?_⟩
      rw [hiperm']
      simp only [Nat.zero_le, Nat.zero_add, b1, and_self, if_true]
      rw [l6 _ (hnotA i (by omega)), (hnew _ b1).2]
      exact b2
  · intro l hl
    rw [hiperm' l]
    simp only [Nat.zero_le, Nat.zero_add, hl, and_self, if_true]
    obtain ⟨b1, b2⟩ := hp2 l hl
    by_cases hc : g.ndone ≤ p.iperm l
    · -- `l` is an active row: it is written at some position of the new permutation
      have hmem : l ∈ slice p.perm g.ndone g.ntogo :=
        (mem_slice _ _ _ _).mpr ⟨p.iperm l, hc, by omega, b2⟩
      have hx : ∃ x, g.ndone ≤ x ∧ x < g.lnrows ∧ r.newperm x = l := by
        by_cases hsel : r.globals.map (l + g.firstrow) = 1
        · have : l ∈ slice r.newperm g.ndone r.num := by
            rw [l2, List.mem_filter]
            exact ⟨hmem, by simpa using hsel⟩
          rw [mem_slice] at this
          obtain ⟨x, x1, x2, x3⟩ := this
          exact ⟨x, x1, by omega, x3⟩
        · have : l ∈ slice r.newperm (g.ndone + r.num) (g.ntogo - r.num) := by
            rw [l3, List.mem_filter]
            exact ⟨hmem, by simpa using hsel⟩
          rw [mem_slice] at this
          obtain ⟨x, x1, x2, x3⟩ := this
          exact ⟨x, by omega, by omega, x3⟩
      obtain ⟨x, x1, x2, x3⟩ := hx
      have hni : r.newiperm l = x := by rw [← x3]; exact (l4 x x1 x2).1
      rw [hni, hperm' x]
      have hc' : g.ndone ≤ x ∧ x < g.ndone + g.ntogo := ⟨x1, by omega⟩
      simp only [hc', and_self, if_true]
      exact ⟨x2, x3⟩
    · have hnm : l ∉ slice p.perm g.ndone g.ntogo := by
        rw [← b2]
        exact hnotA _ (by omega)
      rw [l6 l hnm, (hnew l hl).2, hperm']
      have hc' : ¬ (g.ndone ≤ p.iperm l ∧ p.iperm l < g.ndone + g.ntogo) := fun h => hc h.1
      simp only [hc', if_false]
      exact ⟨b1, b2⟩
  · intro i hi
    rw [hnp', hnip', hperm' i, hiperm' i]
    simp only [Nat.zero_le, Nat.zero_add, hi, and_self, if_true, and_true]
    by_cases hc : g.ndone ≤ i
    · have hc' : g.ndone ≤ i ∧ i < g.ndone + g.ntogo := ⟨hc, by omega⟩
      simp only [hc', and_self, if_true]
    · have hc' : ¬ (g.ndone ≤ i ∧ i < g.ndone + g.ntogo) := fun h => hc h.1
      simp only [hc', if_false]
      rw [l5 i (fun h => hc h.1)]
      exact (hnew i hi).1
  · intro i hi
    rw [hperm' i]
    have hc' : ¬ (g.ndone ≤ i ∧ i < g.ndone + g.ntogo) := fun h => by omega
    simp only [hc', if_false]

/-! ## SelectSet: the candidate test -/

theorem Idx2PE_loop_spec (vrowdist : Nat → Nat) (idx : Nat) (budget p : Nat) :
    p ≤ Idx2PE_loop vrowdist idx budget p ∧
    Idx2PE_loop vrowdist idx budget p ≤ p + budget ∧
    (∀ q, p ≤ q → q < Idx2PE_loop vrowdist idx budget p → idx ≥ vrowdist (q + 1)) ∧
    (Idx2PE_loop vrowdist idx budget p < p + budget →
      idx < vrowdist (Idx2PE_loop vrowdist idx budget p + 1)) := by
  induction budget generalizing p with
  | zero =>
    simp only [Idx2PE_loop]
    exact ⟨le_refl _, le_refl _, fun q h1 h2 => by omega, fun h => by omega⟩
  | succ b ih =>
    unfold Idx2PE_loop
    split
    · rename_i hge
      obtain ⟨i1, i2, i3, i4⟩ := ih (p + 1)
      refine ⟨by omega, by omega, ?_, fun h => i4 (by omega)⟩
      intro q h1 h2
      by_cases hq : q = p
      · rw [hq]; exact hge
      · exact i3 q (by omega) h2
    · rename_i hlt
      exact ⟨le_refl _, by omega, fun q h1 h2 => by omega, fun _ => by omega⟩

theorem vrowdist_mono (g : hypre_PilutSolverGlobals) (h : RowDistOK g) (p q : Nat)
    (hpq : p ≤ q) (hq : q ≤ g.npes) : g.vrowdist p ≤ g.vrowdist q := by
  induction q with
  | zero =>
    have : p = 0 := by omega
    rw [this]
  | succ m ih =>
    by_cases hp : p = m + 1
    · rw [hp]
    · exact le_trans (ih (by omega) (by omega)) (h.2.2.1 m (by omega))

/-- The test that ends the column scan of `SelectSet` is true exactly for the columns
that are owned by a strictly lower-numbered PE. -/
theorem SelectSet_test_iff (g : hypre_PilutSolverGlobals) (h : RowDistOK g) (c : Nat) :
    ((c < g.firstrow ∨ c ≥ g.lastrow) ∧ g.mype > Idx2PE c g) ↔ onLowerPE g c := by
  obtain ⟨_, s2, s3, s4⟩ := Idx2PE_loop_spec g.vrowdist c g.npes 0
  obtain ⟨h1, h2, h3, h4, h5⟩ := h
  constructor
  · rintro ⟨_, hlt⟩
    have hlt' : Idx2PE_loop g.vrowdist c g.npes 0 < g.mype := hlt
    refine ⟨Idx2PE_loop g.vrowdist c g.npes 0, hlt', ?_, s4 (by omega)⟩
    by_cases hz : Idx2PE_loop g.vrowdist c g.npes 0 = 0
    · rw [hz, h2]; exact Nat.zero_le _
    · have := s3 (Idx2PE_loop g.vrowdist c g.npes 0 - 1) (Nat.zero_le _) (by omega)
      rw [show Idx2PE_loop g.vrowdist c g.npes 0 - 1 + 1 = Idx2PE_loop g.vrowdist c g.npes 0
        by omega] at this
      exact this
  · rintro ⟨pe, hpe, ho1, ho2⟩
    have hmono := vrowdist_mono g ⟨h1, h2, h3, h4, h5⟩ (pe + 1) g.mype (by omega) (by omega)
    refine ⟨Or.inl (by omega), ?_⟩
    show Idx2PE_loop g.vrowdist c g.npes 0 < g.mype
    by_contra hcon
    have := s3 pe (Nat.zero_le _) (by omega)
    omega

theorem SelectSet_scan_spec (g : hypre_PilutSolverGlobals) (rcolind : Nat → Nat) (nnz : Nat)
    (budget j : Nat) (hb : nnz ≤ j + budget) :
    SelectSet_scan g rcolind nnz budget j = nnz ↔
      j ≤ nnz ∧ ∀ i, j ≤ i → i < nnz →
        ¬ ((rcolind i < g.firstrow ∨ rcolind i ≥ g.lastrow) ∧ g.mype > Idx2PE (rcolind i) g) := by
  induction budget generalizing j with
  | zero =>
    simp only [SelectSet_scan]
    constructor
    · intro e
      exact ⟨by omega, fun i h1 h2 => by omega⟩
    · intro ⟨e, _⟩
      omega
  | succ b ih =>
    unfold SelectSet_scan
    by_cases hj : j < nnz
    · simp only [hj, if_true]
      by_cases ht : (rcolind j < g.firstrow ∨ rcolind j ≥ g.lastrow) ∧
          g.mype > Idx2PE (rcolind j) g
      · simp only [ht, and_self, if_true]
        constructor
        · intro e; omega
        · intro ⟨_, hall⟩
          exact absurd ht (hall j (le_refl _) hj)
      · simp only [ht, if_false]
        rw [ih (j + 1) (by omega)]
        constructor
        · rintro ⟨_, hall⟩
          refine ⟨by omega, ?_⟩
          intro i h1 h2
          by_cases hi : i = j
          · rw [hi]; exact ht
          · exact hall i (by omega) h2
        · rintro ⟨_, hall⟩
          exact ⟨by omega, fun i h1 h2 => hall i (by omega) h2⟩
    · simp only [hj, if_false]
      constructor
      · intro e
        exact ⟨by omega, fun i h1 h2 => by omega⟩
      · intro ⟨e, _⟩
        omega

/-- An active row with at least its diagonal passes the column scan of `SelectSet` exactly
when none of its off-diagonal columns is owned by a strictly lower-numbered PE. -/
theorem SelectSet_passes_iff (g : hypre_PilutSolverGlobals) (rmat : ReduceMatType)
    (h : RowDistOK g) (ir : Nat) (hnz : 1 ≤ rmat.rmat_rnz ir) :
    SelectSet_passes g rmat ir = noLowerColumn g rmat ir := by
  have key := SelectSet_scan_spec g (rmat.rmat_rcolind ir) (rmat.rmat_rnz ir)
    (rmat.rmat_rnz ir) 1 (by omega)
  unfold SelectSet_passes noLowerColumn
  apply decide_eq_decide.mpr
  rw [key]
  constructor
  · rintro ⟨_, hall⟩ j h1 h2 hl
    exact hall j h1 h2 ((SelectSet_test_iff g h _).mpr hl)
  · intro hall
    exact ⟨hnz, fun j h1 h2 ht => hall j h1 h2 ((SelectSet_test_iff g h _).mp ht)⟩

theorem candRows_eq_noLower (g : hypre_PilutSolverGlobals) (rmat : ReduceMatType)
    (perm : Nat → Nat) (h : RowDistOK g) (hnz : ∀ ir, ir < g.ntogo → 1 ≤ rmat.rmat_rnz ir) :
    candRows g rmat perm g.ntogo =
      ((List.range g.ntogo).filter (noLowerColumn g rmat)).map (activeRow g perm) := by
  unfold candRows
  congr 1
  apply List.filter_congr
  intro ir hir
  exact SelectSet_passes_iff g rmat h ir (hnz ir (List.mem_range.mp hir))

theorem activeRow_inj (g : hypre_PilutSolverGlobals) (perm : Nat → Nat)
    (hinj : InjOnRange perm g.ndone (g.ndone + g.ntogo)) (a b : Nat) (ha : a < g.ntogo)
    (hb : b < g.ntogo) (e : activeRow g perm a = activeRow g perm b) : a = b := by
  unfold activeRow at e
  have := hinj (a + g.ndone) (b + g.ndone) (by omega) (by omega) (by omega) (by omega)
    (by omega)
  omega

/-- An active row that does not pass the column scan is not selected: its map entry keeps
its value and, at a level start, the row is not in `newperm[ndone..ndone+num)`. -/
theorem SelectSet_not_passes (rmat : ReduceMatType) (cinfo : CommInfoType)
    (perm iperm newperm newiperm : Nat → Nat) (g : hypre_PilutSolverGlobals)
    (hshape : LevelShape g)
    (hperm : ∀ i, i < g.lnrows → perm i < g.lnrows)
    (hinj : InjOnRange perm 0 g.lnrows)
    (hmap : ∀ x, g.firstrow ≤ x → x < g.lastrow → g.map x = 0)
    (ir : Nat) (hir : ir < g.ntogo) (hnp : SelectSet_passes g rmat ir = false) :
    (SelectSet rmat cinfo perm iperm newperm newiperm g).globals.map (activeRow g perm ir) = 0 ∧
    perm (ir + g.ndone) ∉ slice (SelectSet rmat cinfo perm iperm newperm newiperm g).newperm
      g.ndone (SelectSet rmat cinfo perm iperm newperm newiperm g).num := by
  have hinj' : InjOnRange perm g.ndone (g.ndone + g.ntogo) :=
    InjOnRange_mono perm 0 g.lnrows _ _ (Nat.zero_le _) (by have := hshape.2; omega) hinj
  obtain ⟨_, h2⟩ := SelectSet_set_spec rmat cinfo perm iperm newperm newiperm g hinj'
  have hm0 := activeRow_map_zero g perm hshape hperm hmap
  obtain ⟨_, l2, _⟩ := SelectSet_layout rmat cinfo perm iperm newperm newiperm g hshape
    (InjOnRange_mono perm 0 g.lnrows g.ndone g.lnrows (Nat.zero_le _) (le_refl _) hinj) hm0
  have hnc : activeRow g perm ir ∉ candRows g rmat perm g.ntogo := by
    intro hmem
    rw [mem_candRows] at hmem
    obtain ⟨ir', a1, a2, a3⟩ := hmem
    have := activeRow_inj g perm hinj' ir' ir a1 hir a3
    rw [this, hnp] at a2
    exact Bool.false_ne_true a2
  have hz : (SelectSet rmat cinfo perm iperm newperm newiperm g).globals.map
      (activeRow g perm ir) = 0 := by
    rw [h2]
    simp only [hnc, if_false]
    exact hm0 ir hir
  refine ⟨hz, ?_⟩
  rw [l2, List.mem_filter]
  rintro ⟨_, hd⟩
  have := of_decide_eq_true hd
  unfold activeRow at hz
  omega

/-! ## SelectSet: which rows are given to which PE -/

/-- C2, as the specification states it, fails: on PE 0 of two PEs the active row 1 has the
off-diagonal column 2, which PE 1 owns, and `SelectSet` selects the row all the same: its
map entry is 1 and it is placed in `newperm[ndone..ndone+num)`. -/
theorem SelectSet_higher_column_counterexample :
    (RowDistOK exG0 ∧ LevelShape exG0 ∧ PermInv exG0.lnrows id id ∧
      (∀ x, exG0.firstrow ≤ x → x < exG0.lastrow → exG0.map x = 0)) ∧
    (1 < exG0.ntogo ∧ 1 < exRm0.rmat_rnz 1 ∧ onHigherPE exG0 (exRm0.rmat_rcolind 1 1)) ∧
    (SelectSet exRm0 exCi0 id id id id exG0).globals.map (activeRow exG0 id 1) = 1 ∧
    id (1 + exG0.ndone) ∈ slice (SelectSet exRm0 exCi0 id id id id exG0).newperm exG0.ndone
      (SelectSet exRm0 exCi0 id id id id exG0).num := by
  decide

/-- C2, amended. At a level start with a well-formed row distribution, an active row that
has an off-diagonal column owned by a PE numbered strictly lower than this PE is not
selected by `SelectSet`: its map entry stays 0 and it is not placed in
`newperm[ndone..ndone+num)`. The candidates of the first loop are exactly the active rows
none of whose off-diagonal columns is owned by a strictly lower-numbered PE. -/
theorem SelectSet_excludes_lower_columns (rmat : ReduceMatType) (cinfo : CommInfoType)
    (perm iperm newperm newiperm : Nat → Nat) (g : hypre_PilutSolverGlobals)
    (hrd : RowDistOK g) (hshape : LevelShape g)
    (hperm : ∀ i, i < g.lnrows → perm i < g.lnrows)
    (hinj : InjOnRange perm 0 g.lnrows)
    (hmap : ∀ x, g.firstrow ≤ x → x < g.lastrow → g.map x = 0)
    (hnz : ∀ ir, ir < g.ntogo → 1 ≤ rmat.rmat_rnz ir) :
    (∀ ir j, ir < g.ntogo → 1 ≤ j → j < rmat.rmat_rnz ir →
      onLowerPE g (rmat.rmat_rcolind ir j) →
      (SelectSet rmat cinfo perm iperm newperm newiperm g).globals.map (activeRow g perm ir) = 0 ∧
      perm (ir + g.ndone) ∉ slice (SelectSet rmat cinfo perm iperm newperm newiperm g).newperm
        g.ndone (SelectSet rmat cinfo perm iperm newperm newiperm g).num) ∧
    slice (SelectSet_pass1 g rmat perm).jw 0 (SelectSet_pass1 g rmat perm).num =
      ((List.range g.ntogo).filter (noLowerColumn g rmat)).map (activeRow g perm) := by
  constructor
  · intro ir j hir h1 h2 hlow
    apply SelectSet_not_passes rmat cinfo perm iperm newperm newiperm g hshape hperm hinj hmap
      ir hir
    rw [SelectSet_passes_iff g rmat hrd ir (hnz ir hir)]
    unfold noLowerColumn
    apply decide_eq_false
    intro hall
    exact hall j h1 h2 hlow
  · rw [(SelectSet_pass1_spec g rmat perm).1]
    exact candRows_eq_noLower g rmat perm hrd hnz

/-- Instance of the amended C2 on PE 1 of two PEs: row 2 has a column into row 1 of PE 0
and is not selected; the only candidate is row 3. -/
theorem SelectSet_excludes_lower_columns_witness :
    (RowDistOK exG1 ∧ LevelShape exG1 ∧ (∀ i, i < exG1.lnrows → id i < exG1.lnrows) ∧
      InjOnRange id 0 exG1.lnrows ∧
      (∀ x, exG1.firstrow ≤ x → x < exG1.lastrow → exG1.map x = 0) ∧
      (∀ ir, ir < exG1.ntogo → 1 ≤ exRm1.rmat_rnz ir)) ∧
    ((∀ ir j, ir < exG1.ntogo → 1 ≤ j → j < exRm1.rmat_rnz ir →
      onLowerPE exG1 (exRm1.rmat_rcolind ir j) →
      (SelectSet exRm1 exCi1 id id id id exG1).globals.map (activeRow exG1 id ir) = 0 ∧
      id (ir + exG1.ndone) ∉ slice (SelectSet exRm1 exCi1 id id id id exG1).newperm
        exG1.ndone (SelectSet exRm1 exCi1 id id id id exG1).num) ∧
    slice (SelectSet_pass1 exG1 exRm1 id).jw 0 (SelectSet_pass1 exG1 exRm1 id).num =
      ((List.range exG1.ntogo).filter (noLowerColumn exG1 exRm1)).map (activeRow exG1 id)) :=
  ⟨by decide,
   SelectSet_excludes_lower_columns exRm1 exCi1 id id id id exG1 (by decide) (by decide)
     (by decide) (by decide) (by decide) (by decide)⟩

theorem lowerSendRows_of_mype_zero (g : hypre_PilutSolverGlobals) (cinfo : CommInfoType)
    (h : g.mype = 0) : lowerSendRows g cinfo = [] := by
  unfold lowerSendRows
  rw [List.flatMap_eq_nil_iff]
  intro k _
  simp [h]

/-- A candidate of the first loop that no lower-numbered send neighbour names is
selected: its map entry is 1 and, at a level start, it is in `newperm[ndone..ndone+num)`. -/
theorem SelectSet_selects (rmat : ReduceMatType) (cinfo : CommInfoType)
    (perm iperm newperm newiperm : Nat → Nat) (g : hypre_PilutSolverGlobals)
    (hshape : LevelShape g)
    (hperm : ∀ i, i < g.lnrows → perm i < g.lnrows)
    (hinj : InjOnRange perm 0 g.lnrows)
    (hmap : ∀ x, g.firstrow ≤ x → x < g.lastrow → g.map x = 0)
    (ir : Nat) (hir : ir < g.ntogo) (hp : SelectSet_passes g rmat ir = true)
    (hX : activeRow g perm ir ∉ lowerSendRows g cinfo) :
    (SelectSet rmat cinfo perm iperm newperm newiperm g).globals.map (activeRow g perm ir) = 1 ∧
    perm (ir + g.ndone) ∈ slice (SelectSet rmat cinfo perm iperm newperm newiperm g).newperm
      g.ndone (SelectSet rmat cinfo perm iperm newperm newiperm g).num := by
  have hinj' : InjOnRange perm g.ndone (g.ndone + g.ntogo) :=
    InjOnRange_mono perm 0 g.lnrows _ _ (Nat.zero_le _) (by have := hshape.2; omega) hinj
  obtain ⟨_, h2⟩ := SelectSet_set_spec rmat cinfo perm iperm newperm newiperm g hinj'
  obtain ⟨_, l2, _⟩ := SelectSet_layout rmat cinfo perm iperm newperm newiperm g hshape
    (InjOnRange_mono perm 0 g.lnrows g.ndone g.lnrows (Nat.zero_le _) (le_refl _) hinj)
    (activeRow_map_zero g perm hshape hperm hmap)
  have hc : activeRow g perm ir ∈ candRows g rmat perm g.ntogo :=
    (mem_candRows _ _ _ _ _).mpr ⟨ir, hir, hp, rfl⟩
  have h1 : (SelectSet rmat cinfo perm iperm newperm newiperm g).globals.map
      (activeRow g perm ir) = 1 := by
    rw [h2]
    simp [hc, hX]
  refine ⟨h1, ?_⟩
  rw [l2, List.mem_filter]
  refine ⟨(mem_slice _ _ _ _).mpr ⟨ir + g.ndone, by omega, by omega, rfl⟩, ?_⟩
  apply decide_eq_true
  exact h1

/-- C3. Rows are given to the lowest PE possible. In general, on a PE `g` with a
well-formed row distribution, a row is a candidate after the first loop of `SelectSet`
iff it is an active row none of whose off-diagonal columns is owned by a strictly
lower-numbered PE. For two PEs at a level start, where PE 0 (`g0`) has an active row with a
column into an active row of PE 1 (`g1`) and that row has a column back into the row of
PE 0: `SelectSet` on PE 0 selects its row and `SelectSet` on PE 1 does not select the
other. -/
theorem SelectSet_lowest_PE_keeps
    (g : hypre_PilutSolverGlobals) (rmat : ReduceMatType) (perm : Nat → Nat)
    (g0 g1 : hypre_PilutSolverGlobals) (rmat0 rmat1 : ReduceMatType)
    (cinfo0 cinfo1 : CommInfoType)
    (perm0 iperm0 newperm0 newiperm0 perm1 iperm1 newperm1 newiperm1 : Nat → Nat)
    (ir0 j0 ir1 j1 : Nat)
    (hrd : RowDistOK g) (hnz : ∀ ir, ir < g.ntogo → 1 ≤ rmat.rmat_rnz ir)
    (hrd0 : RowDistOK g0) (hrd1 : RowDistOK g1)
    (hpe0 : g0.mype = 0) (hpe1 : g1.mype = 1) (hdist : g0.vrowdist = g1.vrowdist)
    (hshape0 : LevelShape g0) (hshape1 : LevelShape g1)
    (hperm0 : ∀ i, i < g0.lnrows → perm0 i < g0.lnrows)
    (hperm1 : ∀ i, i < g1.lnrows → perm1 i < g1.lnrows)
    (hinj0 : InjOnRange perm0 0 g0.lnrows) (hinj1 : InjOnRange perm1 0 g1.lnrows)
    (hmap0 : ∀ x, g0.firstrow ≤ x → x < g0.lastrow → g0.map x = 0)
    (hmap1 : ∀ x, g1.firstrow ≤ x → x < g1.lastrow → g1.map x = 0)
    (hnz0 : ∀ ir, ir < g0.ntogo → 1 ≤ rmat0.rmat_rnz ir)
    (hnz1 : ∀ ir, ir < g1.ntogo → 1 ≤ rmat1.rmat_rnz ir)
    (hir0 : ir0 < g0.ntogo) (hj0 : 1 ≤ j0 ∧ j0 < rmat0.rmat_rnz ir0)
    (hir1 : ir1 < g1.ntogo) (hj1 : 1 ≤ j1 ∧ j1 < rmat1.rmat_rnz ir1)
    (hcol0 : rmat0.rmat_rcolind ir0 j0 = activeRow g1 perm1 ir1)
    (hcol1 : rmat1.rmat_rcolind ir1 j1 = activeRow g0 perm0 ir0) :
    (∀ x, x ∈ slice (SelectSet_pass1 g rmat perm).jw 0 (SelectSet_pass1 g rmat perm).num ↔
      ∃ ir, ir < g.ntogo ∧ activeRow g perm ir = x ∧
        ∀ j, 1 ≤ j → j < rmat.rmat_rnz ir → ¬ onLowerPE g (rmat.rmat_rcolind ir j)) ∧
    ((SelectSet rmat0 cinfo0 perm0 iperm0 newperm0 newiperm0 g0).globals.map
        (activeRow g0 perm0 ir0) = 1 ∧
      perm0 (ir0 + g0.ndone) ∈
        slice (SelectSet rmat0 cinfo0 perm0 iperm0 newperm0 newiperm0 g0).newperm g0.ndone
          (SelectSet rmat0 cinfo0 perm0 iperm0 newperm0 newiperm0 g0).num) ∧
    ((SelectSet rmat1 cinfo1 perm1 iperm1 newperm1 newiperm1 g1).globals.map
        (activeRow g1 perm1 ir1) = 0 ∧
      perm1 (ir1 + g1.ndone) ∉
        slice (SelectSet rmat1 cinfo1 perm1 iperm1 newperm1 newiperm1 g1).newperm g1.ndone
          (SelectSet rmat1 cinfo1 perm1 iperm1 newperm1 newiperm1 g1).num) := by
  refine ⟨?_, ?_, ?_⟩
  · intro x
    rw [(SelectSet_pass1_spec g rmat perm).1, mem_candRows]
    constructor
    · rintro ⟨ir, h1, h2, h3⟩
      rw [SelectSet_passes_iff g rmat hrd ir (hnz ir h1)] at h2
      exact ⟨ir, h1, h3, of_decide_eq_true h2⟩
    · rintro ⟨ir, h1, h3, h2⟩
      refine ⟨ir, h1, ?_, h3⟩
      rw [SelectSet_passes_iff g rmat hrd ir (hnz ir h1)]
      exact decide_eq_true h2
  · apply SelectSet_selects rmat0 cinfo0 perm0 iperm0 newperm0 newiperm0 g0 hshape0 hperm0
      hinj0 hmap0 ir0 hir0
    · rw [SelectSet_passes_iff g0 rmat0 hrd0 ir0 (hnz0 ir0 hir0)]
      unfold noLowerColumn
      apply decide_eq_true
      rintro j _ _ ⟨pe, hpe, _⟩
      omega
    · rw [lowerSendRows_of_mype_zero g0 cinfo0 hpe0]
      exact List.not_mem_nil _
  · apply SelectSet_not_passes rmat1 cinfo1 perm1 iperm1 newperm1 newiperm1 g1 hshape1 hperm1
      hinj1 hmap1 ir1 hir1
    rw [SelectSet_passes_iff g1 rmat1 hrd1 ir1 (hnz1 ir1 hir1)]
    unfold noLowerColumn
    apply decide_eq_false
    intro hall
    apply hall j1 hj1.1 hj1.2
    refine ⟨0, by omega, ?_⟩
    rw [hcol1]
    -- the row of PE 0 lies in `[vrowdist 0, vrowdist 1)`
    obtain ⟨_, a2, _, a4, a5⟩ := hrd0
    have hlt := hperm0 (ir0 + g0.ndone) (by have := hshape0.2; omega)
    have hl := hshape0.1
    rw [hpe0] at a4 a5
    unfold Owns activeRow
    rw [← hdist]
    constructor
    · omega
    · show perm0 (ir0 + g0.ndone) + g0.firstrow < g0.vrowdist (0 + 1)
      omega

/-- Instance of C3 on the two PEs with the coupled rows 1 (PE 0) and 2 (PE 1). -/
theorem SelectSet_lowest_PE_keeps_witness :
    (RowDistOK exG1 ∧ (∀ ir, ir < exG1.ntogo → 1 ≤ exRm1.rmat_rnz ir) ∧
      RowDistOK exG0 ∧ exG0.mype = 0 ∧ exG1.mype = 1 ∧ exG0.vrowdist = exG1.vrowdist ∧
      LevelShape exG0 ∧ LevelShape exG1 ∧
      InjOnRange id 0 exG0.lnrows ∧ InjOnRange id 0 exG1.lnrows ∧
      (∀ x, exG0.firstrow ≤ x → x < exG0.lastrow → exG0.map x = 0) ∧
      (∀ x, exG1.firstrow ≤ x → x < exG1.lastrow → exG1.map x = 0) ∧
      (∀ ir, ir < exG0.ntogo → 1 ≤ exRm0.rmat_rnz ir) ∧
      exRm0.rmat_rcolind 1 1 = activeRow exG1 id 0 ∧
      exRm1.rmat_rcolind 0 1 = activeRow exG0 id 1) ∧
    ((∀ x, x ∈ slice (SelectSet_pass1 exG1 exRm1 id).jw 0 (SelectSet_pass1 exG1 exRm1 id).num ↔
      ∃ ir, ir < exG1.ntogo ∧ activeRow exG1 id ir = x ∧
        ∀ j, 1 ≤ j → j < exRm1.rmat_rnz ir → ¬ onLowerPE exG1 (exRm1.rmat_rcolind ir j)) ∧
    ((SelectSet exRm0 exCi0 id id id id exG0).globals.map (activeRow exG0 id 1) = 1 ∧
      id (1 + exG0.ndone) ∈
        slice (SelectSet exRm0 exCi0 id id id id exG0).newperm exG0.ndone
          (SelectSet exRm0 exCi0 id id id id exG0).num) ∧
    ((SelectSet exRm1 exCi1 id id id id exG1).globals.map (activeRow exG1 id 0) = 0 ∧
      id (0 + exG1.ndone) ∉
        slice (SelectSet exRm1 exCi1 id id id id exG1).newperm exG1.ndone
          (SelectSet exRm1 exCi1 id id id id exG1).num)) :=
  ⟨⟨by decide, by decide, by decide, by decide, by decide, rfl, by decide, by decide,
    by decide, by decide, by decide, by decide, by decide, by decide, by decide⟩,
   SelectSet_lowest_PE_keeps exG1 exRm1 id exG0 exG1 exRm0 exRm1 exCi0 exCi1
     id id id id id id id id 1 1 0 1
     (by decide) (by decide) (by decide) (by decide) (by decide) (by decide) rfl
     (by decide) (by decide) (by decide) (by decide) (by decide) (by decide) (by decide)
     (by decide) (by decide) (by decide) (by decide) (by decide) (by decide) (by decide)
     (by decide) (by decide)⟩

/-! ## Instances on the middle PE of three -/

/-- Instance of C4 on the middle PE of three: the candidates are rows 2 and 3; row 2 is
named by PE 0 and removed, row 3 is named only by PE 2 and stays. -/
theorem SelectSet_symmetry_fix_witness :
    InjOnRange id exGm.ndone (exGm.ndone + exGm.ntogo) ∧
    ((slice (SelectSet_pass1 exGm exRmm id).jw 0 (SelectSet_pass1 exGm exRmm id).num).Nodup ∧
    (∀ x ∈ slice (SelectSet exRmm exCim id id id id exGm).globals.jw 0
        (SelectSet exRmm exCim id id id id exGm).num,
      x ∉ lowerSendRows exGm exCim) ∧
    (∀ x ∈ slice (SelectSet_pass1 exGm exRmm id).jw 0 (SelectSet_pass1 exGm exRmm id).num,
      x ∈ lowerSendRows exGm exCim →
      x ∉ slice (SelectSet exRmm exCim id id id id exGm).globals.jw 0
        (SelectSet exRmm exCim id id id id exGm).num ∧
      (SelectSet exRmm exCim id id id id exGm).globals.map x = 0) ∧
    ((SelectSet exRmm exCim id id id id exGm).num +
        ((slice (SelectSet_pass1 exGm exRmm id).jw 0 (SelectSet_pass1 exGm exRmm id).num).filter
          (fun x => decide (x ∈ lowerSendRows exGm exCim))).length
      = (SelectSet_pass1 exGm exRmm id).num) ∧
    (∀ x ∈ slice (SelectSet_pass1 exGm exRmm id).jw 0 (SelectSet_pass1 exGm exRmm id).num,
      x ∉ lowerSendRows exGm exCim →
      x ∈ slice (SelectSet exRmm exCim id id id id exGm).globals.jw 0
        (SelectSet exRmm exCim id id id id exGm).num ∧
      (SelectSet exRmm exCim id id id id exGm).globals.map x = 1)) :=
  ⟨by decide, SelectSet_symmetry_fix exRmm exCim id id id id exGm (by decide)⟩

/-- Instance of C5 on the middle PE of three: `num = 1` and the new permutation puts
local row 1 (global row 3) first. -/
theorem SelectSet_new_permutation_layout_witness :
    (LevelShape exGm ∧ (∀ i, i < exGm.lnrows → id i < exGm.lnrows) ∧
      InjOnRange id 0 exGm.lnrows ∧
      (∀ x, exGm.firstrow ≤ x → x < exGm.lastrow → exGm.map x = 0)) ∧
    (exGm.ndone + (SelectSet exRmm exCim id id id id exGm).num ≤ exGm.lnrows ∧
    slice (SelectSet exRmm exCim id id id id exGm).newperm exGm.ndone
        (SelectSet exRmm exCim id id id id exGm).num
      = (slice id exGm.ndone (exGm.lnrows - exGm.ndone)).filter
          (fun l => decide ((SelectSet exRmm exCim id id id id exGm).globals.map
            (l + exGm.firstrow) = 1)) ∧
    slice (SelectSet exRmm exCim id id id id exGm).newperm
        (exGm.ndone + (SelectSet exRmm exCim id id id id exGm).num)
        (exGm.lnrows - (exGm.ndone + (SelectSet exRmm exCim id id id id exGm).num))
      = (slice id exGm.ndone (exGm.lnrows - exGm.ndone)).filter
          (fun l => !decide ((SelectSet exRmm exCim id id id id exGm).globals.map
            (l + exGm.firstrow) = 1)) ∧
    (∀ j, exGm.ndone ≤ j → j < exGm.lnrows →
      (SelectSet exRmm exCim id id id id exGm).newiperm
        ((SelectSet exRmm exCim id id id id exGm).newperm j) = j)) :=
  ⟨by decide,
   SelectSet_new_permutation_layout exRmm exCim id id id id exGm (by decide) (by decide)
     (by decide) (by decide)⟩

/-- Instance of C6 on the middle PE of three, starting from the identity permutation. -/
theorem ParILUT_level_perm_invariant_witness :
    (LevelShape exGm ∧ (∀ x, exGm.firstrow ≤ x → x < exGm.lastrow → exGm.map x = 0) ∧
      PermInv exGm.lnrows exPerm.perm exPerm.iperm ∧
      (∀ i, i < exGm.lnrows →
        exPerm.newperm i = exPerm.perm i ∧ exPerm.newiperm i = exPerm.iperm i)) ∧
    (PermInv exGm.lnrows (ParILUT_level_perm exRmm exCim exPerm exGm).perm
      (ParILUT_level_perm exRmm exCim exPerm exGm).iperm ∧
    (∀ i, i < exGm.lnrows →
      (ParILUT_level_perm exRmm exCim exPerm exGm).newperm i
        = (ParILUT_level_perm exRmm exCim exPerm exGm).perm i ∧
      (ParILUT_level_perm exRmm exCim exPerm exGm).newiperm i
        = (ParILUT_level_perm exRmm exCim exPerm exGm).iperm i) ∧
    (∀ i, i < exGm.ndone → (ParILUT_level_perm exRmm exCim exPerm exGm).perm i = exPerm.perm i)) :=
  ⟨by decide,
   ParILUT_level_perm_invariant exRmm exCim exPerm exGm (by decide) (by decide) (by decide)
     (by decide)⟩

/-! ## ComputeCommInfo: every remote column is requested -/

theorem slice_push {α : Type} (a : Nat → α) (n : Nat) (v : α) :
    slice (upd a n v) 0 (n + 1) = slice a 0 n ++ [v] := by
  rw [slice_succ, Nat.zero_add, upd_same]
  congr 1
  apply slice_congr
  intro i _ hi
  exact upd_other _ _ _ _ (by omega)

theorem ComputeCommInfo_scan_body_spec (g : hypre_PilutSolverGlobals) (rcolind : Nat → Nat)
    (j : Nat) (s : RecvState) (m0 : Nat → Nat)
    (hinv : ∀ x, s.map x ≠ 0 → m0 x ≠ 0 ∨ x ∈ slice s.rrowind 0 s.nrecv) :
    (∀ x, (ComputeCommInfo_scan_body g rcolind j s).map x ≠ 0 → m0 x ≠ 0 ∨
      x ∈ slice (ComputeCommInfo_scan_body g rcolind j s).rrowind 0
        (ComputeCommInfo_scan_body g rcolind j s).nrecv) ∧
    (∀ x, x ∈ slice s.rrowind 0 s.nrecv →
      x ∈ slice (ComputeCommInfo_scan_body g rcolind j s).rrowind 0
        (ComputeCommInfo_scan_body g rcolind j s).nrecv) ∧
    ((rcolind j < g.firstrow ∨ rcolind j ≥ g.lastrow) → m0 (rcolind j) = 0 →
      rcolind j ∈ slice (ComputeCommInfo_scan_body g rcolind j s).rrowind 0
        (ComputeCommInfo_scan_body g rcolind j s).nrecv) := by
  unfold ComputeCommInfo_scan_body
  by_cases hc : (rcolind j < g.firstrow ∨ rcolind j ≥ g.lastrow) ∧ s.map (rcolind j) = 0
  · simp only [hc, and_self, if_true]
    rw [slice_push]
    refine ⟨?_, ?_, ?_⟩
    · intro x hx
      by_cases hxk : x = rcolind j
      · exact Or.inr (List.mem_append_right _ (List.mem_singleton.mpr hxk))
      · rw [upd_other _ _ _ _ hxk] at hx
        rcases hinv x hx with h | h
        · exact Or.inl h
        · exact Or.inr (List.mem_append_left _ h)
    · intro x hx
      exact List.mem_append_left _ hx
    · intro _ _
      exact List.mem_append_right _ (List.mem_singleton.mpr rfl)
  · simp only [hc, if_false]
    refine ⟨hinv, fun x hx => hx, ?_⟩
    intro hnl hm0
    have hne : s.map (rcolind j) ≠ 0 := fun e => hc ⟨hnl, e⟩
    rcases hinv _ hne with h | h
    · exact absurd hm0 h
    · exact h

theorem ComputeCommInfo_scan_row_spec (g : hypre_PilutSolverGlobals) (rcolind : Nat → Nat)
    (n : Nat) (s : RecvState) (m0 : Nat → Nat)
    (hinv : ∀ x, s.map x ≠ 0 → m0 x ≠ 0 ∨ x ∈ slice s.rrowind 0 s.nrecv) :
    (∀ x, (forLoop 1 (ComputeCommInfo_scan_body g rcolind) n s).map x ≠ 0 → m0 x ≠ 0 ∨
      x ∈ slice (forLoop 1 (ComputeCommInfo_scan_body g rcolind) n s).rrowind 0
        (forLoop 1 (ComputeCommInfo_scan_body g rcolind) n s).nrecv) ∧
    (∀ x, x ∈ slice s.rrowind 0 s.nrecv →
      x ∈ slice (forLoop 1 (ComputeCommInfo_scan_body g rcolind) n s).rrowind 0
        (forLoop 1 (ComputeCommInfo_scan_body g rcolind) n s).nrecv) ∧
    (∀ j, 1 ≤ j → j < 1 + n → (rcolind j < g.firstrow ∨ rcolind j ≥ g.lastrow) →
      m0 (rcolind j) = 0 →
      rcolind j ∈ slice (forLoop 1 (ComputeCommInfo_scan_body g rcolind) n s).rrowind 0
        (forLoop 1 (ComputeCommInfo_scan_body g rcolind) n s).nrecv) := by
  induction n with
  | zero =>
    exact ⟨hinv, fun x hx => hx, fun j h1 h2 => by omega⟩
  | succ m ih =>
    obtain ⟨i1, i2, i3⟩ := ih
    rw [forLoop_succ]
    obtain ⟨b1, b2, b3⟩ := ComputeCommInfo_scan_body_spec g rcolind (1 + m)
      (forLoop 1 (ComputeCommInfo_scan_body g rcolind) m s) m0 i1
    refine ⟨b1, fun x hx => b2 x (i2 x hx), ?_⟩
    intro j h1 h2 hnl hm0
    by_cases hj : j = 1 + m
    · rw [hj] at hnl hm0 ⊢
      exact b3 hnl hm0
    · exact b2 _ (i3 j h1 (by omega) hnl hm0)

/-- Every off-diagonal column of an active row that lies outside `[firstrow, lastrow)`
and whose map entry is 0 on entry is in `rrowind[0..nrecv)` after the first loop of
`ComputeCommInfo`. -/
theorem ComputeCommInfo_scan_requests (g : hypre_PilutSolverGlobals) (rmat : ReduceMatType)
    (cinfo : CommInfoType) (ir j : Nat) (hir : ir < g.ntogo) (hj1 : 1 ≤ j)
    (hj2 : j < rmat.rmat_rnz ir)
    (hnl : rmat.rmat_rcolind ir j < g.firstrow ∨ rmat.rmat_rcolind ir j ≥ g.lastrow)
    (hm0 : g.map (rmat.rmat_rcolind ir j) = 0) :
    rmat.rmat_rcolind ir j ∈ slice (ComputeCommInfo_scan g rmat cinfo).rrowind 0
      (ComputeCommInfo_scan g rmat cinfo).nrecv := by
  have key : ∀ n, n ≤ g.ntogo →
      (∀ x, (forLoop 0 (fun ir s => forLoop 1 (ComputeCommInfo_scan_body g (rmat.rmat_rcolind ir))
          (rmat.rmat_rnz ir - 1) s) n
          { nrecv := 0, rrowind := cinfo.rrowind, map := g.map }).map x ≠ 0 → g.map x ≠ 0 ∨
        x ∈ slice (forLoop 0 (fun ir s => forLoop 1
          (ComputeCommInfo_scan_body g (rmat.rmat_rcolind ir)) (rmat.rmat_rnz ir - 1) s) n
          { nrecv := 0, rrowind := cinfo.rrowind, map := g.map }).rrowind 0
          (forLoop 0 (fun ir s => forLoop 1
          (ComputeCommInfo_scan_body g (rmat.rmat_rcolind ir)) (rmat.rmat_rnz ir - 1) s) n
          { nrecv := 0, rrowind := cinfo.rrowind, map := g.map }).nrecv) ∧
      (ir < n → rmat.rmat_rcolind ir j ∈ slice (forLoop 0 (fun ir s => forLoop 1
          (ComputeCommInfo_scan_body g (rmat.rmat_rcolind ir)) (rmat.rmat_rnz ir - 1) s) n
          { nrecv := 0, rrowind := cinfo.rrowind, map := g.map }).rrowind 0
          (forLoop 0 (fun ir s => forLoop 1
          (ComputeCommInfo_scan_body g (rmat.rmat_rcolind ir)) (rmat.rmat_rnz ir - 1) s) n
          { nrecv := 0, rrowind := cinfo.rrowind, map := g.map }).nrecv) := by
    intro n
    induction n with
    | zero =>
      intro _
      refine ⟨?_, fun h => by omega⟩
      intro x hx
      exact Or.inl hx
    | succ m ih =>
      intro hm
      obtain ⟨i1, i2⟩ := ih (by omega)
      rw [forLoop_succ]
      obtain ⟨r1, r2, r3⟩ := ComputeCommInfo_scan_row_spec g (rmat.rmat_rcolind (0 + m))
        (rmat.rmat_rnz (0 + m) - 1) _ g.map i1
      refine ⟨r1, ?_⟩
      intro hlt
      by_cases hirm : ir = m
      · have e : 0 + m = ir := by omega
        rw [e] at r3 ⊢
        exact r3 j hj1 (by omega) hnl hm0
      · exact r2 _ (i2 (by omega))
  exact (key g.ntogo (le_refl _)).2 hir

/-! ## Independence across PEs -/

/-- C1. Independence across PEs. Let `gp` and `gq` be two PEs with `gp.mype < gq.mype`
and the same well-formed row distribution, `gp` with its map in the zero state that
`ComputeCommInfo` assumes and `gq` at a level start. Let row `r` of `gp` be selected by
`SelectSet` on `gp`, let `c` be an off-diagonal column of `r`'s reduced row that `gq`
owns, and let the send list `srowind` of `gq` for the neighbour `gp.mype` contain every
row that `ComputeCommInfo` on `gp` requested from `gq`. Then `SelectSet` on `gq` does
not select row `c`: its map entry is 0 and it is not in `newperm[ndone..ndone+num)`. -/
theorem SelectSet_independent_across_PEs
    (gp gq : hypre_PilutSolverGlobals) (rmatp rmatq : ReduceMatType)
    (cinfop cinfoq : CommInfoType)
    (permp ipermp newpermp newipermp permq ipermq newpermq newipermq : Nat → Nat)
    (ir j c : Nat)
    (hpq : gp.mype < gq.mype)
    (hrdp : RowDistOK gp) (hrdq : RowDistOK gq) (hdist : gp.vrowdist = gq.vrowdist)
    (hnpes : gp.npes = gq.npes)
    (hmapp : ∀ x, gp.map x = 0)
    (hshapeq : LevelShape gq)
    (hpermq : ∀ i, i < gq.lnrows → permq i < gq.lnrows)
    (hinjq : InjOnRange permq 0 gq.lnrows)
    (hmapq : ∀ x, gq.firstrow ≤ x → x < gq.lastrow → gq.map x = 0)
    (hir : ir < gp.ntogo)
    (hsel : permp (ir + gp.ndone) ∈
      slice (SelectSet rmatp cinfop permp ipermp newpermp newipermp gp).newperm gp.ndone
        (SelectSet rmatp cinfop permp ipermp newpermp newipermp gp).num)
    (hj : 1 ≤ j ∧ j < rmatp.rmat_rnz ir)
    (hc : rmatp.rmat_rcolind ir j = c)
    (hown : Owns gq.vrowdist gq.mype c)
    (hcomm : ∀ x ∈ slice (ComputeCommInfo_scan gp rmatp cinfop).rrowind 0
        (ComputeCommInfo_scan gp rmatp cinfop).nrecv,
      Owns gq.vrowdist gq.mype x →
      ∃ k, k < cinfoq.snnbr ∧ cinfoq.snbrind k = gp.mype ∧
        x ∈ slice cinfoq.srowind (cinfoq.snbrptr k)
          (cinfoq.snbrptr (k + 1) - cinfoq.snbrptr k)) :
    (SelectSet rmatq cinfoq permq ipermq newpermq newipermq gq).globals.map c = 0 ∧
    ∀ l, l + gq.firstrow = c →
      l ∉ slice (SelectSet rmatq cinfoq permq ipermq newpermq newipermq gq).newperm gq.ndone
        (SelectSet rmatq cinfoq permq ipermq newpermq newipermq gq).num := by
  -- `c` lies outside the rows of `gp`, so `gp` requests it
  have hmono := vrowdist_mono gp hrdp (gp.mype + 1) gq.mype (by omega)
    (by have := hrdq.1; omega)
  have hge : c ≥ gp.lastrow := by
    have h5 := hrdp.2.2.2.2
    have := hown.1
    rw [← hdist] at this
    omega
  have hreq := ComputeCommInfo_scan_requests gp rmatp cinfop ir j hir hj.1 hj.2
    (Or.inr (by rw [hc]; exact hge)) (hmapp _)
  rw [hc] at hreq
  -- so it is in the send list of `gq` for the lower-numbered neighbour `gp.mype`
  obtain ⟨k, k1, k2, k3⟩ := hcomm c hreq hown
  have hX : c ∈ lowerSendRows gq cinfoq := by
    unfold lowerSendRows
    rw [List.mem_flatMap]
    refine ⟨k, List.mem_range.mpr k1, ?_⟩
    have : cinfoq.snbrind k < gq.mype := by omega
    simp only [this, if_true]
    exact k3
  have hinj' : InjOnRange permq gq.ndone (gq.ndone + gq.ntogo) :=
    InjOnRange_mono permq 0 gq.lnrows _ _ (Nat.zero_le _) (by have := hshapeq.2; omega) hinjq
  obtain ⟨_, h2⟩ := SelectSet_set_spec rmatq cinfoq permq ipermq newpermq newipermq gq hinj'
  obtain ⟨_, l2, _⟩ := SelectSet_layout rmatq cinfoq permq ipermq newpermq newipermq gq hshapeq
    (InjOnRange_mono permq 0 gq.lnrows gq.ndone gq.lnrows (Nat.zero_le _) (le_refl _) hinjq)
    (activeRow_map_zero gq permq hshapeq hpermq hmapq)
  have hloc : gq.firstrow ≤ c ∧ c < gq.lastrow := by
    have h4 := hrdq.2.2.2.1
    have h5 := hrdq.2.2.2.2
    obtain ⟨o1, o2⟩ := hown
    omega
  have hz : (SelectSet rmatq cinfoq permq ipermq newpermq newipermq gq).globals.map c = 0 := by
    rw [h2]
    by_cases hcand : c ∈ candRows gq rmatq permq gq.ntogo
    · simp [hcand, hX]
    · simp only [hcand, if_false]
      exact hmapq c hloc.1 hloc.2
  refine ⟨hz, ?_⟩
  intro l hl hmem
  rw [l2, List.mem_filter] at hmem
  have := of_decide_eq_true hmem.2
  rw [hl] at this
  omega

/-- Instance of C1 on the two PEs with the coupled rows: row 1 of PE 0 is selected, its
column 2 is owned by PE 1 and requested from it, and PE 1 does not select row 2. -/
theorem SelectSet_independent_across_PEs_witness :
    (exG0.mype < exG1.mype ∧ RowDistOK exG0 ∧ RowDistOK exG1 ∧
      exG0.vrowdist = exG1.vrowdist ∧ LevelShape exG1 ∧ InjOnRange id 0 exG1.lnrows ∧
      (∀ x, exG1.firstrow ≤ x → x < exG1.lastrow → exG1.map x = 0) ∧
      1 < exG0.ntogo ∧
      id (1 + exG0.ndone) ∈
        slice (SelectSet exRm0 exCi0 id id id id exG0).newperm exG0.ndone
          (SelectSet exRm0 exCi0 id id id id exG0).num ∧
      (1 ≤ 1 ∧ 1 < exRm0.rmat_rnz 1) ∧ exRm0.rmat_rcolind 1 1 = 2 ∧
      Owns exG1.vrowdist exG1.mype 2 ∧
      (∀ x ∈ slice (ComputeCommInfo_scan exG0 exRm0 exCi0).rrowind 0
          (ComputeCommInfo_scan exG0 exRm0 exCi0).nrecv,
        Owns exG1.vrowdist exG1.mype x →
        ∃ k, k < exCi1.snnbr ∧ exCi1.snbrind k = exG0.mype ∧
          x ∈ slice exCi1.srowind (exCi1.snbrptr k)
            (exCi1.snbrptr (k + 1) - exCi1.snbrptr k))) ∧
    ((SelectSet exRm1 exCi1 id id id id exG1).globals.map 2 = 0 ∧
    ∀ l, l + exG1.firstrow = 2 →
      l ∉ slice (SelectSet exRm1 exCi1 id id id id exG1).newperm exG1.ndone
        (SelectSet exRm1 exCi1 id id id id exG1).num) :=
  ⟨⟨by decide, by decide, by decide, rfl, by decide, by decide, by decide, by decide,
    by decide, by decide, by decide, by decide, by decide⟩,
   SelectSet_independent_across_PEs exG0 exG1 exRm0 exRm1 exCi0 exCi1
     id id id id id id id id 1 1 2
     (by decide) (by decide) (by decide) rfl rfl (fun _ => rfl) (by decide) (by decide)
     (by decide) (by decide) (by decide) (by decide) (by decide) (by decide) (by decide)
     (by decide)⟩

/-! ## The map over one level -/

theorem stepLoop_eq_foldl {σ : Type} (step hi : Nat) (body : Nat → σ → σ) (budget k : Nat)
    (s : σ) :
    stepLoop step hi body budget k s =
      (recordOffsets step hi budget k).foldl (fun t k => body k t) s := by
  induction budget generalizing k s with
  | zero => rfl
  | succ b ih =>
    unfold stepLoop recordOffsets
    split
    · rw [List.foldl_cons]; exact ih _ _
    · rfl

theorem foldl_upd_of_not_mem {α β : Type} (L : List β) (idx : β → Nat) (val : β → α)
    (m : Nat → α) (z : Nat) (hz : z ∉ L.map idx) :
    (L.foldl (fun t k => upd t (idx k) (val k)) m) z = m z := by
  induction L generalizing m with
  | nil => rfl
  | cons a t ih =>
    rw [List.foldl_cons]
    rw [List.map_cons, List.mem_cons, not_or] at hz
    rw [ih _ hz.2]
    exact upd_other _ _ _ _ hz.1

theorem foldl_upd_zero {β : Type} (L : List β) (idx : β → Nat) (m : Nat → Nat) (z : Nat) :
    (L.foldl (fun t k => upd t (idx k) 0) m) z = if z ∈ L.map idx then 0 else m z := by
  induction L generalizing m with
  | nil => simp
  | cons a t ih =>
    rw [List.foldl_cons, ih]
    by_cases h1 : z ∈ t.map idx
    · simp [h1]
    · by_cases h2 : z = idx a
      · subst h2
        simp [h1]
      · simp only [h1, if_false, List.map_cons, List.mem_cons, h2, or_self]
        exact upd_other _ _ _ _ h2

/-- The receiving loop of `SendFactoredRows` after `n` neighbours:
the buffer position, the counts stored in `rnbrptr`, and the map away from the received
row indices. -/
theorem SendFactoredRows_recv_loop_spec (cinfo : CommInfoType) (inCnt : Nat → Nat)
    (g : hypre_PilutSolverGlobals) (n : Nat) :
    (forLoop 0
      (fun i (s : RecvRowsState) =>
        ({ j := s.j + cinfo.maxntogo * (g.global_maxnz + 2),
           rnbrptr := upd s.rnbrptr i (inCnt i),
           map := stepLoop (g.global_maxnz + 2) (inCnt i)
                 (fun k m => upd m (cinfo.incolind (s.j + k + 1)) (((s.j + k) <<< 1) + 1))
                 (inCnt i) 0 s.map } : RecvRowsState))
      n { j := 0, rnbrptr := cinfo.rnbrptr, map := g.map }).j
        = n * (cinfo.maxntogo * (g.global_maxnz + 2)) ∧
    (∀ i, (forLoop 0
      (fun i (s : RecvRowsState) =>
        ({ j := s.j + cinfo.maxntogo * (g.global_maxnz + 2),
           rnbrptr := upd s.rnbrptr i (inCnt i),
           map := stepLoop (g.global_maxnz + 2) (inCnt i)
                 (fun k m => upd m (cinfo.incolind (s.j + k + 1)) (((s.j + k) <<< 1) + 1))
                 (inCnt i) 0 s.map } : RecvRowsState))
      n { j := 0, rnbrptr := cinfo.rnbrptr, map := g.map }).rnbrptr i
        = if i < n then inCnt i else cinfo.rnbrptr i) ∧
    (∀ z, z ∉ (List.range n).flatMap
        (fun i => (recordOffsets (g.global_maxnz + 2) (inCnt i) (inCnt i) 0).map
          (fun k => cinfo.incolind (i * (cinfo.maxntogo * (g.global_maxnz + 2)) + k + 1))) →
      (forLoop 0
      (fun i (s : RecvRowsState) =>
        ({ j := s.j + cinfo.maxntogo * (g.global_maxnz + 2),
           rnbrptr := upd s.rnbrptr i (inCnt i),
           map := stepLoop (g.global_maxnz + 2) (inCnt i)
                 (fun k m => upd m (cinfo.incolind (s.j + k + 1)) (((s.j + k) <<< 1) + 1))
                 (inCnt i) 0 s.map } : RecvRowsState))
      n { j := 0, rnbrptr := cinfo.rnbrptr, map := g.map }).map z = g.map z) := by
  induction n with
  | zero => simp
  | succ m ih =>
    obtain ⟨h1, h2, h3⟩ := ih
    rw [forLoop_succ]
    generalize forLoop 0 _ m ({ j := 0, rnbrptr := cinfo.rnbrptr, map := g.map } : RecvRowsState)
      = s at h1 h2 h3
    simp only [Nat.zero_add]
    refine ⟨by rw [h1]; ring, ?_, ?_⟩
    · intro i
      by_cases hi : i = m
      · subst hi
        simp
      · rw [upd_other _ _ _ _ hi, h2]
        by_cases c : i < m
        · have : i < m + 1 := by omega
          simp [c, this]
        · have : ¬ i < m + 1 := by omega
          simp [c, this]
    · intro z hz
      rw [List.range_succ, List.flatMap_append, List.mem_append, not_or] at hz
      obtain ⟨hz1, hz2⟩ := hz
      simp only [List.flatMap_cons, List.flatMap_nil, List.append_nil] at hz2
      rw [stepLoop_eq_foldl, h1]
      rw [foldl_upd_of_not_mem _ _ _ _ _ hz2]
      exact h3 z hz1

theorem SendFactoredRows_spec (cinfo : CommInfoType) (inCnt : Nat → Nat)
    (g : hypre_PilutSolverGlobals) :
    (∀ i, (SendFactoredRows cinfo inCnt g).1.rnbrptr i
      = if i < cinfo.rnnbr then inCnt i else cinfo.rnbrptr i) ∧
    (∀ z, z ∉ recvDiagCols g cinfo inCnt → (SendFactoredRows cinfo inCnt g).2.map z = g.map z) ∧
    (SendFactoredRows cinfo inCnt g).1.rnnbr = cinfo.rnnbr ∧
    (SendFactoredRows cinfo inCnt g).1.incolind = cinfo.incolind ∧
    (SendFactoredRows cinfo inCnt g).1.maxntogo = cinfo.maxntogo ∧
    (SendFactoredRows cinfo inCnt g).2.global_maxnz = g.global_maxnz ∧
    (SendFactoredRows cinfo inCnt g).2.ndone = g.ndone ∧
    (SendFactoredRows cinfo inCnt g).2.firstrow = g.firstrow := by
  obtain ⟨_, h2, h3⟩ := SendFactoredRows_recv_loop_spec cinfo inCnt g cinfo.rnnbr
  exact ⟨h2, h3, rfl, rfl, rfl, rfl, rfl, rfl⟩

theorem EraseMap_recv_loop_spec (g : hypre_PilutSolverGlobals) (cinfo : CommInfoType)
    (map : Nat → Nat) (n : Nat) :
    (forLoop 0
      (fun i (s : Nat × (Nat → Nat)) =>
        (s.1 + cinfo.maxntogo * (g.global_maxnz + 2),
         stepLoop (g.global_maxnz + 2) (cinfo.rnbrptr i)
           (fun k m => upd m (cinfo.incolind (s.1 + k)) 0) (cinfo.rnbrptr i) 0 s.2))
      n (1, map)).1 = 1 + n * (cinfo.maxntogo * (g.global_maxnz + 2)) ∧
    ∀ z, (forLoop 0
      (fun i (s : Nat × (Nat → Nat)) =>
        (s.1 + cinfo.maxntogo * (g.global_maxnz + 2),
         stepLoop (g.global_maxnz + 2) (cinfo.rnbrptr i)
           (fun k m => upd m (cinfo.incolind (s.1 + k)) 0) (cinfo.rnbrptr i) 0 s.2))
      n (1, map)).2 z =
      if z ∈ (List.range n).flatMap
        (fun i => (recordOffsets (g.global_maxnz + 2) (cinfo.rnbrptr i) (cinfo.rnbrptr i) 0).map
          (fun k => cinfo.incolind (i * (cinfo.maxntogo * (g.global_maxnz + 2)) + k + 1)))
      then 0 else map z := by
  induction n with
  | zero => simp
  | succ m ih =>
    obtain ⟨h1, h2⟩ := ih
    rw [forLoop_succ]
    generalize forLoop 0 _ m ((1, map) : Nat × (Nat → Nat)) = s at h1 h2
    simp only [Nat.zero_add]
    refine ⟨by rw [h1]; ring, ?_⟩
    intro z
    rw [stepLoop_eq_foldl, foldl_upd_zero, h2 z, h1]
    have e : (fun k => cinfo.incolind (1 + m * (cinfo.maxntogo * (g.global_maxnz + 2)) + k)) =
        (fun k => cinfo.incolind (m * (cinfo.maxntogo * (g.global_maxnz + 2)) + k + 1)) := by
      funext k
      congr 1
      omega
    simp only [List.range_succ, List.flatMap_append, List.mem_append, List.flatMap_cons,
      List.flatMap_nil, List.append_nil, e]
    by_cases c1 : z ∈ List.map
        (fun k => cinfo.incolind (m * (cinfo.maxntogo * (g.global_maxnz + 2)) + k + 1))
        (recordOffsets (g.global_maxnz + 2) (cinfo.rnbrptr m) (cinfo.rnbrptr m) 0)
    · simp [c1]
    · simp [c1]

/-- The function `EraseMap` clears exactly the map entries of the rows `newperm[ndone..ndone+nmis)`
and of the row indices of the received records. -/
theorem EraseMap_spec (cinfo : CommInfoType) (newperm : Nat → Nat) (nmis : Nat)
    (g : hypre_PilutSolverGlobals) (z : Nat) :
    (EraseMap cinfo newperm nmis g).map z =
      if z ∈ selectedRows g newperm nmis ∨ z ∈ recvDiagCols g cinfo cinfo.rnbrptr then 0
      else g.map z := by
  have h2 := (EraseMap_recv_loop_spec g cinfo (EraseMap_local g newperm nmis g.map)
    cinfo.rnnbr).2 z
  have h3 : ∀ z, EraseMap_local g newperm nmis g.map z =
      if z ∈ selectedRows g newperm nmis then 0 else g.map z := by
    intro z
    unfold EraseMap_local selectedRows
    rw [forLoop_eq_foldl (fun i => newperm i + g.firstrow) (fun x m => upd m x 0)]
    have := foldl_upd_zero (slice (fun i => newperm i + g.firstrow) g.ndone nmis) id g.map z
    simpa using this
  show (EraseMap_recv g cinfo (EraseMap_local g newperm nmis g.map)).2 z = _
  unfold EraseMap_recv recvDiagCols
  rw [h2, h3 z]
  by_cases c1 : z ∈ selectedRows g newperm nmis <;>
    by_cases c2 : z ∈ (List.range cinfo.rnnbr).flatMap
      (fun i => (recordOffsets (g.global_maxnz + 2) (cinfo.rnbrptr i) (cinfo.rnbrptr i) 0).map
        (fun k => cinfo.incolind (i * (cinfo.maxntogo * (g.global_maxnz + 2)) + k + 1))) <;>
    simp [c1, c2]

/-- After `SelectSet` at a level start the map differs from the map on entry at most on
the rows of the set. -/
theorem SelectSet_map_frame (rmat : ReduceMatType) (cinfo : CommInfoType)
    (perm iperm newperm newiperm : Nat → Nat) (g : hypre_PilutSolverGlobals)
    (hshape : LevelShape g)
    (hperm : ∀ i, i < g.lnrows → perm i < g.lnrows)
    (hinj : InjOnRange perm 0 g.lnrows)
    (hmap : ∀ x, g.firstrow ≤ x → x < g.lastrow → g.map x = 0) (z : Nat)
    (hz : z ∉ selectedRows g (SelectSet rmat cinfo perm iperm newperm newiperm g).newperm
      (SelectSet rmat cinfo perm iperm newperm newiperm g).num) :
    (SelectSet rmat cinfo perm iperm newperm newiperm g).globals.map z = g.map z := by
  have hinj' : InjOnRange perm g.ndone (g.ndone + g.ntogo) :=
    InjOnRange_mono perm 0 g.lnrows _ _ (Nat.zero_le _) (by have := hshape.2; omega) hinj
  obtain ⟨_, h2⟩ := SelectSet_set_spec rmat cinfo perm iperm newperm newiperm g hinj'
  have hm0 := activeRow_map_zero g perm hshape hperm hmap
  by_cases hc : z ∈ candRows g rmat perm g.ntogo
  · obtain ⟨ir, i1, i2, i3⟩ := (mem_candRows _ _ _ _ _).mp hc
    by_cases hX : z ∈ lowerSendRows g cinfo
    · rw [h2]
      simp only [hc, hX, if_true]
      rw [← i3]
      exact (hm0 ir i1).symm
    · exfalso
      apply hz
      have hsel := (SelectSet_selects rmat cinfo perm iperm newperm newiperm g hshape hperm
        hinj hmap ir i1 i2 (by rw [i3]; exact hX)).2
      rw [mem_slice] at hsel
      obtain ⟨x, x1, x2, x3⟩ := hsel
      unfold selectedRows
      rw [mem_slice]
      refine ⟨x, x1, x2, ?_⟩
      show (SelectSet rmat cinfo perm iperm newperm newiperm g).newperm x + g.firstrow = z
      rw [x3, ← i3]
      rfl
  · rw [h2]
    simp only [hc, if_false]

/-- C7. Map invariant: if at a level start the map is 0 on `[0, nrows)`, then after
`SelectSet`, `SendFactoredRows` (whatever the neighbours deliver) and `EraseMap` without
its debugging sweep the map is 0 on `[0, nrows)` again. `EraseMap` clears exactly the
entries of the rows `newperm[ndone..ndone+nmis)` of the set and of the row index of every
received record, and outside these entries `SelectSet` and `SendFactoredRows` have left
the map as it was on entry. -/
theorem ParILUT_level_map_invariant (rmat : ReduceMatType) (cinfo : CommInfoType)
    (perm iperm newperm newiperm : Nat → Nat) (g : hypre_PilutSolverGlobals)
    (inCnt : Nat → Nat)
    (hshape : LevelShape g) (hrows : g.lastrow ≤ g.nrows)
    (hperm : ∀ i, i < g.lnrows → perm i < g.lnrows)
    (hinj : InjOnRange perm 0 g.lnrows)
    (hmap : ∀ x, x < g.nrows → g.map x = 0) :
    (∀ x, x < g.nrows →
      (EraseMap (SendFactoredRows cinfo inCnt
          (SelectSet rmat cinfo perm iperm newperm newiperm g).globals).1
        (SelectSet rmat cinfo perm iperm newperm newiperm g).newperm
        (SelectSet rmat cinfo perm iperm newperm newiperm g).num
        (SendFactoredRows cinfo inCnt
          (SelectSet rmat cinfo perm iperm newperm newiperm g).globals).2).map x = 0) ∧
    (∀ x,
      (EraseMap (SendFactoredRows cinfo inCnt
          (SelectSet rmat cinfo perm iperm newperm newiperm g).globals).1
        (SelectSet rmat cinfo perm iperm newperm newiperm g).newperm
        (SelectSet rmat cinfo perm iperm newperm newiperm g).num
        (SendFactoredRows cinfo inCnt
          (SelectSet rmat cinfo perm iperm newperm newiperm g).globals).2).map x =
      if x ∈ selectedRows g (SelectSet rmat cinfo perm iperm newperm newiperm g).newperm
            (SelectSet rmat cinfo perm iperm newperm newiperm g).num ∨
          x ∈ recvDiagCols g cinfo inCnt then 0
      else (SendFactoredRows cinfo inCnt
          (SelectSet rmat cinfo perm iperm newperm newiperm g).globals).2.map x) ∧
    (∀ x, x ∉ selectedRows g (SelectSet rmat cinfo perm iperm newperm newiperm g).newperm
            (SelectSet rmat cinfo perm iperm newperm newiperm g).num →
      x ∉ recvDiagCols g cinfo inCnt →
      (SendFactoredRows cinfo inCnt
          (SelectSet rmat cinfo perm iperm newperm newiperm g).globals).2.map x = g.map x) := by
  have hmapl : ∀ x, g.firstrow ≤ x → x < g.lastrow → g.map x = 0 :=
    fun x _ h => hmap x (by omega)
  obtain ⟨s1, s2, s3, s4, s5, s6, s7, s8⟩ := SendFactoredRows_spec cinfo inCnt
    (SelectSet rmat cinfo perm iperm newperm newiperm g).globals
  have hrd : recvDiagCols (SendFactoredRows cinfo inCnt
        (SelectSet rmat cinfo perm iperm newperm newiperm g).globals).2
      (SendFactoredRows cinfo inCnt
        (SelectSet rmat cinfo perm iperm newperm newiperm g).globals).1
      (SendFactoredRows cinfo inCnt
        (SelectSet rmat cinfo perm iperm newperm newiperm g).globals).1.rnbrptr
      = recvDiagCols g cinfo inCnt := by
    unfold recvDiagCols
    rw [s3, s4, s5, s6]
    apply List.flatMap_congr
    intro i hi
    rw [s1 i]
    simp only [List.mem_range.mp hi, if_true]
    rfl
  have hsr : selectedRows (SendFactoredRows cinfo inCnt
        (SelectSet rmat cinfo perm iperm newperm newiperm g).globals).2
      (SelectSet rmat cinfo perm iperm newperm newiperm g).newperm
      (SelectSet rmat cinfo perm iperm newperm newiperm g).num
      = selectedRows g (SelectSet rmat cinfo perm iperm newperm newiperm g).newperm
      (SelectSet rmat cinfo perm iperm newperm newiperm g).num := rfl
  have hrd2 : recvDiagCols (SelectSet rmat cinfo perm iperm newperm newiperm g).globals
      cinfo inCnt = recvDiagCols g cinfo inCnt := rfl
  have hframe : ∀ x,
      x ∉ selectedRows g (SelectSet rmat cinfo perm iperm newperm newiperm g).newperm
            (SelectSet rmat cinfo perm iperm newperm newiperm g).num →
      x ∉ recvDiagCols g cinfo inCnt →
      (SendFactoredRows cinfo inCnt
          (SelectSet rmat cinfo perm iperm newperm newiperm g).globals).2.map x = g.map x := by
    intro x hx1 hx2
    rw [s2 x (by rw [hrd2]; exact hx2)]
    exact SelectSet_map_frame rmat cinfo perm iperm newperm newiperm g hshape hperm hinj hmapl
      x hx1
  have herase : ∀ x,
      (EraseMap (SendFactoredRows cinfo inCnt
          (SelectSet rmat cinfo perm iperm newperm newiperm g).globals).1
        (SelectSet rmat cinfo perm iperm newperm newiperm g).newperm
        (SelectSet rmat cinfo perm iperm newperm newiperm g).num
        (SendFactoredRows cinfo inCnt
          (SelectSet rmat cinfo perm iperm newperm newiperm g).globals).2).map x =
      if x ∈ selectedRows g (SelectSet rmat cinfo perm iperm newperm newiperm g).newperm
            (SelectSet rmat cinfo perm iperm newperm newiperm g).num ∨
          x ∈ recvDiagCols g cinfo inCnt then 0
      else (SendFactoredRows cinfo inCnt
          (SelectSet rmat cinfo perm iperm newperm newiperm g).globals).2.map x := by
    intro x
    rw [EraseMap_spec, hrd, hsr]
  refine ⟨?_, herase, hframe⟩
  intro x hx
  rw [herase x]
  by_cases c : x ∈ selectedRows g (SelectSet rmat cinfo perm iperm newperm newiperm g).newperm
            (SelectSet rmat cinfo perm iperm newperm newiperm g).num ∨
          x ∈ recvDiagCols g cinfo inCnt
  · simp only [c, if_true]
  · simp only [c, if_false]
    rw [not_or] at c
    rw [hframe x c.1 c.2]
    exact hmap x hx

/-- Instance of C7 on the middle PE of three, which selects row 3 and receives the record
of row 4 from PE 2. -/
theorem ParILUT_level_map_invariant_witness :
    (LevelShape exGm ∧ exGm.lastrow ≤ exGm.nrows ∧
      (∀ i, i < exGm.lnrows → id i < exGm.lnrows) ∧ InjOnRange id 0 exGm.lnrows) ∧
    ((∀ x, x < exGm.nrows →
      (EraseMap (SendFactoredRows exCimRecv (arr 0 [4])
          (SelectSet exRmm exCimRecv id id id id exGm).globals).1
        (SelectSet exRmm exCimRecv id id id id exGm).newperm
        (SelectSet exRmm exCimRecv id id id id exGm).num
        (SendFactoredRows exCimRecv (arr 0 [4])
          (SelectSet exRmm exCimRecv id id id id exGm).globals).2).map x = 0) ∧
    (∀ x,
      (EraseMap (SendFactoredRows exCimRecv (arr 0 [4])
          (SelectSet exRmm exCimRecv id id id id exGm).globals).1
        (SelectSet exRmm exCimRecv id id id id exGm).newperm
        (SelectSet exRmm exCimRecv id id id id exGm).num
        (SendFactoredRows exCimRecv (arr 0 [4])
          (SelectSet exRmm exCimRecv id id id id exGm).globals).2).map x =
      if x ∈ selectedRows exGm (SelectSet exRmm exCimRecv id id id id exGm).newperm
            (SelectSet exRmm exCimRecv id id id id exGm).num ∨
          x ∈ recvDiagCols exGm exCimRecv (arr 0 [4]) then 0
      else (SendFactoredRows exCimRecv (arr 0 [4])
          (SelectSet exRmm exCimRecv id id id id exGm).globals).2.map x) ∧
    (∀ x, x ∉ selectedRows exGm (SelectSet exRmm exCimRecv id id id id exGm).newperm
            (SelectSet exRmm exCimRecv id id id id exGm).num →
      x ∉ recvDiagCols exGm exCimRecv (arr 0 [4]) →
      (SendFactoredRows exCimRecv (arr 0 [4])
          (SelectSet exRmm exCimRecv id id id id exGm).globals).2.map x = exGm.map x)) :=
  ⟨by decide,
   ParILUT_level_map_invariant exRmm exCimRecv id id id id exGm (arr 0 [4]) (by decide)
     (by decide) (by decide) (by decide) (fun _ _ => rfl)⟩

/-! ## The iteration budgets are never exhausted

The loops whose bound moves while they run were given a budget. The lemmas below show
that a larger budget does not change their result, so the budget never ends a loop. -/

theorem SelectSet_scan_budget (g : hypre_PilutSolverGlobals) (rcolind : Nat → Nat)
    (nnz budget j : Nat) (h : nnz ≤ j + budget) :
    SelectSet_scan g rcolind nnz (budget + 1) j = SelectSet_scan g rcolind nnz budget j := by
  induction budget generalizing j with
  | zero =>
    have hj : ¬ j < nnz := by omega
    simp [SelectSet_scan, hj]
  | succ b ih =>
    rw [SelectSet_scan]
    conv_rhs => rw [SelectSet_scan]
    by_cases hj : j < nnz
    · simp only [hj, if_true]
      split
      · rfl
      · exact ih (j + 1) (by omega)
    · simp only [hj, if_false]

theorem SelectSet_fix_inner_budget (x budget j : Nat) (s : MISState) (h : s.num ≤ j + budget) :
    SelectSet_fix_inner x (budget + 1) j s = SelectSet_fix_inner x budget j s := by
  induction budget generalizing j s with
  | zero =>
    have hj : ¬ j < s.num := by omega
    simp [SelectSet_fix_inner, hj]
  | succ b ih =>
    rw [SelectSet_fix_inner]
    conv_rhs => rw [SelectSet_fix_inner]
    by_cases hj : j < s.num
    · simp only [hj, if_true]
      split
      · exact ih (j + 1) _ (by simp only; omega)
      · exact ih (j + 1) s (by omega)
    · simp only [hj, if_false]

theorem stepLoop_budget {σ : Type} (step hi : Nat) (body : Nat → σ → σ) (budget k : Nat)
    (s : σ) (hstep : 0 < step) (h : hi ≤ k + budget) :
    stepLoop step hi body (budget + 1) k s = stepLoop step hi body budget k s := by
  induction budget generalizing k s with
  | zero =>
    have hk : ¬ k < hi := by omega
    simp [stepLoop, hk]
  | succ b ih =>
    rw [stepLoop]
    conv_rhs => rw [stepLoop]
    by_cases hk : k < hi
    · simp only [hk, if_true]
      exact ih (k + step) _ (by omega)
    · simp only [hk, if_false]

/-- For a row index below `vrowdist[npes]` the loop of `Idx2PE` ends before its bound
(the assertion `penum < npes` holds) and returns the PE that owns the row. -/
theorem Idx2PE_owner (g : hypre_PilutSolverGlobals) (h : RowDistOK g) (idx : Nat)
    (hidx : idx < g.vrowdist g.npes) :
    Idx2PE idx g < g.npes ∧ Owns g.vrowdist (Idx2PE idx g) idx := by
  obtain ⟨_, s2, s3, s4⟩ := Idx2PE_loop_spec g.vrowdist idx g.npes 0
  obtain ⟨h1, h2, _, _, _⟩ := h
  have hlt : Idx2PE_loop g.vrowdist idx g.npes 0 < g.npes := by
    by_contra hcon
    have e : Idx2PE_loop g.vrowdist idx g.npes 0 = g.npes := by omega
    have := s3 (g.npes - 1) (Nat.zero_le _) (by omega)
    rw [show g.npes - 1 + 1 = g.npes by omega] at this
    omega
  refine ⟨hlt, ?_, s4 (by omega)⟩
  by_cases hz : Idx2PE_loop g.vrowdist idx g.npes 0 = 0
  · show g.vrowdist (Idx2PE_loop g.vrowdist idx g.npes 0) ≤ idx
    rw [hz, h2]
    exact Nat.zero_le _
  · have := s3 (Idx2PE_loop g.vrowdist idx g.npes 0 - 1) (Nat.zero_le _) (by omega)
    rw [show Idx2PE_loop g.vrowdist idx g.npes 0 - 1 + 1 = Idx2PE_loop g.vrowdist idx g.npes 0
      by omega] at this
    exact this

/-! ## FormDU: the diagonal -/

/-- C11. Zero-pivot recovery: `FormDU` stores `dvalues[lrow] = 1/tol` when the workspace
diagonal `w[0]` is 0 and `1/w[0]` otherwise and leaves the other entries of `dvalues`
alone; in both cases the `U` part it forms is the result of the selection loop on the
workspace, whatever `w[0]` is; and for `tol != 0` the stored value is not 0. -/
theorem FormDU_zero_pivot (lrow first : Nat) (ldu : FactorMatType) (tol : ℚ)
    (g : hypre_PilutSolverGlobals) (htol : tol ≠ 0) :
    ((FormDU lrow first ldu tol g).1.dvalues lrow = if g.w 0 = 0 then 1 / tol else 1 / g.w 0) ∧
    (∀ r, r ≠ lrow → (FormDU lrow first ldu tol g).1.dvalues r = ldu.dvalues r) ∧
    ((FormDU lrow first ldu tol g).1.ucolind =
        (FormDU_loop first g.global_maxnz
          { «end» := ldu.uerowptr lrow, ucolind := ldu.ucolind, uvalues := ldu.uvalues,
            lastjr := g.lastjr, jw := g.jw, w := g.w }).ucolind ∧
      (FormDU lrow first ldu tol g).1.uvalues =
        (FormDU_loop first g.global_maxnz
          { «end» := ldu.uerowptr lrow, ucolind := ldu.ucolind, uvalues := ldu.uvalues,
            lastjr := g.lastjr, jw := g.jw, w := g.w }).uvalues ∧
      (FormDU lrow first ldu tol g).1.uerowptr lrow =
        ldu.uerowptr lrow + min g.global_maxnz (g.lastjr - first)) ∧
    (FormDU lrow first ldu tol g).1.dvalues lrow ≠ 0 := by
  have hd : (FormDU lrow first ldu tol g).1.dvalues lrow =
      if g.w 0 = 0 then 1 / tol else 1 / g.w 0 := by
    simp only [FormDU, upd_same]
  refine ⟨hd, ?_, ⟨rfl, rfl, ?_⟩, ?_⟩
  · intro r hr
    simp only [FormDU]
    exact upd_other _ _ _ _ hr
  · simp only [FormDU, upd_same]
    exact (FormDU_loop_counts first g.global_maxnz _).1
  · rw [hd]
    split
    · exact one_div_ne_zero htol
    · rename_i hw
      exact one_div_ne_zero hw

/-- Instance of C11: a workspace with `w[0] = 0` and `tol = 1`. -/
theorem FormDU_zero_pivot_witness :
    ((1 : ℚ) ≠ 0 ∧ exGz.w 0 = 0) ∧
    (((FormDU 0 2 exLdu 1 exGz).1.dvalues 0 = if exGz.w 0 = 0 then 1 / 1 else 1 / exGz.w 0) ∧
    (∀ r, r ≠ 0 → (FormDU 0 2 exLdu 1 exGz).1.dvalues r = exLdu.dvalues r) ∧
    ((FormDU 0 2 exLdu 1 exGz).1.ucolind =
        (FormDU_loop 2 exGz.global_maxnz
          { «end» := exLdu.uerowptr 0, ucolind := exLdu.ucolind, uvalues := exLdu.uvalues,
            lastjr := exGz.lastjr, jw := exGz.jw, w := exGz.w }).ucolind ∧
      (FormDU 0 2 exLdu 1 exGz).1.uvalues =
        (FormDU_loop 2 exGz.global_maxnz
          { «end» := exLdu.uerowptr 0, ucolind := exLdu.ucolind, uvalues := exLdu.uvalues,
            lastjr := exGz.lastjr, jw := exGz.jw, w := exGz.w }).uvalues ∧
      (FormDU 0 2 exLdu 1 exGz).1.uerowptr 0 =
        exLdu.uerowptr 0 + min exGz.global_maxnz (exGz.lastjr - 2)) ∧
    (FormDU 0 2 exLdu 1 exGz).1.dvalues 0 ≠ 0) :=
  ⟨⟨one_ne_zero, by decide⟩, FormDU_zero_pivot 0 2 exLdu 1 exGz one_ne_zero⟩

/-! ## Lists of workspace entries -/

theorem entries_nil (c : Nat → Nat) (v : Nat → ℚ) (lo hi : Nat) (h : hi ≤ lo) :
    entries c v lo hi = [] := by
  unfold entries
  rw [show hi - lo = 0 by omega]
  rfl

theorem entries_cons (c : Nat → Nat) (v : Nat → ℚ) (lo hi : Nat) (h : lo < hi) :
    entries c v lo hi = (c lo, v lo) :: entries c v (lo + 1) hi := by
  unfold entries
  rw [show hi - lo = (hi - (lo + 1)) + 1 by omega, slice_cons]

theorem entries_snoc (c : Nat → Nat) (v : Nat → ℚ) (lo hi : Nat) (h : lo ≤ hi) :
    entries c v lo (hi + 1) = entries c v lo hi ++ [(c hi, v hi)] := by
  unfold entries
  rw [show hi + 1 - lo = (hi - lo) + 1 by omega, slice_succ]
  rw [show lo + (hi - lo) = hi by omega]

theorem entries_split (c : Nat → Nat) (v : Nat → ℚ) (lo mid hi : Nat) (h1 : lo ≤ mid)
    (h2 : mid ≤ hi) : entries c v lo hi = entries c v lo mid ++ entries c v mid hi := by
  unfold entries
  rw [show hi - lo = (mid - lo) + (hi - mid) by omega, slice_append]
  rw [show lo + (mid - lo) = mid by omega]

theorem entries_congr (c c2 : Nat → Nat) (v v2 : Nat → ℚ) (lo hi : Nat)
    (h : ∀ i, lo ≤ i → i < hi → c i = c2 i ∧ v i = v2 i) :
    entries c v lo hi = entries c2 v2 lo hi := by
  unfold entries
  apply slice_congr
  intro i h1 h2
  obtain ⟨a, b⟩ := h i h1 (by omega)
  rw [a, b]

theorem entries_length (c : Nat → Nat) (v : Nat → ℚ) (lo hi : Nat) :
    (entries c v lo hi).length = hi - lo := by
  unfold entries
  exact slice_length _ _ _

/-- Swapping the last entry of `[lo, hi)` into position `m` takes the entry at `m` out. -/
theorem entries_swap_out (c : Nat → Nat) (v : Nat → ℚ) (lo hi m : Nat) (h1 : lo ≤ m)
    (h2 : m < hi) :
    List.Perm (entries c v lo hi)
      ((c m, v m) :: entries (upd c m (c (hi - 1))) (upd v m (v (hi - 1))) lo (hi - 1)) := by
  obtain ⟨n, hn⟩ : ∃ n, hi - lo = n + 1 := ⟨hi - lo - 1, by omega⟩
  have hl : hi - 1 = lo + n := by omega
  have key := slice_swap_out (fun i => (c i, v i)) lo n m h1 (by omega)
  unfold entries
  rw [hn, hl, show lo + n - lo = n by omega]
  have f : (fun i => (upd c m (c (lo + n)) i, upd v m (v (lo + n)) i)) =
      upd (fun i => (c i, v i)) m (c (lo + n), v (lo + n)) := by
    funext i
    unfold upd
    split <;> rfl
  rw [f]
  exact key

/-! ## SecondDropSmall: what is dropped -/

theorem SecondDropSmall_loop_spec (rtol : ℚ) (budget i : Nat) (s : WorkSpace)
    (hi1 : 1 ≤ i) (hi2 : i ≤ s.lastjr) (hb : s.lastjr ≤ i + budget) :
    (SecondDropSmall_loop rtol budget i s).jw 0 = s.jw 0 ∧
    (SecondDropSmall_loop rtol budget i s).w 0 = s.w 0 ∧
    i ≤ (SecondDropSmall_loop rtol budget i s).lastjr ∧
    (SecondDropSmall_loop rtol budget i s).lastjr ≤ s.lastjr ∧
    List.Perm
      (entries (SecondDropSmall_loop rtol budget i s).jw (SecondDropSmall_loop rtol budget i s).w
        1 (SecondDropSmall_loop rtol budget i s).lastjr)
      (entries s.jw s.w 1 i ++
        (entries s.jw s.w i s.lastjr).filter (fun e => decide (rtol ≤ fabs e.2))) := by
  induction budget generalizing i s with
  | zero =>
    have e : i = s.lastjr := by omega
    simp only [SecondDropSmall_loop]
    refine ⟨trivial, trivial, hi2, le_refl _, ?_⟩
    rw [e, entries_nil s.jw s.w s.lastjr s.lastjr (le_refl _)]
    simp
  | succ b ih =>
    unfold SecondDropSmall_loop
    by_cases hlt : i < s.lastjr
    · simp only [hlt, if_true]
      by_cases hdrop : fabs (s.w i) < rtol
      · simp only [hdrop, if_true]
        obtain ⟨a1, a2, a3, a4, a5⟩ := ih i
          { lastjr := s.lastjr - 1, jw := upd s.jw i (s.jw (s.lastjr - 1)),
            w := upd s.w i (s.w (s.lastjr - 1)) } hi1 (by simp only; omega)
          (by simp only; omega)
        simp only at a1 a2 a3 a4 a5
        refine ⟨?_, ?_, a3, by omega, ?_⟩
        · rw [a1]; exact upd_other _ _ _ _ (by omega)
        · rw [a2]; exact upd_other _ _ _ _ (by omega)
        · refine a5.trans ?_
          have e1 : entries (upd s.jw i (s.jw (s.lastjr - 1))) (upd s.w i (s.w (s.lastjr - 1))) 1 i
              = entries s.jw s.w 1 i := by
            apply entries_congr
            intro p _ hp
            exact ⟨upd_other _ _ _ _ (by omega), upd_other _ _ _ _ (by omega)⟩
          rw [e1]
          apply List.Perm.append_left
          have hsw := (entries_swap_out s.jw s.w i s.lastjr i (le_refl _) hlt).filter
            (fun e => decide (rtol ≤ fabs e.2))
          rw [List.filter_cons_of_neg (by simpa using hdrop)] at hsw
          exact hsw.symm
      · simp only [hdrop, if_false]
        obtain ⟨a1, a2, a3, a4, a5⟩ := ih (i + 1) s (by omega) (by omega) (by omega)
        refine ⟨a1, a2, by omega, a4, ?_⟩
        refine a5.trans ?_
        rw [entries_snoc s.jw s.w 1 i hi1, entries_cons s.jw s.w i s.lastjr hlt]
        rw [List.filter_cons_of_pos (by simpa using hdrop)]
        simp
    · have e : i = s.lastjr := by omega
      simp only [hlt, if_false]
      refine ⟨trivial, trivial, hi2, le_refl _, ?_⟩
      rw [e, entries_nil s.jw s.w s.lastjr s.lastjr (le_refl _)]
      simp

/-- C14. The function `SecondDropSmall(rtol)` on a workspace with `lastjr >= 1` leaves
slot 0 (the diagonal) unchanged whatever its magnitude; afterwards the off-diagonal
entries `jw/w[1..lastjr)` are, as a multiset of (column, value) pairs, the original
off-diagonal entries with `|w| >= rtol`; in particular entries with `|w| = rtol` are
kept. -/
theorem SecondDropSmall_spec (rtol : ℚ) (g : hypre_PilutSolverGlobals) (h : 1 ≤ g.lastjr) :
    ((SecondDropSmall rtol g).jw 0 = g.jw 0 ∧ (SecondDropSmall rtol g).w 0 = g.w 0) ∧
    (1 ≤ (SecondDropSmall rtol g).lastjr ∧ (SecondDropSmall rtol g).lastjr ≤ g.lastjr) ∧
    List.Perm
      (entries (SecondDropSmall rtol g).jw (SecondDropSmall rtol g).w 1
        (SecondDropSmall rtol g).lastjr)
      ((entries g.jw g.w 1 g.lastjr).filter (fun e => decide (rtol ≤ fabs e.2))) ∧
    (∀ e ∈ entries g.jw g.w 1 g.lastjr, fabs e.2 = rtol →
      e ∈ entries (SecondDropSmall rtol g).jw (SecondDropSmall rtol g).w 1
        (SecondDropSmall rtol g).lastjr) := by
  obtain ⟨a1, a2, a3, a4, a5⟩ := SecondDropSmall_loop_spec rtol g.lastjr 1
    { lastjr := g.lastjr, jw := g.jw, w := g.w } (le_refl _) h (by simp only; omega)
  rw [entries_nil g.jw g.w 1 1 (le_refl _), List.nil_append] at a5
  refine ⟨⟨a1, a2⟩, ⟨a3, a4⟩, a5, ?_⟩
  intro e he heq
  apply a5.symm.subset
  rw [List.mem_filter]
  exact ⟨he, by simpa using le_of_eq heq.symm⟩

/-- Instance of C14: tolerance 2 on the entries `-3, 1, -7, 2`; the entry 1 is dropped
and the entry 2, whose magnitude equals the tolerance, is kept. -/
theorem SecondDropSmall_spec_witness :
    1 ≤ exGw.lastjr ∧
    (((SecondDropSmall 2 exGw).jw 0 = exGw.jw 0 ∧ (SecondDropSmall 2 exGw).w 0 = exGw.w 0) ∧
    (1 ≤ (SecondDropSmall 2 exGw).lastjr ∧ (SecondDropSmall 2 exGw).lastjr ≤ exGw.lastjr) ∧
    List.Perm
      (entries (SecondDropSmall 2 exGw).jw (SecondDropSmall 2 exGw).w 1
        (SecondDropSmall 2 exGw).lastjr)
      ((entries exGw.jw exGw.w 1 exGw.lastjr).filter (fun e => decide ((2 : ℚ) ≤ fabs e.2))) ∧
    (∀ e ∈ entries exGw.jw exGw.w 1 exGw.lastjr, fabs e.2 = 2 →
      e ∈ entries (SecondDropSmall 2 exGw).jw (SecondDropSmall 2 exGw).w 1
        (SecondDropSmall 2 exGw).lastjr)) :=
  ⟨by decide, SecondDropSmall_spec 2 exGw (by decide)⟩

/-! ## The partition pass -/

theorem SeperateLU_up_spec (inL : Nat → Bool) (jw : Nat → Nat) (first budget last : Nat)
    (h : last ≤ first) (hb : first - last ≤ budget) :
    last ≤ SeperateLU_up inL jw first budget last ∧
    SeperateLU_up inL jw first budget last ≤ first ∧
    (∀ p, last ≤ p → p < SeperateLU_up inL jw first budget last → inL (jw p) = true) ∧
    (SeperateLU_up inL jw first budget last < first →
      inL (jw (SeperateLU_up inL jw first budget last)) = false) := by
  induction budget generalizing last with
  | zero =>
    have e : last = first := by omega
    simp only [SeperateLU_up]
    exact ⟨le_refl _, h, fun p h1 h2 => by omega, fun h3 => by omega⟩
  | succ b ih =>
    unfold SeperateLU_up
    by_cases hc : last < first ∧ inL (jw last) = true
    · simp only [hc, and_self, if_true]
      obtain ⟨a1, a2, a3, a4⟩ := ih (last + 1) (by omega) (by omega)
      refine ⟨by omega, a2, ?_, a4⟩
      intro p h1 h2
      by_cases hp : p = last
      · rw [hp]; exact hc.2
      · exact a3 p (by omega) h2
    · simp only [hc, if_false]
      refine ⟨le_refl _, h, fun p h1 h2 => by omega, ?_⟩
      intro hlt
      rw [not_and] at hc
      simpa using hc hlt

theorem SeperateLU_down_spec (inL : Nat → Bool) (jw : Nat → Nat) (last budget first : Nat)
    (h : last ≤ first) (hb : first - last ≤ budget) :
    last ≤ SeperateLU_down inL jw last budget first ∧
    SeperateLU_down inL jw last budget first ≤ first ∧
    (∀ p, SeperateLU_down inL jw last budget first < p → p ≤ first → inL (jw p) = false) ∧
    (last < SeperateLU_down inL jw last budget first →
      inL (jw (SeperateLU_down inL jw last budget first)) = true) := by
  induction budget generalizing first with
  | zero =>
    have e : last = first := by omega
    simp only [SeperateLU_down]
    exact ⟨h, le_refl _, fun p h1 h2 => by omega, fun h3 => by omega⟩
  | succ b ih =>
    unfold SeperateLU_down
    by_cases hc : last < first ∧ inL (jw first) = false
    · simp only [hc, and_self, if_true]
      obtain ⟨a1, a2, a3, a4⟩ := ih (first - 1) (by omega) (by omega)
      refine ⟨a1, by omega, ?_, a4⟩
      intro p h1 h2
      by_cases hp : p = first
      · rw [hp]; exact hc.2
      · exact a3 p h1 (by omega)
    · simp only [hc, if_false]
      refine ⟨h, le_refl _, fun p h1 h2 => by omega, ?_⟩
      intro hlt
      rw [not_and] at hc
      simpa using hc hlt

/-- Exchanging the entries at two positions of `[lo, hi)` rearranges the entries. -/
theorem entries_swap (c : Nat → Nat) (v : Nat → ℚ) (lo hi a b : Nat) (h1 : lo ≤ a)
    (h2 : a < b) (h3 : b < hi) :
    List.Perm
      (entries (upd (upd c b (c a)) a (c b)) (upd (upd v b (v a)) a (v b)) lo hi)
      (entries c v lo hi) := by
  have e : entries c v lo hi =
      entries c v lo a ++ ((c a, v a) :: entries c v (a + 1) b) ++
        ((c b, v b) :: entries c v (b + 1) hi) := by
    rw [entries_split c v lo b hi (by omega) (by omega),
      entries_split c v lo a b h1 (by omega), entries_cons c v a b h2,
      entries_cons c v b hi h3]
  have e2 : entries (upd (upd c b (c a)) a (c b)) (upd (upd v b (v a)) a (v b)) lo hi =
      entries c v lo a ++ ((c b, v b) :: entries c v (a + 1) b) ++
        ((c a, v a) :: entries c v (b + 1) hi) := by
    rw [entries_split _ _ lo b hi (by omega) (by omega),
      entries_split _ _ lo a b h1 (by omega), entries_cons _ _ a b h2,
      entries_cons _ _ b hi h3]
    have q1 : entries (upd (upd c b (c a)) a (c b)) (upd (upd v b (v a)) a (v b)) lo a =
        entries c v lo a := by
      apply entries_congr
      intro i _ hi2
      rw [upd_other _ _ _ _ (by omega), upd_other _ _ _ _ (by omega),
        upd_other _ _ _ _ (by omega), upd_other _ _ _ _ (by omega)]
      exact ⟨rfl, rfl⟩
    have q2 : entries (upd (upd c b (c a)) a (c b)) (upd (upd v b (v a)) a (v b)) (a + 1) b =
        entries c v (a + 1) b := by
      apply entries_congr
      intro i _ hi2
      rw [upd_other _ _ _ _ (by omega), upd_other _ _ _ _ (by omega),
        upd_other _ _ _ _ (by omega), upd_other _ _ _ _ (by omega)]
      exact ⟨rfl, rfl⟩
    have q3 : entries (upd (upd c b (c a)) a (c b)) (upd (upd v b (v a)) a (v b)) (b + 1) hi =
        entries c v (b + 1) hi := by
      apply entries_congr
      intro i _ hi2
      rw [upd_other _ _ _ _ (by omega), upd_other _ _ _ _ (by omega),
        upd_other _ _ _ _ (by omega), upd_other _ _ _ _ (by omega)]
      exact ⟨rfl, rfl⟩
    rw [q1, q2, q3]
    simp only [upd_same]
    rw [upd_other _ _ _ _ (by omega : b ≠ a), upd_other _ _ _ _ (by omega : b ≠ a)]
    simp only [upd_same]
  rw [e, e2, List.perm_iff_count]
  intro x
  simp only [List.count_append, List.count_cons]
  omega
/-- The loop of the partition pass reaches a `break` within its budget and leaves the
workspace separated: from a state whose left part `[1, last)` is in L and whose right
part `(first, n)` is not, it ends with `last = first`, `[1, first)` in L and `[first, n)`
not in L, the entries of `[1, n)` rearranged and everything else unchanged. -/
theorem SeperateLU_loop_spec (inL : Nat → Bool) (n : Nat) (c0 : Nat → Nat) (v0 : Nat → ℚ)
    (budget : Nat) (s : PartState)
    (h1 : 1 ≤ s.last) (h2 : s.last ≤ s.first) (h3 : s.first < n)
    (hL : ∀ p, 1 ≤ p → p < s.last → inL (s.jw p) = true)
    (hU : ∀ p, s.first < p → p < n → inL (s.jw p) = false)
    (hperm : List.Perm (entries s.jw s.w 1 n) (entries c0 v0 1 n))
    (hframe : ∀ p, (p < 1 ∨ n ≤ p) → s.jw p = c0 p ∧ s.w p = v0 p)
    (hb : s.first - s.last < budget) :
    ∃ t, SeperateLU_loop inL budget s = some t ∧ t.last = t.first ∧ 1 ≤ t.first ∧
      t.first ≤ n ∧
      (∀ p, 1 ≤ p → p < t.first → inL (t.jw p) = true) ∧
      (∀ p, t.first ≤ p → p < n → inL (t.jw p) = false) ∧
      List.Perm (entries t.jw t.w 1 n) (entries c0 v0 1 n) ∧
      (∀ p, (p < 1 ∨ n ≤ p) → t.jw p = c0 p ∧ t.w p = v0 p) := by
  induction budget generalizing s with
  | zero => omega
  | succ b ih =>
    obtain ⟨u1, u2, u3, u4⟩ := SeperateLU_up_spec inL s.jw s.first s.first s.last h2 (by omega)
    generalize hl1 : SeperateLU_up inL s.jw s.first s.first s.last = last1 at u1 u2 u3 u4
    obtain ⟨d1, d2, d3, d4⟩ := SeperateLU_down_spec inL s.jw last1 s.first s.first u2 (by omega)
    generalize hf1 : SeperateLU_down inL s.jw last1 s.first s.first = first1 at d1 d2 d3 d4
    unfold SeperateLU_loop
    simp only [hl1, hf1]
    by_cases hsw : last1 < first1
    · -- the two cursors stopped at a pair to exchange
      have hin : inL (s.jw first1) = true := d4 hsw
      have hout : inL (s.jw last1) = false := u4 (by omega)
      simp only [hsw, if_true]
      have hjw : ∀ p, p ≠ last1 → p ≠ first1 →
          upd (upd s.jw first1 (s.jw last1)) last1 (s.jw first1) p = s.jw p := by
        intro p p1 p2
        rw [upd_other _ _ _ _ p1, upd_other _ _ _ _ p2]
      have hjl : upd (upd s.jw first1 (s.jw last1)) last1 (s.jw first1) last1 = s.jw first1 :=
        upd_same _ _ _
      have hjf : upd (upd s.jw first1 (s.jw last1)) last1 (s.jw first1) first1 = s.jw last1 := by
        rw [upd_other _ _ _ _ (by omega), upd_same]
      have hLs : ∀ p, 1 ≤ p → p < last1 + 1 →
          inL (upd (upd s.jw first1 (s.jw last1)) last1 (s.jw first1) p) = true := by
        intro p p1 p2
        by_cases hp : p = last1
        · rw [hp, hjl]; exact hin
        · rw [hjw p hp (by omega)]
          by_cases hp2 : p < s.last
          · exact hL p p1 hp2
          · exact u3 p (by omega) (by omega)
      have hUs : ∀ p, first1 - 1 < p → p < n →
          inL (upd (upd s.jw first1 (s.jw last1)) last1 (s.jw first1) p) = false := by
        intro p p1 p2
        by_cases hp : p = first1
        · rw [hp, hjf]; exact hout
        · rw [hjw p (by omega) hp]
          by_cases hp2 : p ≤ s.first
          · exact d3 p (by omega) hp2
          · exact hU p (by omega) p2
      have hps : List.Perm
          (entries (upd (upd s.jw first1 (s.jw last1)) last1 (s.jw first1))
            (upd (upd s.w first1 (s.w last1)) last1 (s.w first1)) 1 n)
          (entries c0 v0 1 n) :=
        (entries_swap s.jw s.w 1 n last1 first1 (by omega) hsw (by omega)).trans hperm
      have hfs : ∀ p, (p < 1 ∨ n ≤ p) →
          upd (upd s.jw first1 (s.jw last1)) last1 (s.jw first1) p = c0 p ∧
          upd (upd s.w first1 (s.w last1)) last1 (s.w first1) p = v0 p := by
        intro p hp
        rw [upd_other _ _ _ _ (by omega), upd_other _ _ _ _ (by omega),
          upd_other _ _ _ _ (by omega), upd_other _ _ _ _ (by omega)]
        exact hframe p hp
      by_cases heq : last1 + 1 = first1 - 1
      · simp only [heq, if_true]
        by_cases hmid : inL (upd (upd s.jw first1 (s.jw last1)) last1 (s.jw first1)
            (first1 - 1)) = true
        · simp only [hmid, if_true]
          refine ⟨_, rfl, rfl, by first | rfl | omega | (simp only; omega), by first | rfl | omega | (simp only; omega), ?_, ?_, hps, hfs⟩
          · intro p p1 p2
            try simp only at p2 ⊢
            by_cases hp : p = first1 - 1
            · rw [hp]; exact hmid
            · exact hLs p p1 (by omega)
          · intro p p1 p2
            try simp only at p1 ⊢
            exact hUs p (by omega) p2
        · simp only [hmid, if_false]
          refine ⟨_, rfl, rfl, by first | rfl | omega | (simp only; omega),
            by first | rfl | omega | (simp only; omega), ?_, ?_, hps, hfs⟩
          · intro p p1 p2
            try simp only at p2 ⊢
            exact hLs p p1 (by omega)
          · intro p p1 p2
            try simp only at p1 ⊢
            by_cases hp : p = first1 - 1
            · rw [hp]; simpa using hmid
            · exact hUs p (by omega) p2
      · simp only [heq, if_false]
        by_cases hgt : last1 + 1 > first1 - 1
        · simp only [hgt, if_true]
          refine ⟨_, rfl, by first | rfl | omega | (simp only; omega), by first | rfl | omega | (simp only; omega), by first | rfl | omega | (simp only; omega),
            ?_, ?_, hps, hfs⟩
          · intro p p1 p2
            try simp only at p2 ⊢
            exact hLs p p1 (by omega)
          · intro p p1 p2
            try simp only at p1 ⊢
            exact hUs p (by omega) p2
        · simp only [hgt, if_false]
          exact ih
            { last := last1 + 1, first := first1 - 1,
              jw := upd (upd s.jw first1 (s.jw last1)) last1 (s.jw first1),
              w := upd (upd s.w first1 (s.w last1)) last1 (s.w first1) }
            (by first | rfl | omega | (simp only; omega)) (by first | rfl | omega | (simp only; omega)) (by first | rfl | omega | (simp only; omega))
            hLs hUs hps hfs (by first | rfl | omega | (simp only; omega))
    · -- the cursors met
      have hm : last1 = first1 := by omega
      have hLs : ∀ p, 1 ≤ p → p < last1 → inL (s.jw p) = true := by
        intro p p1 p2
        by_cases hp2 : p < s.last
        · exact hL p p1 hp2
        · exact u3 p (by omega) p2
      have hUs : ∀ p, first1 < p → p < n → inL (s.jw p) = false := by
        intro p p1 p2
        by_cases hp2 : p ≤ s.first
        · exact d3 p p1 hp2
        · exact hU p (by omega) p2
      simp only [hsw, if_false]
      simp only [hm, if_true]
      by_cases hmid : inL (s.jw first1) = true
      · simp only [hmid, if_true]
        refine ⟨_, rfl, rfl, by first | rfl | omega | (simp only; omega), by first | rfl | omega | (simp only; omega), ?_, ?_, hperm, hframe⟩
        · intro p p1 p2
          try simp only at p2 ⊢
          by_cases hp : p = first1
          · rw [hp]; exact hmid
          · exact hLs p p1 (by omega)
        · intro p p1 p2
          try simp only at p1 ⊢
          exact hUs p (by omega) p2
      · simp only [hmid, if_false]
        refine ⟨_, rfl, rfl, by simp only; omega, by simp only; omega, ?_, ?_, hperm, hframe⟩
        · intro p p1 p2
          simp only at p2 ⊢
          exact hLs p p1 (by omega)
        · intro p p1 p2
          simp only at p1 ⊢
          by_cases hp : p = first1
          · rw [hp]; simpa using hmid
          · exact hUs p (by omega) p2
/-- The partition pass on a workspace with `lastjr >= 1`: it returns a separation point
`m` with `1 <= m <= lastjr`, the entries of `[1, m)` pass the test `inL`, those of
`[m, lastjr)` fail it, the entries of `[1, lastjr)` are rearranged and nothing else of the
state changes. -/
theorem SeperateLU_by_spec (inL : Nat → Bool) (g : hypre_PilutSolverGlobals)
    (h : 1 ≤ g.lastjr) :
    ∃ m jw w, SeperateLU_by inL g = some (m, { g with jw := jw, w := w }) ∧
      1 ≤ m ∧ m ≤ g.lastjr ∧
      (∀ p, 1 ≤ p → p < m → inL (jw p) = true) ∧
      (∀ p, m ≤ p → p < g.lastjr → inL (jw p) = false) ∧
      List.Perm (entries jw w 1 g.lastjr) (entries g.jw g.w 1 g.lastjr) ∧
      (∀ p, (p < 1 ∨ g.lastjr ≤ p) → jw p = g.jw p ∧ w p = g.w p) := by
  unfold SeperateLU_by
  by_cases h1 : g.lastjr = 1
  · rw [if_pos h1]
    refine ⟨1, g.jw, g.w, rfl, le_refl _, h, fun p a b => by omega,
      fun p a b => by omega, List.Perm.refl _, fun p _ => ⟨rfl, rfl⟩⟩
  · have h0 : ¬ g.lastjr = 0 := by omega
    rw [if_neg h1, if_neg h0]
    obtain ⟨t, t1, t2, t3, t4, t5, t6, t7, t8⟩ := SeperateLU_loop_spec inL g.lastjr g.jw g.w
      g.lastjr { last := 1, first := g.lastjr - 1, jw := g.jw, w := g.w }
      (le_refl _) (by simp only; omega) (by simp only; omega)
      (fun p a b => by simp only at b; omega) (fun p a b => by simp only at a; omega)
      (List.Perm.refl _) (fun p _ => ⟨rfl, rfl⟩) (by simp only; omega)
    rw [t1]
    exact ⟨t.first, t.jw, t.w, rfl, t3, t4, t5, t6, t7, t8⟩

/-- C15. Partition by independent set: on a workspace with `lastjr >= 1` the function
`SeperateLU_byMIS` terminates and returns `m` with `1 <= m <= lastjr`; every entry in
`[1, m)` has a column whose map value has its lowest bit set, no entry in `[m, lastjr)`
has; slot 0 and `lastjr` (and everything but `jw`, `w`) are unchanged; and the entries of
`[1, lastjr)` are a rearrangement of the entries before the call. -/
theorem SeperateLU_byMIS_spec (g : hypre_PilutSolverGlobals) (h : 1 ≤ g.lastjr) :
    ∃ m jw w, SeperateLU_byMIS g = some (m, { g with jw := jw, w := w }) ∧
      1 ≤ m ∧ m ≤ g.lastjr ∧
      (∀ p, 1 ≤ p → p < m → g.map (jw p) % 2 = 1) ∧
      (∀ p, m ≤ p → p < g.lastjr → ¬ g.map (jw p) % 2 = 1) ∧
      (jw 0 = g.jw 0 ∧ w 0 = g.w 0) ∧
      List.Perm (entries jw w 1 g.lastjr) (entries g.jw g.w 1 g.lastjr) := by
  obtain ⟨m, jw, w, a1, a2, a3, a4, a5, a6, a7⟩ := SeperateLU_by_spec (inL_byMIS g) g h
  refine ⟨m, jw, w, a1, a2, a3, ?_, ?_, a7 0 (Or.inl (by omega)), a6⟩
  · intro p p1 p2
    have := a4 p p1 p2
    simpa [inL_byMIS, IsInMIS] using this
  · intro p p1 p2
    have := a5 p p1 p2
    simpa [inL_byMIS, IsInMIS] using this

/-- Instance of C15: five off-diagonal entries of which the columns 1 and 9 are marked. -/
theorem SeperateLU_byMIS_spec_witness :
    1 ≤ exGp.lastjr ∧
    ∃ m jw w, SeperateLU_byMIS exGp = some (m, { exGp with jw := jw, w := w }) ∧
      1 ≤ m ∧ m ≤ exGp.lastjr ∧
      (∀ p, 1 ≤ p → p < m → exGp.map (jw p) % 2 = 1) ∧
      (∀ p, m ≤ p → p < exGp.lastjr → ¬ exGp.map (jw p) % 2 = 1) ∧
      (jw 0 = exGp.jw 0 ∧ w 0 = exGp.w 0) ∧
      List.Perm (entries jw w 1 exGp.lastjr) (entries exGp.jw exGp.w 1 exGp.lastjr) :=
  ⟨by decide, SeperateLU_byMIS_spec exGp (by decide)⟩

/-- C16. Partition by diagonal: on a workspace with `lastjr >= 1` the function
`SeperateLU_byDIAG(diag, newiperm)` terminates and returns `m` with `1 <= m <= lastjr`;
every entry in `[1, m)` is a local column `c` (`firstrow <= c < lastrow`) with
`newiperm[c - firstrow] < diag`, no entry in `[m, lastjr)` is; slot 0 and `lastjr` (and
everything but `jw`, `w`) are unchanged; and the entries of `[1, lastjr)` are a
rearrangement of the entries before the call. -/
theorem SeperateLU_byDIAG_spec (diag : Nat) (newiperm : Nat → Nat)
    (g : hypre_PilutSolverGlobals) (h : 1 ≤ g.lastjr) :
    ∃ m jw w, SeperateLU_byDIAG diag newiperm g = some (m, { g with jw := jw, w := w }) ∧
      1 ≤ m ∧ m ≤ g.lastjr ∧
      (∀ p, 1 ≤ p → p < m →
        g.firstrow ≤ jw p ∧ jw p < g.lastrow ∧ newiperm (jw p - g.firstrow) < diag) ∧
      (∀ p, m ≤ p → p < g.lastjr →
        ¬ (g.firstrow ≤ jw p ∧ jw p < g.lastrow ∧ newiperm (jw p - g.firstrow) < diag)) ∧
      (jw 0 = g.jw 0 ∧ w 0 = g.w 0) ∧
      List.Perm (entries jw w 1 g.lastjr) (entries g.jw g.w 1 g.lastjr) := by
  obtain ⟨m, jw, w, a1, a2, a3, a4, a5, a6, a7⟩ :=
    SeperateLU_by_spec (inL_byDIAG g diag newiperm) g h
  refine ⟨m, jw, w, a1, a2, a3, ?_, ?_, a7 0 (Or.inl (by omega)), a6⟩
  · intro p p1 p2
    have := a4 p p1 p2
    simpa [inL_byDIAG] using this
  · intro p p1 p2
    have := a5 p p1 p2
    unfold inL_byDIAG at this
    exact of_decide_eq_false this

/-- Instance of C16: with `diag = 2` and the identity as new permutation the only entry in
L is the one of column 1. -/
theorem SeperateLU_byDIAG_spec_witness :
    1 ≤ exGp.lastjr ∧
    ∃ m jw w, SeperateLU_byDIAG 2 id exGp = some (m, { exGp with jw := jw, w := w }) ∧
      1 ≤ m ∧ m ≤ exGp.lastjr ∧
      (∀ p, 1 ≤ p → p < m →
        exGp.firstrow ≤ jw p ∧ jw p < exGp.lastrow ∧ id (jw p - exGp.firstrow) < 2) ∧
      (∀ p, m ≤ p → p < exGp.lastjr →
        ¬ (exGp.firstrow ≤ jw p ∧ jw p < exGp.lastrow ∧ id (jw p - exGp.firstrow) < 2)) ∧
      (jw 0 = exGp.jw 0 ∧ w 0 = exGp.w 0) ∧
      List.Perm (entries jw w 1 exGp.lastjr) (entries exGp.jw exGp.w 1 exGp.lastjr) :=
  ⟨by decide, SeperateLU_byDIAG_spec 2 id exGp (by decide)⟩

/-- The search of `UpdateL` returns a position of the row that holds an entry of smallest
magnitude. -/
theorem UpdateL_min_spec (lvalues : Nat → ℚ) (start fin : Nat) (h : start < fin) :
    start ≤ UpdateL_min lvalues start fin ∧ UpdateL_min lvalues start fin < fin ∧
    ∀ j, start ≤ j → j < fin →
      fabs (lvalues (UpdateL_min lvalues start fin)) ≤ fabs (lvalues j) := by
  have key := forLoop_inv
    (fun n m => start ≤ m ∧ m < start + 1 + n ∧
      ∀ j, start ≤ j → j < start + 1 + n → fabs (lvalues m) ≤ fabs (lvalues j))
    (start + 1) (fun j min => if fabs (lvalues j) < fabs (lvalues min) then j else min)
    (fin - (start + 1)) start
    ⟨le_refl _, by omega, by
      intro j h1 h2
      have : j = start := by omega
      rw [this]⟩
    (by
      intro n m _ ⟨i1, i2, i3⟩
      by_cases hc : fabs (lvalues (start + 1 + n)) < fabs (lvalues m)
      · simp only [hc, if_true]
        refine ⟨by omega, by omega, ?_⟩
        intro j h1 h2
        by_cases hj : j = start + 1 + n
        · rw [hj]
        · exact le_trans (le_of_lt hc) (i3 j h1 (by omega))
      · simp only [hc, if_false]
        refine ⟨i1, by omega, ?_⟩
        intro j h1 h2
        by_cases hj : j = start + 1 + n
        · rw [hj]; exact not_lt.mp hc
        · exact i3 j h1 (by omega))
  have e : start + 1 + (fin - (start + 1)) = fin := by omega
  beta_reduce at key
  rw [e] at key
  exact key

theorem UpdateL_before_succ (lrow : Nat) (ldu : FactorMatType) (g : hypre_PilutSolverGlobals)
    (i : Nat) (h : 1 ≤ i) :
    UpdateL_before lrow ldu g (i + 1) =
      UpdateL_body g (ldu.lsrowptr lrow) i (UpdateL_before lrow ldu g i) := by
  unfold UpdateL_before
  obtain ⟨k, rfl⟩ : ∃ k, i = k + 1 := ⟨i - 1, by omega⟩
  have e : k + 1 + 1 - 1 = k + 1 := by omega
  have e2 : k + 1 - 1 = k := by omega
  rw [e, e2, forLoop_succ, Nat.add_comm 1 k]

/-- C17. Insertion policy of `UpdateL` for `global_maxnz >= 1`. The row starts from the
stored `L` row, the workspace entries `1 .. last-1` are processed in this order, and the
state after the last one is what `UpdateL` stores. At the entry `i`: if the row holds
fewer than `global_maxnz` entries, `(jw[i], w[i])` is appended at the end of the row;
otherwise there is a position `m` of the row whose entry has the smallest magnitude of the
row, and `(jw[i], w[i])` overwrites it if `|lvalues[m]| < |w[i]|`, while the row is left
unchanged if not. -/
theorem UpdateL_policy (lrow last : Nat) (ldu : FactorMatType) (g : hypre_PilutSolverGlobals)
    (hmax : 1 ≤ g.global_maxnz) :
    UpdateL_before lrow ldu g 1 =
      { «end» := ldu.lerowptr lrow, lcolind := ldu.lcolind, lvalues := ldu.lvalues } ∧
    ((UpdateL lrow last ldu g).lcolind = (UpdateL_before lrow ldu g (max 1 last)).lcolind ∧
     (UpdateL lrow last ldu g).lvalues = (UpdateL_before lrow ldu g (max 1 last)).lvalues ∧
     (UpdateL lrow last ldu g).lerowptr lrow = (UpdateL_before lrow ldu g (max 1 last)).«end» ∧
     (UpdateL lrow last ldu g).lsrowptr = ldu.lsrowptr) ∧
    ∀ i, 1 ≤ i → i < last →
      (((UpdateL_before lrow ldu g i).«end» : Int) - (ldu.lsrowptr lrow : Int)
          < (g.global_maxnz : Int) →
        UpdateL_before lrow ldu g (i + 1) =
          { «end» := (UpdateL_before lrow ldu g i).«end» + 1,
            lcolind := upd (UpdateL_before lrow ldu g i).lcolind
              (UpdateL_before lrow ldu g i).«end» (g.jw i),
            lvalues := upd (UpdateL_before lrow ldu g i).lvalues
              (UpdateL_before lrow ldu g i).«end» (g.w i) }) ∧
      (¬ (((UpdateL_before lrow ldu g i).«end» : Int) - (ldu.lsrowptr lrow : Int)
          < (g.global_maxnz : Int)) →
        ∃ m, ldu.lsrowptr lrow ≤ m ∧ m < (UpdateL_before lrow ldu g i).«end» ∧
          (∀ j, ldu.lsrowptr lrow ≤ j → j < (UpdateL_before lrow ldu g i).«end» →
            fabs ((UpdateL_before lrow ldu g i).lvalues m) ≤
              fabs ((UpdateL_before lrow ldu g i).lvalues j)) ∧
          (fabs ((UpdateL_before lrow ldu g i).lvalues m) < fabs (g.w i) →
            UpdateL_before lrow ldu g (i + 1) =
              { «end» := (UpdateL_before lrow ldu g i).«end»,
                lcolind := upd (UpdateL_before lrow ldu g i).lcolind m (g.jw i),
                lvalues := upd (UpdateL_before lrow ldu g i).lvalues m (g.w i) }) ∧
          (¬ fabs ((UpdateL_before lrow ldu g i).lvalues m) < fabs (g.w i) →
            UpdateL_before lrow ldu g (i + 1) = UpdateL_before lrow ldu g i)) := by
  refine ⟨rfl, ?_, ?_⟩
  · have e : max 1 last - 1 = last - 1 := by omega
    refine ⟨?_, ?_, ?_, ?_⟩ <;> simp only [UpdateL, UpdateL_before, upd_same, e]
  · intro i h1 h2
    rw [UpdateL_before_succ lrow ldu g i h1]
    generalize UpdateL_before lrow ldu g i = s
    constructor
    · intro hlt
      simp only [UpdateL_body, hlt, if_true]
    · intro hge
      have hlt : ldu.lsrowptr lrow < s.«end» := by omega
      obtain ⟨m1, m2, m3⟩ := UpdateL_min_spec s.lvalues (ldu.lsrowptr lrow) s.«end» hlt
      refine ⟨UpdateL_min s.lvalues (ldu.lsrowptr lrow) s.«end», m1, m2, m3, ?_, ?_⟩
      · intro hc
        simp only [UpdateL_body, hge, if_false, hc, if_true]
      · intro hc
        simp only [UpdateL_body, hge, if_false, hc]

/-- Instance of C17: the workspace `exGw` with `global_maxnz = 2` and an empty row. -/
theorem UpdateL_policy_witness :
    1 ≤ exGw.global_maxnz ∧
    (UpdateL_before 0 exLdu exGw 1 =
      { «end» := exLdu.lerowptr 0, lcolind := exLdu.lcolind, lvalues := exLdu.lvalues } ∧
    ((UpdateL 0 5 exLdu exGw).lcolind = (UpdateL_before 0 exLdu exGw (max 1 5)).lcolind ∧
     (UpdateL 0 5 exLdu exGw).lvalues = (UpdateL_before 0 exLdu exGw (max 1 5)).lvalues ∧
     (UpdateL 0 5 exLdu exGw).lerowptr 0 = (UpdateL_before 0 exLdu exGw (max 1 5)).«end» ∧
     (UpdateL 0 5 exLdu exGw).lsrowptr = exLdu.lsrowptr) ∧
    ∀ i, 1 ≤ i → i < 5 →
      (((UpdateL_before 0 exLdu exGw i).«end» : Int) - (exLdu.lsrowptr 0 : Int)
          < (exGw.global_maxnz : Int) →
        UpdateL_before 0 exLdu exGw (i + 1) =
          { «end» := (UpdateL_before 0 exLdu exGw i).«end» + 1,
            lcolind := upd (UpdateL_before 0 exLdu exGw i).lcolind
              (UpdateL_before 0 exLdu exGw i).«end» (exGw.jw i),
            lvalues := upd (UpdateL_before 0 exLdu exGw i).lvalues
              (UpdateL_before 0 exLdu exGw i).«end» (exGw.w i) }) ∧
      (¬ (((UpdateL_before 0 exLdu exGw i).«end» : Int) - (exLdu.lsrowptr 0 : Int)
          < (exGw.global_maxnz : Int)) →
        ∃ m, exLdu.lsrowptr 0 ≤ m ∧ m < (UpdateL_before 0 exLdu exGw i).«end» ∧
          (∀ j, exLdu.lsrowptr 0 ≤ j → j < (UpdateL_before 0 exLdu exGw i).«end» →
            fabs ((UpdateL_before 0 exLdu exGw i).lvalues m) ≤
              fabs ((UpdateL_before 0 exLdu exGw i).lvalues j)) ∧
          (fabs ((UpdateL_before 0 exLdu exGw i).lvalues m) < fabs (exGw.w i) →
            UpdateL_before 0 exLdu exGw (i + 1) =
              { «end» := (UpdateL_before 0 exLdu exGw i).«end»,
                lcolind := upd (UpdateL_before 0 exLdu exGw i).lcolind m (exGw.jw i),
                lvalues := upd (UpdateL_before 0 exLdu exGw i).lvalues m (exGw.w i) }) ∧
          (¬ fabs ((UpdateL_before 0 exLdu exGw i).lvalues m) < fabs (exGw.w i) →
            UpdateL_before 0 exLdu exGw (i + 1) = UpdateL_before 0 exLdu exGw i))) :=
  ⟨by decide, UpdateL_policy 0 5 exLdu exGw (by decide)⟩

/-! ## FormNRmat -/

theorem forLoop_const_shift {σ : Type} (lo : Nat) (f : σ → σ) (n : Nat) (s : σ) :
    forLoop lo (fun _ t => f t) (n + 1) s = forLoop lo (fun _ t => f t) n (f s) := by
  induction n with
  | zero => rfl
  | succ m ih => rw [forLoop_succ, ih, forLoop_succ]

/-- The selection loop of `FormNRmat` is the loop of `FormDU` as long as the workspace holds
enough entries. -/
theorem FormNRmat_loop_toU (first : Nat) (n : Nat) (s : NRState)
    (h : n ≤ s.lastjr - first) :
    (forLoop 1 (fun _ t => FormNRmat_step first t) n s).toU = FormDU_loop first n s.toU := by
  induction n generalizing s with
  | zero => rfl
  | succ m ih =>
    rw [forLoop_const_shift]
    unfold FormDU_loop
    have hgt : s.toU.lastjr > first := by
      show s.lastjr > first
      omega
    rw [if_pos hgt]
    have hs : (FormNRmat_step first s).lastjr = s.lastjr - 1 := rfl
    rw [ih (FormNRmat_step first s) (by rw [hs]; omega)]
    rfl

/-- The copy loop of `FormNRmat` writes the workspace entries `[first, first + n)` at the
positions `[nz, nz + n)` of the row, in this order, and touches nothing else. -/
theorem FormNRmat_copy_spec (first n : Nat) (s : NRState) :
    (forLoop first FormNRmat_copy n s).nz = s.nz + n ∧
    (forLoop first FormNRmat_copy n s).lastjr = s.lastjr ∧
    (forLoop first FormNRmat_copy n s).jw = s.jw ∧
    (forLoop first FormNRmat_copy n s).w = s.w ∧
    (∀ k, k < n → (forLoop first FormNRmat_copy n s).rcolind (s.nz + k) = s.jw (first + k) ∧
      (forLoop first FormNRmat_copy n s).rvalues (s.nz + k) = s.w (first + k)) ∧
    (∀ p, p < s.nz → (forLoop first FormNRmat_copy n s).rcolind p = s.rcolind p ∧
      (forLoop first FormNRmat_copy n s).rvalues p = s.rvalues p) := by
  induction n with
  | zero =>
    refine ⟨rfl, rfl, rfl, rfl, fun k hk => by omega, fun p _ => ⟨rfl, rfl⟩⟩
  | succ m ih =>
    obtain ⟨i1, i2, i3, i4, i5, i6⟩ := ih
    rw [forLoop_succ]
    generalize forLoop first FormNRmat_copy m s = t at i1 i2 i3 i4 i5 i6
    simp only [FormNRmat_copy]
    refine ⟨by omega, i2, i3, i4, ?_, ?_⟩
    · intro k hk
      by_cases hkm : k = m
      · subst hkm
        rw [i1, upd_same, upd_same, i3, i4]
        exact ⟨rfl, rfl⟩
      · rw [upd_other _ _ _ _ (by omega), upd_other _ _ _ _ (by omega)]
        exact i5 k (by omega)
    · intro p hp
      rw [upd_other _ _ _ _ (by omega), upd_other _ _ _ _ (by omega)]
      exact i6 p hp

/-- The simple copy of `FormNRmat`: when `lastjr - first + 1 <= max_rowlen` the row holds the
diagonal and then the workspace entries `[first, lastjr)` in workspace order. -/
theorem FormNRmat_fill_copy (first max_rowlen : Nat) (g : hypre_PilutSolverGlobals)
    (rcolind : Nat → Nat) (rvalues : Nat → ℚ)
    (h : (g.lastjr : Int) - (first : Int) + 1 ≤ (max_rowlen : Int)) :
    (FormNRmat_fill first max_rowlen g rcolind rvalues).nz = 1 + (g.lastjr - first) ∧
    (FormNRmat_fill first max_rowlen g rcolind rvalues).lastjr = g.lastjr ∧
    (FormNRmat_fill first max_rowlen g rcolind rvalues).jw = g.jw ∧
    (FormNRmat_fill first max_rowlen g rcolind rvalues).w = g.w ∧
    (FormNRmat_fill first max_rowlen g rcolind rvalues).rcolind 0 = g.jw 0 ∧
    (FormNRmat_fill first max_rowlen g rcolind rvalues).rvalues 0 = g.w 0 ∧
    entries (FormNRmat_fill first max_rowlen g rcolind rvalues).rcolind
        (FormNRmat_fill first max_rowlen g rcolind rvalues).rvalues 1
        (FormNRmat_fill first max_rowlen g rcolind rvalues).nz =
      entries g.jw g.w first g.lastjr := by
  unfold FormNRmat_fill
  simp only [h, if_true]
  obtain ⟨c1, c2, c3, c4, c5, c6⟩ := FormNRmat_copy_spec first (g.lastjr - first)
    { nz := 1, rcolind := upd rcolind 0 (g.jw 0), rvalues := upd rvalues 0 (g.w 0),
      lastjr := g.lastjr, jw := g.jw, w := g.w }
  simp only at c1 c2 c3 c4 c5 c6
  refine ⟨c1, c2, c3, c4, ?_, ?_, ?_⟩
  · rw [(c6 0 (by omega)).1, upd_same]
  · rw [(c6 0 (by omega)).2, upd_same]
  · rw [c1]
    unfold entries
    rw [show 1 + (g.lastjr - first) - 1 = g.lastjr - first by omega]
    apply List.ext_get
    · simp
    · intro k h1 h2
      simp only [slice_length] at h1
      simp only [slice, List.get_eq_getElem, List.getElem_map, List.getElem_range']
      simp only [Nat.one_mul]
      rw [(c5 k h1).1, (c5 k h1).2]

/-- The selection loop of `FormNRmat`, run `n` times on a workspace with at least `n`
entries in `[first, lastjr)`: it appends `n` entries to the row; these and the entries left
in the workspace are a rearrangement of the entries `[first, lastjr)` before the loop, and every
entry appended is at least as large in magnitude as every entry left. -/
theorem FormNRmat_select_spec (first n : Nat) (s : NRState) (h : n ≤ s.lastjr - first) :
    (forLoop 1 (fun _ t => FormNRmat_step first t) n s).nz = s.nz + n ∧
    (forLoop 1 (fun _ t => FormNRmat_step first t) n s).lastjr = s.lastjr - n ∧
    (∀ i, i < s.nz →
      (forLoop 1 (fun _ t => FormNRmat_step first t) n s).rcolind i = s.rcolind i ∧
      (forLoop 1 (fun _ t => FormNRmat_step first t) n s).rvalues i = s.rvalues i) ∧
    List.Perm (entries s.jw s.w first s.lastjr)
      (entries (forLoop 1 (fun _ t => FormNRmat_step first t) n s).rcolind
          (forLoop 1 (fun _ t => FormNRmat_step first t) n s).rvalues s.nz
          (forLoop 1 (fun _ t => FormNRmat_step first t) n s).nz
        ++ entries (forLoop 1 (fun _ t => FormNRmat_step first t) n s).jw
          (forLoop 1 (fun _ t => FormNRmat_step first t) n s).w first
          (forLoop 1 (fun _ t => FormNRmat_step first t) n s).lastjr) ∧
    (∀ a ∈ entries (forLoop 1 (fun _ t => FormNRmat_step first t) n s).rcolind
          (forLoop 1 (fun _ t => FormNRmat_step first t) n s).rvalues s.nz
          (forLoop 1 (fun _ t => FormNRmat_step first t) n s).nz,
      ∀ r ∈ entries (forLoop 1 (fun _ t => FormNRmat_step first t) n s).jw
          (forLoop 1 (fun _ t => FormNRmat_step first t) n s).w first
          (forLoop 1 (fun _ t => FormNRmat_step first t) n s).lastjr,
        fabs r.2 ≤ fabs a.2) := by
  have hU := FormNRmat_loop_toU first n s h
  obtain ⟨f1, _, f3, f4, _⟩ := FormDU_loop_spec first n s.toU
  obtain ⟨n1, n2⟩ := FormDU_loop_counts first n s.toU
  rw [← hU] at f1 f3 f4 n1 n2
  generalize forLoop 1 (fun _ t => FormNRmat_step first t) n s = t at f1 f3 f4 n1 n2
  simp only [NRState.toU] at f1 f3 f4 n1 n2
  have hmin : min n (s.lastjr - first) = n := by omega
  rw [hmin] at n1 n2
  exact ⟨n1, n2, f1, f3, f4⟩

/-- The selection of `FormNRmat`: when `lastjr - first + 1 > max_rowlen` the row holds the
diagonal and `max_rowlen - 1` entries taken out of `[first, lastjr)`; these and the entries
left in the workspace are a rearrangement of the entries `[first, lastjr)` before the
call, and every entry kept is at least as large in magnitude as every entry left. -/
theorem FormNRmat_fill_select (first max_rowlen : Nat) (g : hypre_PilutSolverGlobals)
    (rcolind : Nat → Nat) (rvalues : Nat → ℚ)
    (h : ¬ (g.lastjr : Int) - (first : Int) + 1 ≤ (max_rowlen : Int)) :
    (FormNRmat_fill first max_rowlen g rcolind rvalues).nz = 1 + (max_rowlen - 1) ∧
    (FormNRmat_fill first max_rowlen g rcolind rvalues).lastjr =
      g.lastjr - (max_rowlen - 1) ∧
    (FormNRmat_fill first max_rowlen g rcolind rvalues).rcolind 0 = g.jw 0 ∧
    (FormNRmat_fill first max_rowlen g rcolind rvalues).rvalues 0 = g.w 0 ∧
    List.Perm (entries g.jw g.w first g.lastjr)
      (entries (FormNRmat_fill first max_rowlen g rcolind rvalues).rcolind
          (FormNRmat_fill first max_rowlen g rcolind rvalues).rvalues 1
          (FormNRmat_fill first max_rowlen g rcolind rvalues).nz
        ++ entries (FormNRmat_fill first max_rowlen g rcolind rvalues).jw
          (FormNRmat_fill first max_rowlen g rcolind rvalues).w first
          (FormNRmat_fill first max_rowlen g rcolind rvalues).lastjr) ∧
    (∀ a ∈ entries (FormNRmat_fill first max_rowlen g rcolind rvalues).rcolind
          (FormNRmat_fill first max_rowlen g rcolind rvalues).rvalues 1
          (FormNRmat_fill first max_rowlen g rcolind rvalues).nz,
      ∀ r ∈ entries (FormNRmat_fill first max_rowlen g rcolind rvalues).jw
          (FormNRmat_fill first max_rowlen g rcolind rvalues).w first
          (FormNRmat_fill first max_rowlen g rcolind rvalues).lastjr,
        fabs r.2 ≤ fabs a.2) := by
  have hout : (FormNRmat_out_rowlen first max_rowlen g).toNat = max_rowlen := by
    unfold FormNRmat_out_rowlen
    omega
  unfold FormNRmat_fill
  simp only [h, if_false, hout]
  obtain ⟨n1, n2, f1, f3, f4⟩ := FormNRmat_select_spec first (max_rowlen - 1)
    { nz := 1, rcolind := upd rcolind 0 (g.jw 0), rvalues := upd rvalues 0 (g.w 0),
      lastjr := g.lastjr, jw := g.jw, w := g.w } (by simp only; omega)
  simp only at n1 n2 f1 f3 f4
  refine ⟨n1, n2, ?_, ?_, f3, f4⟩
  · rw [(f1 0 (by omega)).1, upd_same]
  · rw [(f1 0 (by omega)).2, upd_same]

/-- The count that `FormNRmat` records: for `max_rowlen >= 1` and `first <= lastjr` the loops
end with `nz = out_rowlen`. -/
theorem FormNRmat_fill_nz (first max_rowlen : Nat) (g : hypre_PilutSolverGlobals)
    (rcolind : Nat → Nat) (rvalues : Nat → ℚ) (hmax : 1 ≤ max_rowlen)
    (hfirst : first ≤ g.lastjr) :
    (FormNRmat_fill first max_rowlen g rcolind rvalues).nz =
      (FormNRmat_out_rowlen first max_rowlen g).toNat := by
  by_cases h : (g.lastjr : Int) - (first : Int) + 1 ≤ (max_rowlen : Int)
  · rw [(FormNRmat_fill_copy first max_rowlen g rcolind rvalues h).1]
    unfold FormNRmat_out_rowlen
    omega
  · rw [(FormNRmat_fill_select first max_rowlen g rcolind rvalues h).1]
    unfold FormNRmat_out_rowlen
    omega

theorem FormNRmat_fill_diag (first max_rowlen : Nat) (g : hypre_PilutSolverGlobals)
    (rcolind : Nat → Nat) (rvalues : Nat → ℚ) :
    (FormNRmat_fill first max_rowlen g rcolind rvalues).rcolind 0 = g.jw 0 ∧
    (FormNRmat_fill first max_rowlen g rcolind rvalues).rvalues 0 = g.w 0 := by
  by_cases h : (g.lastjr : Int) - (first : Int) + 1 ≤ (max_rowlen : Int)
  · obtain ⟨_, _, _, _, a, b, _⟩ := FormNRmat_fill_copy first max_rowlen g rcolind rvalues h
    exact ⟨a, b⟩
  · obtain ⟨_, _, a, b, _⟩ := FormNRmat_fill_select first max_rowlen g rcolind rvalues h
    exact ⟨a, b⟩

theorem ite_some_eq {α : Type} (c : Prop) [Decidable c] (a out : α)
    (h : (if c then some a else none) = some out) : c ∧ a = out := by
  by_cases hc : c
  · rw [if_pos hc] at h
    exact ⟨hc, Option.some.inj h⟩
  · rw [if_neg hc] at h
    exact absurd h (by simp)

/-- The assertions of `FormNRmat` hold exactly when the loops end with `nz = out_rowlen`, the
diagonal is first in the input row and `nz <= max_rowlen`. -/
theorem FormNRmat_checked_some (rrow first : Nat) (nrmat : ReduceMatType)
    (max_rowlen in_rowlen : Nat) (in_colind : Nat → Nat) (in_values : Nat → ℚ)
    (fresh_colind : Nat → Nat) (fresh_values : Nat → ℚ) (g : hypre_PilutSolverGlobals)
    (out : ReduceMatType × hypre_PilutSolverGlobals)
    (h : FormNRmat_checked rrow first nrmat max_rowlen in_rowlen in_colind in_values
      fresh_colind fresh_values g = some out) :
    out = FormNRmat rrow first nrmat max_rowlen in_rowlen in_colind in_values fresh_colind
      fresh_values g ∧
    ((out.1.rmat_rnz rrow : Nat) : Int) = FormNRmat_out_rowlen first max_rowlen g ∧
    out.1.rmat_rnz rrow ≤ max_rowlen := by
  unfold FormNRmat_checked at h
  simp only at h
  obtain ⟨⟨_, c2, c3⟩, ho⟩ := ite_some_eq _ _ _ h
  refine ⟨ho.symm, ?_, ?_⟩
  · rw [← ho]
    simp only [FormNRmat, upd_same]
    by_cases hb : (g.lastjr : Int) - (first : Int) + 1 ≤ (max_rowlen : Int)
    · rw [if_pos hb] at c2
      rw [c2]
      unfold FormNRmat_out_rowlen
      omega
    · rw [if_neg hb] at c2
      exact c2
  · rw [← ho]
    simp only [FormNRmat, upd_same]
    exact c3

/-- C18. Reduced-row shape invariant: for every `max_rowlen` and every workspace with
`first <= lastjr`, every row that `FormNRmat` emits has `rcolind[0] = jw[0]`,
`rvalues[0] = w[0]` and `rnz <= rrowlen <= max_rowlen`. A row is emitted when the assertions
of `FormNRmat` hold: they do for every `max_rowlen >= 1` when the diagonal is first in the
input row, and then the row is the one that `FormNRmat` computes; with `max_rowlen = 0` the
assertion `nz == out_rowlen` fails and no row is emitted. -/
theorem FormNRmat_shape (rrow first : Nat) (nrmat : ReduceMatType) (max_rowlen in_rowlen : Nat)
    (in_colind : Nat → Nat) (in_values : Nat → ℚ)
    (fresh_colind : Nat → Nat) (fresh_values : Nat → ℚ) (g : hypre_PilutSolverGlobals)
    (hfirst : first ≤ g.lastjr) :
    (∀ out, FormNRmat_checked rrow first nrmat max_rowlen in_rowlen in_colind in_values
        fresh_colind fresh_values g = some out →
      out.1.rmat_rcolind rrow 0 = g.jw 0 ∧ out.1.rmat_rvalues rrow 0 = g.w 0 ∧
      out.1.rmat_rnz rrow ≤ out.1.rmat_rrowlen rrow ∧
      out.1.rmat_rrowlen rrow ≤ max_rowlen) ∧
    (1 ≤ max_rowlen → in_colind 0 = g.jw 0 →
      FormNRmat_checked rrow first nrmat max_rowlen in_rowlen in_colind in_values
        fresh_colind fresh_values g =
      some (FormNRmat rrow first nrmat max_rowlen in_rowlen in_colind in_values fresh_colind
        fresh_values g)) ∧
    (max_rowlen = 0 →
      FormNRmat_checked rrow first nrmat max_rowlen in_rowlen in_colind in_values
        fresh_colind fresh_values g = none) := by
  refine ⟨?_, ?_, ?_⟩
  · intro out h
    obtain ⟨ho, hnz, _⟩ := FormNRmat_checked_some rrow first nrmat max_rowlen in_rowlen
      in_colind in_values fresh_colind fresh_values g out h
    have hrl : out.1.rmat_rrowlen rrow = (FormNRmat_out_rowlen first max_rowlen g).toNat := by
      rw [ho]
      simp only [FormNRmat, upd_same]
    have hd : out.1.rmat_rcolind rrow 0 = g.jw 0 ∧ out.1.rmat_rvalues rrow 0 = g.w 0 := by
      rw [ho]
      simp only [FormNRmat, upd_same]
      exact FormNRmat_fill_diag first max_rowlen g _ _
    refine ⟨hd.1, hd.2, ?_, ?_⟩
    · rw [hrl]
      omega
    · rw [hrl]
      unfold FormNRmat_out_rowlen
      omega
  · intro hmax hd
    unfold FormNRmat_checked
    simp only
    have hnz := FormNRmat_fill_nz first max_rowlen g
      (if FormNRmat_out_rowlen first max_rowlen g > (in_rowlen : Int) then fresh_colind
        else in_colind)
      (if FormNRmat_out_rowlen first max_rowlen g > (in_rowlen : Int) then fresh_values
        else in_values) hmax hfirst
    rw [if_pos]
    refine ⟨hd, ?_, ?_⟩
    · rw [hnz]
      unfold FormNRmat_out_rowlen
      split <;> omega
    · rw [hnz]
      unfold FormNRmat_out_rowlen
      omega
  · intro h0
    unfold FormNRmat_checked
    simp only
    have hsel : ¬ (g.lastjr : Int) - (first : Int) + 1 ≤ (max_rowlen : Int) := by omega
    have hnz := (FormNRmat_fill_select first max_rowlen g
      (if FormNRmat_out_rowlen first max_rowlen g > (in_rowlen : Int) then fresh_colind
        else in_colind)
      (if FormNRmat_out_rowlen first max_rowlen g > (in_rowlen : Int) then fresh_values
        else in_values) hsel).1
    rw [if_neg]
    intro hc
    have := hc.2.2
    rw [hnz] at this
    omega

/-- Instance of C18 on the workspace `exGw` with `first = 2`: with `max_rowlen = 2` the row
is emitted and has the shape; with `max_rowlen = 0` no row is emitted. -/
theorem FormNRmat_shape_witness :
    2 ≤ exGw.lastjr ∧
    (FormNRmat_checked 0 2 exNr 2 0 (fun _ => 0) (fun _ => 0) (fun _ => 0) (fun _ => 0) exGw =
      some (FormNRmat 0 2 exNr 2 0 (fun _ => 0) (fun _ => 0) (fun _ => 0) (fun _ => 0) exGw) ∧
    (FormNRmat 0 2 exNr 2 0 (fun _ => 0) (fun _ => 0) (fun _ => 0) (fun _ => 0)
        exGw).1.rmat_rcolind 0 0 = exGw.jw 0 ∧
    (FormNRmat 0 2 exNr 2 0 (fun _ => 0) (fun _ => 0) (fun _ => 0) (fun _ => 0)
        exGw).1.rmat_rvalues 0 0 = exGw.w 0 ∧
    (FormNRmat 0 2 exNr 2 0 (fun _ => 0) (fun _ => 0) (fun _ => 0) (fun _ => 0)
        exGw).1.rmat_rnz 0 ≤
      (FormNRmat 0 2 exNr 2 0 (fun _ => 0) (fun _ => 0) (fun _ => 0) (fun _ => 0)
        exGw).1.rmat_rrowlen 0 ∧
    (FormNRmat 0 2 exNr 2 0 (fun _ => 0) (fun _ => 0) (fun _ => 0) (fun _ => 0)
        exGw).1.rmat_rrowlen 0 ≤ 2) ∧
    FormNRmat_checked 0 2 exNr 0 0 (fun _ => 0) (fun _ => 0) (fun _ => 0) (fun _ => 0) exGw =
      none :=
  ⟨by decide,
   ⟨(FormNRmat_shape 0 2 exNr 2 0 (fun _ => 0) (fun _ => 0) (fun _ => 0) (fun _ => 0) exGw
      (by decide)).2.1 (by decide) rfl,
    (FormNRmat_shape 0 2 exNr 2 0 (fun _ => 0) (fun _ => 0) (fun _ => 0) (fun _ => 0) exGw
      (by decide)).1 _
      ((FormNRmat_shape 0 2 exNr 2 0 (fun _ => 0) (fun _ => 0) (fun _ => 0) (fun _ => 0) exGw
        (by decide)).2.1 (by decide) rfl)⟩,
   (FormNRmat_shape 0 2 exNr 0 0 (fun _ => 0) (fun _ => 0) (fun _ => 0) (fun _ => 0) exGw
      (by decide)).2.2 rfl⟩

/-- C19. Reduced row keeps the largest entries. When `lastjr - first + 1 <= max_rowlen` the
off-diagonal entries `[1, rnz)` of the emitted row are the workspace entries
`[first, lastjr)` in workspace order. Otherwise the off-diagonal entries of the emitted row
together with the entries left in the workspace `[first, lastjr)` are a rearrangement of the
workspace entries `[first, lastjr)` before the call, and every entry kept has a magnitude
greater than or equal to that of every entry not kept. In both cases every off-diagonal
entry emitted is an entry of `[first, lastjr)`, never one of the L side `[1, first)`. -/
theorem FormNRmat_keeps_largest (rrow first : Nat) (nrmat : ReduceMatType)
    (max_rowlen in_rowlen : Nat) (in_colind : Nat → Nat) (in_values : Nat → ℚ)
    (fresh_colind : Nat → Nat) (fresh_values : Nat → ℚ) (g : hypre_PilutSolverGlobals) :
    ((g.lastjr : Int) - (first : Int) + 1 ≤ (max_rowlen : Int) →
      entries
        ((FormNRmat rrow first nrmat max_rowlen in_rowlen in_colind in_values fresh_colind
          fresh_values g).1.rmat_rcolind rrow)
        ((FormNRmat rrow first nrmat max_rowlen in_rowlen in_colind in_values fresh_colind
          fresh_values g).1.rmat_rvalues rrow) 1
        ((FormNRmat rrow first nrmat max_rowlen in_rowlen in_colind in_values fresh_colind
          fresh_values g).1.rmat_rnz rrow)
        = entries g.jw g.w first g.lastjr) ∧
    (¬ (g.lastjr : Int) - (first : Int) + 1 ≤ (max_rowlen : Int) →
      List.Perm (entries g.jw g.w first g.lastjr)
        (entries
          ((FormNRmat rrow first nrmat max_rowlen in_rowlen in_colind in_values fresh_colind
            fresh_values g).1.rmat_rcolind rrow)
          ((FormNRmat rrow first nrmat max_rowlen in_rowlen in_colind in_values fresh_colind
            fresh_values g).1.rmat_rvalues rrow) 1
          ((FormNRmat rrow first nrmat max_rowlen in_rowlen in_colind in_values fresh_colind
            fresh_values g).1.rmat_rnz rrow)
        ++ entries
          (FormNRmat rrow first nrmat max_rowlen in_rowlen in_colind in_values fresh_colind
            fresh_values g).2.jw
          (FormNRmat rrow first nrmat max_rowlen in_rowlen in_colind in_values fresh_colind
            fresh_values g).2.w first
          (FormNRmat rrow first nrmat max_rowlen in_rowlen in_colind in_values fresh_colind
            fresh_values g).2.lastjr) ∧
      ∀ a ∈ entries
          ((FormNRmat rrow first nrmat max_rowlen in_rowlen in_colind in_values fresh_colind
            fresh_values g).1.rmat_rcolind rrow)
          ((FormNRmat rrow first nrmat max_rowlen in_rowlen in_colind in_values fresh_colind
            fresh_values g).1.rmat_rvalues rrow) 1
          ((FormNRmat rrow first nrmat max_rowlen in_rowlen in_colind in_values fresh_colind
            fresh_values g).1.rmat_rnz rrow),
        ∀ r ∈ entries
          (FormNRmat rrow first nrmat max_rowlen in_rowlen in_colind in_values fresh_colind
            fresh_values g).2.jw
          (FormNRmat rrow first nrmat max_rowlen in_rowlen in_colind in_values fresh_colind
            fresh_values g).2.w first
          (FormNRmat rrow first nrmat max_rowlen in_rowlen in_colind in_values fresh_colind
            fresh_values g).2.lastjr, fabs r.2 ≤ fabs a.2) ∧
    (∀ a ∈ entries
          ((FormNRmat rrow first nrmat max_rowlen in_rowlen in_colind in_values fresh_colind
            fresh_values g).1.rmat_rcolind rrow)
          ((FormNRmat rrow first nrmat max_rowlen in_rowlen in_colind in_values fresh_colind
            fresh_values g).1.rmat_rvalues rrow) 1
          ((FormNRmat rrow first nrmat max_rowlen in_rowlen in_colind in_values fresh_colind
            fresh_values g).1.rmat_rnz rrow),
      ∃ p, first ≤ p ∧ p < g.lastjr ∧ (g.jw p, g.w p) = a) := by
  simp only [FormNRmat, upd_same]
  refine ⟨?_, ?_, ?_⟩
  · intro h
    exact (FormNRmat_fill_copy first max_rowlen g _ _ h).2.2.2.2.2.2
  · intro h
    obtain ⟨_, _, _, _, p, d⟩ := FormNRmat_fill_select first max_rowlen g _ _ h
    exact ⟨p, d⟩
  · intro a ha
    rw [← mem_entries]
    by_cases h : (g.lastjr : Int) - (first : Int) + 1 ≤ (max_rowlen : Int)
    · rw [(FormNRmat_fill_copy first max_rowlen g _ _ h).2.2.2.2.2.2] at ha
      exact ha
    · obtain ⟨_, _, _, _, p, _⟩ := FormNRmat_fill_select first max_rowlen g _ _ h
      exact (List.Perm.mem_iff p).mpr (List.mem_append_left _ ha)

/-- Instance of C19: `max_rowlen = 2` on the workspace `exGw` with `first = 2`, where three
entries compete for one place. -/
theorem FormNRmat_keeps_largest_witness :
    (¬ (exGw.lastjr : Int) - (2 : Int) + 1 ≤ (2 : Int)) ∧
    (List.Perm (entries exGw.jw exGw.w 2 exGw.lastjr)
        (entries
          ((FormNRmat 0 2 exNr 2 0 (fun _ => 0) (fun _ => 0) (fun _ => 0)
            (fun _ => 0) exGw).1.rmat_rcolind 0)
          ((FormNRmat 0 2 exNr 2 0 (fun _ => 0) (fun _ => 0) (fun _ => 0)
            (fun _ => 0) exGw).1.rmat_rvalues 0) 1
          ((FormNRmat 0 2 exNr 2 0 (fun _ => 0) (fun _ => 0) (fun _ => 0)
            (fun _ => 0) exGw).1.rmat_rnz 0)
        ++ entries
          (FormNRmat 0 2 exNr 2 0 (fun _ => 0) (fun _ => 0) (fun _ => 0)
            (fun _ => 0) exGw).2.jw
          (FormNRmat 0 2 exNr 2 0 (fun _ => 0) (fun _ => 0) (fun _ => 0)
            (fun _ => 0) exGw).2.w 2
          (FormNRmat 0 2 exNr 2 0 (fun _ => 0) (fun _ => 0) (fun _ => 0)
            (fun _ => 0) exGw).2.lastjr) ∧
      ∀ a ∈ entries
          ((FormNRmat 0 2 exNr 2 0 (fun _ => 0) (fun _ => 0) (fun _ => 0)
            (fun _ => 0) exGw).1.rmat_rcolind 0)
          ((FormNRmat 0 2 exNr 2 0 (fun _ => 0) (fun _ => 0) (fun _ => 0)
            (fun _ => 0) exGw).1.rmat_rvalues 0) 1
          ((FormNRmat 0 2 exNr 2 0 (fun _ => 0) (fun _ => 0) (fun _ => 0)
            (fun _ => 0) exGw).1.rmat_rnz 0),
        ∀ r ∈ entries
          (FormNRmat 0 2 exNr 2 0 (fun _ => 0) (fun _ => 0) (fun _ => 0)
            (fun _ => 0) exGw).2.jw
          (FormNRmat 0 2 exNr 2 0 (fun _ => 0) (fun _ => 0) (fun _ => 0)
            (fun _ => 0) exGw).2.w 2
          (FormNRmat 0 2 exNr 2 0 (fun _ => 0) (fun _ => 0) (fun _ => 0)
            (fun _ => 0) exGw).2.lastjr, fabs r.2 ≤ fabs a.2) :=
  ⟨by decide, (FormNRmat_keeps_largest 0 2 exNr 2 0 (fun _ => 0) (fun _ => 0) (fun _ => 0)
    (fun _ => 0) exGw).2.1 (by decide)⟩

/-! ## Drop correctness -/

/-- After `SecondDropSmall(rtol)` every off-diagonal entry of the workspace has a magnitude
of at least `rtol`. -/
theorem SecondDropSmall_survivors (rtol : ℚ) (g : hypre_PilutSolverGlobals) :
    ∀ e ∈ entries (SecondDropSmall rtol g).jw (SecondDropSmall rtol g).w 1
      (SecondDropSmall rtol g).lastjr, rtol ≤ fabs e.2 := by
  by_cases h : 1 ≤ g.lastjr
  · obtain ⟨_, _, a5⟩ := SecondDropSmall_loop_spec rtol g.lastjr 1
      { lastjr := g.lastjr, jw := g.jw, w := g.w } (le_refl _) h (by simp only; omega)
    obtain ⟨_, _, a5⟩ := a5
    rw [entries_nil g.jw g.w 1 1 (le_refl _), List.nil_append] at a5
    intro e he
    have : e ∈ (entries g.jw g.w 1 g.lastjr).filter (fun e => decide (rtol ≤ fabs e.2)) :=
      a5.subset he
    rw [List.mem_filter] at this
    simpa using this.2
  · have h0 : g.lastjr = 0 := by omega
    intro e he
    have hl : (SecondDropSmall rtol g).lastjr = 0 := by
      simp only [SecondDropSmall, h0, SecondDropSmall_loop]
    rw [hl, entries_nil _ _ 1 0 (by omega)] at he
    exact absurd he (List.not_mem_nil e)

/-- The partition pass returns on every workspace; it rearranges the entries of
`[1, lastjr)` and changes nothing else. -/
theorem SeperateLU_by_total (inL : Nat → Bool) (g : hypre_PilutSolverGlobals) :
    ∃ m jw w, SeperateLU_by inL g = some (m, { g with jw := jw, w := w }) ∧
      m ≤ g.lastjr ∧ (1 ≤ m ∨ g.lastjr = 0) ∧
      (∀ p, 1 ≤ p → p < m → inL (jw p) = true) ∧
      (∀ p, m ≤ p → p < g.lastjr → inL (jw p) = false) ∧
      List.Perm (entries jw w 1 g.lastjr) (entries g.jw g.w 1 g.lastjr) ∧
      (∀ p, (p < 1 ∨ g.lastjr ≤ p) → jw p = g.jw p ∧ w p = g.w p) := by
  by_cases h : 1 ≤ g.lastjr
  · obtain ⟨m, jw, w, a1, a2, a3, a4, a5, a6, a7⟩ := SeperateLU_by_spec inL g h
    exact ⟨m, jw, w, a1, a3, Or.inl a2, a4, a5, a6, a7⟩
  · have h0 : g.lastjr = 0 := by omega
    have h1 : ¬ g.lastjr = 1 := by omega
    refine ⟨0, g.jw, g.w, ?_, by omega, Or.inr h0, fun p a b => by omega,
      fun p a b => by omega, List.Perm.refl _, fun p _ => ⟨rfl, rfl⟩⟩
    unfold SeperateLU_by
    rw [if_neg h1, if_pos h0]

/-- Every position of the `L` pool after the loop of `UpdateL` either lies outside the
appended range and is unchanged, or holds one of the workspace entries `[1, 1 + n)`. -/
theorem UpdateL_loop_entries (g : hypre_PilutSolverGlobals) (start n : Nat) (s : LState) :
    s.«end» ≤ (forLoop 1 (UpdateL_body g start) n s).«end» ∧
    ∀ p, (¬ (s.«end» ≤ p ∧ p < (forLoop 1 (UpdateL_body g start) n s).«end») ∧
          (forLoop 1 (UpdateL_body g start) n s).lcolind p = s.lcolind p ∧
          (forLoop 1 (UpdateL_body g start) n s).lvalues p = s.lvalues p) ∨
      (∃ q, 1 ≤ q ∧ q < 1 + n ∧
          (forLoop 1 (UpdateL_body g start) n s).lcolind p = g.jw q ∧
          (forLoop 1 (UpdateL_body g start) n s).lvalues p = g.w q) := by
  induction n with
  | zero =>
    refine ⟨le_refl _, fun p => Or.inl ⟨?_, rfl, rfl⟩⟩
    simp only [forLoop_zero]
    omega
  | succ m ih =>
    obtain ⟨i1, i2⟩ := ih
    rw [forLoop_succ]
    generalize forLoop 1 (UpdateL_body g start) m s = t at i1 i2
    have hmono : ∀ p, (∃ q, 1 ≤ q ∧ q < 1 + m ∧ t.lcolind p = g.jw q ∧ t.lvalues p = g.w q) →
        ∃ q, 1 ≤ q ∧ q < 1 + (m + 1) ∧ t.lcolind p = g.jw q ∧ t.lvalues p = g.w q := by
      rintro p ⟨q, q1, q2, q3⟩
      exact ⟨q, q1, by omega, q3⟩
    unfold UpdateL_body
    by_cases hc : ((t.«end» : Int) - (start : Int) < (g.global_maxnz : Int))
    · simp only [hc, if_true]
      refine ⟨by omega, ?_⟩
      intro p
      by_cases hp : p = t.«end»
      · subst hp
        right
        exact ⟨1 + m, by omega, by omega, by rw [upd_same], by rw [upd_same]⟩
      · rw [upd_other _ _ _ _ hp, upd_other _ _ _ _ hp]
        rcases i2 p with ⟨a, b⟩ | hq
        · left
          exact ⟨by omega, b⟩
        · right
          exact hmono p hq
    · simp only [hc, if_false]
      by_cases hw : fabs (t.lvalues (UpdateL_min t.lvalues start t.«end»)) < fabs (g.w (1 + m))
      · simp only [hw, if_true]
        refine ⟨i1, ?_⟩
        intro p
        by_cases hp : p = UpdateL_min t.lvalues start t.«end»
        · right
          rw [hp]
          exact ⟨1 + m, by omega, by omega, by rw [upd_same], by rw [upd_same]⟩
        · rw [upd_other _ _ _ _ hp, upd_other _ _ _ _ hp]
          rcases i2 p with a | hq
          · left
            exact a
          · right
            exact hmono p hq
      · simp only [hw, if_false]
        refine ⟨i1, ?_⟩
        intro p
        rcases i2 p with a | hq
        · left
          exact a
        · right
          exact hmono p hq

/-- Every position of the `L` pool after `UpdateL(lrow, last)` either lies outside the
appended range and is unchanged, or holds a workspace entry of `[1, last)`, so it has
every property that these entries share. -/
theorem UpdateL_written (lrow last : Nat) (ldu : FactorMatType) (g : hypre_PilutSolverGlobals)
    (P : Nat → ℚ → Prop) (h : ∀ q, 1 ≤ q → q < last → P (g.jw q) (g.w q)) :
    ∀ p, (¬ (ldu.lerowptr lrow ≤ p ∧ p < (UpdateL lrow last ldu g).lerowptr lrow) ∧
          (UpdateL lrow last ldu g).lcolind p = ldu.lcolind p ∧
          (UpdateL lrow last ldu g).lvalues p = ldu.lvalues p) ∨
      P ((UpdateL lrow last ldu g).lcolind p) ((UpdateL lrow last ldu g).lvalues p) := by
  intro p
  obtain ⟨_, hl⟩ := UpdateL_loop_entries g (ldu.lsrowptr lrow) (last - 1)
    { «end» := ldu.lerowptr lrow, lcolind := ldu.lcolind, lvalues := ldu.lvalues }
  simp only [UpdateL, upd_same]
  rcases hl p with a | ⟨q, q1, q2, q3, q4⟩
  · left
    exact a
  · right
    rw [q3, q4]
    exact h q q1 (by omega)

/-- The loop of `FormDU` writes no position of the `U` pool outside `[end, new end)`. -/
theorem FormDU_loop_frame (first : Nat) (n : Nat) (s : UState) :
    ∀ p, ¬ (s.«end» ≤ p ∧ p < (FormDU_loop first n s).«end») →
      (FormDU_loop first n s).ucolind p = s.ucolind p ∧
      (FormDU_loop first n s).uvalues p = s.uvalues p := by
  induction n generalizing s with
  | zero => intro p _; exact ⟨rfl, rfl⟩
  | succ k ih =>
    intro p hp
    unfold FormDU_loop at hp ⊢
    by_cases hgt : s.lastjr > first
    · simp only [hgt, if_true] at hp ⊢
      have hmono := (FormDU_loop_spec first k (FormDU_step first s)).2.1
      have hend : (FormDU_step first s).«end» = s.«end» + 1 := rfl
      rw [hend] at hmono
      obtain ⟨a, b⟩ := ih (FormDU_step first s) p (by rw [hend]; omega)
      rw [a, b]
      simp only [FormDU_step]
      rw [upd_other _ _ _ _ (by omega), upd_other _ _ _ _ (by omega)]
      exact ⟨rfl, rfl⟩
    · rw [if_neg hgt]
      exact ⟨rfl, rfl⟩

theorem entries_subset (c : Nat → Nat) (v : Nat → ℚ) (lo hi lo2 hi2 : Nat)
    (h1 : lo2 ≤ lo) (h2 : hi ≤ hi2) (e : Nat × ℚ) (he : e ∈ entries c v lo hi) :
    e ∈ entries c v lo2 hi2 := by
  rw [mem_entries] at he ⊢
  obtain ⟨i, i1, i2, i3⟩ := he
  exact ⟨i, by omega, by omega, i3⟩

/-- What the loop of `FormDU` writes when it is fed a workspace whose entries
`[first, lastjr)` all have a magnitude of at least `rtol`. -/
theorem FormDU_loop_dropped (first n : Nat) (s : UState) (rtol : ℚ)
    (h : ∀ e ∈ entries s.jw s.w first s.lastjr, rtol ≤ fabs e.2) :
    ∀ p, (¬ (s.«end» ≤ p ∧ p < (FormDU_loop first n s).«end») ∧
          (FormDU_loop first n s).ucolind p = s.ucolind p ∧
          (FormDU_loop first n s).uvalues p = s.uvalues p) ∨
      rtol ≤ fabs ((FormDU_loop first n s).uvalues p) := by
  intro p
  have hperm := (FormDU_loop_spec first n s).2.2.1
  have hframe := FormDU_loop_frame first n s p
  generalize FormDU_loop first n s = t at hperm hframe
  by_cases hp : s.«end» ≤ p ∧ p < t.«end»
  · right
    have hm : (t.ucolind p, t.uvalues p) ∈ entries s.jw s.w first s.lastjr := by
      apply hperm.symm.subset
      apply List.mem_append_left
      rw [mem_entries]
      exact ⟨p, hp.1, hp.2, rfl⟩
    have hb := h _ hm
    exact hb
  · left
    exact ⟨hp, hframe hp⟩

/-- What `FormDU` writes when it is fed a workspace whose entries `[first, lastjr)` all
have a magnitude of at least `rtol`. -/
theorem FormDU_dropped (lrow first : Nat) (ldu : FactorMatType) (tol : ℚ)
    (g : hypre_PilutSolverGlobals) (rtol : ℚ)
    (h : ∀ e ∈ entries g.jw g.w first g.lastjr, rtol ≤ fabs e.2) :
    ∀ p, (¬ (ldu.uerowptr lrow ≤ p ∧ p < (FormDU lrow first ldu tol g).1.uerowptr lrow) ∧
          (FormDU lrow first ldu tol g).1.ucolind p = ldu.ucolind p ∧
          (FormDU lrow first ldu tol g).1.uvalues p = ldu.uvalues p) ∨
      rtol ≤ fabs ((FormDU lrow first ldu tol g).1.uvalues p) := by
  intro p
  simp only [FormDU, upd_same]
  exact FormDU_loop_dropped first g.global_maxnz
    { «end» := ldu.uerowptr lrow, ucolind := ldu.ucolind, uvalues := ldu.uvalues,
      lastjr := g.lastjr, jw := g.jw, w := g.w } rtol h p

/-- The end of a row of `FactorLocal` returns; every `L` entry it writes has a magnitude of
at least `nrm2s[i]*tol` and names a local column placed before `diag` in the new
permutation; every `U` entry it writes has a magnitude of at least `nrm2s[i]*tol`. -/
theorem FactorLocal_store_spec (i diag : Nat) (newiperm : Nat → Nat) (tol : ℚ)
    (ldu : FactorMatType) (g : hypre_PilutSolverGlobals) :
    ∃ ldu2 g2, FactorLocal_store i diag newiperm tol ldu g = some (ldu2, g2) ∧
      ldu2.lsrowptr = ldu.lsrowptr ∧
      (∀ p, (¬ (ldu.lerowptr i ≤ p ∧ p < ldu2.lerowptr i) ∧
            ldu2.lcolind p = ldu.lcolind p ∧ ldu2.lvalues p = ldu.lvalues p) ∨
        (ldu.nrm2s i * tol ≤ fabs (ldu2.lvalues p) ∧
          (g.firstrow ≤ ldu2.lcolind p ∧ ldu2.lcolind p < g.lastrow ∧
            newiperm (ldu2.lcolind p - g.firstrow) < diag))) ∧
      (∀ p, (¬ (ldu.uerowptr i ≤ p ∧ p < ldu2.uerowptr i) ∧
            ldu2.ucolind p = ldu.ucolind p ∧ ldu2.uvalues p = ldu.uvalues p) ∨
        ldu.nrm2s i * tol ≤ fabs (ldu2.uvalues p)) := by
  have hs := SecondDropSmall_survivors (ldu.nrm2s i * tol) g
  obtain ⟨m, jw, w, e1, m1, m2, m3, _, hperm, _⟩ := SeperateLU_by_total
    (inL_byDIAG (SecondDropSmall (ldu.nrm2s i * tol) g) diag newiperm)
    (SecondDropSmall (ldu.nrm2s i * tol) g)
  have hfr : (SecondDropSmall (ldu.nrm2s i * tol) g).firstrow = g.firstrow := rfl
  have hlr : (SecondDropSmall (ldu.nrm2s i * tol) g).lastrow = g.lastrow := rfl
  generalize hg1 : SecondDropSmall (ldu.nrm2s i * tol) g = g1 at hs e1 m1 m2 m3 hperm hfr hlr
  have hall : ∀ e ∈ entries jw w 1 g1.lastjr, ldu.nrm2s i * tol ≤ fabs e.2 :=
    fun e he => hs e (hperm.subset he)
  have hpos : ∀ q, 1 ≤ q → q < g1.lastjr → ldu.nrm2s i * tol ≤ fabs (w q) := by
    intro q q1 q2
    have hm : (jw q, w q) ∈ entries jw w 1 g1.lastjr := by
      rw [mem_entries]
      exact ⟨q, q1, q2, rfl⟩
    have hb := hall _ hm
    exact hb
  have hL := UpdateL_written i m ldu { g1 with jw := jw, w := w }
    (fun c v => ldu.nrm2s i * tol ≤ fabs v ∧
      (g.firstrow ≤ c ∧ c < g.lastrow ∧ newiperm (c - g.firstrow) < diag))
    (by
      intro q q1 q2
      refine ⟨hpos q q1 (by omega), ?_⟩
      have hin := m3 q q1 q2
      unfold inL_byDIAG at hin
      rw [hfr, hlr] at hin
      exact of_decide_eq_true hin)
  have hU := FormDU_dropped i m (UpdateL i m ldu { g1 with jw := jw, w := w }) tol
    { g1 with jw := jw, w := w } (ldu.nrm2s i * tol)
    (by
      intro e he
      rcases m2 with m2 | m2
      · exact hall e (entries_subset jw w m g1.lastjr 1 g1.lastjr m2 (le_refl _) e he)
      · have hnil : entries jw w m g1.lastjr = [] := entries_nil _ _ _ _ (by omega)
        simp only at he
        rw [hnil] at he
        exact absurd he (List.not_mem_nil e))
  have hres : FactorLocal_store i diag newiperm tol ldu g =
      some (FormDU i m (UpdateL i m ldu { g1 with jw := jw, w := w }) tol
        { g1 with jw := jw, w := w }) := by
    unfold FactorLocal_store SeperateLU_byDIAG
    simp only [hg1, e1]
  refine ⟨(FormDU i m (UpdateL i m ldu { g1 with jw := jw, w := w }) tol
      { g1 with jw := jw, w := w }).1,
    (FormDU i m (UpdateL i m ldu { g1 with jw := jw, w := w }) tol
      { g1 with jw := jw, w := w }).2, hres, rfl, ?_, ?_⟩
  · intro p
    exact hL p
  · intro p
    exact hU p

/-- The end of a row of `ComputeRmat` returns; every `L` entry it writes has a magnitude of
at least `nrm2s[i]*tol` and names a column that is marked in `map`; it does not write
`U`. -/
theorem ComputeRmat_store_spec (i inr : Nat) (nrmat : ReduceMatType) (rrowlen : Nat)
    (rcolind : Nat → Nat) (rvalues : Nat → ℚ)
    (fresh_colind : Nat → Nat) (fresh_values : Nat → ℚ) (tol : ℚ) (ldu : FactorMatType)
    (g : hypre_PilutSolverGlobals) :
    ∃ ldu2 nr2 g2, ComputeRmat_store i inr nrmat rrowlen rcolind rvalues fresh_colind
        fresh_values tol ldu g = some (ldu2, nr2, g2) ∧
      ldu2.lsrowptr = ldu.lsrowptr ∧
      (∀ p, (¬ (ldu.lerowptr i ≤ p ∧ p < ldu2.lerowptr i) ∧
            ldu2.lcolind p = ldu.lcolind p ∧ ldu2.lvalues p = ldu.lvalues p) ∨
        (ldu.nrm2s i * tol ≤ fabs (ldu2.lvalues p) ∧ g.map (ldu2.lcolind p) % 2 = 1)) ∧
      (ldu2.ucolind = ldu.ucolind ∧ ldu2.uvalues = ldu.uvalues ∧
        ldu2.uerowptr = ldu.uerowptr) := by
  have hs := SecondDropSmall_survivors (ldu.nrm2s i * tol) g
  obtain ⟨m, jw, w, e1, m1, m2, m3, _, hperm, _⟩ := SeperateLU_by_total
    (inL_byMIS (SecondDropSmall (ldu.nrm2s i * tol) g))
    (SecondDropSmall (ldu.nrm2s i * tol) g)
  have hmap : (SecondDropSmall (ldu.nrm2s i * tol) g).map = g.map := rfl
  generalize hg1 : SecondDropSmall (ldu.nrm2s i * tol) g = g1 at hs e1 m1 m2 m3 hperm hmap
  have hall : ∀ e ∈ entries jw w 1 g1.lastjr, ldu.nrm2s i * tol ≤ fabs e.2 :=
    fun e he => hs e (hperm.subset he)
  have hpos : ∀ q, 1 ≤ q → q < g1.lastjr → ldu.nrm2s i * tol ≤ fabs (w q) := by
    intro q q1 q2
    have hm : (jw q, w q) ∈ entries jw w 1 g1.lastjr := by
      rw [mem_entries]
      exact ⟨q, q1, q2, rfl⟩
    have hb := hall _ hm
    exact hb
  have hL := UpdateL_written i m ldu { g1 with jw := jw, w := w }
    (fun c v => ldu.nrm2s i * tol ≤ fabs v ∧ g.map c % 2 = 1)
    (by
      intro q q1 q2
      refine ⟨hpos q q1 (by omega), ?_⟩
      have hin := m3 q q1 q2
      unfold inL_byMIS IsInMIS at hin
      rw [hmap] at hin
      exact of_decide_eq_true hin)
  have hres : ComputeRmat_store i inr nrmat rrowlen rcolind rvalues fresh_colind
      fresh_values tol ldu g =
      some (UpdateL i m ldu { g1 with jw := jw, w := w },
        (FormNRmat inr m nrmat g1.global_maxnz rrowlen rcolind rvalues fresh_colind
          fresh_values { g1 with jw := jw, w := w }).1,
        (FormNRmat inr m nrmat g1.global_maxnz rrowlen rcolind rvalues fresh_colind
          fresh_values { g1 with jw := jw, w := w }).2) := by
    unfold ComputeRmat_store SeperateLU_byMIS
    simp only [hg1, e1]
  refine ⟨_, _, _, hres, rfl, ?_, rfl, rfl, rfl⟩
  intro p
  exact hL p

/-- C12. Drop correctness. The end of a row of `FactorLocal` (`SecondDropSmall`,
`SeperateLU_byDIAG`, `UpdateL`, `FormDU`) and the end of a row of `ComputeRmat`
(`SecondDropSmall`, `SeperateLU_byMIS`, `UpdateL`, `FormNRmat`) return on every
workspace, and with `rtol = nrm2s[i]*tol`: every position of the `L` pool either lies
outside the appended range and keeps its entry or holds an entry of magnitude at least
`rtol`; the same holds for the `U` pool in `FactorLocal`, and `ComputeRmat` leaves `U` as it
is. -/
theorem drop_correctness (i diag : Nat) (newiperm : Nat → Nat) (tol : ℚ)
    (ldu : FactorMatType) (g : hypre_PilutSolverGlobals)
    (inr : Nat) (nrmat : ReduceMatType) (rrowlen : Nat)
    (rcolind : Nat → Nat) (rvalues : Nat → ℚ)
    (fresh_colind : Nat → Nat) (fresh_values : Nat → ℚ) :
    (∃ ldu2 g2, FactorLocal_store i diag newiperm tol ldu g = some (ldu2, g2) ∧
      (∀ p, (¬ (ldu.lerowptr i ≤ p ∧ p < ldu2.lerowptr i) ∧
            ldu2.lcolind p = ldu.lcolind p ∧ ldu2.lvalues p = ldu.lvalues p) ∨
        ldu.nrm2s i * tol ≤ fabs (ldu2.lvalues p)) ∧
      (∀ p, (¬ (ldu.uerowptr i ≤ p ∧ p < ldu2.uerowptr i) ∧
            ldu2.ucolind p = ldu.ucolind p ∧ ldu2.uvalues p = ldu.uvalues p) ∨
        ldu.nrm2s i * tol ≤ fabs (ldu2.uvalues p))) ∧
    (∃ ldu2 nr2 g2, ComputeRmat_store i inr nrmat rrowlen rcolind rvalues fresh_colind
        fresh_values tol ldu g = some (ldu2, nr2, g2) ∧
      (∀ p, (¬ (ldu.lerowptr i ≤ p ∧ p < ldu2.lerowptr i) ∧
            ldu2.lcolind p = ldu.lcolind p ∧ ldu2.lvalues p = ldu.lvalues p) ∨
        ldu.nrm2s i * tol ≤ fabs (ldu2.lvalues p)) ∧
      (ldu2.ucolind = ldu.ucolind ∧ ldu2.uvalues = ldu.uvalues ∧
        ldu2.uerowptr = ldu.uerowptr)) := by
  constructor
  · obtain ⟨ldu2, g2, h1, _, h2, h3⟩ := FactorLocal_store_spec i diag newiperm tol ldu g
    refine ⟨ldu2, g2, h1, ?_, h3⟩
    intro p
    rcases h2 p with a | b
    · exact Or.inl a
    · exact Or.inr b.1
  · obtain ⟨ldu2, nr2, g2, h1, _, h2, h3⟩ := ComputeRmat_store_spec i inr nrmat rrowlen
      rcolind rvalues fresh_colind fresh_values tol ldu g
    refine ⟨ldu2, nr2, g2, h1, ?_, h3⟩
    intro p
    rcases h2 p with a | b
    · exact Or.inl a
    · exact Or.inr b.1

/-! ## The workspace invariant during row formation -/

theorem lr_push_fields (key : Option Nat) (s : hypre_PilutSolverGlobals) :
    (lr_push key s).jr = s.jr ∧ (lr_push key s).jw = s.jw ∧ (lr_push key s).w = s.w ∧
    (lr_push key s).lastjr = s.lastjr := by
  cases key <;> exact ⟨rfl, rfl, rfl, rfl⟩

/-- The seeding loop has copied the first `1 + n` columns of the row and recorded their
positions in `jr`. -/
theorem seed_loop_spec (key : Nat → Option Nat) (nnz : Nat) (rcolind : Nat → Nat)
    (rvalues : Nat → ℚ) (s0 : hypre_PilutSolverGlobals)
    (h0 : s0.jw 0 = rcolind 0 ∧ s0.jr (rcolind 0) = 0)
    (h1 : ∀ c, rcolind 0 ≠ c → s0.jr c = -1)
    (hinj : InjOnRange rcolind 0 nnz) (n : Nat) (hn : n ≤ nnz - 1) :
    (∀ p, p < 1 + n →
      (forLoop 1 (seed_body key rcolind rvalues) n s0).jw p = rcolind p ∧
      (forLoop 1 (seed_body key rcolind rvalues) n s0).jr (rcolind p) = (p : Int)) ∧
    (∀ c, (∀ p, p < 1 + n → rcolind p ≠ c) →
      (forLoop 1 (seed_body key rcolind rvalues) n s0).jr c = -1) := by
  induction n with
  | zero =>
    simp only [forLoop_zero]
    constructor
    · intro p hp
      have : p = 0 := by omega
      subst this
      exact ⟨h0.1, by simpa using h0.2⟩
    · intro c hc
      exact h1 c (hc 0 (by omega))
  | succ m ih =>
    obtain ⟨i1, i2⟩ := ih (by omega)
    rw [forLoop_succ]
    generalize forLoop 1 (seed_body key rcolind rvalues) m s0 = t at i1 i2
    obtain ⟨e1, e2, _, _⟩ := lr_push_fields (key (rcolind (1 + m))) t
    simp only [seed_body, e1, e2]
    constructor
    · intro p hp
      by_cases hpm : p = 1 + m
      · subst hpm
        rw [upd_same, upd_same]
        exact ⟨rfl, rfl⟩
      · have hne : rcolind p ≠ rcolind (1 + m) := by
          intro heq
          exact hpm (hinj p (1 + m) (by omega) (by omega) (by omega) (by omega) heq)
        rw [upd_other _ _ _ _ hpm, upd_other _ _ _ _ hne]
        exact i1 p (by omega)
    · intro c hc
      have hne : c ≠ rcolind (1 + m) := fun heq => hc (1 + m) (by omega) heq.symm
      rw [upd_other _ _ _ _ hne]
      exact i2 c (fun p hp => hc p (by omega))

/-- Seeding establishes the workspace invariant when `jr` is `-1` everywhere before and the
columns of the reduced row are pairwise distinct. -/
theorem seed_row_inv (key : Nat → Option Nat) (nnz : Nat) (rcolind : Nat → Nat)
    (rvalues : Nat → ℚ) (g : hypre_PilutSolverGlobals)
    (hjr : ∀ c, g.jr c = -1) (hinj : InjOnRange rcolind 0 nnz) :
    WSInv (seed_row key nnz rcolind rvalues g) ∧
    1 ≤ (seed_row key nnz rcolind rvalues g).lastjr ∧
    (seed_row key nnz rcolind rvalues g).jw 0 = rcolind 0 := by
  obtain ⟨i1, i2⟩ := seed_loop_spec key nnz rcolind rvalues
    { g with jr := upd g.jr (rcolind 0) 0, jw := upd g.jw 0 (rcolind 0),
             w := upd g.w 0 (rvalues 0), lastlr := 0 }
    ⟨by simp only [upd_same], by simp only [upd_same]⟩
    (by
      intro c hc
      simp only
      rw [upd_other _ _ _ _ (Ne.symm hc)]
      exact hjr c)
    hinj (nnz - 1) (le_refl _)
  have hl : max 1 nnz = 1 + (nnz - 1) := by omega
  unfold WSInv
  simp only [seed_row, hl]
  refine ⟨⟨?_, ?_⟩, by omega, (i1 0 (by omega)).1⟩
  · intro p hp
    rw [(i1 p hp).1]
    exact (i1 p hp).2
  · intro c hc
    apply i2 c
    intro p hp
    rw [← (i1 p hp).1]
    exact hc p hp

/-- One pass of the loop over the row that is applied keeps the workspace invariant. -/
theorem fill_body_inv (key : Nat → Option Nat) (cols : Nat → Nat) (vals : Nat → ℚ)
    (mult rtol : ℚ) (l : Nat) (s : hypre_PilutSolverGlobals) (d : Nat)
    (h : WSInv s ∧ 1 ≤ s.lastjr ∧ s.jw 0 = d) :
    WSInv (fill_body key cols vals mult rtol l s) ∧
    1 ≤ (fill_body key cols vals mult rtol l s).lastjr ∧
    (fill_body key cols vals mult rtol l s).jw 0 = d := by
  obtain ⟨⟨a1, a2⟩, h2, h3⟩ := h
  unfold fill_body
  by_cases hm : s.jr (cols l) = -1
  · simp only [hm, if_true]
    by_cases hsmall : fabs (mult * vals l) < rtol
    · simp only [hsmall, if_true]
      exact ⟨⟨a1, a2⟩, h2, h3⟩
    · simp only [hsmall, if_false]
      obtain ⟨e1, e2, _, e4⟩ := lr_push_fields (key (cols l)) s
      have hnot : ∀ p, p < s.lastjr → s.jw p ≠ cols l := by
        intro p hp heq
        have := a1 p hp
        rw [heq, hm] at this
        omega
      unfold WSInv
      simp only [e1, e2, e4]
      refine ⟨⟨?_, ?_⟩, by omega, ?_⟩
      · intro p hp
        by_cases hpl : p = s.lastjr
        · subst hpl
          rw [upd_same, upd_same]
        · rw [upd_other _ _ _ _ hpl, upd_other _ _ _ _ (hnot p (by omega))]
          exact a1 p (by omega)
      · intro c hc
        have hne : c ≠ cols l := by
          intro heq
          have := hc s.lastjr (by omega)
          rw [upd_same] at this
          exact this heq.symm
        rw [upd_other _ _ _ _ hne]
        apply a2 c
        intro p hp
        have := hc p (by omega)
        rw [upd_other _ _ _ _ (by omega)] at this
        exact this
      · rw [upd_other _ _ _ _ (by omega)]
        exact h3
  · simp only [hm, if_false]
    exact ⟨⟨a1, a2⟩, h2, h3⟩

theorem apply_row_inv (key : Nat → Option Nat) (cols : Nat → Nat) (vals : Nat → ℚ) (rtol : ℚ)
    (k : Nat) (dv : ℚ) (lo n : Nat) (g : hypre_PilutSolverGlobals) (d : Nat)
    (h : WSInv g ∧ 1 ≤ g.lastjr ∧ g.jw 0 = d) :
    WSInv (apply_row key cols vals rtol k dv lo n g) ∧
    1 ≤ (apply_row key cols vals rtol k dv lo n g).lastjr ∧
    (apply_row key cols vals rtol k dv lo n g).jw 0 = d := by
  unfold apply_row
  simp only
  split
  · exact h
  · exact forLoop_inv (fun _ s => WSInv s ∧ 1 ≤ s.lastjr ∧ s.jw 0 = d) lo _ n _ h
      (fun m t _ ht => fill_body_inv key cols vals _ rtol (lo + m) t d ht)

theorem ExtractMinLR_inv (g : hypre_PilutSolverGlobals) (d : Nat)
    (h : WSInv g ∧ 1 ≤ g.lastjr ∧ g.jw 0 = d) :
    WSInv (ExtractMinLR g).2 ∧ 1 ≤ (ExtractMinLR g).2.lastjr ∧ (ExtractMinLR g).2.jw 0 = d := h

theorem FactorLocal_elim_step_inv (diag : Nat) (newperm newiperm : Nat → Nat) (rtol : ℚ)
    (ldu : FactorMatType) (g : hypre_PilutSolverGlobals) (d : Nat)
    (h : WSInv g ∧ 1 ≤ g.lastjr ∧ g.jw 0 = d) :
    WSInv (FactorLocal_elim_step diag newperm newiperm rtol ldu g) ∧
    1 ≤ (FactorLocal_elim_step diag newperm newiperm rtol ldu g).lastjr ∧
    (FactorLocal_elim_step diag newperm newiperm rtol ldu g).jw 0 = d := by
  unfold FactorLocal_elim_step
  exact apply_row_inv _ _ _ _ _ _ _ _ _ d (ExtractMinLR_inv g d h)

theorem ComputeRmat_elim_step_inv (newperm newiperm : Nat → Nat) (rtol : ℚ)
    (ldu : FactorMatType) (cinfo : CommInfoType) (g : hypre_PilutSolverGlobals) (d : Nat)
    (h : WSInv g ∧ 1 ≤ g.lastjr ∧ g.jw 0 = d) :
    WSInv (ComputeRmat_elim_step newperm newiperm rtol ldu cinfo g) ∧
    1 ≤ (ComputeRmat_elim_step newperm newiperm rtol ldu cinfo g).lastjr ∧
    (ComputeRmat_elim_step newperm newiperm rtol ldu cinfo g).jw 0 = d := by
  unfold ComputeRmat_elim_step
  simp only
  split
  · exact apply_row_inv _ _ _ _ _ _ _ _ _ d (ExtractMinLR_inv g d h)
  · exact apply_row_inv _ _ _ _ _ _ _ _ _ d (ExtractMinLR_inv g d h)

theorem elim_loop_inv (step : hypre_PilutSolverGlobals → hypre_PilutSolverGlobals)
    (P : hypre_PilutSolverGlobals → Prop) (hstep : ∀ g, P g → P (step g)) (n : Nat)
    (g : hypre_PilutSolverGlobals) (h : P g) : P (elim_loop step n g) := by
  induction n generalizing g with
  | zero => exact h
  | succ m ih =>
    unfold elim_loop
    split
    · exact ih (step g) (hstep g h)
    · exact h

/-- Under the workspace invariant the columns of the workspace are pairwise distinct. -/
theorem WSInv_nodup (g : hypre_PilutSolverGlobals) (h : WSInv g) :
    (slice g.jw 0 g.lastjr).Nodup := by
  rw [nodup_slice_iff]
  intro i j _ hi _ hj heq
  have e1 := h.1 i (by omega)
  have e2 := h.1 j (by omega)
  rw [heq, e2] at e1
  omega

/-! ## The columns of the emitted reduced row -/

theorem slice_cols (c : Nat → Nat) (v : Nat → ℚ) (n : Nat) (h : 1 ≤ n) :
    slice c 0 n = c 0 :: (entries c v 1 n).map Prod.fst := by
  obtain ⟨k, rfl⟩ : ∃ k, n = k + 1 := ⟨n - 1, by omega⟩
  rw [slice_cons]
  unfold entries slice
  simp [List.map_map, Function.comp_def]

theorem cols_nodup_of_subperm (d : Nat) (l1 l2 : List (Nat × ℚ)) (h : List.Subperm l1 l2)
    (hn : (d :: l2.map Prod.fst).Nodup) : (d :: l1.map Prod.fst).Nodup := by
  obtain ⟨l, hp, hs⟩ := h
  have h1 : (d :: l.map Prod.fst).Nodup :=
    List.Nodup.sublist ((hs.map Prod.fst).cons₂ d) hn
  exact ((hp.map Prod.fst).cons d).nodup_iff.mp h1

/-- The off-diagonal entries of the row that `FormNRmat` emits are taken, without
repetition, from the workspace entries `[first, lastjr)`. -/
theorem FormNRmat_fill_subperm (first max_rowlen : Nat) (g : hypre_PilutSolverGlobals)
    (rcolind : Nat → Nat) (rvalues : Nat → ℚ) :
    1 ≤ (FormNRmat_fill first max_rowlen g rcolind rvalues).nz ∧
    (FormNRmat_fill first max_rowlen g rcolind rvalues).rcolind 0 = g.jw 0 ∧
    List.Subperm
      (entries (FormNRmat_fill first max_rowlen g rcolind rvalues).rcolind
        (FormNRmat_fill first max_rowlen g rcolind rvalues).rvalues 1
        (FormNRmat_fill first max_rowlen g rcolind rvalues).nz)
      (entries g.jw g.w first g.lastjr) := by
  by_cases h : (g.lastjr : Int) - (first : Int) + 1 ≤ (max_rowlen : Int)
  · obtain ⟨c1, _, _, _, c5, _, c7⟩ := FormNRmat_fill_copy first max_rowlen g rcolind rvalues h
    refine ⟨by omega, c5, ?_⟩
    rw [c7]
  · obtain ⟨c1, _, c3, _, c5, _⟩ := FormNRmat_fill_select first max_rowlen g rcolind rvalues h
    refine ⟨by omega, c3, ?_⟩
    exact (List.Perm.subperm_left c5.symm).mp (List.Sublist.subperm (List.sublist_append_left _ _))

/-- The row that `FormNRmat` emits has the diagonal first and pairwise distinct columns when
the columns of the workspace are pairwise distinct. -/
theorem FormNRmat_nodup (rrow first : Nat) (nrmat : ReduceMatType) (max_rowlen in_rowlen : Nat)
    (in_colind : Nat → Nat) (in_values : Nat → ℚ)
    (fresh_colind : Nat → Nat) (fresh_values : Nat → ℚ) (g : hypre_PilutSolverGlobals)
    (hfirst : 1 ≤ first) (hl : 1 ≤ g.lastjr) (hnd : (slice g.jw 0 g.lastjr).Nodup) :
    (FormNRmat rrow first nrmat max_rowlen in_rowlen in_colind in_values fresh_colind
        fresh_values g).1.rmat_rcolind rrow 0 = g.jw 0 ∧
    (slice ((FormNRmat rrow first nrmat max_rowlen in_rowlen in_colind in_values fresh_colind
        fresh_values g).1.rmat_rcolind rrow) 0
      ((FormNRmat rrow first nrmat max_rowlen in_rowlen in_colind in_values fresh_colind
        fresh_values g).1.rmat_rnz rrow)).Nodup := by
  simp only [FormNRmat, upd_same]
  obtain ⟨n1, n2, n3⟩ := FormNRmat_fill_subperm first max_rowlen g
    (if FormNRmat_out_rowlen first max_rowlen g > (in_rowlen : Int) then fresh_colind
      else in_colind)
    (if FormNRmat_out_rowlen first max_rowlen g > (in_rowlen : Int) then fresh_values
      else in_values)
  generalize FormNRmat_fill first max_rowlen g
    (if FormNRmat_out_rowlen first max_rowlen g > (in_rowlen : Int) then fresh_colind
      else in_colind)
    (if FormNRmat_out_rowlen first max_rowlen g > (in_rowlen : Int) then fresh_values
      else in_values) = t at n1 n2 n3
  refine ⟨n2, ?_⟩
  rw [slice_cols t.rcolind t.rvalues t.nz n1, n2]
  rw [slice_cols g.jw g.w g.lastjr hl] at hnd
  apply cols_nodup_of_subperm (g.jw 0) _ _ _ hnd
  apply List.Subperm.trans n3
  apply List.Sublist.subperm
  by_cases hfl : first ≤ g.lastjr
  · rw [entries_split g.jw g.w 1 first g.lastjr hfirst hfl]
    exact List.sublist_append_right _ _
  · rw [entries_nil g.jw g.w first g.lastjr (by omega)]
    exact List.nil_sublist _

/-- The workspace after `SecondDropSmall`: the diagonal stays, and the off-diagonal entries
are those of magnitude at least `rtol`. -/
theorem SecondDropSmall_entries (rtol : ℚ) (g : hypre_PilutSolverGlobals) (h : 1 ≤ g.lastjr) :
    (SecondDropSmall rtol g).jw 0 = g.jw 0 ∧ 1 ≤ (SecondDropSmall rtol g).lastjr ∧
    List.Perm
      (entries (SecondDropSmall rtol g).jw (SecondDropSmall rtol g).w 1
        (SecondDropSmall rtol g).lastjr)
      ((entries g.jw g.w 1 g.lastjr).filter (fun e => decide (rtol ≤ fabs e.2))) := by
  obtain ⟨a1, _, a3, _, a5⟩ := SecondDropSmall_loop_spec rtol g.lastjr 1
    { lastjr := g.lastjr, jw := g.jw, w := g.w } (le_refl _) h (by simp only; omega)
  rw [entries_nil g.jw g.w 1 1 (le_refl _), List.nil_append] at a5
  exact ⟨a1, a3, a5⟩

/-- The end of a row of `ComputeRmat` on a workspace with pairwise distinct columns emits a
reduced row that has the diagonal first and pairwise distinct columns. -/
theorem ComputeRmat_store_nodup (i inr : Nat) (nrmat : ReduceMatType) (rrowlen : Nat)
    (rcolind : Nat → Nat) (rvalues : Nat → ℚ)
    (fresh_colind : Nat → Nat) (fresh_values : Nat → ℚ) (tol : ℚ) (ldu : FactorMatType)
    (g : hypre_PilutSolverGlobals) (hl : 1 ≤ g.lastjr)
    (hnd : (slice g.jw 0 g.lastjr).Nodup) :
    ∃ ldu2 nr2 g2, ComputeRmat_store i inr nrmat rrowlen rcolind rvalues fresh_colind
        fresh_values tol ldu g = some (ldu2, nr2, g2) ∧
      nr2.rmat_rcolind inr 0 = g.jw 0 ∧
      (slice (nr2.rmat_rcolind inr) 0 (nr2.rmat_rnz inr)).Nodup := by
  obtain ⟨d1, d2, d3⟩ := SecondDropSmall_entries (ldu.nrm2s i * tol) g hl
  obtain ⟨m, jw, w, e1, m1, m2, _, _, hperm, hframe⟩ := SeperateLU_by_spec
    (inL_byMIS (SecondDropSmall (ldu.nrm2s i * tol) g))
    (SecondDropSmall (ldu.nrm2s i * tol) g) d2
  generalize hg1 : SecondDropSmall (ldu.nrm2s i * tol) g = g1 at d1 d2 d3 e1 m1 m2 hperm hframe
  have hres : ComputeRmat_store i inr nrmat rrowlen rcolind rvalues fresh_colind
      fresh_values tol ldu g =
      some (UpdateL i m ldu { g1 with jw := jw, w := w },
        (FormNRmat inr m nrmat g1.global_maxnz rrowlen rcolind rvalues fresh_colind
          fresh_values { g1 with jw := jw, w := w }).1,
        (FormNRmat inr m nrmat g1.global_maxnz rrowlen rcolind rvalues fresh_colind
          fresh_values { g1 with jw := jw, w := w }).2) := by
    unfold ComputeRmat_store SeperateLU_byMIS
    simp only [hg1, e1]
  have hnd2 : (slice jw 0 g1.lastjr).Nodup := by
    rw [slice_cols jw w g1.lastjr d2, (hframe 0 (Or.inl (by omega))).1, d1]
    rw [slice_cols g.jw g.w g.lastjr hl] at hnd
    apply cols_nodup_of_subperm (g.jw 0) _ _ _ hnd
    apply (List.Perm.subperm_right (hperm.trans d3).symm).mp
    exact List.Sublist.subperm (List.filter_sublist _)
  obtain ⟨r1, r2⟩ := FormNRmat_nodup inr m nrmat g1.global_maxnz rrowlen rcolind rvalues
    fresh_colind fresh_values { g1 with jw := jw, w := w } m1 d2 hnd2
  refine ⟨_, _, _, hres, ?_, r2⟩
  rw [r1]
  show jw 0 = g.jw 0
  rw [(hframe 0 (Or.inl (by omega))).1, d1]

/-- C20. Distinct columns. If `jr` is `-1` everywhere before a row is formed and the columns
of the seeded reduced row `rcolind[0..nnz)` are pairwise distinct, then after the seeding
and after every number `n` of passes of the elimination loop, in `FactorLocal` and in
`ComputeRmat`, `jr[jw[p]] = p` for every `p < lastjr` and `jr[c] = -1` for every column
`c` that is not in `jw[0..lastjr)`, so the columns of the workspace are pairwise distinct;
and the end of the row in `ComputeRmat` returns a reduced row (emitted by `FormNRmat`)
that has the diagonal `rcolind[0]` first and pairwise distinct columns. Distinct columns
of the `U` rows applied are not needed. -/
theorem row_formation_distinct (diag : Nat) (newperm newiperm : Nat → Nat) (rtol tol : ℚ)
    (ldu : FactorMatType) (cinfo : CommInfoType) (i inr : Nat) (nrmat : ReduceMatType)
    (nnz rrowlen : Nat) (rcolind : Nat → Nat) (rvalues : Nat → ℚ)
    (fresh_colind : Nat → Nat) (fresh_values : Nat → ℚ) (g : hypre_PilutSolverGlobals)
    (hjr : ∀ c, g.jr c = -1) (hrow : InjOnRange rcolind 0 nnz) (n : Nat) :
    (WSInv (FactorLocal_form diag newperm newiperm rtol ldu nnz rcolind rvalues g n) ∧
      (slice (FactorLocal_form diag newperm newiperm rtol ldu nnz rcolind rvalues g n).jw 0
        (FactorLocal_form diag newperm newiperm rtol ldu nnz rcolind rvalues g n).lastjr).Nodup ∧
      (FactorLocal_form diag newperm newiperm rtol ldu nnz rcolind rvalues g n).jw 0
        = rcolind 0) ∧
    (WSInv (ComputeRmat_form newperm newiperm rtol ldu cinfo nnz rcolind rvalues g n) ∧
      (slice (ComputeRmat_form newperm newiperm rtol ldu cinfo nnz rcolind rvalues g n).jw 0
        (ComputeRmat_form newperm newiperm rtol ldu cinfo nnz rcolind rvalues g n).lastjr).Nodup ∧
      (ComputeRmat_form newperm newiperm rtol ldu cinfo nnz rcolind rvalues g n).jw 0
        = rcolind 0 ∧
      ∃ ldu2 nr2 g2,
        ComputeRmat_store i inr nrmat rrowlen rcolind rvalues fresh_colind fresh_values tol ldu
          (ComputeRmat_form newperm newiperm rtol ldu cinfo nnz rcolind rvalues g n)
          = some (ldu2, nr2, g2) ∧
        nr2.rmat_rcolind inr 0 = rcolind 0 ∧
        (slice (nr2.rmat_rcolind inr) 0 (nr2.rmat_rnz inr)).Nodup) := by
  constructor
  · obtain ⟨a1, a2, a3⟩ := elim_loop_inv
      (FactorLocal_elim_step diag newperm newiperm rtol ldu)
      (fun s => WSInv s ∧ 1 ≤ s.lastjr ∧ s.jw 0 = rcolind 0)
      (fun s hs => FactorLocal_elim_step_inv diag newperm newiperm rtol ldu s (rcolind 0) hs)
      n (seed_row (FactorLocal_key g diag newiperm) nnz rcolind rvalues g)
      (seed_row_inv _ nnz rcolind rvalues g hjr hrow)
    exact ⟨a1, WSInv_nodup _ a1, a3⟩
  · obtain ⟨a1, a2, a3⟩ := elim_loop_inv
      (ComputeRmat_elim_step newperm newiperm rtol ldu cinfo)
      (fun s => WSInv s ∧ 1 ≤ s.lastjr ∧ s.jw 0 = rcolind 0)
      (fun s hs => ComputeRmat_elim_step_inv newperm newiperm rtol ldu cinfo s (rcolind 0) hs)
      n (seed_row (ComputeRmat_key g newiperm) nnz rcolind rvalues g)
      (seed_row_inv _ nnz rcolind rvalues g hjr hrow)
    refine ⟨a1, WSInv_nodup _ a1, a3, ?_⟩
    obtain ⟨ldu2, nr2, g2, r1, r2, r3⟩ := ComputeRmat_store_nodup i inr nrmat rrowlen rcolind
      rvalues fresh_colind fresh_values tol ldu
      (elim_loop (ComputeRmat_elim_step newperm newiperm rtol ldu cinfo) n
        (seed_row (ComputeRmat_key g newiperm) nnz rcolind rvalues g)) a2 (WSInv_nodup _ a1)
    exact ⟨ldu2, nr2, g2, r1, r2.trans a3, r3⟩

/-- Instance of C20: the row `0, 9, 1, 7` of the local row 0 at a level where the rows 1
and 9 are in the independent set, after two passes of the elimination loop. -/
theorem row_formation_distinct_witness :
    ((∀ c, exGl.jr c = -1) ∧ InjOnRange (arr 0 [0, 9, 1, 7]) 0 4) ∧
    WSInv (ComputeRmat_form (arr 0 [1, 0]) (arr 0 [1, 0]) 1 exLdul exCil 4
      (arr 0 [0, 9, 1, 7]) (arr 0 [4, 2, 1, -7]) exGl 2) ∧
    (slice (ComputeRmat_form (arr 0 [1, 0]) (arr 0 [1, 0]) 1 exLdul exCil 4
        (arr 0 [0, 9, 1, 7]) (arr 0 [4, 2, 1, -7]) exGl 2).jw 0
      (ComputeRmat_form (arr 0 [1, 0]) (arr 0 [1, 0]) 1 exLdul exCil 4
        (arr 0 [0, 9, 1, 7]) (arr 0 [4, 2, 1, -7]) exGl 2).lastjr).Nodup :=
  ⟨⟨fun _ => rfl, by decide⟩,
   (row_formation_distinct 1 (arr 0 [1, 0]) (arr 0 [1, 0]) 1 1 exLdul exCil 0 0 exNr 4 4
      (arr 0 [0, 9, 1, 7]) (arr 0 [4, 2, 1, -7]) (fun _ => 0) (fun _ => 0) exGl
      (fun _ => rfl) (by decide) 2).2.1,
   (row_formation_distinct 1 (arr 0 [1, 0]) (arr 0 [1, 0]) 1 1 exLdul exCil 0 0 exNr 4 4
      (arr 0 [0, 9, 1, 7]) (arr 0 [4, 2, 1, -7]) (fun _ => 0) (fun _ => 0) exGl
      (fun _ => rfl) (by decide) 2).2.2.1⟩

/-- C13 fails as stated. At a level where the local row 1 and the remote row 9 are in the
independent set (so they are eliminated at this level) and the local row 0 is not (so it is
eliminated at a later level), `ComputeRmat` reduces row 0, whose reduced row has the columns
`0, 9, 1, 7`, and stores the two entries with the columns 9 and 1 in the `L` part of
row 0. -/
theorem L_block_diagonal_counterexample :
    (IsInMIS (exGl.map 1) = true ∧ IsInMIS (exGl.map 9) = true ∧ IsInMIS (exGl.map 0) = false) ∧
    (ComputeRmat_row 5 (arr 0 [1, 0]) (arr 0 [1, 0]) 1 exLdul exCil 0 0 exNr 4 4
        (arr 0 [0, 9, 1, 7]) (arr 0 [4, 2, 1, -7]) (fun _ => 0) (fun _ => 0) exGl).map
      (fun r => (r.1.lsrowptr 0, r.1.lerowptr 0, r.1.lcolind 0, r.1.lcolind 1))
      = some (0, 2, 9, 1) :=
  ⟨by decide, by with_unfolding_all decide⟩

/-- The step of the `L` part at the end of one row: when the `L` part of row `i` holds no
entry for the column `c`, it still holds none after the end of a row of `FactorLocal` unless
`c` is a local column placed before `diag` in the new permutation, and it still holds none
after the end of a row of `ComputeRmat` unless `c` is marked selected in `map`. -/
theorem L_triangular_step (i diag : Nat) (newiperm : Nat → Nat) (tol : ℚ)
    (ldu : FactorMatType) (g : hypre_PilutSolverGlobals)
    (inr : Nat) (nrmat : ReduceMatType) (rrowlen : Nat)
    (rcolind : Nat → Nat) (rvalues : Nat → ℚ)
    (fresh_colind : Nat → Nat) (fresh_values : Nat → ℚ) (c : Nat)
    (hrow : ∀ p, ldu.lsrowptr i ≤ p → p < ldu.lerowptr i → ldu.lcolind p ≠ c) :
    (¬ (g.firstrow ≤ c ∧ c < g.lastrow ∧ newiperm (c - g.firstrow) < diag) →
      ∃ ldu2 g2, FactorLocal_store i diag newiperm tol ldu g = some (ldu2, g2) ∧
        ∀ p, ldu2.lsrowptr i ≤ p → p < ldu2.lerowptr i → ldu2.lcolind p ≠ c) ∧
    (¬ g.map c % 2 = 1 →
      ∃ ldu2 nr2 g2, ComputeRmat_store i inr nrmat rrowlen rcolind rvalues fresh_colind
          fresh_values tol ldu g = some (ldu2, nr2, g2) ∧
        ∀ p, ldu2.lsrowptr i ≤ p → p < ldu2.lerowptr i → ldu2.lcolind p ≠ c) := by
  constructor
  · intro hc
    obtain ⟨ldu2, g2, h1, h2, h3, _⟩ := FactorLocal_store_spec i diag newiperm tol ldu g
    refine ⟨ldu2, g2, h1, ?_⟩
    intro p p1 p2
    rw [h2] at p1
    rcases h3 p with ⟨a, b, _⟩ | ⟨_, b⟩
    · rw [b]
      exact hrow p p1 (by omega)
    · intro heq
      rw [heq] at b
      exact hc b
  · intro hc
    obtain ⟨ldu2, nr2, g2, h1, h2, h3, _⟩ := ComputeRmat_store_spec i inr nrmat rrowlen
      rcolind rvalues fresh_colind fresh_values tol ldu g
    refine ⟨ldu2, nr2, g2, h1, ?_⟩
    intro p p1 p2
    rw [h2] at p1
    rcases h3 p with ⟨a, b, _⟩ | ⟨_, b⟩
    · rw [b]
      exact hrow p p1 (by omega)
    · intro heq
      rw [heq] at b
      exact hc b

/-- Instance of the step at the end of one row: the column 7 is neither local nor marked,
and the `L` part of row 0 is empty. -/
theorem L_triangular_step_witness :
    (∀ p, exLdu.lsrowptr 0 ≤ p → p < exLdu.lerowptr 0 → exLdu.lcolind p ≠ 7) ∧
    (¬ (exGp.firstrow ≤ 7 ∧ 7 < exGp.lastrow ∧ id (7 - exGp.firstrow) < 2) ∧
      ∃ ldu2 g2, FactorLocal_store 0 2 id 2 exLdu exGp = some (ldu2, g2) ∧
        ∀ p, ldu2.lsrowptr 0 ≤ p → p < ldu2.lerowptr 0 → ldu2.lcolind p ≠ 7) ∧
    (¬ exGp.map 7 % 2 = 1 ∧
      ∃ ldu2 nr2 g2, ComputeRmat_store 0 0 exNr 0 (fun _ => 0) (fun _ => 0) (fun _ => 0)
          (fun _ => 0) 2 exLdu exGp = some (ldu2, nr2, g2) ∧
        ∀ p, ldu2.lsrowptr 0 ≤ p → p < ldu2.lerowptr 0 → ldu2.lcolind p ≠ 7) :=
  ⟨fun p _ h2 => absurd h2 (Nat.not_lt_zero p),
   ⟨by decide, (L_triangular_step 0 2 id 2 exLdu exGp 0 exNr 0 (fun _ => 0) (fun _ => 0)
      (fun _ => 0) (fun _ => 0) 7 (fun p _ h2 => absurd h2 (Nat.not_lt_zero p))).1
      (by decide)⟩,
   ⟨by decide, (L_triangular_step 0 2 id 2 exLdu exGp 0 exNr 0 (fun _ => 0) (fun _ => 0)
      (fun _ => 0) (fun _ => 0) 7 (fun p _ h2 => absurd h2 (Nat.not_lt_zero p))).2
      (by decide)⟩⟩

/-! ## The accumulator between rows -/

/-- The seeding loop records in `jw` every column whose `jr` entry it sets. -/
theorem seed_loop_jr (key : Nat → Option Nat) (rcolind : Nat → Nat)
    (rvalues : Nat → ℚ) (s0 : hypre_PilutSolverGlobals) (c : Nat)
    (h0 : s0.jw 0 = rcolind 0) (h1 : rcolind 0 ≠ c → s0.jr c = -1) (n : Nat) :
    (∀ p, p < 1 + n → (forLoop 1 (seed_body key rcolind rvalues) n s0).jw p = rcolind p) ∧
    ((∀ p, p < 1 + n → rcolind p ≠ c) →
      (forLoop 1 (seed_body key rcolind rvalues) n s0).jr c = -1) := by
  induction n with
  | zero =>
    simp only [forLoop_zero]
    constructor
    · intro p hp
      have : p = 0 := by omega
      subst this
      exact h0
    · intro hc
      exact h1 (hc 0 (by omega))
  | succ m ih =>
    obtain ⟨i1, i2⟩ := ih
    rw [forLoop_succ]
    generalize forLoop 1 (seed_body key rcolind rvalues) m s0 = t at i1 i2
    obtain ⟨e1, e2, _, _⟩ := lr_push_fields (key (rcolind (1 + m))) t
    simp only [seed_body, e1, e2]
    constructor
    · intro p hp
      by_cases hpm : p = 1 + m
      · subst hpm
        rw [upd_same]
      · rw [upd_other _ _ _ _ hpm]
        exact i1 p (by omega)
    · intro hc
      have hne : c ≠ rcolind (1 + m) := fun heq => hc (1 + m) (by omega) heq.symm
      rw [upd_other _ _ _ _ hne]
      exact i2 (fun p hp => hc p (by omega))

/-- After the seeding, a column that is not in the workspace has the `jr` entry it had
before, when that was `-1`. -/
theorem seed_row_jr (key : Nat → Option Nat) (nnz : Nat) (rcolind : Nat → Nat)
    (rvalues : Nat → ℚ) (g : hypre_PilutSolverGlobals) (c : Nat) (hjr : g.jr c = -1) :
    (∀ p, p < (seed_row key nnz rcolind rvalues g).lastjr →
      (seed_row key nnz rcolind rvalues g).jw p ≠ c) →
    (seed_row key nnz rcolind rvalues g).jr c = -1 := by
  obtain ⟨i1, i2⟩ := seed_loop_jr key rcolind rvalues
    { g with jr := upd g.jr (rcolind 0) 0, jw := upd g.jw 0 (rcolind 0),
             w := upd g.w 0 (rvalues 0), lastlr := 0 }
    c (by simp only [upd_same])
    (by
      intro hc
      simp only
      rw [upd_other _ _ _ _ (Ne.symm hc)]
      exact hjr)
    (nnz - 1)
  have hl : max 1 nnz = 1 + (nnz - 1) := by omega
  simp only [seed_row, hl]
  intro hc
  apply i2
  intro p hp
  rw [← i1 p hp]
  exact hc p hp

/-- One pass of the loop over the row that is applied records in `jw` the column whose
`jr` entry it sets. -/
theorem fill_body_jr (key : Nat → Option Nat) (cols : Nat → Nat) (vals : Nat → ℚ)
    (mult rtol : ℚ) (l : Nat) (s : hypre_PilutSolverGlobals) (c : Nat)
    (h : (∀ p, p < s.lastjr → s.jw p ≠ c) → s.jr c = -1) :
    (∀ p, p < (fill_body key cols vals mult rtol l s).lastjr →
      (fill_body key cols vals mult rtol l s).jw p ≠ c) →
    (fill_body key cols vals mult rtol l s).jr c = -1 := by
  unfold fill_body
  by_cases hm : s.jr (cols l) = -1
  · simp only [hm, if_true]
    by_cases hsmall : fabs (mult * vals l) < rtol
    · simp only [hsmall, if_true]
      exact h
    · simp only [hsmall, if_false]
      obtain ⟨e1, e2, _, e4⟩ := lr_push_fields (key (cols l)) s
      simp only [e1, e2, e4]
      intro hc
      have hne : c ≠ cols l := by
        intro heq
        have := hc s.lastjr (by omega)
        rw [upd_same] at this
        exact this heq.symm
      rw [upd_other _ _ _ _ hne]
      apply h
      intro p hp
      have := hc p (by omega)
      rw [upd_other _ _ _ _ (by omega)] at this
      exact this
  · simp only [hm, if_false]
    exact h

theorem apply_row_jr (key : Nat → Option Nat) (cols : Nat → Nat) (vals : Nat → ℚ) (rtol : ℚ)
    (k : Nat) (dv : ℚ) (lo n : Nat) (g : hypre_PilutSolverGlobals) (c : Nat)
    (h : (∀ p, p < g.lastjr → g.jw p ≠ c) → g.jr c = -1) :
    (∀ p, p < (apply_row key cols vals rtol k dv lo n g).lastjr →
      (apply_row key cols vals rtol k dv lo n g).jw p ≠ c) →
    (apply_row key cols vals rtol k dv lo n g).jr c = -1 := by
  unfold apply_row
  simp only
  split
  · exact h
  · exact forLoop_inv (fun _ s => (∀ p, p < s.lastjr → s.jw p ≠ c) → s.jr c = -1) lo
      (fill_body key cols vals (g.w (g.jr k).toNat * dv) rtol) n
      { g with w := upd g.w (g.jr k).toNat (g.w (g.jr k).toNat * dv) } h
      (fun m t _ ht => fill_body_jr key cols vals _ rtol (lo + m) t c ht)

theorem FactorLocal_elim_step_jr (diag : Nat) (newperm newiperm : Nat → Nat) (rtol : ℚ)
    (ldu : FactorMatType) (g : hypre_PilutSolverGlobals) (c : Nat)
    (h : (∀ p, p < g.lastjr → g.jw p ≠ c) → g.jr c = -1) :
    (∀ p, p < (FactorLocal_elim_step diag newperm newiperm rtol ldu g).lastjr →
      (FactorLocal_elim_step diag newperm newiperm rtol ldu g).jw p ≠ c) →
    (FactorLocal_elim_step diag newperm newiperm rtol ldu g).jr c = -1 := by
  unfold FactorLocal_elim_step
  exact apply_row_jr _ _ _ _ _ _ _ _ _ c h

theorem ComputeRmat_elim_step_jr (newperm newiperm : Nat → Nat) (rtol : ℚ)
    (ldu : FactorMatType) (cinfo : CommInfoType) (g : hypre_PilutSolverGlobals) (c : Nat)
    (h : (∀ p, p < g.lastjr → g.jw p ≠ c) → g.jr c = -1) :
    (∀ p, p < (ComputeRmat_elim_step newperm newiperm rtol ldu cinfo g).lastjr →
      (ComputeRmat_elim_step newperm newiperm rtol ldu cinfo g).jw p ≠ c) →
    (ComputeRmat_elim_step newperm newiperm rtol ldu cinfo g).jr c = -1 := by
  unfold ComputeRmat_elim_step
  simp only
  split
  · exact apply_row_jr _ _ _ _ _ _ _ _ _ c h
  · exact apply_row_jr _ _ _ _ _ _ _ _ _ c h

/-- The first loop of `SecondDropSmall` sets `jr` to `-1` at the columns of the workspace
and leaves the other entries. -/
theorem SecondDropSmall_jr (rtol : ℚ) (g : hypre_PilutSolverGlobals) (c : Nat) :
    (SecondDropSmall rtol g).jr c =
      if c ∈ slice g.jw 0 g.lastjr then -1 else g.jr c := by
  have key : ∀ n, (forLoop 0 (fun i jr => upd jr (g.jw i) (-1)) n g.jr) c =
      if c ∈ slice g.jw 0 n then -1 else g.jr c := by
    intro n
    induction n with
    | zero => simp [slice]
    | succ m ih =>
      rw [forLoop_succ, slice_succ, Nat.zero_add]
      by_cases hc : c = g.jw m
      · subst hc
        simp
      · rw [upd_other _ _ _ _ hc, ih]
        simp [hc]
  simp only [SecondDropSmall]
  exact key g.lastjr

/-- A workspace that records in `jw` every column whose `jr` entry is set has `jr = -1`
at a column after `SecondDropSmall`. -/
theorem SecondDropSmall_jr_reset (rtol : ℚ) (g : hypre_PilutSolverGlobals) (c : Nat)
    (h : (∀ p, p < g.lastjr → g.jw p ≠ c) → g.jr c = -1) :
    (SecondDropSmall rtol g).jr c = -1 := by
  rw [SecondDropSmall_jr]
  split
  · rfl
  · rename_i hc
    apply h
    intro p hp heq
    apply hc
    rw [mem_slice]
    exact ⟨p, by omega, by omega, heq⟩

/-- C30. Between-rows invariant of the accumulator: if `jr` is `-1` on `[0, N)` before
`FactorLocal` or `ComputeRmat` starts forming a row, then after the seeding, any number
`n` of passes of the elimination loop and `SecondDropSmall`, `jr` is `-1` on `[0, N)`
again. -/
theorem jr_reset_between_rows (diag : Nat) (newperm newiperm : Nat → Nat) (rtol : ℚ)
    (ldu : FactorMatType) (cinfo : CommInfoType) (nnz : Nat) (rcolind : Nat → Nat)
    (rvalues : Nat → ℚ) (g : hypre_PilutSolverGlobals) (n N : Nat)
    (hjr : ∀ c, c < N → g.jr c = -1) :
    (∀ c, c < N →
      (SecondDropSmall rtol
        (FactorLocal_form diag newperm newiperm rtol ldu nnz rcolind rvalues g n)).jr c = -1) ∧
    (∀ c, c < N →
      (SecondDropSmall rtol
        (ComputeRmat_form newperm newiperm rtol ldu cinfo nnz rcolind rvalues g n)).jr c
        = -1) := by
  constructor
  · intro c hc
    apply SecondDropSmall_jr_reset
    exact elim_loop_inv (FactorLocal_elim_step diag newperm newiperm rtol ldu)
      (fun s => (∀ p, p < s.lastjr → s.jw p ≠ c) → s.jr c = -1)
      (fun s hs => FactorLocal_elim_step_jr diag newperm newiperm rtol ldu s c hs) n _
      (seed_row_jr _ nnz rcolind rvalues g c (hjr c hc))
  · intro c hc
    apply SecondDropSmall_jr_reset
    exact elim_loop_inv (ComputeRmat_elim_step newperm newiperm rtol ldu cinfo)
      (fun s => (∀ p, p < s.lastjr → s.jw p ≠ c) → s.jr c = -1)
      (fun s hs => ComputeRmat_elim_step_jr newperm newiperm rtol ldu cinfo s c hs) n _
      (seed_row_jr _ nnz rcolind rvalues g c (hjr c hc))

/-- Instance of C30: the row `0, 9, 1, 7` of the local row 0, two passes of the elimination
loop, `N = 10`. -/
theorem jr_reset_between_rows_witness :
    (∀ c, c < 10 → exGl.jr c = -1) ∧
    (∀ c, c < 10 →
      (SecondDropSmall 1
        (FactorLocal_form 1 (arr 0 [1, 0]) (arr 0 [1, 0]) 1 exLdul 4 (arr 0 [0, 9, 1, 7])
          (arr 0 [4, 2, 1, -7]) exGl 2)).jr c = -1) ∧
    (∀ c, c < 10 →
      (SecondDropSmall 1
        (ComputeRmat_form (arr 0 [1, 0]) (arr 0 [1, 0]) 1 exLdul exCil 4 (arr 0 [0, 9, 1, 7])
          (arr 0 [4, 2, 1, -7]) exGl 2)).jr c = -1) :=
  ⟨fun _ _ => rfl,
   jr_reset_between_rows 1 (arr 0 [1, 0]) (arr 0 [1, 0]) 1 exLdul exCil 4 (arr 0 [0, 9, 1, 7])
     (arr 0 [4, 2, 1, -7]) exGl 2 10 (fun _ _ => rfl)⟩

/-! ## SendFactoredRows: the received records -/

theorem mem_recordOffsets (step hi : Nat) (hstep : 0 < step) (budget k0 x : Nat)
    (hb : hi ≤ k0 + budget) :
    x ∈ recordOffsets step hi budget k0 ↔ ∃ t, x = k0 + t * step ∧ x < hi := by
  induction budget generalizing k0 with
  | zero =>
    simp only [recordOffsets, List.not_mem_nil, false_iff]
    rintro ⟨t, rfl, h2⟩
    have : 0 ≤ t * step := Nat.zero_le _
    omega
  | succ b ih =>
    unfold recordOffsets
    by_cases hk : k0 < hi
    · simp only [hk, if_true, List.mem_cons]
      rw [ih (k0 + step) (by omega)]
      constructor
      · rintro (rfl | ⟨t, rfl, h2⟩)
        · exact ⟨0, by simp, hk⟩
        · exact ⟨t + 1, by rw [Nat.add_mul]; omega, h2⟩
      · rintro ⟨t, rfl, h2⟩
        cases t with
        | zero => left; simp
        | succ u =>
          right
          exact ⟨u, by rw [Nat.add_mul]; omega, h2⟩
    · simp only [hk, if_false, List.not_mem_nil, false_iff]
      rintro ⟨t, rfl, h2⟩
      have : 0 ≤ t * step := Nat.zero_le _
      omega

theorem recordOffsets_length (step : Nat) (hstep : 0 < step) (r budget k0 : Nat)
    (hb : k0 + r * step ≤ k0 + budget) :
    (recordOffsets step (k0 + r * step) budget k0).length = r := by
  induction r generalizing budget k0 with
  | zero =>
    cases budget with
    | zero => rfl
    | succ b => simp [recordOffsets]
  | succ q ih =>
    cases budget with
    | zero =>
      rw [Nat.add_mul] at hb
      omega
    | succ b =>
      unfold recordOffsets
      have hk : k0 < k0 + (q + 1) * step := by
        rw [Nat.add_mul]
        omega
      simp only [hk, if_true, List.length_cons]
      have e : k0 + (q + 1) * step = (k0 + step) + q * step := by
        rw [Nat.add_mul]
        omega
      rw [e, ih b (k0 + step) (by rw [Nat.add_mul] at hb; omega)]

theorem foldl_upd_nodup {α β : Type} (L : List β) (idx : β → Nat) (val : β → α)
    (m : Nat → α) (hnd : (L.map idx).Nodup) (o : β) (ho : o ∈ L) :
    (L.foldl (fun t k => upd t (idx k) (val k)) m) (idx o) = val o := by
  induction L generalizing m with
  | nil => exact absurd ho (List.not_mem_nil o)
  | cons a l ih =>
    rw [List.map_cons, List.nodup_cons] at hnd
    rw [List.foldl_cons]
    rcases List.mem_cons.mp ho with h | h
    · subst h
      rw [foldl_upd_of_not_mem l idx val _ _ hnd.1, upd_same]
    · exact ih _ hnd.2 h

theorem recvDiagCols_eq (g : hypre_PilutSolverGlobals) (cinfo : CommInfoType)
    (inCnt : Nat → Nat) :
    recvDiagCols g cinfo inCnt =
      (recvOffsets g cinfo inCnt cinfo.rnnbr).map (fun o => cinfo.incolind (o + 1)) := by
  unfold recvDiagCols recvOffsets
  rw [List.map_flatMap]
  apply List.flatMap_congr
  intro i _
  rw [List.map_map]
  rfl

/-- The map after the loop "Finish receiving rows" has taken `n` neighbours: every received
record has been installed, in buffer order. -/
theorem SendFactoredRows_recv_foldl (cinfo : CommInfoType) (inCnt : Nat → Nat)
    (g : hypre_PilutSolverGlobals) (n : Nat) :
    (forLoop 0
      (fun i (s : RecvRowsState) =>
        ({ j := s.j + cinfo.maxntogo * (g.global_maxnz + 2),
           rnbrptr := upd s.rnbrptr i (inCnt i),
           map := stepLoop (g.global_maxnz + 2) (inCnt i)
                 (fun k m => upd m (cinfo.incolind (s.j + k + 1)) (((s.j + k) <<< 1) + 1))
                 (inCnt i) 0 s.map } : RecvRowsState))
      n { j := 0, rnbrptr := cinfo.rnbrptr, map := g.map }).map
      = (recvOffsets g cinfo inCnt n).foldl
          (fun m o => upd m (cinfo.incolind (o + 1)) ((o <<< 1) + 1)) g.map := by
  induction n with
  | zero => rfl
  | succ m ih =>
    obtain ⟨h1, _, _⟩ := SendFactoredRows_recv_loop_spec cinfo inCnt g m
    rw [forLoop_succ]
    generalize forLoop 0 _ m ({ j := 0, rnbrptr := cinfo.rnbrptr, map := g.map } : RecvRowsState)
      = s at h1 ih
    simp only [Nat.zero_add]
    unfold recvOffsets
    rw [List.range_succ, List.flatMap_append, List.foldl_append]
    simp only [List.flatMap_cons, List.flatMap_nil, List.append_nil]
    rw [stepLoop_eq_foldl, h1, ih, List.foldl_map]
    rfl

/-- C26. Received rows are installed in the map. For every record received from neighbour
`i` at the buffer offset `o = i*maxntogo*(maxnz+2) + k`, with `k` a multiple of `maxnz+2`
below the received count, when the received diagonals are pairwise distinct the map holds
`(o << 1) + 1 = (o << 1) | 1` at the record's row index `c = incolind[o+1]` after
`SendFactoredRows`: its lowest bit is set, `map[c] >> 1` recovers `o`, and
`incolind[(map[c] >> 1) + 1] = c`. A row that is not a received diagonal keeps its map
value, so a locally selected row, marked 1 by `SelectSet`, has the map value 1. -/
theorem SendFactoredRows_installs (cinfo : CommInfoType) (inCnt : Nat → Nat)
    (g : hypre_PilutSolverGlobals) (hnd : (recvDiagCols g cinfo inCnt).Nodup) :
    (∀ i k, i < cinfo.rnnbr → k < inCnt i → (g.global_maxnz + 2) ∣ k →
      (SendFactoredRows cinfo inCnt g).2.map
          (cinfo.incolind (i * (cinfo.maxntogo * (g.global_maxnz + 2)) + k + 1))
        = ((i * (cinfo.maxntogo * (g.global_maxnz + 2)) + k) <<< 1) + 1 ∧
      ((i * (cinfo.maxntogo * (g.global_maxnz + 2)) + k) <<< 1) + 1
        = ((i * (cinfo.maxntogo * (g.global_maxnz + 2)) + k) <<< 1) ||| 1 ∧
      (SendFactoredRows cinfo inCnt g).2.map
          (cinfo.incolind (i * (cinfo.maxntogo * (g.global_maxnz + 2)) + k + 1)) % 2 = 1 ∧
      (SendFactoredRows cinfo inCnt g).2.map
          (cinfo.incolind (i * (cinfo.maxntogo * (g.global_maxnz + 2)) + k + 1)) >>> 1
        = i * (cinfo.maxntogo * (g.global_maxnz + 2)) + k ∧
      cinfo.incolind (((SendFactoredRows cinfo inCnt g).2.map
          (cinfo.incolind (i * (cinfo.maxntogo * (g.global_maxnz + 2)) + k + 1)) >>> 1) + 1)
        = cinfo.incolind (i * (cinfo.maxntogo * (g.global_maxnz + 2)) + k + 1)) ∧
    (∀ z, z ∉ recvDiagCols g cinfo inCnt → g.map z = 1 →
      (SendFactoredRows cinfo inCnt g).2.map z = 1) := by
  constructor
  · intro i k hi hk hdiv
    have hmem : i * (cinfo.maxntogo * (g.global_maxnz + 2)) + k
        ∈ recvOffsets g cinfo inCnt cinfo.rnnbr := by
      unfold recvOffsets
      rw [List.mem_flatMap]
      refine ⟨i, List.mem_range.mpr hi, ?_⟩
      rw [List.mem_map]
      refine ⟨k, ?_, rfl⟩
      rw [mem_recordOffsets _ _ (by omega) _ _ _ (by omega)]
      obtain ⟨t, ht⟩ := hdiv
      exact ⟨t, by rw [ht, Nat.mul_comm]; omega, hk⟩
    rw [recvDiagCols_eq] at hnd
    have hval : (SendFactoredRows cinfo inCnt g).2.map
          (cinfo.incolind (i * (cinfo.maxntogo * (g.global_maxnz + 2)) + k + 1))
        = ((i * (cinfo.maxntogo * (g.global_maxnz + 2)) + k) <<< 1) + 1 := by
      show (SendFactoredRows_recv cinfo inCnt g).map _ = _
      unfold SendFactoredRows_recv
      rw [SendFactoredRows_recv_foldl]
      exact foldl_upd_nodup _ (fun o => cinfo.incolind (o + 1)) (fun o => (o <<< 1) + 1)
        g.map hnd _ hmem
    rw [hval]
    generalize i * (cinfo.maxntogo * (g.global_maxnz + 2)) + k = o
    have e1 : o <<< 1 = 2 ^ 1 * o := by rw [Nat.shiftLeft_eq, Nat.mul_comm]
    refine ⟨rfl, ?_, ?_, ?_, ?_⟩
    · rw [e1]
      exact Nat.mul_add_lt_is_or (by decide) o
    · rw [e1]
      omega
    · rw [Nat.shiftRight_eq_div_pow, e1]
      omega
    · rw [Nat.shiftRight_eq_div_pow, e1]
      have : (2 ^ 1 * o + 1) / 2 ^ 1 = o := by omega
      rw [this]
  · intro z hz h1
    obtain ⟨_, _, h3⟩ := SendFactoredRows_recv_loop_spec cinfo inCnt g cinfo.rnnbr
    have := h3 z hz
    show (SendFactoredRows_recv cinfo inCnt g).map z = 1
    unfold SendFactoredRows_recv
    rw [this, h1]

/-- Instance of C26: two records from one neighbour, the second one at offset 4 with the
row index 0. -/
theorem SendFactoredRows_installs_witness :
    (recvDiagCols exGm exCimRecv (fun _ => 8)).Nodup ∧
    (SendFactoredRows exCimRecv (fun _ => 8) exGm).2.map
        (exCimRecv.incolind (0 * (exCimRecv.maxntogo * (exGm.global_maxnz + 2)) + 4 + 1))
      = ((0 * (exCimRecv.maxntogo * (exGm.global_maxnz + 2)) + 4) <<< 1) + 1 :=
  ⟨by decide,
   ((SendFactoredRows_installs exCimRecv (fun _ => 8) exGm (by decide)).1 0 4
      (by decide) (by decide) (by decide)).1⟩

/-- C25. The code does not do what the claim and the comments of `SendFactoredRows` and
`EraseMap` say ("the actual number of rows recieved"). One row of `maxnz + 2 = 4` integers
is received from the only neighbour: `MPI_Get_count` reports 4, the loop installs one
record, and `rnbrptr[0]` is 4, not 1. -/
theorem SendFactoredRows_rnbrptr_not_rows :
    (recordOffsets (exGm.global_maxnz + 2) 4 4 0).length = 1 ∧
    (SendFactoredRows exCimRecv (fun _ => 4) exGm).1.rnbrptr 0 = 4 ∧
    (SendFactoredRows exCimRecv (fun _ => 4) exGm).1.rnbrptr 0
      ≠ (recordOffsets (exGm.global_maxnz + 2) 4 4 0).length := by
  decide

/-- What `SendFactoredRows` stores in `rnbrptr[i]` is the number of integers received from
PE `rnbrind[i]`: when that neighbour delivers `rows i` records of `maxnz + 2` integers,
`rnbrptr[i] = rows i * (maxnz + 2)`, the receive loop installs `rows i` records, and
`rnbrptr[i] / (maxnz + 2)` is the number of rows received. -/
theorem SendFactoredRows_rnbrptr_count (cinfo : CommInfoType) (rows : Nat → Nat)
    (g : hypre_PilutSolverGlobals) (i : Nat) (hi : i < cinfo.rnnbr) :
    (SendFactoredRows cinfo (fun i => rows i * (g.global_maxnz + 2)) g).1.rnbrptr i
      = rows i * (g.global_maxnz + 2) ∧
    (recordOffsets (g.global_maxnz + 2)
      ((SendFactoredRows cinfo (fun i => rows i * (g.global_maxnz + 2)) g).1.rnbrptr i)
      ((SendFactoredRows cinfo (fun i => rows i * (g.global_maxnz + 2)) g).1.rnbrptr i)
      0).length = rows i ∧
    (SendFactoredRows cinfo (fun i => rows i * (g.global_maxnz + 2)) g).1.rnbrptr i
      / (g.global_maxnz + 2) = rows i := by
  obtain ⟨_, h2, _⟩ := SendFactoredRows_recv_loop_spec cinfo
    (fun i => rows i * (g.global_maxnz + 2)) g cinfo.rnnbr
  have hv : (SendFactoredRows cinfo (fun i => rows i * (g.global_maxnz + 2)) g).1.rnbrptr i
      = rows i * (g.global_maxnz + 2) := by
    show (SendFactoredRows_recv cinfo _ g).rnbrptr i = _
    unfold SendFactoredRows_recv
    rw [h2 i, if_pos hi]
  rw [hv]
  refine ⟨rfl, ?_, Nat.mul_div_cancel _ (by omega)⟩
  have := recordOffsets_length (g.global_maxnz + 2) (by omega) (rows i)
    (rows i * (g.global_maxnz + 2)) 0 (by omega)
  rw [Nat.zero_add] at this
  exact this

/-! ## SendFactoredRows: the packed records -/

theorem pack_inner_spec {α : Type} (src : Nat → α) (lo n base : Nat) (b : Nat → α) :
    (∀ q, q < n →
      (forLoop lo (fun ku b => upd b (base + (ku - lo)) (src ku)) n b) (base + q)
        = src (lo + q)) ∧
    (∀ x, (x < base ∨ base + n ≤ x) →
      (forLoop lo (fun ku b => upd b (base + (ku - lo)) (src ku)) n b) x = b x) := by
  induction n with
  | zero =>
    exact ⟨fun q hq => by omega, fun x _ => rfl⟩
  | succ m ih =>
    obtain ⟨i1, i2⟩ := ih
    rw [forLoop_succ]
    have e : lo + m - lo = m := by omega
    rw [e]
    constructor
    · intro q hq
      by_cases hqm : q = m
      · subst hqm
        rw [upd_same]
      · rw [upd_other _ _ _ _ (by omega)]
        exact i1 q (by omega)
    · intro x hx
      rw [upd_other _ _ _ _ (by omega)]
      exact i2 x (by omega)

/-- A packing loop that advances the offset by `S` per row, writes the relative slots
`[a, len j)` of the record of row `j` with `rec j`, and nothing else: every record that fits
(`len <= S`) is in place at the end, and the slots below `a` of a record are untouched
when the records before it fit. -/
theorem pack_outer_spec {α : Type} (S a : Nat) (len : Nat → Nat) (rec : Nat → Nat → α)
    (body : Nat → Nat × (Nat → α) → Nat × (Nat → α))
    (hb1 : ∀ j s, (body j s).1 = s.1 + S)
    (hb2 : ∀ j s x, (x < s.1 + a ∨ s.1 + len j ≤ x) → (body j s).2 x = s.2 x)
    (hb3 : ∀ j s r, a ≤ r → r < len j → (body j s).2 (s.1 + r) = rec j r)
    (lo m : Nat) (b0 : Nat → α) :
    (forLoop lo body m (0, b0)).1 = m * S ∧
    (∀ t, t < m → len (lo + t) ≤ S → ∀ r, a ≤ r → r < len (lo + t) →
      (forLoop lo body m (0, b0)).2 (t * S + r) = rec (lo + t) r) ∧
    (∀ t, (∀ u, u < t → u < m → len (lo + u) ≤ S) → ∀ r, r < a → r < S →
      (forLoop lo body m (0, b0)).2 (t * S + r) = b0 (t * S + r)) := by
  induction m with
  | zero =>
    refine ⟨by simp, fun t ht => by omega, fun t _ r _ _ => rfl⟩
  | succ k ih =>
    obtain ⟨i1, i2, i3⟩ := ih
    rw [forLoop_succ]
    generalize forLoop lo body k (0, b0) = s at i1 i2 i3
    refine ⟨by rw [hb1, i1, Nat.succ_mul], ?_, ?_⟩
    · intro t ht hlen r hr1 hr2
      by_cases htk : t = k
      · subst htk
        rw [← i1]
        exact hb3 (lo + t) s r hr1 hr2
      · have hle : (t + 1) * S ≤ k * S := Nat.mul_le_mul_right S (by omega)
        rw [Nat.succ_mul] at hle
        rw [hb2 (lo + k) s _ (Or.inl (by rw [i1]; omega))]
        exact i2 t (by omega) hlen r hr1 hr2
    · intro t hfit r hr1 hr2
      rw [hb2 (lo + k) s _ (by
        rw [i1]
        by_cases htk : t ≤ k
        · left
          have hle : t * S ≤ k * S := Nat.mul_le_mul_right S htk
          omega
        · right
          have hle : (k + 1) * S ≤ t * S := Nat.mul_le_mul_right S (by omega)
          rw [Nat.succ_mul] at hle
          have := hfit k (by omega) (by omega)
          omega)]
      exact i3 t (fun u hu1 hu2 => hfit u hu1 (by omega)) r hr1 hr2

theorem SendFactoredRows_pack_colind_body_spec (ldu : FactorMatType) (newperm : Nat → Nat)
    (g : hypre_PilutSolverGlobals) (j : Nat) (s : Nat × (Nat → Nat)) :
    (SendFactoredRows_pack_colind_body ldu newperm g j s).1 = s.1 + (g.global_maxnz + 2) ∧
    (∀ x, (x < s.1 + 0 ∨
        s.1 + (2 + (ldu.uerowptr (newperm j) - ldu.usrowptr (newperm j))) ≤ x) →
      (SendFactoredRows_pack_colind_body ldu newperm g j s).2 x = s.2 x) ∧
    (∀ r, 0 ≤ r → r < 2 + (ldu.uerowptr (newperm j) - ldu.usrowptr (newperm j)) →
      (SendFactoredRows_pack_colind_body ldu newperm g j s).2 (s.1 + r) =
        if r = 0 then ldu.uerowptr (newperm j) - ldu.usrowptr (newperm j) + 1
        else if r = 1 then newperm j + g.firstrow
        else ldu.ucolind (ldu.usrowptr (newperm j) + (r - 2))) := by
  obtain ⟨p1, p2⟩ := pack_inner_spec ldu.ucolind (ldu.usrowptr (newperm j))
    (ldu.uerowptr (newperm j) - ldu.usrowptr (newperm j)) (s.1 + 2)
    (upd (upd s.2 s.1 (ldu.uerowptr (newperm j) - ldu.usrowptr (newperm j) + 1))
      (s.1 + 1) (newperm j + g.firstrow))
  simp only [SendFactoredRows_pack_colind_body]
  refine ⟨by omega, ?_, ?_⟩
  · intro x hx
    rw [p2 x (by omega), upd_other _ _ _ _ (by omega), upd_other _ _ _ _ (by omega)]
  · intro r _ hr
    by_cases h0 : r = 0
    · subst h0
      have e0 : s.1 + 0 = s.1 := rfl
      rw [p2 _ (by omega), upd_other _ _ _ _ (by omega), e0, upd_same]
      simp
    · by_cases h1 : r = 1
      · subst h1
        rw [p2 _ (by omega), upd_same]
        simp
      · have e : s.1 + r = s.1 + 2 + (r - 2) := by omega
        rw [e, p1 (r - 2) (by omega)]
        simp [h0, h1]

theorem SendFactoredRows_pack_values_body_spec (ldu : FactorMatType) (newperm : Nat → Nat)
    (g : hypre_PilutSolverGlobals) (j : Nat) (s : Nat × (Nat → ℚ)) :
    (SendFactoredRows_pack_values_body ldu newperm g j s).1 = s.1 + (g.global_maxnz + 2) ∧
    (∀ x, (x < s.1 + 1 ∨
        s.1 + (2 + (ldu.uerowptr (newperm j) - ldu.usrowptr (newperm j))) ≤ x) →
      (SendFactoredRows_pack_values_body ldu newperm g j s).2 x = s.2 x) ∧
    (∀ r, 1 ≤ r → r < 2 + (ldu.uerowptr (newperm j) - ldu.usrowptr (newperm j)) →
      (SendFactoredRows_pack_values_body ldu newperm g j s).2 (s.1 + r) =
        if r = 1 then ldu.dvalues (newperm j)
        else ldu.uvalues (ldu.usrowptr (newperm j) + (r - 2))) := by
  obtain ⟨p1, p2⟩ := pack_inner_spec ldu.uvalues (ldu.usrowptr (newperm j))
    (ldu.uerowptr (newperm j) - ldu.usrowptr (newperm j)) (s.1 + 2)
    (upd s.2 (s.1 + 1) (ldu.dvalues (newperm j)))
  simp only [SendFactoredRows_pack_values_body]
  refine ⟨by omega, ?_, ?_⟩
  · intro x hx
    rw [p2 x (by omega), upd_other _ _ _ _ (by omega)]
  · intro r hr0 hr
    by_cases h1 : r = 1
    · subst h1
      rw [p2 _ (by omega), upd_same]
      simp
    · have e : s.1 + r = s.1 + 2 + (r - 2) := by omega
      rw [e, p1 (r - 2) (by omega)]
      simp [h1]

/-- C24. Packed record layout. For the `t`-th row of the set, `k = newperm[ndone + t]` with
`t < nmis`, whose `U` row has `n = uerowptr[k] - usrowptr[k] <= maxnz` entries,
`SendFactoredRows` leaves in the index stream at the offset `t*(maxnz+2)` the value `n+1`,
at the offset plus 1 the global row index `k + firstrow` and from the offset plus 2 on the
`n` column indices of `U` in order; in the value stream it leaves `dvalues[k]` at the
offset plus 1 and the `n` values of `U` from the offset plus 2 on; the slot at the offset
itself of the value stream keeps what the buffer held before (the rows before `t` fitting
as well); and the packed length of either stream is `nmis*(maxnz+2)`. -/
theorem SendFactoredRows_packed_layout (ldu : FactorMatType) (newperm : Nat → Nat)
    (nmis : Nat) (g : hypre_PilutSolverGlobals) (sgatherbuf : Nat → Nat)
    (dgatherbuf : Nat → ℚ) (t : Nat) (ht : t < nmis)
    (hn : ldu.uerowptr (newperm (g.ndone + t)) - ldu.usrowptr (newperm (g.ndone + t))
      ≤ g.global_maxnz) :
    ((SendFactoredRows_pack_colind ldu newperm nmis g sgatherbuf).2 (t * (g.global_maxnz + 2))
        = ldu.uerowptr (newperm (g.ndone + t)) - ldu.usrowptr (newperm (g.ndone + t)) + 1 ∧
      (SendFactoredRows_pack_colind ldu newperm nmis g sgatherbuf).2
          (t * (g.global_maxnz + 2) + 1) = newperm (g.ndone + t) + g.firstrow ∧
      ∀ q, q < ldu.uerowptr (newperm (g.ndone + t)) - ldu.usrowptr (newperm (g.ndone + t)) →
        (SendFactoredRows_pack_colind ldu newperm nmis g sgatherbuf).2
            (t * (g.global_maxnz + 2) + 2 + q)
          = ldu.ucolind (ldu.usrowptr (newperm (g.ndone + t)) + q)) ∧
    ((SendFactoredRows_pack_values ldu newperm nmis g dgatherbuf).2
          (t * (g.global_maxnz + 2) + 1) = ldu.dvalues (newperm (g.ndone + t)) ∧
      (∀ q, q < ldu.uerowptr (newperm (g.ndone + t)) - ldu.usrowptr (newperm (g.ndone + t)) →
        (SendFactoredRows_pack_values ldu newperm nmis g dgatherbuf).2
            (t * (g.global_maxnz + 2) + 2 + q)
          = ldu.uvalues (ldu.usrowptr (newperm (g.ndone + t)) + q)) ∧
      ((∀ u, u < t →
          ldu.uerowptr (newperm (g.ndone + u)) - ldu.usrowptr (newperm (g.ndone + u))
            ≤ g.global_maxnz) →
        (SendFactoredRows_pack_values ldu newperm nmis g dgatherbuf).2
            (t * (g.global_maxnz + 2)) = dgatherbuf (t * (g.global_maxnz + 2)))) ∧
    ((SendFactoredRows_pack_colind ldu newperm nmis g sgatherbuf).1
        = nmis * (g.global_maxnz + 2) ∧
      (SendFactoredRows_pack_values ldu newperm nmis g dgatherbuf).1
        = nmis * (g.global_maxnz + 2)) := by
  obtain ⟨c1, c2, _⟩ := pack_outer_spec (g.global_maxnz + 2) 0
    (fun j => 2 + (ldu.uerowptr (newperm j) - ldu.usrowptr (newperm j)))
    (fun j r => if r = 0 then ldu.uerowptr (newperm j) - ldu.usrowptr (newperm j) + 1
        else if r = 1 then newperm j + g.firstrow
        else ldu.ucolind (ldu.usrowptr (newperm j) + (r - 2)))
    (SendFactoredRows_pack_colind_body ldu newperm g)
    (fun j s => (SendFactoredRows_pack_colind_body_spec ldu newperm g j s).1)
    (fun j s => (SendFactoredRows_pack_colind_body_spec ldu newperm g j s).2.1)
    (fun j s => (SendFactoredRows_pack_colind_body_spec ldu newperm g j s).2.2)
    g.ndone nmis sgatherbuf
  obtain ⟨v1, v2, v3⟩ := pack_outer_spec (g.global_maxnz + 2) 1
    (fun j => 2 + (ldu.uerowptr (newperm j) - ldu.usrowptr (newperm j)))
    (fun j r => if r = 1 then ldu.dvalues (newperm j)
        else ldu.uvalues (ldu.usrowptr (newperm j) + (r - 2)))
    (SendFactoredRows_pack_values_body ldu newperm g)
    (fun j s => (SendFactoredRows_pack_values_body_spec ldu newperm g j s).1)
    (fun j s => (SendFactoredRows_pack_values_body_spec ldu newperm g j s).2.1)
    (fun j s => (SendFactoredRows_pack_values_body_spec ldu newperm g j s).2.2)
    g.ndone nmis dgatherbuf
  have c2t := c2 t ht (by omega)
  have v2t := v2 t ht (by omega)
  unfold SendFactoredRows_pack_colind SendFactoredRows_pack_values
  refine ⟨⟨?_, ?_, ?_⟩, ⟨?_, ?_, ?_⟩, c1, v1⟩
  · have := c2t 0 (le_refl _) (by omega)
    simpa using this
  · have := c2t 1 (by omega) (by omega)
    simpa using this
  · intro q hq
    have := c2t (2 + q) (by omega) (by omega)
    rw [show t * (g.global_maxnz + 2) + 2 + q = t * (g.global_maxnz + 2) + (2 + q) by omega]
    rw [this, if_neg (by omega), if_neg (by omega), show 2 + q - 2 = q by omega]
  · have := v2t 1 (by omega) (by omega)
    simpa using this
  · intro q hq
    have := v2t (2 + q) (by omega) (by omega)
    rw [show t * (g.global_maxnz + 2) + 2 + q = t * (g.global_maxnz + 2) + (2 + q) by omega]
    rw [this, if_neg (by omega), show 2 + q - 2 = q by omega]
  · intro hfit
    have := v3 t (fun u hu1 _ => by have := hfit u hu1; omega) 0 (by omega)
      (by omega)
    simpa using this

/-- Instance of C24: the second record (`t = 1`) is the one of row 0, which has one `U`
entry, with `maxnz = 2`. -/
theorem SendFactoredRows_packed_layout_witness :
    (1 < 2 ∧ exLdus.uerowptr ((arr 0 [1, 0]) (exG0.ndone + 1))
        - exLdus.usrowptr ((arr 0 [1, 0]) (exG0.ndone + 1)) ≤ exG0.global_maxnz) ∧
    ((SendFactoredRows_pack_colind exLdus (arr 0 [1, 0]) 2 exG0 (fun _ => 99)).2
          (1 * (exG0.global_maxnz + 2))
        = exLdus.uerowptr ((arr 0 [1, 0]) (exG0.ndone + 1))
          - exLdus.usrowptr ((arr 0 [1, 0]) (exG0.ndone + 1)) + 1 ∧
      (SendFactoredRows_pack_colind exLdus (arr 0 [1, 0]) 2 exG0 (fun _ => 99)).2
          (1 * (exG0.global_maxnz + 2) + 1) = (arr 0 [1, 0]) (exG0.ndone + 1) + exG0.firstrow ∧
      ∀ q, q < exLdus.uerowptr ((arr 0 [1, 0]) (exG0.ndone + 1))
          - exLdus.usrowptr ((arr 0 [1, 0]) (exG0.ndone + 1)) →
        (SendFactoredRows_pack_colind exLdus (arr 0 [1, 0]) 2 exG0 (fun _ => 99)).2
            (1 * (exG0.global_maxnz + 2) + 2 + q)
          = exLdus.ucolind (exLdus.usrowptr ((arr 0 [1, 0]) (exG0.ndone + 1)) + q)) :=
  ⟨⟨by decide, by decide⟩,
   (SendFactoredRows_packed_layout exLdus (arr 0 [1, 0]) 2 exG0 (fun _ => 99) (fun _ => 0) 1
      (by decide) (by decide)).1⟩

/-! ## ComputeCommInfo: the requested rows -/

theorem ComputeCommInfo_scan_eq_foldl (g : hypre_PilutSolverGlobals) (rmat : ReduceMatType)
    (cinfo : CommInfoType) :
    ComputeCommInfo_scan g rmat cinfo =
      (offDiagCols g rmat).foldl
        (fun (s : RecvState) k =>
          if (k < g.firstrow ∨ k ≥ g.lastrow) ∧ s.map k = 0 then
            { nrecv := s.nrecv + 1, rrowind := upd s.rrowind s.nrecv k, map := upd s.map k 1 }
          else s)
        { nrecv := 0, rrowind := cinfo.rrowind, map := g.map } := by
  unfold ComputeCommInfo_scan offDiagCols
  induction g.ntogo with
  | zero => rfl
  | succ m ih =>
    rw [forLoop_succ, ih, List.range_succ, List.flatMap_append, List.foldl_append]
    simp only [List.flatMap_cons, List.flatMap_nil, List.append_nil, Nat.zero_add]
    exact forLoop_eq_foldl (rmat.rmat_rcolind m)
      (fun k (s : RecvState) =>
        if (k < g.firstrow ∨ k ≥ g.lastrow) ∧ s.map k = 0 then
          { nrecv := s.nrecv + 1, rrowind := upd s.rrowind s.nrecv k, map := upd s.map k 1 }
        else s) 1 (rmat.rmat_rnz m - 1) _

/-- The scan over a list of columns: the requests stay pairwise distinct, the map is 1 at
the requests and unchanged elsewhere, and the new requests are the columns of the list
outside `[firstrow, lastrow)` whose map entry was 0. -/
theorem ComputeCommInfo_scan_foldl_spec (g : hypre_PilutSolverGlobals) (m0 : Nat → Nat)
    (L : List Nat) (s : RecvState)
    (hA : (slice s.rrowind 0 s.nrecv).Nodup)
    (hB : ∀ x, s.map x = if x ∈ slice s.rrowind 0 s.nrecv then 1 else m0 x)
    (hC : ∀ x, x ∈ slice s.rrowind 0 s.nrecv → m0 x = 0) :
    (slice (L.foldl
        (fun (s : RecvState) k =>
          if (k < g.firstrow ∨ k ≥ g.lastrow) ∧ s.map k = 0 then
            { nrecv := s.nrecv + 1, rrowind := upd s.rrowind s.nrecv k, map := upd s.map k 1 }
          else s) s).rrowind 0
      (L.foldl
        (fun (s : RecvState) k =>
          if (k < g.firstrow ∨ k ≥ g.lastrow) ∧ s.map k = 0 then
            { nrecv := s.nrecv + 1, rrowind := upd s.rrowind s.nrecv k, map := upd s.map k 1 }
          else s) s).nrecv).Nodup ∧
    (∀ x, (L.foldl
        (fun (s : RecvState) k =>
          if (k < g.firstrow ∨ k ≥ g.lastrow) ∧ s.map k = 0 then
            { nrecv := s.nrecv + 1, rrowind := upd s.rrowind s.nrecv k, map := upd s.map k 1 }
          else s) s).map x =
      if x ∈ slice (L.foldl
        (fun (s : RecvState) k =>
          if (k < g.firstrow ∨ k ≥ g.lastrow) ∧ s.map k = 0 then
            { nrecv := s.nrecv + 1, rrowind := upd s.rrowind s.nrecv k, map := upd s.map k 1 }
          else s) s).rrowind 0
        (L.foldl
        (fun (s : RecvState) k =>
          if (k < g.firstrow ∨ k ≥ g.lastrow) ∧ s.map k = 0 then
            { nrecv := s.nrecv + 1, rrowind := upd s.rrowind s.nrecv k, map := upd s.map k 1 }
          else s) s).nrecv then 1 else m0 x) ∧
    (∀ x, x ∈ slice (L.foldl
        (fun (s : RecvState) k =>
          if (k < g.firstrow ∨ k ≥ g.lastrow) ∧ s.map k = 0 then
            { nrecv := s.nrecv + 1, rrowind := upd s.rrowind s.nrecv k, map := upd s.map k 1 }
          else s) s).rrowind 0
        (L.foldl
        (fun (s : RecvState) k =>
          if (k < g.firstrow ∨ k ≥ g.lastrow) ∧ s.map k = 0 then
            { nrecv := s.nrecv + 1, rrowind := upd s.rrowind s.nrecv k, map := upd s.map k 1 }
          else s) s).nrecv ↔
      x ∈ slice s.rrowind 0 s.nrecv ∨
        (x ∈ L ∧ (x < g.firstrow ∨ x ≥ g.lastrow) ∧ m0 x = 0)) := by
  induction L generalizing s with
  | nil =>
    simp only [List.foldl_nil, List.not_mem_nil, false_and, or_false]
    exact ⟨hA, hB, fun x => trivial⟩
  | cons k l ih =>
    rw [List.foldl_cons]
    by_cases hk : (k < g.firstrow ∨ k ≥ g.lastrow) ∧ s.map k = 0
    · simp only [hk, and_self, if_true]
      have hmk := hk.2
      rw [hB k] at hmk
      have hnot : k ∉ slice s.rrowind 0 s.nrecv := by
        intro hin
        rw [if_pos hin] at hmk
        omega
      rw [if_neg hnot] at hmk
      have hsl : slice (upd s.rrowind s.nrecv k) 0 (s.nrecv + 1)
          = slice s.rrowind 0 s.nrecv ++ [k] := slice_push _ _ _
      obtain ⟨r1, r2, r3⟩ := ih
        { nrecv := s.nrecv + 1, rrowind := upd s.rrowind s.nrecv k, map := upd s.map k 1 }
        (by
          simp only
          rw [hsl]
          exact List.Nodup.append hA (List.nodup_singleton k)
            (by
              intro a ha hb
              rw [List.mem_singleton] at hb
              subst hb
              exact hnot ha))
        (by
          intro x
          simp only
          rw [hsl]
          by_cases hx : x = k
          · subst hx
            simp
          · rw [upd_other _ _ _ _ hx, hB x]
            simp [hx])
        (by
          intro x
          simp only
          rw [hsl, List.mem_append, List.mem_singleton]
          rintro (h | h)
          · exact hC x h
          · rw [h]
            exact hmk)
      refine ⟨r1, r2, ?_⟩
      intro x
      rw [r3 x]
      simp only
      rw [hsl, List.mem_append, List.mem_singleton, List.mem_cons]
      constructor
      · rintro ((h | h) | ⟨h1, h2, h3⟩)
        · exact Or.inl h
        · exact Or.inr ⟨Or.inl h, by rw [h]; exact hk.1, by rw [h]; exact hmk⟩
        · exact Or.inr ⟨Or.inr h1, h2, h3⟩
      · rintro (h | ⟨h1 | h1, h2, h3⟩)
        · exact Or.inl (Or.inl h)
        · exact Or.inl (Or.inr h1)
        · exact Or.inr ⟨h1, h2, h3⟩
    · simp only [hk, if_false]
      obtain ⟨r1, r2, r3⟩ := ih s hA hB hC
      refine ⟨r1, r2, ?_⟩
      intro x
      rw [r3 x, List.mem_cons]
      constructor
      · rintro (h | ⟨h1, h2, h3⟩)
        · exact Or.inl h
        · exact Or.inr ⟨Or.inr h1, h2, h3⟩
      · rintro (h | ⟨h1 | h1, h2, h3⟩)
        · exact Or.inl h
        · left
          subst h1
          by_contra hnin
          apply hk
          refine ⟨h2, ?_⟩
          rw [hB x, if_neg hnin]
          exact h3
        · exact Or.inr ⟨h1, h2, h3⟩

theorem mem_offDiagCols (g : hypre_PilutSolverGlobals) (rmat : ReduceMatType) (x : Nat) :
    x ∈ offDiagCols g rmat ↔
      ∃ ir j, ir < g.ntogo ∧ 1 ≤ j ∧ j < rmat.rmat_rnz ir ∧ rmat.rmat_rcolind ir j = x := by
  unfold offDiagCols
  rw [List.mem_flatMap]
  constructor
  · rintro ⟨ir, hir, hx⟩
    rw [mem_slice] at hx
    obtain ⟨j, j1, j2, j3⟩ := hx
    exact ⟨ir, j, List.mem_range.mp hir, j1, by omega, j3⟩
  · rintro ⟨ir, j, hir, j1, j2, j3⟩
    refine ⟨ir, List.mem_range.mpr hir, ?_⟩
    rw [mem_slice]
    exact ⟨j, j1, by omega, j3⟩

/-- The scan of `ComputeCommInfo`: the requests are pairwise distinct, the map is 1 at the
requests and unchanged elsewhere, and the requests are the off-diagonal columns outside
`[firstrow, lastrow)` whose map entry was 0. -/
theorem ComputeCommInfo_scan_spec (g : hypre_PilutSolverGlobals) (rmat : ReduceMatType)
    (cinfo : CommInfoType) :
    (slice (ComputeCommInfo_scan g rmat cinfo).rrowind 0
      (ComputeCommInfo_scan g rmat cinfo).nrecv).Nodup ∧
    (∀ x, (ComputeCommInfo_scan g rmat cinfo).map x =
      if x ∈ slice (ComputeCommInfo_scan g rmat cinfo).rrowind 0
        (ComputeCommInfo_scan g rmat cinfo).nrecv then 1 else g.map x) ∧
    (∀ x, x ∈ slice (ComputeCommInfo_scan g rmat cinfo).rrowind 0
        (ComputeCommInfo_scan g rmat cinfo).nrecv ↔
      (x ∈ offDiagCols g rmat ∧ (x < g.firstrow ∨ x ≥ g.lastrow) ∧ g.map x = 0)) := by
  rw [ComputeCommInfo_scan_eq_foldl]
  obtain ⟨r1, r2, r3⟩ := ComputeCommInfo_scan_foldl_spec g g.map (offDiagCols g rmat)
    { nrecv := 0, rrowind := cinfo.rrowind, map := g.map }
    (by simp [slice]) (by intro x; simp [slice]) (by intro x hx; simp [slice] at hx)
  refine ⟨r1, r2, ?_⟩
  intro x
  rw [r3 x]
  simp [slice]

/-- The modelled sort returns the first `n` entries in increasing order. -/
theorem sincsort_fast_spec (n : Nat) (a : Nat → Nat) :
    slice (sincsort_fast n a) 0 n = (slice a 0 n).insertionSort (fun x y => x ≤ y) := by
  apply List.ext_get
  · simp [List.length_insertionSort]
  · intro i h0 h2
    have h1 : i < n := by simpa using h0
    have e : (slice (sincsort_fast n a) 0 n).get ⟨i, h0⟩ = sincsort_fast n a i := by
      simp [slice]
    rw [e]
    simp only [sincsort_fast, h1, if_true]
    rw [List.getD_eq_getElem _ _ h2]
    rfl

theorem sincsort_fast_perm (n : Nat) (a : Nat → Nat) :
    List.Perm (slice (sincsort_fast n a) 0 n) (slice a 0 n) := by
  rw [sincsort_fast_spec]
  exact List.perm_insertionSort _ _

theorem sincsort_fast_sorted (n : Nat) (a : Nat → Nat) :
    List.Sorted (fun x y => x ≤ y) (slice (sincsort_fast n a) 0 n) := by
  rw [sincsort_fast_spec]
  exact List.sorted_insertionSort _ _

theorem slice_sorted_index (a : Nat → Nat) (n : Nat) (r : Nat → Nat → Prop)
    (h : List.Sorted r (slice a 0 n)) (i j : Nat) (hij : i < j) (hj : j < n) :
    r (a i) (a j) := by
  have h1 : i < (slice a 0 n).length := by rw [slice_length]; omega
  have h2 : j < (slice a 0 n).length := by rw [slice_length]; omega
  have := List.Sorted.rel_get_of_lt h (show (⟨i, h1⟩ : Fin _) < ⟨j, h2⟩ from hij)
  simpa [slice] using this

/-- The map when `ComputeCommInfo` returns: 0 at every row that was requested, unchanged
elsewhere. -/
theorem ComputeCommInfo_local_map (rmat : ReduceMatType) (cinfo : CommInfoType)
    (rowdist : Nat → Nat) (maxntogo : Nat) (pilu_send : Nat → Nat)
    (g : hypre_PilutSolverGlobals) (x : Nat) :
    (ComputeCommInfo_local rmat cinfo rowdist maxntogo pilu_send g).map x =
      if x ∈ slice (ComputeCommInfo_scan g rmat cinfo).rrowind 0
        (ComputeCommInfo_scan g rmat cinfo).nrecv then 0 else g.map x := by
  obtain ⟨_, r2, _⟩ := ComputeCommInfo_scan_spec g rmat cinfo
  have hperm := sincsort_fast_perm (ComputeCommInfo_scan g rmat cinfo).nrecv
    (ComputeCommInfo_scan g rmat cinfo).rrowind
  simp only [ComputeCommInfo_local]
  generalize ComputeCommInfo_scan g rmat cinfo = s at r2 hperm
  have e := forLoop_eq_foldl (sincsort_fast s.nrecv s.rrowind)
    (fun (k : Nat) (m : Nat → Nat) => upd m k 0) 0 s.nrecv s.map
  rw [e, foldl_upd_zero _ (fun k => k) s.map x, List.map_id']
  by_cases hx : x ∈ slice s.rrowind 0 s.nrecv
  · rw [if_pos (hperm.symm.subset hx), if_pos hx]
  · rw [if_neg (fun h => hx (hperm.subset h)), if_neg hx, r2 x, if_neg hx]

/-- C21. Requested rows: when the map is 0 at the columns of the active reduced rows on
entry, after the scan and the sort in `ComputeCommInfo` the array `rrowind[0..nrecv)` is
strictly ascending, and its elements are exactly the off-diagonal column indices of the
active reduced rows that lie outside `[firstrow, lastrow)`, stored as they are. -/
theorem ComputeCommInfo_requests (rmat : ReduceMatType) (cinfo : CommInfoType)
    (rowdist : Nat → Nat) (maxntogo : Nat) (pilu_send : Nat → Nat)
    (g : hypre_PilutSolverGlobals)
    (hmap : ∀ ir j, ir < g.ntogo → 1 ≤ j → j < rmat.rmat_rnz ir →
      g.map (rmat.rmat_rcolind ir j) = 0) :
    (∀ i j, i < j →
      j < (ComputeCommInfo_local rmat cinfo rowdist maxntogo pilu_send g).nrecv →
      (ComputeCommInfo_local rmat cinfo rowdist maxntogo pilu_send g).cinfo.rrowind i <
        (ComputeCommInfo_local rmat cinfo rowdist maxntogo pilu_send g).cinfo.rrowind j) ∧
    (∀ x, x ∈ slice (ComputeCommInfo_local rmat cinfo rowdist maxntogo pilu_send g).cinfo.rrowind
          0 (ComputeCommInfo_local rmat cinfo rowdist maxntogo pilu_send g).nrecv ↔
      ∃ ir j, ir < g.ntogo ∧ 1 ≤ j ∧ j < rmat.rmat_rnz ir ∧ rmat.rmat_rcolind ir j = x ∧
        (x < g.firstrow ∨ x ≥ g.lastrow)) := by
  obtain ⟨r1, _, r3⟩ := ComputeCommInfo_scan_spec g rmat cinfo
  have hperm := sincsort_fast_perm (ComputeCommInfo_scan g rmat cinfo).nrecv
    (ComputeCommInfo_scan g rmat cinfo).rrowind
  have hsort := sincsort_fast_sorted (ComputeCommInfo_scan g rmat cinfo).nrecv
    (ComputeCommInfo_scan g rmat cinfo).rrowind
  simp only [ComputeCommInfo_local]
  constructor
  · intro i j hij hj
    have hlt := List.Sorted.lt_of_le hsort (hperm.nodup_iff.mpr r1)
    exact slice_sorted_index _ _ _ hlt i j hij hj
  · intro x
    rw [hperm.mem_iff, r3 x, mem_offDiagCols]
    constructor
    · rintro ⟨⟨ir, j, h1, h2, h3, h4⟩, h5, _⟩
      exact ⟨ir, j, h1, h2, h3, h4, h5⟩
    · rintro ⟨ir, j, h1, h2, h3, h4, h5⟩
      refine ⟨⟨ir, j, h1, h2, h3, h4⟩, h5, ?_⟩
      rw [← h4]
      exact hmap ir j h1 h2 h3

/-- Instance of C21: the middle PE with the columns 5, 0, 4, 1, 5 outside its rows. -/
theorem ComputeCommInfo_requests_witness :
    (∀ ir j, ir < exGm.ntogo → 1 ≤ j → j < exRmq.rmat_rnz ir →
      exGm.map (exRmq.rmat_rcolind ir j) = 0) ∧
    (∀ i j, i < j →
      j < (ComputeCommInfo_local exRmq exCim (arr 0 [0, 2, 4, 6]) 2 (fun _ => 0) exGm).nrecv →
      (ComputeCommInfo_local exRmq exCim (arr 0 [0, 2, 4, 6]) 2 (fun _ => 0) exGm).cinfo.rrowind i
        < (ComputeCommInfo_local exRmq exCim (arr 0 [0, 2, 4, 6]) 2 (fun _ => 0)
            exGm).cinfo.rrowind j) :=
  ⟨fun _ _ _ _ _ => rfl,
   (ComputeCommInfo_requests exRmq exCim (arr 0 [0, 2, 4, 6]) 2 (fun _ => 0) exGm
      (fun _ _ _ _ _ => rfl)).1⟩

/-- C22. The function `ComputeCommInfo` assumes and leaves the map in a zero state: if the
map is 0 on `[0, nrows)` on entry then it is 0 on `[0, nrows)` on return. -/
theorem ComputeCommInfo_map_zero (rmat : ReduceMatType) (cinfo : CommInfoType)
    (rowdist : Nat → Nat) (maxntogo : Nat) (pilu_send : Nat → Nat)
    (g : hypre_PilutSolverGlobals) (hmap : ∀ x, x < g.nrows → g.map x = 0) :
    ∀ x, x < g.nrows →
      (ComputeCommInfo_local rmat cinfo rowdist maxntogo pilu_send g).map x = 0 := by
  intro x hx
  rw [ComputeCommInfo_local_map]
  split
  · rfl
  · exact hmap x hx

/-- Instance of C22: the middle PE with the columns 5, 0, 4, 1, 5 outside its rows. -/
theorem ComputeCommInfo_map_zero_witness :
    (∀ x, x < exGm.nrows → exGm.map x = 0) ∧
    (∀ x, x < exGm.nrows →
      (ComputeCommInfo_local exRmq exCim (arr 0 [0, 2, 4, 6]) 2 (fun _ => 0) exGm).map x = 0) :=
  ⟨fun _ _ => rfl,
   ComputeCommInfo_map_zero exRmq exCim (arr 0 [0, 2, 4, 6]) 2 (fun _ => 0) exGm
     (fun _ _ => rfl)⟩

/-! ## ComputeCommInfo: bucketing by owner -/

theorem ComputeCommInfo_advance_spec (rrowind : Nat → Nat) (bound nrecv : Nat)
    (budget j : Nat) (hj : j ≤ nrecv) (hb : nrecv ≤ j + budget) :
    j ≤ ComputeCommInfo_advance rrowind bound nrecv budget j ∧
    ComputeCommInfo_advance rrowind bound nrecv budget j ≤ nrecv ∧
    (∀ p, j ≤ p → p < ComputeCommInfo_advance rrowind bound nrecv budget j →
      rrowind p < bound) ∧
    (ComputeCommInfo_advance rrowind bound nrecv budget j < nrecv →
      bound ≤ rrowind (ComputeCommInfo_advance rrowind bound nrecv budget j)) := by
  induction budget generalizing j with
  | zero =>
    have : j = nrecv := by omega
    subst this
    simp only [ComputeCommInfo_advance]
    exact ⟨le_refl _, le_refl _, fun p a b => by omega, fun h => by omega⟩
  | succ b ih =>
    unfold ComputeCommInfo_advance
    by_cases h1 : j < nrecv
    · rw [if_pos h1]
      by_cases h2 : rrowind j ≥ bound
      · rw [if_pos h2]
        exact ⟨le_refl _, hj, fun p a b => by omega, fun _ => h2⟩
      · rw [if_neg h2]
        obtain ⟨a1, a2, a3, a4⟩ := ih (j + 1) (by omega) (by omega)
        refine ⟨by omega, a2, ?_, a4⟩
        intro p p1 p2
        by_cases hp : p = j
        · subst hp
          omega
        · exact a3 p (by omega) p2
    · rw [if_neg h1]
      exact ⟨le_refl _, hj, fun p a b => by omega, fun h => absurd h h1⟩

/-- The loop over `penum` of `ComputeCommInfo` on an ascending `rrowind[0..nrecv)` whose
entries are below `rowdist[npes]`: started at PE `penum` with the requests from `j` on
owned by PEs from `penum` on, it ends with all requests bucketed. -/
theorem ComputeCommInfo_bucket_spec (rrowind rowdist : Nat → Nat) (nrecv npes : Nat)
    (hasc : ∀ q, q < nrecv → ∀ p, p ≤ q → rrowind p ≤ rrowind q)
    (hN : ∀ p, p < nrecv → rrowind p < rowdist npes)
    (fuel penum : Nat) (s : BucketState) (hfuel : penum + fuel = npes)
    (h1 : s.j ≤ nrecv) (h2 : s.rnbrptr 0 = 0 ∧ s.rnbrptr s.rnnbr = s.j)
    (h3 : ∀ i, i < s.rnnbr → s.rnbrptr i < s.rnbrptr (i + 1))
    (h4 : ∀ i, i < s.rnnbr → s.rnbrind i < penum)
    (h4b : ∀ i, i + 1 < s.rnnbr → s.rnbrind i < s.rnbrind (i + 1))
    (h5 : ∀ i, i < s.rnnbr → ∀ p, s.rnbrptr i ≤ p → p < s.rnbrptr (i + 1) →
      rowdist (s.rnbrind i) ≤ rrowind p ∧ rrowind p < rowdist (s.rnbrind i + 1))
    (h6 : ∀ p, s.j ≤ p → p < nrecv → rowdist penum ≤ rrowind p) :
    (ComputeCommInfo_bucket rrowind rowdist nrecv fuel penum s).rnbrptr 0 = 0 ∧
    (ComputeCommInfo_bucket rrowind rowdist nrecv fuel penum s).rnbrptr
      (ComputeCommInfo_bucket rrowind rowdist nrecv fuel penum s).rnnbr = nrecv ∧
    (∀ i, i < (ComputeCommInfo_bucket rrowind rowdist nrecv fuel penum s).rnnbr →
      (ComputeCommInfo_bucket rrowind rowdist nrecv fuel penum s).rnbrptr i <
        (ComputeCommInfo_bucket rrowind rowdist nrecv fuel penum s).rnbrptr (i + 1)) ∧
    (∀ i, i < (ComputeCommInfo_bucket rrowind rowdist nrecv fuel penum s).rnnbr →
      (ComputeCommInfo_bucket rrowind rowdist nrecv fuel penum s).rnbrind i < npes) ∧
    (∀ i, i + 1 < (ComputeCommInfo_bucket rrowind rowdist nrecv fuel penum s).rnnbr →
      (ComputeCommInfo_bucket rrowind rowdist nrecv fuel penum s).rnbrind i <
        (ComputeCommInfo_bucket rrowind rowdist nrecv fuel penum s).rnbrind (i + 1)) ∧
    (∀ i, i < (ComputeCommInfo_bucket rrowind rowdist nrecv fuel penum s).rnnbr → ∀ p,
      (ComputeCommInfo_bucket rrowind rowdist nrecv fuel penum s).rnbrptr i ≤ p →
      p < (ComputeCommInfo_bucket rrowind rowdist nrecv fuel penum s).rnbrptr (i + 1) →
      rowdist ((ComputeCommInfo_bucket rrowind rowdist nrecv fuel penum s).rnbrind i)
          ≤ rrowind p ∧
        rrowind p <
          rowdist ((ComputeCommInfo_bucket rrowind rowdist nrecv fuel penum s).rnbrind i + 1))
    := by
  induction fuel generalizing penum s with
  | zero =>
    simp only [ComputeCommInfo_bucket]
    have hp : penum = npes := by omega
    have hj : s.j = nrecv := by
      by_contra hne
      have a := h6 s.j (le_refl _) (by omega)
      have b := hN s.j (by omega)
      rw [hp] at a
      omega
    refine ⟨h2.1, by rw [h2.2, hj], h3, fun i hi => by have := h4 i hi; omega, h4b, h5⟩
  | succ n ih =>
    unfold ComputeCommInfo_bucket
    by_cases hlt : s.j < nrecv
    · simp only [hlt, if_true]
      obtain ⟨a1, a2, a3, a4⟩ := ComputeCommInfo_advance_spec rrowind (rowdist (penum + 1))
        nrecv nrecv s.j h1 (by omega)
      have h6n : ∀ p, ComputeCommInfo_advance rrowind (rowdist (penum + 1)) nrecv nrecv s.j ≤ p →
          p < nrecv → rowdist (penum + 1) ≤ rrowind p := by
        intro p p1 p2
        exact le_trans (a4 (by omega)) (hasc p p2 _ p1)
      apply ih (penum + 1) _ (by omega)
      all_goals unfold ComputeCommInfo_bucket_body
      all_goals simp only
      all_goals generalize ComputeCommInfo_advance rrowind (rowdist (penum + 1)) nrecv nrecv s.j
        = j2 at a1 a2 a3 a4 h6n
      all_goals by_cases hpos : j2 - s.j > 0
      all_goals simp only [hpos, if_true, if_false]
      · exact a2
      · exact a2
      · rw [upd_other _ _ _ _ (by omega), upd_same]
        exact ⟨h2.1, rfl⟩
      · exact ⟨h2.1, by rw [h2.2]; omega⟩
      · intro i hi
        by_cases him : i = s.rnnbr
        · subst him
          rw [upd_same, upd_other _ _ _ _ (by omega), h2.2]
          omega
        · rw [upd_other _ _ _ _ (by omega), upd_other _ _ _ _ (by omega)]
          exact h3 i (by omega)
      · exact h3
      · intro i hi
        by_cases him : i = s.rnnbr
        · subst him
          rw [upd_same]
          omega
        · rw [upd_other _ _ _ _ him]
          have := h4 i (by omega)
          omega
      · intro i hi
        have := h4 i hi
        omega
      · intro i hi
        by_cases him : i + 1 = s.rnnbr
        · rw [him, upd_same, upd_other _ _ _ _ (by omega)]
          exact h4 i (by omega)
        · rw [upd_other _ _ _ _ him, upd_other _ _ _ _ (by omega)]
          exact h4b i (by omega)
      · exact h4b
      · intro i hi p p1 p2
        by_cases him : i = s.rnnbr
        · subst him
          rw [upd_same] at p2 ⊢
          rw [upd_other _ _ _ _ (by omega), h2.2] at p1
          exact ⟨h6 p p1 (by omega), a3 p p1 p2⟩
        · rw [upd_other _ _ _ _ (by omega)] at p1 p2
          rw [upd_other _ _ _ _ him]
          exact h5 i (by omega) p p1 p2
      · exact h5
      · exact h6n
      · exact h6n
    · simp only [hlt, if_false]
      have hj : s.j = nrecv := by omega
      refine ⟨h2.1, by rw [h2.2, hj], h3, fun i hi => by have := h4 i hi; omega, h4b, h5⟩

theorem strict_of_succ (a : Nat → Nat) (n : Nat) (h : ∀ i, i + 1 < n → a i < a (i + 1))
    (i j : Nat) (hij : i < j) (hj : j < n) : a i < a j := by
  induction j with
  | zero => omega
  | succ k ih =>
    by_cases hik : i = k
    · subst hik
      exact h i hj
    · exact lt_trans (ih (by omega) (by omega)) (h k hj)

theorem ComputeCommInfo_announce_spec (npes rnnbr : Nat) (rnbrind rnbrptr : Nat → Nat)
    (pilu_send : Nat → Nat) (hinc : ∀ i, i + 1 < rnnbr → rnbrind i < rnbrind (i + 1)) :
    (∀ i, i < rnnbr →
      ComputeCommInfo_announce npes rnnbr rnbrind rnbrptr pilu_send (rnbrind i)
        = rnbrptr (i + 1) - rnbrptr i) ∧
    (∀ x, x < npes → (∀ i, i < rnnbr → rnbrind i ≠ x) →
      ComputeCommInfo_announce npes rnnbr rnbrind rnbrptr pilu_send x = 0) := by
  have hzero : ∀ n x, (forLoop 0 (fun i p => upd p i 0) n pilu_send) x =
      if x < n then 0 else pilu_send x := by
    intro n x
    induction n with
    | zero => simp
    | succ m ih =>
      rw [forLoop_succ, Nat.zero_add]
      by_cases hx : x = m
      · subst hx
        simp
      · rw [upd_other _ _ _ _ hx, ih]
        by_cases hlt : x < m
        · rw [if_pos hlt, if_pos (by omega)]
        · rw [if_neg hlt, if_neg (by omega)]
  have key : ∀ n, n ≤ rnnbr →
      (∀ i, i < n →
        (forLoop 0 (fun i p => upd p (rnbrind i) (rnbrptr (i + 1) - rnbrptr i)) n
          (forLoop 0 (fun i p => upd p i 0) npes pilu_send)) (rnbrind i)
          = rnbrptr (i + 1) - rnbrptr i) ∧
      (∀ x, (∀ i, i < n → rnbrind i ≠ x) →
        (forLoop 0 (fun i p => upd p (rnbrind i) (rnbrptr (i + 1) - rnbrptr i)) n
          (forLoop 0 (fun i p => upd p i 0) npes pilu_send)) x
          = (forLoop 0 (fun i p => upd p i 0) npes pilu_send) x) := by
    intro n
    induction n with
    | zero =>
      intro _
      exact ⟨fun i hi => by omega, fun x _ => rfl⟩
    | succ m ih =>
      intro hm
      obtain ⟨i1, i2⟩ := ih (by omega)
      rw [forLoop_succ, Nat.zero_add]
      constructor
      · intro i hi
        by_cases him : i = m
        · subst him
          rw [upd_same]
        · have hlt := strict_of_succ rnbrind rnnbr hinc i m (by omega) (by omega)
          rw [upd_other _ _ _ _ (by omega)]
          exact i1 i (by omega)
      · intro x hx
        rw [upd_other _ _ _ _ (Ne.symm (hx m (by omega)))]
        exact i2 x (fun i hi => hx i (by omega))
  obtain ⟨k1, k2⟩ := key rnnbr (le_refl _)
  unfold ComputeCommInfo_announce
  refine ⟨k1, ?_⟩
  intro x hx hne
  rw [k2 x hne, hzero, if_pos hx]

/-- C23. Bucketing by owner: when `rrowind[0..nrecv)` is ascending, `rowdist[0] <= rrowind[0]`
and every entry is below `rowdist[npes]`, `ComputeCommInfo` produces `rnbrptr[0] = 0`,
`rnbrptr` strictly increasing up to `rnbrptr[rnnbr] = nrecv`, `rnbrind` strictly increasing,
every `rrowind[j]` with `rnbrptr[i] <= j < rnbrptr[i+1]` in the row range
`[rowdist[rnbrind[i]], rowdist[rnbrind[i]+1])`, the count `rnbrptr[i+1] - rnbrptr[i]`
announced to PE `rnbrind[i]` and 0 announced to every other PE. -/
theorem ComputeCommInfo_buckets (rmat : ReduceMatType) (cinfo : CommInfoType)
    (rowdist : Nat → Nat) (maxntogo : Nat) (pilu_send : Nat → Nat)
    (g : hypre_PilutSolverGlobals)
    (hasc : ∀ q, q < (ComputeCommInfo_local rmat cinfo rowdist maxntogo pilu_send g).nrecv →
      ∀ p, p ≤ q →
        (ComputeCommInfo_local rmat cinfo rowdist maxntogo pilu_send g).cinfo.rrowind p ≤
          (ComputeCommInfo_local rmat cinfo rowdist maxntogo pilu_send g).cinfo.rrowind q)
    (h0 : 0 < (ComputeCommInfo_local rmat cinfo rowdist maxntogo pilu_send g).nrecv →
      rowdist 0 ≤ (ComputeCommInfo_local rmat cinfo rowdist maxntogo pilu_send g).cinfo.rrowind 0)
    (hN : ∀ p, p < (ComputeCommInfo_local rmat cinfo rowdist maxntogo pilu_send g).nrecv →
      (ComputeCommInfo_local rmat cinfo rowdist maxntogo pilu_send g).cinfo.rrowind p
        < rowdist g.npes) :
    (ComputeCommInfo_local rmat cinfo rowdist maxntogo pilu_send g).cinfo.rnbrptr 0 = 0 ∧
    (∀ i, i < (ComputeCommInfo_local rmat cinfo rowdist maxntogo pilu_send g).cinfo.rnnbr →
      (ComputeCommInfo_local rmat cinfo rowdist maxntogo pilu_send g).cinfo.rnbrptr i <
        (ComputeCommInfo_local rmat cinfo rowdist maxntogo pilu_send g).cinfo.rnbrptr (i + 1)) ∧
    (ComputeCommInfo_local rmat cinfo rowdist maxntogo pilu_send g).cinfo.rnbrptr
        (ComputeCommInfo_local rmat cinfo rowdist maxntogo pilu_send g).cinfo.rnnbr
      = (ComputeCommInfo_local rmat cinfo rowdist maxntogo pilu_send g).nrecv ∧
    (∀ i, i + 1 < (ComputeCommInfo_local rmat cinfo rowdist maxntogo pilu_send g).cinfo.rnnbr →
      (ComputeCommInfo_local rmat cinfo rowdist maxntogo pilu_send g).cinfo.rnbrind i <
        (ComputeCommInfo_local rmat cinfo rowdist maxntogo pilu_send g).cinfo.rnbrind (i + 1)) ∧
    (∀ i, i < (ComputeCommInfo_local rmat cinfo rowdist maxntogo pilu_send g).cinfo.rnnbr →
      ∀ j,
      (ComputeCommInfo_local rmat cinfo rowdist maxntogo pilu_send g).cinfo.rnbrptr i ≤ j →
      j < (ComputeCommInfo_local rmat cinfo rowdist maxntogo pilu_send g).cinfo.rnbrptr (i + 1) →
      rowdist ((ComputeCommInfo_local rmat cinfo rowdist maxntogo pilu_send g).cinfo.rnbrind i)
          ≤ (ComputeCommInfo_local rmat cinfo rowdist maxntogo pilu_send g).cinfo.rrowind j ∧
        (ComputeCommInfo_local rmat cinfo rowdist maxntogo pilu_send g).cinfo.rrowind j <
          rowdist
            ((ComputeCommInfo_local rmat cinfo rowdist maxntogo pilu_send g).cinfo.rnbrind i
              + 1)) ∧
    (∀ i, i < (ComputeCommInfo_local rmat cinfo rowdist maxntogo pilu_send g).cinfo.rnnbr →
      (ComputeCommInfo_local rmat cinfo rowdist maxntogo pilu_send g).pilu_send
          ((ComputeCommInfo_local rmat cinfo rowdist maxntogo pilu_send g).cinfo.rnbrind i)
        = (ComputeCommInfo_local rmat cinfo rowdist maxntogo pilu_send g).cinfo.rnbrptr (i + 1)
          - (ComputeCommInfo_local rmat cinfo rowdist maxntogo pilu_send g).cinfo.rnbrptr i) ∧
    (∀ x, x < g.npes →
      (∀ i, i < (ComputeCommInfo_local rmat cinfo rowdist maxntogo pilu_send g).cinfo.rnnbr →
        (ComputeCommInfo_local rmat cinfo rowdist maxntogo pilu_send g).cinfo.rnbrind i ≠ x) →
      (ComputeCommInfo_local rmat cinfo rowdist maxntogo pilu_send g).pilu_send x = 0) := by
  simp only [ComputeCommInfo_local] at hasc h0 hN ⊢
  generalize ComputeCommInfo_scan g rmat cinfo = s at hasc h0 hN
  generalize sincsort_fast s.nrecv s.rrowind = rr at hasc h0 hN
  obtain ⟨b1, b2, b3, b4, b5, b6⟩ := ComputeCommInfo_bucket_spec rr rowdist s.nrecv g.npes
    hasc hN g.npes 0
    { j := 0, rnnbr := 0, rnbrind := cinfo.rnbrind, rnbrptr := upd cinfo.rnbrptr 0 0 }
    (by omega) (Nat.zero_le _) ⟨by simp only [upd_same], by simp only [upd_same]⟩
    (fun i hi => by simp only at hi; omega) (fun i hi => by simp only at hi; omega)
    (fun i hi => by simp only at hi; omega) (fun i hi => by simp only at hi; omega)
    (by
      intro p _ hp
      exact le_trans (h0 (by omega)) (hasc p hp 0 (Nat.zero_le _)))
  obtain ⟨n1, n2⟩ := ComputeCommInfo_announce_spec g.npes
    (ComputeCommInfo_bucket rr rowdist s.nrecv g.npes 0
      { j := 0, rnnbr := 0, rnbrind := cinfo.rnbrind, rnbrptr := upd cinfo.rnbrptr 0 0 }).rnnbr
    (ComputeCommInfo_bucket rr rowdist s.nrecv g.npes 0
      { j := 0, rnnbr := 0, rnbrind := cinfo.rnbrind, rnbrptr := upd cinfo.rnbrptr 0 0 }).rnbrind
    (ComputeCommInfo_bucket rr rowdist s.nrecv g.npes 0
      { j := 0, rnnbr := 0, rnbrind := cinfo.rnbrind, rnbrptr := upd cinfo.rnbrptr 0 0 }).rnbrptr
    pilu_send b5
  exact ⟨b1, b3, b2, b5, b6, n1, n2⟩

/-- Instance of C23: the middle PE of three with the requests 0, 1, 4, 5. -/
theorem ComputeCommInfo_buckets_witness :
    ((∀ q, q < (ComputeCommInfo_local exRmq exCim (arr 0 [0, 2, 4, 6]) 2 (fun _ => 7)
          exGm).nrecv → ∀ p, p ≤ q →
        (ComputeCommInfo_local exRmq exCim (arr 0 [0, 2, 4, 6]) 2 (fun _ => 7)
          exGm).cinfo.rrowind p ≤
        (ComputeCommInfo_local exRmq exCim (arr 0 [0, 2, 4, 6]) 2 (fun _ => 7)
          exGm).cinfo.rrowind q) ∧
      (0 < (ComputeCommInfo_local exRmq exCim (arr 0 [0, 2, 4, 6]) 2 (fun _ => 7) exGm).nrecv →
        (arr 0 [0, 2, 4, 6]) 0 ≤
          (ComputeCommInfo_local exRmq exCim (arr 0 [0, 2, 4, 6]) 2 (fun _ => 7)
            exGm).cinfo.rrowind 0) ∧
      (∀ p, p < (ComputeCommInfo_local exRmq exCim (arr 0 [0, 2, 4, 6]) 2 (fun _ => 7)
          exGm).nrecv →
        (ComputeCommInfo_local exRmq exCim (arr 0 [0, 2, 4, 6]) 2 (fun _ => 7)
          exGm).cinfo.rrowind p < (arr 0 [0, 2, 4, 6]) exGm.npes)) ∧
    (ComputeCommInfo_local exRmq exCim (arr 0 [0, 2, 4, 6]) 2 (fun _ => 7) exGm).cinfo.rnbrptr
        (ComputeCommInfo_local exRmq exCim (arr 0 [0, 2, 4, 6]) 2 (fun _ => 7) exGm).cinfo.rnnbr
      = (ComputeCommInfo_local exRmq exCim (arr 0 [0, 2, 4, 6]) 2 (fun _ => 7) exGm).nrecv :=
  ⟨⟨by decide, by decide, by decide⟩,
   (ComputeCommInfo_buckets exRmq exCim (arr 0 [0, 2, 4, 6]) 2 (fun _ => 7) exGm
      (by decide) (by decide) (by decide)).2.2.1⟩


/-! ## The level loop of ParILUT: the counters -/

theorem ParILUT_levels_succ (nmis : Nat → Nat) (others : Nat → Int) (c0 : LevelCounters)
    (l : Nat) :
    ParILUT_levels nmis others c0 (l + 1) =
      { ParILUT_level nmis others (ParILUT_levels nmis others c0 l) with
        nnodes := upd (ParILUT_level nmis others (ParILUT_levels nmis others c0 l)).nnodes
          (ParILUT_level nmis others (ParILUT_levels nmis others c0 l)).nlevel
          (ParILUT_level nmis others (ParILUT_levels nmis others c0 l)).ndone } := rfl

theorem ParILUT_levels_nlevel (nmis : Nat → Nat) (others : Nat → Int) (c0 : LevelCounters)
    (h0 : c0.nlevel = 0) (l : Nat) : (ParILUT_levels nmis others c0 l).nlevel = l := by
  induction l with
  | zero => exact h0
  | succ m ih =>
    rw [ParILUT_levels_succ]
    show (ParILUT_levels nmis others c0 m).nlevel + 1 = m + 1
    rw [ih]

theorem ParILUT_levels_ndone (nmis : Nat → Nat) (others : Nat → Int) (c0 : LevelCounters)
    (h0 : c0.nlevel = 0) (l : Nat) :
    (ParILUT_levels nmis others c0 (l + 1)).ndone =
      (ParILUT_levels nmis others c0 l).ndone + (nmis l : Int) := by
  rw [ParILUT_levels_succ]
  show (ParILUT_levels nmis others c0 l).ndone +
    (nmis (ParILUT_levels nmis others c0 l).nlevel : Int) = _
  rw [ParILUT_levels_nlevel nmis others c0 h0 l]

theorem ParILUT_levels_ntogo (nmis : Nat → Nat) (others : Nat → Int) (c0 : LevelCounters)
    (h0 : c0.nlevel = 0) (l : Nat) :
    (ParILUT_levels nmis others c0 (l + 1)).ntogo =
      (ParILUT_levels nmis others c0 l).ntogo - (nmis l : Int) := by
  rw [ParILUT_levels_succ]
  show (ParILUT_levels nmis others c0 l).ntogo -
    (nmis (ParILUT_levels nmis others c0 l).nlevel : Int) = _
  rw [ParILUT_levels_nlevel nmis others c0 h0 l]

theorem ParILUT_levels_nleft (nmis : Nat → Nat) (others : Nat → Int) (c0 : LevelCounters)
    (h0 : c0.nlevel = 0) (hl : c0.nleft = GlobalSESum (others 0) c0.ntogo) (l : Nat) :
    (ParILUT_levels nmis others c0 l).nleft =
      GlobalSESum (others l) (ParILUT_levels nmis others c0 l).ntogo := by
  cases l with
  | zero => exact hl
  | succ m =>
    rw [ParILUT_levels_ntogo nmis others c0 h0 m]
    show GlobalSESum (others ((ParILUT_levels nmis others c0 m).nlevel + 1))
      ((ParILUT_levels nmis others c0 m).ntogo -
        (nmis (ParILUT_levels nmis others c0 m).nlevel : Int)) = _
    rw [ParILUT_levels_nlevel nmis others c0 h0 m]

theorem ParILUT_levels_sum (nmis : Nat → Nat) (others : Nat → Int) (c0 : LevelCounters)
    (L : Int) (hs : c0.ndone + c0.ntogo = L) (l : Nat) :
    (ParILUT_levels nmis others c0 l).ndone + (ParILUT_levels nmis others c0 l).ntogo = L := by
  induction l with
  | zero => exact hs
  | succ m ih =>
    rw [ParILUT_levels_succ]
    show (ParILUT_levels nmis others c0 m).ndone + _ +
      ((ParILUT_levels nmis others c0 m).ntogo - _) = L
    omega

theorem ParILUT_levels_nnodes (nmis : Nat → Nat) (others : Nat → Int) (c0 : LevelCounters)
    (h0 : c0.nlevel = 0) (hn : c0.nnodes 0 = c0.ndone) (l : Nat) :
    ∀ k, k ≤ l → (ParILUT_levels nmis others c0 l).nnodes k =
      (ParILUT_levels nmis others c0 k).ndone := by
  induction l with
  | zero =>
    intro k hk
    have : k = 0 := by omega
    subst this
    exact hn
  | succ m ih =>
    intro k hk
    rw [ParILUT_levels_succ]
    show upd (ParILUT_levels nmis others c0 m).nnodes
      ((ParILUT_levels nmis others c0 m).nlevel + 1)
      ((ParILUT_levels nmis others c0 m).ndone +
        (nmis (ParILUT_levels nmis others c0 m).nlevel : Int)) k = _
    rw [ParILUT_levels_nlevel nmis others c0 h0 m]
    by_cases hkm : k = m + 1
    · subst hkm
      rw [ParILUT_levels_ndone nmis others c0 h0 m]
      simp [upd]
    · have : upd (ParILUT_levels nmis others c0 m).nnodes (m + 1)
          ((ParILUT_levels nmis others c0 m).ndone + (nmis m : Int)) k =
          (ParILUT_levels nmis others c0 m).nnodes k := by
        simp [upd, hkm]
      rw [this]
      exact ih k (by omega)

/-- The run of the loop of `ParILUT` from the boundary after `l` levels: with enough passes
allowed it ends, either normally at the first boundary with `nleft <= 0`, or by the error
exit in the pass that starts at the boundary number `MAXNLEVEL`. -/
theorem ParILUT_loop_spec (M : Nat) (nmis : Nat → Nat) (others : Nat → Int)
    (c0 : LevelCounters) (h0 : c0.nlevel = 0) :
    ∀ fuel l, l ≤ M → M + 2 ≤ fuel + l →
      (∀ k, k < l → (ParILUT_levels nmis others c0 k).nleft > 0) →
      ∃ r, ParILUT_loop M nmis others fuel l (ParILUT_levels nmis others c0 l) = some r ∧
        ((r.fatal = false ∧ r.iters ≤ M ∧ r.c = ParILUT_levels nmis others c0 r.iters ∧
            ¬ (ParILUT_levels nmis others c0 r.iters).nleft > 0 ∧
            ∀ k, k < r.iters → (ParILUT_levels nmis others c0 k).nleft > 0) ∨
         (r.fatal = true ∧ r.iters = M + 1 ∧
            r.c = ParILUT_level nmis others (ParILUT_levels nmis others c0 M) ∧
            ∀ k, k ≤ M → (ParILUT_levels nmis others c0 k).nleft > 0)) := by
  intro fuel
  induction fuel with
  | zero => intro l h1 h2; omega
  | succ f ih =>
    intro l h1 h2 h3
    unfold ParILUT_loop
    by_cases hpos : (ParILUT_levels nmis others c0 l).nleft > 0
    · rw [if_pos hpos]
      have hlev : (ParILUT_level nmis others (ParILUT_levels nmis others c0 l)).nlevel =
          l + 1 := by
        show (ParILUT_levels nmis others c0 l).nlevel + 1 = l + 1
        rw [ParILUT_levels_nlevel nmis others c0 h0 l]
      rw [hlev]
      have hall : ∀ k, k < l + 1 → (ParILUT_levels nmis others c0 k).nleft > 0 := by
        intro k hk
        by_cases hkl : k = l
        · subst hkl; exact hpos
        · exact h3 k (by omega)
      by_cases hM : l + 1 > M
      · rw [if_pos hM]
        have hl : l = M := by omega
        subst hl
        exact ⟨_, rfl, Or.inr ⟨rfl, rfl, rfl, fun k hk => hall k (by omega)⟩⟩
      · rw [if_neg hM]
        have key := ih (l + 1) (by omega) (by omega) hall
        rw [ParILUT_levels_succ, hlev] at key
        exact key
    · rw [if_neg hpos]
      exact ⟨_, rfl, Or.inl ⟨rfl, h1, rfl, hpos, h3⟩⟩

theorem ParILUT_init_nlevel (others : Nat → Int) (rmat_ndone rmat_ntogo : Nat)
    (nnodes : Nat → Int) : (ParILUT_init others rmat_ndone rmat_ntogo nnodes).nlevel = 0 := rfl

/-- The run of `ParILUT` on its counters ends within the passes it is given. -/
theorem ParILUT_counters_spec (M : Nat) (nmis : Nat → Nat) (others : Nat → Int)
    (rmat_ndone rmat_ntogo : Nat) (nnodes : Nat → Int) :
    ∃ r, ParILUT_counters M nmis others rmat_ndone rmat_ntogo nnodes = some r ∧
      ((r.fatal = false ∧ r.iters ≤ M ∧
          r.c = ParILUT_levels nmis others
            (ParILUT_init others rmat_ndone rmat_ntogo nnodes) r.iters ∧
          ¬ (ParILUT_levels nmis others
            (ParILUT_init others rmat_ndone rmat_ntogo nnodes) r.iters).nleft > 0 ∧
          ∀ k, k < r.iters → (ParILUT_levels nmis others
            (ParILUT_init others rmat_ndone rmat_ntogo nnodes) k).nleft > 0) ∨
       (r.fatal = true ∧ r.iters = M + 1 ∧
          r.c = ParILUT_level nmis others (ParILUT_levels nmis others
            (ParILUT_init others rmat_ndone rmat_ntogo nnodes) M) ∧
          ∀ k, k ≤ M → (ParILUT_levels nmis others
            (ParILUT_init others rmat_ndone rmat_ntogo nnodes) k).nleft > 0)) := by
  have key := ParILUT_loop_spec M nmis others
    (ParILUT_init others rmat_ndone rmat_ntogo nnodes) rfl (M + 2) 0 (by omega) (by omega)
    (fun k hk => absurd hk (Nat.not_lt_zero k))
  exact key

/-- C27. Level cap of `ParILUT`: the run on the counters always ends; it ends by the error
exit exactly when the level counter, after its increment at the end of a level, exceeds
`MAXNLEVEL` (which happens exactly when `nleft > 0` at the boundaries `0..MAXNLEVEL`); on a
normal return the final `nlevel`, which is stored in `nlevels`, is at most `MAXNLEVEL`,
`nleft > 0` is false, and in both cases `nlevel` is the number of passes of the loop. -/
theorem ParILUT_level_cap (MAXNLEVEL : Nat) (nmis : Nat → Nat) (others : Nat → Int)
    (rmat_ndone rmat_ntogo : Nat) (nnodes : Nat → Int) :
    ∃ r, ParILUT_counters MAXNLEVEL nmis others rmat_ndone rmat_ntogo nnodes = some r ∧
      r.c.nlevel = r.iters ∧
      (r.fatal = true ↔ r.c.nlevel > MAXNLEVEL) ∧
      (r.fatal = true ↔ ∀ l, l ≤ MAXNLEVEL → (ParILUT_levels nmis others
          (ParILUT_init others rmat_ndone rmat_ntogo nnodes) l).nleft > 0) ∧
      (r.fatal = false → r.c.nlevel ≤ MAXNLEVEL ∧ ¬ r.c.nleft > 0) := by
  obtain ⟨r, hr, h⟩ := ParILUT_counters_spec MAXNLEVEL nmis others rmat_ndone rmat_ntogo nnodes
  refine ⟨r, hr, ?_⟩
  rcases h with ⟨hf, hle, hc, hn, hall⟩ | ⟨hf, hit, hc, hall⟩
  · have hlev : r.c.nlevel = r.iters := by
      rw [hc]
      exact ParILUT_levels_nlevel nmis others _ rfl r.iters
    refine ⟨hlev, ?_, ?_, ?_⟩
    · rw [hf, hlev]
      constructor
      · intro h; exact absurd h (by decide)
      · intro h; omega
    · rw [hf]
      constructor
      · intro h; exact absurd h (by decide)
      · intro h; exact absurd (h r.iters hle) hn
    · intro _
      refine ⟨by omega, ?_⟩
      rw [hc]; exact hn
  · have hlev : r.c.nlevel = r.iters := by
      rw [hc, hit]
      show (ParILUT_levels nmis others _ MAXNLEVEL).nlevel + 1 = MAXNLEVEL + 1
      rw [ParILUT_levels_nlevel nmis others _ rfl MAXNLEVEL]
    refine ⟨hlev, ?_, ?_, ?_⟩
    · rw [hf, hlev, hit]
      constructor
      · intro _; omega
      · intro _; rfl
    · rw [hf]
      constructor
      · intro _; exact hall
      · intro _; rfl
    · intro h; rw [hf] at h; exact absurd h (by decide)


theorem SelectSet_fix_inner_num_le (x : Nat) :
    ∀ budget j s, (SelectSet_fix_inner x budget j s).num ≤ s.num := by
  intro budget
  induction budget with
  | zero => intro j s; exact le_refl _
  | succ b ih =>
    intro j s
    unfold SelectSet_fix_inner
    by_cases hj : j < s.num
    · rw [if_pos hj]
      by_cases hx : x = s.jw j
      · rw [if_pos hx]
        exact le_trans (ih (j + 1) _) (Nat.sub_le s.num 1)
      · rw [if_neg hx]
        exact ih (j + 1) s
    · rw [if_neg hj]

/-- The set that `SelectSet` returns holds at most `ntogo` rows. -/
theorem SelectSet_num_le (rmat : ReduceMatType) (cinfo : CommInfoType)
    (perm iperm newperm newiperm : Nat → Nat) (g : hypre_PilutSolverGlobals) :
    (SelectSet rmat cinfo perm iperm newperm newiperm g).num ≤ g.ntogo := by
  show (SelectSet_pass2 g cinfo (SelectSet_pass1 g rmat perm)).num ≤ g.ntogo
  have h1 : (SelectSet_pass1 g rmat perm).num ≤ g.ntogo := by
    have hs := congrArg List.length (SelectSet_pass1_loop_spec g rmat perm g.ntogo).1
    rw [slice_length] at hs
    show (forLoop 0 (SelectSet_pass1_body g rmat perm) g.ntogo
      { num := 0, jw := g.jw, map := g.map }).num ≤ g.ntogo
    rw [hs]
    unfold candRows
    rw [List.length_map]
    have := List.length_filter_le (SelectSet_passes g rmat) (List.range g.ntogo)
    rw [List.length_range] at this
    exact this
  generalize SelectSet_pass1 g rmat perm = s at h1
  unfold SelectSet_pass2
  refine forLoop_inv (fun _ t => t.num ≤ g.ntogo) 0 _ cinfo.snnbr s h1 ?_
  intro n t _ ht
  by_cases hk : cinfo.snbrind (0 + n) < g.mype
  · simp only [if_pos hk]
    refine forLoop_inv (fun _ u => u.num ≤ g.ntogo) _ _ _ t ht ?_
    intro m u _ hu
    exact le_trans (SelectSet_fix_inner_num_le _ _ _ _) hu
  · simp only [if_neg hk]
    exact ht


theorem ParILUT_levels_ndone_mono (nmis : Nat → Nat) (others : Nat → Int)
    (c0 : LevelCounters) (h0 : c0.nlevel = 0) (l : Nat) :
    ∀ d, (ParILUT_levels nmis others c0 l).ndone ≤
      (ParILUT_levels nmis others c0 (l + d)).ndone := by
  intro d
  induction d with
  | zero => exact le_refl _
  | succ e ih =>
    have h := ParILUT_levels_ndone nmis others c0 h0 (l + e)
    have e1 : l + (e + 1) = l + e + 1 := rfl
    rw [e1, h]
    have : (0 : Int) ≤ (nmis (l + e) : Int) := Int.ofNat_nonneg _
    omega

/-- The array `nnodes` at the boundary after `n` levels: entry 0 is the initial `ndone`,
each further entry up to `n` adds the size of the set of its level, and the entries do not
decrease. -/
theorem ParILUT_levels_nnodes_spec (nmis : Nat → Nat) (others : Nat → Int)
    (c0 : LevelCounters) (h0 : c0.nlevel = 0) (hn : c0.nnodes 0 = c0.ndone) (n : Nat) :
    (ParILUT_levels nmis others c0 n).nnodes 0 = c0.ndone ∧
    (∀ l, 1 ≤ l → l ≤ n → (ParILUT_levels nmis others c0 n).nnodes l =
      (ParILUT_levels nmis others c0 n).nnodes (l - 1) + (nmis (l - 1) : Int)) ∧
    (∀ l k, l ≤ k → k ≤ n → (ParILUT_levels nmis others c0 n).nnodes l ≤
      (ParILUT_levels nmis others c0 n).nnodes k) := by
  have hnn := ParILUT_levels_nnodes nmis others c0 h0 hn n
  refine ⟨hnn 0 (Nat.zero_le n), ?_, ?_⟩
  · intro l h1 h2
    rw [hnn l h2, hnn (l - 1) (by omega)]
    have h := ParILUT_levels_ndone nmis others c0 h0 (l - 1)
    have e1 : l - 1 + 1 = l := by omega
    rw [e1] at h
    exact h
  · intro l k h1 h2
    rw [hnn l (by omega), hnn k h2]
    have h := ParILUT_levels_ndone_mono nmis others c0 h0 l (k - l)
    have e1 : l + (k - l) = k := by omega
    rw [e1] at h
    exact h

/-- While the set of every level that runs holds at most `ntogo` rows, `ntogo` is never
negative. -/
theorem ParILUT_levels_ntogo_nonneg (M : Nat) (nmis : Nat → Nat) (others : Nat → Int)
    (c0 : LevelCounters) (h0 : c0.nlevel = 0) (ht : 0 ≤ c0.ntogo)
    (hmis : ∀ l, l ≤ M → 0 < (ParILUT_levels nmis others c0 l).nleft →
      (nmis l : Int) ≤ (ParILUT_levels nmis others c0 l).ntogo) (n : Nat) :
    n ≤ M + 1 → (∀ k, k < n → (ParILUT_levels nmis others c0 k).nleft > 0) →
    0 ≤ (ParILUT_levels nmis others c0 n).ntogo := by
  induction n with
  | zero => intro _ _; exact ht
  | succ m ih =>
    intro h1 h2
    rw [ParILUT_levels_ntogo nmis others c0 h0 m]
    have h := hmis m (by omega) (h2 m (Nat.lt_succ_self m))
    omega

/-- C28. Cumulative level counts of `ParILUT`: if `ndone + ntogo = lnrows` on entry, if the
set of every level that runs holds at most `ntogo` rows, and if the other PEs contribute
non-negative counts to the global sums, then the run on the counters ends and
`ndone + ntogo = lnrows` holds at every level boundary and at the end; `nnodes[0]` is the
initial `ndone`; `nnodes[l] = nnodes[l-1] + nmis` of the level that ends at the boundary
`l`, for every boundary that was stored; `nnodes` does not decrease over these entries;
a normal return ends at a boundary and there `nnodes[nlevels] = lnrows`. -/
theorem ParILUT_cumulative (MAXNLEVEL : Nat) (nmis : Nat → Nat) (others : Nat → Int)
    (rmat_ndone rmat_ntogo : Nat) (nnodes : Nat → Int) (lnrows : Nat)
    (hsum : rmat_ndone + rmat_ntogo = lnrows)
    (hmis : ∀ l, l ≤ MAXNLEVEL →
      0 < (ParILUT_levels nmis others
        (ParILUT_init others rmat_ndone rmat_ntogo nnodes) l).nleft →
      (nmis l : Int) ≤ (ParILUT_levels nmis others
        (ParILUT_init others rmat_ndone rmat_ntogo nnodes) l).ntogo)
    (hoth : ∀ l, 0 ≤ others l) :
    ∃ r, ParILUT_counters MAXNLEVEL nmis others rmat_ndone rmat_ntogo nnodes = some r ∧
      (∀ l, (ParILUT_levels nmis others
          (ParILUT_init others rmat_ndone rmat_ntogo nnodes) l).ndone +
        (ParILUT_levels nmis others
          (ParILUT_init others rmat_ndone rmat_ntogo nnodes) l).ntogo = (lnrows : Int)) ∧
      r.c.ndone + r.c.ntogo = (lnrows : Int) ∧
      r.c.nnodes 0 = (rmat_ndone : Int) ∧
      (∀ l, 1 ≤ l → l ≤ r.c.nlevel → l ≤ MAXNLEVEL →
        r.c.nnodes l = r.c.nnodes (l - 1) + (nmis (l - 1) : Int)) ∧
      (∀ l k, l ≤ k → k ≤ r.c.nlevel → k ≤ MAXNLEVEL → r.c.nnodes l ≤ r.c.nnodes k) ∧
      (r.fatal = false →
        r.c = ParILUT_levels nmis others
          (ParILUT_init others rmat_ndone rmat_ntogo nnodes) r.c.nlevel ∧
        r.c.nnodes r.c.nlevel = (lnrows : Int)) := by
  obtain ⟨r, hr, h⟩ := ParILUT_counters_spec MAXNLEVEL nmis others rmat_ndone rmat_ntogo nnodes
  refine ⟨r, hr, ?_⟩
  generalize hc0 : ParILUT_init others rmat_ndone rmat_ntogo nnodes = c0 at h hmis ⊢
  have h0 : c0.nlevel = 0 := by rw [← hc0]; rfl
  have hn0 : c0.nnodes 0 = c0.ndone := by rw [← hc0]; simp [ParILUT_init, upd]
  have hd0 : c0.ndone = (rmat_ndone : Int) := by rw [← hc0]; rfl
  have ht0 : c0.ntogo = (rmat_ntogo : Int) := by rw [← hc0]; rfl
  have hl0 : c0.nleft = GlobalSESum (others 0) c0.ntogo := by rw [← hc0]; rfl
  have hs0 : c0.ndone + c0.ntogo = (lnrows : Int) := by
    rw [hd0, ht0, ← hsum]; push_cast; rfl
  have hsumAll := ParILUT_levels_sum nmis others c0 (lnrows : Int) hs0
  refine ⟨hsumAll, ?_⟩
  rcases h with ⟨hf, hle, hc, hnl, hall⟩ | ⟨hf, hit, hc, hall⟩
  · have hlev : r.c.nlevel = r.iters := by
      rw [hc]; exact ParILUT_levels_nlevel nmis others c0 h0 r.iters
    obtain ⟨p1, p2, p3⟩ := ParILUT_levels_nnodes_spec nmis others c0 h0 hn0 r.iters
    rw [← hc] at p1 p2 p3
    refine ⟨?_, ?_, ?_, ?_, ?_⟩
    · rw [hc]; exact hsumAll r.iters
    · rw [p1, hd0]
    · intro l h1 h2 _
      exact p2 l h1 (by omega)
    · intro l k h1 h2 _
      exact p3 l k h1 (by omega)
    · intro _
      refine ⟨by rw [hlev]; exact hc, ?_⟩
      have hnn := ParILUT_levels_nnodes nmis others c0 h0 hn0 r.iters r.iters (le_refl _)
      rw [← hc] at hnn
      rw [hlev, hnn]
      have hnonneg := ParILUT_levels_ntogo_nonneg MAXNLEVEL nmis others c0 h0
        (by rw [ht0]; exact Int.ofNat_nonneg _) hmis r.iters (by omega) hall
      have hleft := ParILUT_levels_nleft nmis others c0 h0 hl0 r.iters
      rw [hleft] at hnl
      unfold GlobalSESum at hnl
      have ho := hoth r.iters
      have hs := hsumAll r.iters
      have hnd : r.c.ndone = (ParILUT_levels nmis others c0 r.iters).ndone := by rw [hc]
      omega
  · have hlev : r.c.nlevel = MAXNLEVEL + 1 := by
      rw [hc]
      show (ParILUT_levels nmis others c0 MAXNLEVEL).nlevel + 1 = MAXNLEVEL + 1
      rw [ParILUT_levels_nlevel nmis others c0 h0 MAXNLEVEL]
    have hnod : r.c.nnodes = (ParILUT_levels nmis others c0 MAXNLEVEL).nnodes := by
      rw [hc]; rfl
    obtain ⟨p1, p2, p3⟩ := ParILUT_levels_nnodes_spec nmis others c0 h0 hn0 MAXNLEVEL
    rw [← hnod] at p1 p2 p3
    refine ⟨?_, ?_, ?_, ?_, ?_⟩
    · rw [hc]
      have hs := hsumAll MAXNLEVEL
      show (ParILUT_levels nmis others c0 MAXNLEVEL).ndone + _ +
        ((ParILUT_levels nmis others c0 MAXNLEVEL).ntogo - _) = (lnrows : Int)
      omega
    · rw [p1, hd0]
    · intro l h1 _ h3
      exact p2 l h1 h3
    · intro l k h1 _ h3
      exact p3 l k h1 h3
    · intro h; rw [hf] at h; exact absurd h (by decide)

theorem ParILUT_cumulative_witness :
    1 + 4 = 5 ∧
    (∀ l, l ≤ 3 →
      0 < (ParILUT_levels (fun _ => 2) (fun _ => 0)
        (ParILUT_init (fun _ => 0) 1 4 (fun _ => 0)) l).nleft →
      (((fun _ => 2) : Nat → Nat) l : Int) ≤ (ParILUT_levels (fun _ => 2) (fun _ => 0)
        (ParILUT_init (fun _ => 0) 1 4 (fun _ => 0)) l).ntogo) ∧
    ∃ r, ParILUT_counters 3 (fun _ => 2) (fun _ => 0) 1 4 (fun _ => 0) = some r ∧
      (∀ l, (ParILUT_levels (fun _ => 2) (fun _ => 0)
          (ParILUT_init (fun _ => 0) 1 4 (fun _ => 0)) l).ndone +
        (ParILUT_levels (fun _ => 2) (fun _ => 0)
          (ParILUT_init (fun _ => 0) 1 4 (fun _ => 0)) l).ntogo = ((5 : Nat) : Int)) ∧
      r.c.ndone + r.c.ntogo = ((5 : Nat) : Int) ∧
      r.c.nnodes 0 = ((1 : Nat) : Int) ∧
      (∀ l, 1 ≤ l → l ≤ r.c.nlevel → l ≤ 3 →
        r.c.nnodes l = r.c.nnodes (l - 1) + ((((fun _ => 2) : Nat → Nat) (l - 1) : Nat) : Int)) ∧
      (∀ l k, l ≤ k → k ≤ r.c.nlevel → k ≤ 3 → r.c.nnodes l ≤ r.c.nnodes k) ∧
      (r.fatal = false →
        r.c = ParILUT_levels (fun _ => 2) (fun _ => 0)
          (ParILUT_init (fun _ => 0) 1 4 (fun _ => 0)) r.c.nlevel ∧
        r.c.nnodes r.c.nlevel = ((5 : Nat) : Int)) :=
  ⟨by decide, by decide,
   ParILUT_cumulative 3 (fun _ => 2) (fun _ => 0) 1 4 (fun _ => 0) 5 (by decide) (by decide)
     (fun _ => le_refl _)⟩


/-! ## The single-PE case -/

theorem SelectSet_scan_mype_zero (g : hypre_PilutSolverGlobals) (rcolind : Nat → Nat)
    (nnz : Nat) (h : g.mype = 0) :
    ∀ budget j, j ≤ nnz → nnz ≤ j + budget → SelectSet_scan g rcolind nnz budget j = nnz := by
  intro budget
  induction budget with
  | zero =>
    intro j h1 h2
    unfold SelectSet_scan
    omega
  | succ b ih =>
    intro j h1 h2
    unfold SelectSet_scan
    by_cases hj : j < nnz
    · rw [if_pos hj]
      have hno : ¬ ((rcolind j < g.firstrow ∨ rcolind j ≥ g.lastrow) ∧
          g.mype > Idx2PE (rcolind j) g) := by
        intro hc
        have := hc.2
        omega
      rw [if_neg hno]
      exact ih (j + 1) (by omega) (by omega)
    · rw [if_neg hj]
      omega

theorem SelectSet_passes_mype_zero (g : hypre_PilutSolverGlobals) (rmat : ReduceMatType)
    (ir : Nat) (h : g.mype = 0) (hnz : 1 ≤ rmat.rmat_rnz ir) :
    SelectSet_passes g rmat ir = true := by
  unfold SelectSet_passes
  rw [decide_eq_true_eq]
  exact SelectSet_scan_mype_zero g _ _ h _ 1 hnz (by omega)

theorem candRows_all (g : hypre_PilutSolverGlobals) (rmat : ReduceMatType)
    (perm : Nat → Nat) (n : Nat) (h : ∀ ir, ir < n → SelectSet_passes g rmat ir = true) :
    candRows g rmat perm n = (List.range n).map (activeRow g perm) := by
  unfold candRows
  congr 1
  rw [List.filter_eq_self]
  intro ir hir
  exact h ir (List.mem_range.mp hir)

theorem SelectSet_pass2_mype_zero (g : hypre_PilutSolverGlobals) (cinfo : CommInfoType)
    (s : MISState) (h : g.mype = 0) : SelectSet_pass2 g cinfo s = s := by
  unfold SelectSet_pass2
  refine forLoop_inv (fun _ t => t = s) 0 _ cinfo.snnbr s rfl ?_
  intro n t _ ht
  have hno : ¬ cinfo.snbrind (0 + n) < g.mype := by omega
  simp only [if_neg hno]
  exact ht

/-- On a PE with `mype = 0` whose active rows all hold an entry, `SelectSet` takes every
active row, in the order of the permutation. -/
theorem SelectSet_mype_zero (rmat : ReduceMatType) (cinfo : CommInfoType)
    (perm iperm newperm newiperm : Nat → Nat) (g : hypre_PilutSolverGlobals)
    (h : g.mype = 0) (hrnz : ∀ ir, ir < g.ntogo → 1 ≤ rmat.rmat_rnz ir) :
    (SelectSet rmat cinfo perm iperm newperm newiperm g).num = g.ntogo ∧
    slice (SelectSet rmat cinfo perm iperm newperm newiperm g).globals.jw 0 g.ntogo =
      (List.range g.ntogo).map (activeRow g perm) := by
  have hs := (SelectSet_pass1_loop_spec g rmat perm g.ntogo).1
  rw [candRows_all g rmat perm g.ntogo
    (fun ir hir => SelectSet_passes_mype_zero g rmat ir h (hrnz ir hir))] at hs
  have hnum : (SelectSet rmat cinfo perm iperm newperm newiperm g).num =
      (forLoop 0 (SelectSet_pass1_body g rmat perm) g.ntogo
        { num := 0, jw := g.jw, map := g.map }).num := by
    show (SelectSet_pass2 g cinfo (SelectSet_pass1 g rmat perm)).num = _
    rw [SelectSet_pass2_mype_zero g cinfo _ h]
    rfl
  have hjw : (SelectSet rmat cinfo perm iperm newperm newiperm g).globals.jw =
      (forLoop 0 (SelectSet_pass1_body g rmat perm) g.ntogo
        { num := 0, jw := g.jw, map := g.map }).jw := by
    show (SelectSet_pass2 g cinfo (SelectSet_pass1 g rmat perm)).jw = _
    rw [SelectSet_pass2_mype_zero g cinfo _ h]
    rfl
  have hlen := congrArg List.length hs
  rw [slice_length, List.length_map, List.length_range] at hlen
  rw [hnum, hjw]
  refine ⟨hlen, ?_⟩
  rw [hlen] at hs
  exact hs

/-- The single-PE case with the assertions compiled out (`NDEBUG`), on `SelectSet` and the
counters of the level loop: on the only PE (`npes = 1`, so `mype = 0`), with every active
row holding at least its diagonal entry, `SelectSet` selects all `ntogo` active rows: it
returns `ntogo` and `jw[0..ntogo)` lists them in the order of the permutation. Hence, when
`ntogo > 0`, `ndone + ntogo = lnrows`, no other PE contributes to the global sums and
`MAXNLEVEL >= 1`, the level loop on the counters whose first level takes the set of this
call ends normally with `nlevels = 1` and `nnodes[1] = lnrows`. -/
theorem ParILUT_single_PE_counters (MAXNLEVEL : Nat) (nmis : Nat → Nat) (others : Nat → Int)
    (rmat : ReduceMatType) (cinfo : CommInfoType) (perm iperm newperm newiperm : Nat → Nat)
    (g : hypre_PilutSolverGlobals) (nnodes : Nat → Int)
    (hnp : g.npes = 1) (hme : g.mype < g.npes)
    (hrnz : ∀ ir, ir < g.ntogo → 1 ≤ rmat.rmat_rnz ir)
    (hshape : g.ndone + g.ntogo = g.lnrows) (hpos : 0 < g.ntogo) (hmax : 1 ≤ MAXNLEVEL)
    (hoth : ∀ l, others l = 0)
    (hmis : nmis 0 = (SelectSet rmat cinfo perm iperm newperm newiperm g).num) :
    (SelectSet rmat cinfo perm iperm newperm newiperm g).num = g.ntogo ∧
    slice (SelectSet rmat cinfo perm iperm newperm newiperm g).globals.jw 0 g.ntogo =
      (List.range g.ntogo).map (activeRow g perm) ∧
    ∃ r, ParILUT_counters MAXNLEVEL nmis others g.ndone g.ntogo nnodes = some r ∧
      r.fatal = false ∧ r.c.nlevel = 1 ∧ r.c.nnodes 1 = (g.lnrows : Int) := by
  obtain ⟨hnum, hjw⟩ := SelectSet_mype_zero rmat cinfo perm iperm newperm newiperm g
    (by omega) hrnz
  refine ⟨hnum, hjw, ?_⟩
  rw [hnum] at hmis
  obtain ⟨r, hr, h⟩ := ParILUT_counters_spec MAXNLEVEL nmis others g.ndone g.ntogo nnodes
  refine ⟨r, hr, ?_⟩
  generalize hc0 : ParILUT_init others g.ndone g.ntogo nnodes = c0 at h
  have h0 : c0.nlevel = 0 := by rw [← hc0]; rfl
  have hn0 : c0.nnodes 0 = c0.ndone := by rw [← hc0]; simp [ParILUT_init, upd]
  have hd0 : c0.ndone = (g.ndone : Int) := by rw [← hc0]; rfl
  have ht0 : c0.ntogo = (g.ntogo : Int) := by rw [← hc0]; rfl
  have hl0 : c0.nleft = GlobalSESum (others 0) c0.ntogo := by rw [← hc0]; rfl
  have hleft0 : (ParILUT_levels nmis others c0 0).nleft > 0 := by
    show c0.nleft > 0
    rw [hl0, ht0, hoth 0]
    unfold GlobalSESum
    omega
  have htogo1 : (ParILUT_levels nmis others c0 1).ntogo = 0 := by
    rw [ParILUT_levels_ntogo nmis others c0 h0 0, hmis]
    show c0.ntogo - (g.ntogo : Int) = 0
    rw [ht0]; omega
  have hleft1 : ¬ (ParILUT_levels nmis others c0 1).nleft > 0 := by
    rw [ParILUT_levels_nleft nmis others c0 h0 hl0 1, htogo1, hoth 1]
    unfold GlobalSESum
    omega
  have hdone1 : (ParILUT_levels nmis others c0 1).ndone = (g.lnrows : Int) := by
    rw [ParILUT_levels_ndone nmis others c0 h0 0, hmis]
    show c0.ndone + (g.ntogo : Int) = _
    rw [hd0, ← hshape]; push_cast; rfl
  rcases h with ⟨hf, hle, hc, hnl, hall⟩ | ⟨hf, hit, hc, hall⟩
  · have hit : r.iters = 1 := by
      by_cases h1 : r.iters = 0
      · rw [h1] at hnl; exact absurd hleft0 hnl
      · by_cases h2 : r.iters = 1
        · exact h2
        · exact absurd (hall 1 (by omega)) hleft1
    rw [hit] at hc
    refine ⟨hf, ?_, ?_⟩
    · rw [hc]; exact ParILUT_levels_nlevel nmis others c0 h0 1
    · rw [hc, ParILUT_levels_nnodes nmis others c0 h0 hn0 1 1 (le_refl _)]
      exact hdone1
  · exact absurd (hall 1 hmax) hleft1

theorem ParILUT_single_PE_counters_witness :
    exGs.npes = 1 ∧ exGs.mype < exGs.npes ∧
    (∀ ir, ir < exGs.ntogo → 1 ≤ exRms.rmat_rnz ir) ∧
    exGs.ndone + exGs.ntogo = exGs.lnrows ∧ 0 < exGs.ntogo ∧
    (SelectSet exRms exCis id id id id exGs).num = exGs.ntogo ∧
    slice (SelectSet exRms exCis id id id id exGs).globals.jw 0 exGs.ntogo =
      (List.range exGs.ntogo).map (activeRow exGs id) ∧
    ∃ r, ParILUT_counters 3 (fun _ => 2) (fun _ => 0) exGs.ndone exGs.ntogo (fun _ => 0) =
        some r ∧
      r.fatal = false ∧ r.c.nlevel = 1 ∧ r.c.nnodes 1 = (exGs.lnrows : Int) :=
  ⟨by decide, by decide, by decide, by decide, by decide,
   ParILUT_single_PE_counters 3 (fun _ => 2) (fun _ => 0) exRms exCis id id id id exGs (fun _ => 0)
     (by decide) (by decide) (by decide) (by decide) (by decide) (by decide)
     (fun _ => rfl) (by decide)⟩


/-! ## The single-PE case with the assertions in force -/

/-- When every off-diagonal column of the active reduced rows is local, `ComputeCommInfo`
requests nothing and finds no receive neighbour. -/
theorem ComputeCommInfo_local_no_remote (rmat : ReduceMatType) (cinfo : CommInfoType)
    (rowdist : Nat → Nat) (maxntogo : Nat) (pilu_send : Nat → Nat)
    (g : hypre_PilutSolverGlobals)
    (hloc : ∀ x, x ∈ offDiagCols g rmat → g.firstrow ≤ x ∧ x < g.lastrow) :
    (ComputeCommInfo_local rmat cinfo rowdist maxntogo pilu_send g).nrecv = 0 ∧
    (ComputeCommInfo_local rmat cinfo rowdist maxntogo pilu_send g).cinfo.rnnbr = 0 := by
  obtain ⟨_, _, r3⟩ := ComputeCommInfo_scan_spec g rmat cinfo
  have h0 : (ComputeCommInfo_scan g rmat cinfo).nrecv = 0 := by
    by_contra hne
    have hmem : (ComputeCommInfo_scan g rmat cinfo).rrowind 0 ∈
        slice (ComputeCommInfo_scan g rmat cinfo).rrowind 0
          (ComputeCommInfo_scan g rmat cinfo).nrecv := by
      rw [mem_slice]
      exact ⟨0, le_refl _, by omega, rfl⟩
    obtain ⟨m1, m2, _⟩ := (r3 _).mp hmem
    have := hloc _ m1
    omega
  refine ⟨h0, ?_⟩
  simp only [ComputeCommInfo_local, h0]
  cases g.npes with
  | zero => rfl
  | succ n =>
    unfold ComputeCommInfo_bucket
    rw [if_neg (Nat.not_lt_zero _)]

/-- On a PE without a remote column in its reduced rows the first call of `ComputeCommInfo`
(the buffers being as `ParINIT` leaves them) fails the assertion
`cinfo->incolind != NULL`: no receive neighbour is found, `maxnrecv` is 0, and nothing is
allocated. -/
theorem ComputeCommInfo_checked_no_remote (rmat : ReduceMatType) (cinfo : CommInfoType)
    (rowdist : Nat → Nat) (maxntogo : Nat) (pilu_send : Nat → Nat)
    (g : hypre_PilutSolverGlobals)
    (hloc : ∀ x, x ∈ offDiagCols g rmat → g.firstrow ≤ x ∧ x < g.lastrow) :
    ComputeCommInfo_checked rmat cinfo rowdist maxntogo pilu_send ParINIT_alloc g = none := by
  unfold ComputeCommInfo_checked
  simp only
  rw [(ComputeCommInfo_local_no_remote rmat cinfo rowdist maxntogo pilu_send g hloc).2]
  have ha : ComputeCommInfo_alloc 0 maxntogo ParINIT_alloc = none := by
    unfold ComputeCommInfo_alloc
    simp [ParINIT_alloc]
  rw [ha]

/-- C29. The code does not do what the claim says. On the single PE of `exGs` (the rows 0 and
1, both active, every column local, `ntogo = 2 > 0`) `SelectSet` would select both active
rows, but the run does not reach it: the first call of `ComputeCommInfo`, whatever
`GlobalSEMax` returns and whatever the buffers hold, finds no receive neighbour, allocates
nothing, and fails its own assertion `cinfo->incolind != NULL` on the pointer that `ParINIT`
has set to `NULL`. So `ParILUT` does not finish with `nlevels = 1`. -/
theorem ComputeCommInfo_single_PE_abort :
    (exGs.npes = 1 ∧ 0 < exGs.ntogo ∧
      ∀ x, x ∈ offDiagCols exGs exRms → exGs.firstrow ≤ x ∧ x < exGs.lastrow) ∧
    (SelectSet exRms exCis id id id id exGs).num = exGs.ntogo ∧
    ∀ (cinfo : CommInfoType) (maxntogo : Nat) (pilu_send : Nat → Nat),
      ComputeCommInfo_checked exRms cinfo exGs.vrowdist maxntogo pilu_send ParINIT_alloc exGs
        = none :=
  ⟨⟨by decide, by decide, by decide⟩, by decide,
   fun cinfo maxntogo pilu_send =>
     ComputeCommInfo_checked_no_remote exRms cinfo exGs.vrowdist maxntogo pilu_send exGs
       (by decide)⟩


/-! ## FormNRmat: the size of the emitted row -/

/-- The loops of `FormNRmat` write the row only below the final `nz`. -/
theorem FormNRmat_fill_frame (first max_rowlen : Nat) (g : hypre_PilutSolverGlobals)
    (rcolind : Nat → Nat) (rvalues : Nat → ℚ) :
    ∀ p, (FormNRmat_fill first max_rowlen g rcolind rvalues).nz ≤ p →
      (FormNRmat_fill first max_rowlen g rcolind rvalues).rcolind p = rcolind p ∧
      (FormNRmat_fill first max_rowlen g rcolind rvalues).rvalues p = rvalues p := by
  have hI : ∀ (lo : Nat) (body : Nat → NRState → NRState) (n : Nat) (s : NRState),
      (∀ j t, (body j t).nz = t.nz + 1 ∧ (body j t).rcolind = upd t.rcolind t.nz
          ((body j t).rcolind t.nz) ∧
        (body j t).rvalues = upd t.rvalues t.nz ((body j t).rvalues t.nz)) →
      s.nz ≤ (forLoop lo body n s).nz ∧
      ∀ p, (forLoop lo body n s).nz ≤ p →
        (forLoop lo body n s).rcolind p = s.rcolind p ∧
        (forLoop lo body n s).rvalues p = s.rvalues p := by
    intro lo body n s hb
    induction n with
    | zero => exact ⟨le_refl _, fun p _ => ⟨rfl, rfl⟩⟩
    | succ m ih =>
      rw [forLoop_succ]
      obtain ⟨i1, i2⟩ := ih
      generalize forLoop lo body m s = t at i1 i2
      obtain ⟨b1, b2, b3⟩ := hb (lo + m) t
      refine ⟨by omega, ?_⟩
      intro p hp
      rw [b1] at hp
      rw [b2, b3, upd_other _ _ _ _ (by omega), upd_other _ _ _ _ (by omega)]
      exact i2 p (by omega)
  intro p hp
  unfold FormNRmat_fill at hp ⊢
  simp only at hp ⊢
  split at hp
  · rename_i h
    rw [if_pos h]
    obtain ⟨a1, a2⟩ := hI first FormNRmat_copy (g.lastjr - first)
      { nz := 1, rcolind := upd rcolind 0 (g.jw 0), rvalues := upd rvalues 0 (g.w 0),
        lastjr := g.lastjr, jw := g.jw, w := g.w }
      (fun j t => ⟨rfl, by simp [FormNRmat_copy, upd_same], by simp [FormNRmat_copy, upd_same]⟩)
    have hp1 : 1 ≤ p := le_trans a1 hp
    obtain ⟨c1, c2⟩ := a2 p hp
    rw [c1, c2]
    exact ⟨upd_other _ _ _ _ (by omega), upd_other _ _ _ _ (by omega)⟩
  · rename_i h
    rw [if_neg h]
    obtain ⟨a1, a2⟩ := hI 1 (fun _ s => FormNRmat_step first s)
      ((FormNRmat_out_rowlen first max_rowlen g).toNat - 1)
      { nz := 1, rcolind := upd rcolind 0 (g.jw 0), rvalues := upd rvalues 0 (g.w 0),
        lastjr := g.lastjr, jw := g.jw, w := g.w }
      (fun j t => ⟨rfl, by simp [FormNRmat_step, upd_same], by simp [FormNRmat_step, upd_same]⟩)
    have hp1 : 1 ≤ p := le_trans a1 hp
    obtain ⟨c1, c2⟩ := a2 p hp
    rw [c1, c2]
    exact ⟨upd_other _ _ _ _ (by omega), upd_other _ _ _ _ (by omega)⟩

/-- C37. Exact size of an emitted reduced row: for `max_rowlen >= 1` and
`1 <= first <= lastjr`, `FormNRmat` records `rnz = rrowlen = min(max_rowlen, lastjr-first+1)`,
the diagonal included; the final `nz` of its loops equals `out_rowlen` and is at most
`max_rowlen` (the assertions `nz == out_rowlen`, `nz == lastjr-first+1` in the copy branch
and `nz <= max_rowlen` hold); the `rnz - 1` off-diagonal entries of the row are taken from
the workspace entries `[first, lastjr)`; the row lives in the input storage when that value
is `<= in_rowlen` and in fresh storage otherwise (the slots from `rnz` on are those of the
storage chosen). The precondition `max_rowlen >= 1` is needed: with `max_rowlen = 0` on the
same workspace `FormNRmat` records `rnz = 1` and `rrowlen = 0`. -/
theorem FormNRmat_exact_size (rrow first : Nat) (nrmat : ReduceMatType)
    (max_rowlen in_rowlen : Nat) (in_colind : Nat → Nat) (in_values : Nat → ℚ)
    (fresh_colind : Nat → Nat) (fresh_values : Nat → ℚ) (g : hypre_PilutSolverGlobals)
    (hmax : 1 ≤ max_rowlen) (h1 : 1 ≤ first) (hfirst : first ≤ g.lastjr) :
    (FormNRmat rrow first nrmat max_rowlen in_rowlen in_colind in_values fresh_colind
        fresh_values g).1.rmat_rnz rrow = min max_rowlen (g.lastjr - first + 1) ∧
    (FormNRmat rrow first nrmat max_rowlen in_rowlen in_colind in_values fresh_colind
        fresh_values g).1.rmat_rrowlen rrow = min max_rowlen (g.lastjr - first + 1) ∧
    ((FormNRmat_fill first max_rowlen g
        (if FormNRmat_out_rowlen first max_rowlen g > (in_rowlen : Int) then fresh_colind
          else in_colind)
        (if FormNRmat_out_rowlen first max_rowlen g > (in_rowlen : Int) then fresh_values
          else in_values)).nz : Int) = FormNRmat_out_rowlen first max_rowlen g ∧
    ((g.lastjr : Int) - (first : Int) + 1 ≤ (max_rowlen : Int) →
      (FormNRmat rrow first nrmat max_rowlen in_rowlen in_colind in_values fresh_colind
        fresh_values g).1.rmat_rnz rrow = g.lastjr - first + 1) ∧
    (FormNRmat rrow first nrmat max_rowlen in_rowlen in_colind in_values fresh_colind
        fresh_values g).1.rmat_rnz rrow ≤ max_rowlen ∧
    List.Subperm
      (entries
        ((FormNRmat rrow first nrmat max_rowlen in_rowlen in_colind in_values fresh_colind
          fresh_values g).1.rmat_rcolind rrow)
        ((FormNRmat rrow first nrmat max_rowlen in_rowlen in_colind in_values fresh_colind
          fresh_values g).1.rmat_rvalues rrow) 1
        (min max_rowlen (g.lastjr - first + 1)))
      (entries g.jw g.w first g.lastjr) ∧
    (min max_rowlen (g.lastjr - first + 1) ≤ in_rowlen →
      ∀ p, min max_rowlen (g.lastjr - first + 1) ≤ p →
        (FormNRmat rrow first nrmat max_rowlen in_rowlen in_colind in_values fresh_colind
          fresh_values g).1.rmat_rcolind rrow p = in_colind p ∧
        (FormNRmat rrow first nrmat max_rowlen in_rowlen in_colind in_values fresh_colind
          fresh_values g).1.rmat_rvalues rrow p = in_values p) ∧
    (¬ min max_rowlen (g.lastjr - first + 1) ≤ in_rowlen →
      ∀ p, min max_rowlen (g.lastjr - first + 1) ≤ p →
        (FormNRmat rrow first nrmat max_rowlen in_rowlen in_colind in_values fresh_colind
          fresh_values g).1.rmat_rcolind rrow p = fresh_colind p ∧
        (FormNRmat rrow first nrmat max_rowlen in_rowlen in_colind in_values fresh_colind
          fresh_values g).1.rmat_rvalues rrow p = fresh_values p) ∧
    (FormNRmat rrow first nrmat 0 in_rowlen in_colind in_values fresh_colind
        fresh_values g).1.rmat_rnz rrow = 1 ∧
    (FormNRmat rrow first nrmat 0 in_rowlen in_colind in_values fresh_colind
        fresh_values g).1.rmat_rrowlen rrow = 0 := by
  have hout : FormNRmat_out_rowlen first max_rowlen g =
      ((min max_rowlen (g.lastjr - first + 1) : Nat) : Int) := by
    unfold FormNRmat_out_rowlen
    omega
  have hnz : ∀ rc rv, (FormNRmat_fill first max_rowlen g rc rv).nz =
      min max_rowlen (g.lastjr - first + 1) := by
    intro rc rv
    rw [FormNRmat_fill_nz first max_rowlen g rc rv hmax hfirst, hout]
    rfl
  have hsub : ∀ rc rv, List.Subperm
      (entries (FormNRmat_fill first max_rowlen g rc rv).rcolind
        (FormNRmat_fill first max_rowlen g rc rv).rvalues 1
        (FormNRmat_fill first max_rowlen g rc rv).nz)
      (entries g.jw g.w first g.lastjr) := by
    intro rc rv
    by_cases h : (g.lastjr : Int) - (first : Int) + 1 ≤ (max_rowlen : Int)
    · obtain ⟨_, _, _, _, _, _, e⟩ := FormNRmat_fill_copy first max_rowlen g rc rv h
      rw [e]
    · obtain ⟨_, _, _, _, e, _⟩ := FormNRmat_fill_select first max_rowlen g rc rv h
      exact (List.sublist_append_left _ _).subperm.trans e.symm.subperm
  simp only [FormNRmat, upd_same]
  refine ⟨hnz _ _, by rw [hout]; rfl, by rw [hnz, hout], ?_, ?_, ?_, ?_, ?_, ?_, ?_⟩
  · intro h
    rw [hnz]
    omega
  · rw [hnz]
    omega
  · have := hsub
      (if FormNRmat_out_rowlen first max_rowlen g > (in_rowlen : Int) then fresh_colind
        else in_colind)
      (if FormNRmat_out_rowlen first max_rowlen g > (in_rowlen : Int) then fresh_values
        else in_values)
    rw [hnz] at this
    exact this
  · intro hle p hp
    have hno : ¬ FormNRmat_out_rowlen first max_rowlen g > (in_rowlen : Int) := by
      rw [hout]; omega
    rw [if_neg hno, if_neg hno]
    exact FormNRmat_fill_frame first max_rowlen g in_colind in_values p (by rw [hnz]; exact hp)
  · intro hle p hp
    have hyes : FormNRmat_out_rowlen first max_rowlen g > (in_rowlen : Int) := by
      rw [hout]; omega
    rw [if_pos hyes, if_pos hyes]
    exact FormNRmat_fill_frame first max_rowlen g fresh_colind fresh_values p
      (by rw [hnz]; exact hp)
  · have h : ¬ (g.lastjr : Int) - (first : Int) + 1 ≤ ((0 : Nat) : Int) := by omega
    rw [(FormNRmat_fill_select first 0 g _ _ h).1]
  · unfold FormNRmat_out_rowlen
    omega

/-- Instance of C37: `max_rowlen = 2` on the workspace `exGw` with `first = 2`. -/
theorem FormNRmat_exact_size_witness :
    (1 ≤ 2 ∧ 1 ≤ 2 ∧ 2 ≤ exGw.lastjr) ∧
    (FormNRmat 0 2 exNr 2 0 (fun _ => 0) (fun _ => 0) (fun _ => 0) (fun _ => 0)
        exGw).1.rmat_rnz 0 = min 2 (exGw.lastjr - 2 + 1) ∧
    (FormNRmat 0 2 exNr 2 0 (fun _ => 0) (fun _ => 0) (fun _ => 0) (fun _ => 0)
        exGw).1.rmat_rrowlen 0 = min 2 (exGw.lastjr - 2 + 1) :=
  ⟨by decide,
   (FormNRmat_exact_size 0 2 exNr 2 0 (fun _ => 0) (fun _ => 0) (fun _ => 0) (fun _ => 0)
      exGw (by decide) (by decide) (by decide)).1,
   (FormNRmat_exact_size 0 2 exNr 2 0 (fun _ => 0) (fun _ => 0) (fun _ => 0) (fun _ => 0)
      exGw (by decide) (by decide) (by decide)).2.1⟩


/-! ## UpdateL: the entries that are kept -/

/-- Overwriting the entry at position `m` of `[lo, hi)` trades the old entry for the new
one. -/
theorem entries_replace (c : Nat → Nat) (v : Nat → ℚ) (lo hi m : Nat) (a : Nat) (b : ℚ)
    (h1 : lo ≤ m) (h2 : m < hi) :
    List.Perm ((c m, v m) :: entries (upd c m a) (upd v m b) lo hi)
      ((a, b) :: entries c v lo hi) := by
  have e1 : entries c v lo hi =
      entries c v lo m ++ (c m, v m) :: entries c v (m + 1) hi := by
    rw [entries_split c v lo m hi h1 (by omega), entries_cons c v m hi h2]
  have e2 : entries (upd c m a) (upd v m b) lo hi =
      entries c v lo m ++ (a, b) :: entries c v (m + 1) hi := by
    rw [entries_split _ _ lo m hi h1 (by omega), entries_cons _ _ m hi h2, upd_same, upd_same]
    rw [entries_congr (upd c m a) c (upd v m b) v lo m
      (fun i _ hi2 => ⟨upd_other _ _ _ _ (by omega), upd_other _ _ _ _ (by omega)⟩)]
    rw [entries_congr (upd c m a) c (upd v m b) v (m + 1) hi
      (fun i hi1 _ => ⟨upd_other _ _ _ _ (by omega), upd_other _ _ _ _ (by omega)⟩)]
  rw [e1, e2]
  refine List.Perm.trans (List.Perm.cons _ List.perm_middle) ?_
  refine List.Perm.trans (List.Perm.swap _ _ _) ?_
  exact List.Perm.cons _ List.perm_middle.symm

/-- The loop of `UpdateL` as a selection: after the workspace entries `[1, 1 + n)` have been
processed, the row together with a list `D` of discarded entries is a rearrangement of the
old row together with these workspace entries; nothing is discarded while the row is not
full; every discarded entry is at most as large in magnitude as every entry of the row; the
row holds `min(maxnz, old length + n)` entries; and the pool is unchanged outside
`[start, start + maxnz)`. -/
theorem UpdateL_loop_select (g : hypre_PilutSolverGlobals) (start : Nat) (s : LState)
    (hmax : 1 ≤ g.global_maxnz) (hs : start ≤ s.«end»)
    (hle : s.«end» - start ≤ g.global_maxnz) (n : Nat) :
    start ≤ (forLoop 1 (UpdateL_body g start) n s).«end» ∧
    (forLoop 1 (UpdateL_body g start) n s).«end» - start =
      min g.global_maxnz (s.«end» - start + n) ∧
    (∃ D : List (Nat × ℚ),
      List.Perm
        (entries (forLoop 1 (UpdateL_body g start) n s).lcolind
          (forLoop 1 (UpdateL_body g start) n s).lvalues start
          (forLoop 1 (UpdateL_body g start) n s).«end» ++ D)
        (entries s.lcolind s.lvalues start s.«end» ++ entries g.jw g.w 1 (1 + n)) ∧
      (D = [] ∨ (forLoop 1 (UpdateL_body g start) n s).«end» - start = g.global_maxnz) ∧
      ∀ d ∈ D, ∀ r ∈ entries (forLoop 1 (UpdateL_body g start) n s).lcolind
          (forLoop 1 (UpdateL_body g start) n s).lvalues start
          (forLoop 1 (UpdateL_body g start) n s).«end», fabs d.2 ≤ fabs r.2) ∧
    ∀ p, ¬ (start ≤ p ∧ p < start + g.global_maxnz) →
      (forLoop 1 (UpdateL_body g start) n s).lcolind p = s.lcolind p ∧
      (forLoop 1 (UpdateL_body g start) n s).lvalues p = s.lvalues p := by
  induction n with
  | zero =>
    refine ⟨hs, ?_, ⟨[], ?_, Or.inl rfl, fun d hd => absurd hd (List.not_mem_nil d)⟩,
      fun p _ => ⟨rfl, rfl⟩⟩
    · simp only [forLoop_zero]; omega
    · simp only [forLoop_zero, List.append_nil]
      rw [entries_nil g.jw g.w 1 (1 + 0) (by omega), List.append_nil]
  | succ m ih =>
    obtain ⟨i1, i2, ⟨D, d1, d2, d3⟩, i4⟩ := ih
    rw [forLoop_succ]
    generalize forLoop 1 (UpdateL_body g start) m s = t at i1 i2 d1 d2 d3 i4
    have hws : entries g.jw g.w 1 (1 + (m + 1)) =
        entries g.jw g.w 1 (1 + m) ++ [(g.jw (1 + m), g.w (1 + m))] := by
      rw [show 1 + (m + 1) = (1 + m) + 1 by omega, entries_snoc g.jw g.w 1 (1 + m) (by omega)]
    unfold UpdateL_body
    by_cases hc : ((t.«end» : Int) - (start : Int) < (g.global_maxnz : Int))
    · rw [if_pos hc]
      have hD : D = [] := by
        rcases d2 with h | h
        · exact h
        · omega
      subst hD
      refine ⟨by show start ≤ t.«end» + 1; omega, by show t.«end» + 1 - start = _; omega,
        ⟨[], ?_, Or.inl rfl, fun d hd => absurd hd (List.not_mem_nil d)⟩, ?_⟩
      · show List.Perm (entries (upd t.lcolind t.«end» (g.jw (1 + m)))
          (upd t.lvalues t.«end» (g.w (1 + m))) start (t.«end» + 1) ++ []) _
        rw [List.append_nil, entries_snoc _ _ start t.«end» i1, upd_same, upd_same]
        rw [entries_congr (upd t.lcolind t.«end» (g.jw (1 + m))) t.lcolind
          (upd t.lvalues t.«end» (g.w (1 + m))) t.lvalues start t.«end»
          (fun i _ hi2 => ⟨upd_other _ _ _ _ (by omega), upd_other _ _ _ _ (by omega)⟩)]
        rw [hws, ← List.append_assoc]
        rw [List.append_nil] at d1
        exact List.Perm.append_right _ d1
      · intro p hp
        show upd t.lcolind t.«end» (g.jw (1 + m)) p = s.lcolind p ∧
          upd t.lvalues t.«end» (g.w (1 + m)) p = s.lvalues p
        rw [upd_other _ _ _ _ (by omega), upd_other _ _ _ _ (by omega)]
        exact i4 p hp
    · rw [if_neg hc]
      have hlt : start < t.«end» := by omega
      have hfull : t.«end» - start = g.global_maxnz := by omega
      obtain ⟨m1, m2, m3⟩ := UpdateL_min_spec t.lvalues start t.«end» hlt
      generalize UpdateL_min t.lvalues start t.«end» = mn at m1 m2 m3
      simp only
      by_cases hw : fabs (t.lvalues mn) < fabs (g.w (1 + m))
      · rw [if_pos hw]
        refine ⟨i1, by show t.«end» - start = _; omega,
          ⟨(t.lcolind mn, t.lvalues mn) :: D, ?_, Or.inr hfull, ?_⟩, ?_⟩
        · show List.Perm (entries (upd t.lcolind mn (g.jw (1 + m)))
            (upd t.lvalues mn (g.w (1 + m))) start t.«end» ++
              (t.lcolind mn, t.lvalues mn) :: D) _
          rw [hws, ← List.append_assoc]
          refine List.Perm.trans List.perm_middle ?_
          refine List.Perm.trans ?_ (List.perm_append_singleton _ _).symm
          rw [← List.cons_append]
          have e := entries_replace t.lcolind t.lvalues start t.«end» mn (g.jw (1 + m))
            (g.w (1 + m)) m1 m2
          refine List.Perm.trans (List.Perm.append_right D e) ?_
          rw [List.cons_append]
          exact List.Perm.cons _ d1
        · intro d hd r hr
          show fabs d.2 ≤ fabs r.2
          have hr2 : r ∈ entries (upd t.lcolind mn (g.jw (1 + m)))
              (upd t.lvalues mn (g.w (1 + m))) start t.«end» := hr
          rw [mem_entries] at hr2
          obtain ⟨p, p1, p2, p3⟩ := hr2
          have hmn_le : fabs d.2 ≤ fabs (t.lvalues mn) := by
            rcases List.mem_cons.mp hd with h | h
            · rw [h]
            · exact d3 d h (t.lcolind mn, t.lvalues mn)
                ((mem_entries _ _ _ _ _).mpr ⟨mn, m1, m2, rfl⟩)
          by_cases hp : p = mn
          · subst hp
            rw [upd_same, upd_same] at p3
            rw [← p3]
            exact le_trans hmn_le (le_of_lt hw)
          · rw [upd_other _ _ _ _ hp, upd_other _ _ _ _ hp] at p3
            rw [← p3]
            exact le_trans hmn_le (m3 p p1 p2)
        · intro p hp
          show upd t.lcolind mn (g.jw (1 + m)) p = s.lcolind p ∧
            upd t.lvalues mn (g.w (1 + m)) p = s.lvalues p
          rw [upd_other _ _ _ _ (by omega), upd_other _ _ _ _ (by omega)]
          exact i4 p hp
      · rw [if_neg hw]
        refine ⟨i1, by omega, ⟨(g.jw (1 + m), g.w (1 + m)) :: D, ?_, Or.inr hfull, ?_⟩, i4⟩
        · rw [hws, ← List.append_assoc]
          refine List.Perm.trans List.perm_middle ?_
          refine List.Perm.trans ?_ (List.perm_append_singleton _ _).symm
          exact List.Perm.cons _ d1
        · intro d hd r hr
          rcases List.mem_cons.mp hd with h | h
          · rw [h]
            rw [mem_entries] at hr
            obtain ⟨p, p1, p2, p3⟩ := hr
            rw [← p3]
            exact le_trans (not_lt.mp hw) (m3 p p1 p2)
          · exact d3 d h r hr


/-- C36. `UpdateL` as a streaming selection of the `maxnz` largest entries: for
`global_maxnz >= 1` and an `L` row `[lsrowptr[lrow], lerowptr[lrow])` that holds at most
`global_maxnz` entries, after `UpdateL(lrow, last)` the row holds
`min(global_maxnz, total)` entries, where `total` counts the old entries of the row and the
workspace entries `[1, last)`; the entries of the row together with a list `D` of the
entries that were discarded or overwritten are a rearrangement of the old entries of the row
together with the workspace entries `[1, last)`; every entry of `D` is at most as large in
magnitude as every entry of the row; and no position of the `L` pool outside
`[lsrowptr[lrow], lsrowptr[lrow] + global_maxnz)` is written. -/
theorem UpdateL_top_maxnz (lrow last : Nat) (ldu : FactorMatType)
    (g : hypre_PilutSolverGlobals) (hmax : 1 ≤ g.global_maxnz)
    (hs : ldu.lsrowptr lrow ≤ ldu.lerowptr lrow)
    (hle : ldu.lerowptr lrow - ldu.lsrowptr lrow ≤ g.global_maxnz) :
    ldu.lsrowptr lrow ≤ (UpdateL lrow last ldu g).lerowptr lrow ∧
    (UpdateL lrow last ldu g).lerowptr lrow - ldu.lsrowptr lrow =
      min g.global_maxnz (ldu.lerowptr lrow - ldu.lsrowptr lrow + (last - 1)) ∧
    (∃ D : List (Nat × ℚ),
      List.Perm
        (entries (UpdateL lrow last ldu g).lcolind (UpdateL lrow last ldu g).lvalues
          (ldu.lsrowptr lrow) ((UpdateL lrow last ldu g).lerowptr lrow) ++ D)
        (entries ldu.lcolind ldu.lvalues (ldu.lsrowptr lrow) (ldu.lerowptr lrow) ++
          entries g.jw g.w 1 last) ∧
      ∀ d ∈ D, ∀ r ∈ entries (UpdateL lrow last ldu g).lcolind
          (UpdateL lrow last ldu g).lvalues (ldu.lsrowptr lrow)
          ((UpdateL lrow last ldu g).lerowptr lrow), fabs d.2 ≤ fabs r.2) ∧
    (∀ p, ¬ (ldu.lsrowptr lrow ≤ p ∧ p < ldu.lsrowptr lrow + g.global_maxnz) →
      (UpdateL lrow last ldu g).lcolind p = ldu.lcolind p ∧
      (UpdateL lrow last ldu g).lvalues p = ldu.lvalues p) ∧
    (UpdateL lrow last ldu g).lsrowptr = ldu.lsrowptr ∧
    (∀ r, r ≠ lrow → (UpdateL lrow last ldu g).lerowptr r = ldu.lerowptr r) := by
  obtain ⟨a1, a2, ⟨D, d1, _, d3⟩, a4⟩ := UpdateL_loop_select g (ldu.lsrowptr lrow)
    { «end» := ldu.lerowptr lrow, lcolind := ldu.lcolind, lvalues := ldu.lvalues }
    hmax hs hle (last - 1)
  have hws : entries g.jw g.w 1 (1 + (last - 1)) = entries g.jw g.w 1 last := by
    by_cases h : 1 ≤ last
    · rw [show 1 + (last - 1) = last by omega]
    · rw [entries_nil g.jw g.w 1 _ (by omega), entries_nil g.jw g.w 1 _ (by omega)]
  rw [hws] at d1
  refine ⟨?_, ?_, ⟨D, ?_, ?_⟩, ?_, rfl, fun r hr => upd_other _ _ _ _ hr⟩
  · simp only [UpdateL, upd_same]; exact a1
  · simp only [UpdateL, upd_same]; exact a2
  · simp only [UpdateL, upd_same]; exact d1
  · simp only [UpdateL, upd_same]; exact d3
  · simp only [UpdateL]; exact a4

/-- Instance of C36: the workspace `exGw` with `global_maxnz = 2`, the entries `[1, 5)` and
the empty row 0. -/
theorem UpdateL_top_maxnz_witness :
    (1 ≤ exGw.global_maxnz ∧ exLdu.lsrowptr 0 ≤ exLdu.lerowptr 0 ∧
      exLdu.lerowptr 0 - exLdu.lsrowptr 0 ≤ exGw.global_maxnz) ∧
    (UpdateL 0 5 exLdu exGw).lerowptr 0 - exLdu.lsrowptr 0 =
      min exGw.global_maxnz (exLdu.lerowptr 0 - exLdu.lsrowptr 0 + (5 - 1)) :=
  ⟨by decide,
   (UpdateL_top_maxnz 0 5 exLdu exGw (by decide) (by decide) (by decide)).2.1⟩


/-! ## Row formation: what is left alone -/

theorem lr_push_env (key : Option Nat) (s : hypre_PilutSolverGlobals) :
    Env (lr_push key s) = Env s := by
  cases key <;> rfl

/-- The seeding writes the workspace only: the diagonal is at position 0, `lastjr >= 1`. -/
theorem seed_row_frame (key : Nat → Option Nat) (nnz : Nat) (rcolind : Nat → Nat)
    (rvalues : Nat → ℚ) (g : hypre_PilutSolverGlobals) :
    1 ≤ (seed_row key nnz rcolind rvalues g).lastjr ∧
    (seed_row key nnz rcolind rvalues g).jw 0 = rcolind 0 ∧
    Env (seed_row key nnz rcolind rvalues g) = Env g := by
  have key1 := forLoop_inv
    (fun _ (s : hypre_PilutSolverGlobals) => s.jw 0 = rcolind 0 ∧ Env s = Env g) 1
    (seed_body key rcolind rvalues) (nnz - 1)
    { g with jr := upd g.jr (rcolind 0) 0, jw := upd g.jw 0 (rcolind 0),
             w := upd g.w 0 (rvalues 0), lastlr := 0 }
    ⟨by simp only [upd_same], rfl⟩
    (by
      intro n t _ ⟨h1, h2⟩
      obtain ⟨_, e2, _, _⟩ := lr_push_fields (key (rcolind (1 + n))) t
      refine ⟨?_, ?_⟩
      · show upd (lr_push (key (rcolind (1 + n))) t).jw (1 + n) (rcolind (1 + n)) 0 = rcolind 0
        rw [upd_other _ _ _ _ (by omega), e2]
        exact h1
      · exact (lr_push_env (key (rcolind (1 + n))) t).trans h2)
  beta_reduce at key1
  refine ⟨?_, key1.1, key1.2⟩
  show 1 ≤ max 1 nnz
  omega

theorem fill_body_frame (key : Nat → Option Nat) (cols : Nat → Nat) (vals : Nat → ℚ)
    (mult rtol : ℚ) (l : Nat) (s g : hypre_PilutSolverGlobals) (d : Nat)
    (h : 1 ≤ s.lastjr ∧ s.jw 0 = d ∧ Env s = Env g) :
    1 ≤ (fill_body key cols vals mult rtol l s).lastjr ∧
    (fill_body key cols vals mult rtol l s).jw 0 = d ∧
    Env (fill_body key cols vals mult rtol l s) = Env g := by
  obtain ⟨h1, h2, h3⟩ := h
  unfold fill_body
  by_cases hm : s.jr (cols l) = -1
  · simp only [hm, if_true]
    by_cases hsmall : fabs (mult * vals l) < rtol
    · simp only [hsmall, if_true]
      exact ⟨h1, h2, h3⟩
    · simp only [hsmall, if_false]
      obtain ⟨_, e2, _, e4⟩ := lr_push_fields (key (cols l)) s
      refine ⟨by omega, ?_, ?_⟩
      · rw [e4, upd_other _ _ _ _ (by omega), e2]
        exact h2
      · exact (lr_push_env (key (cols l)) s).trans h3
  · simp only [hm, if_false]
    exact ⟨h1, h2, h3⟩

theorem fill_loop_frame (key : Nat → Option Nat) (cols : Nat → Nat) (vals : Nat → ℚ)
    (mult rtol : ℚ) (lo n : Nat) (s g : hypre_PilutSolverGlobals) (d : Nat)
    (h : 1 ≤ s.lastjr ∧ s.jw 0 = d ∧ Env s = Env g) :
    1 ≤ (forLoop lo (fill_body key cols vals mult rtol) n s).lastjr ∧
    (forLoop lo (fill_body key cols vals mult rtol) n s).jw 0 = d ∧
    Env (forLoop lo (fill_body key cols vals mult rtol) n s) = Env g :=
  forLoop_inv (fun _ t => 1 ≤ t.lastjr ∧ t.jw 0 = d ∧ Env t = Env g) lo
    (fill_body key cols vals mult rtol) n s h
    (fun m t _ ht => fill_body_frame key cols vals mult rtol (lo + m) t g d ht)

theorem apply_row_frame (key : Nat → Option Nat) (cols : Nat → Nat) (vals : Nat → ℚ)
    (rtol : ℚ) (k : Nat) (dv : ℚ) (lo n : Nat) (s g : hypre_PilutSolverGlobals) (d : Nat)
    (h : 1 ≤ s.lastjr ∧ s.jw 0 = d ∧ Env s = Env g) :
    1 ≤ (apply_row key cols vals rtol k dv lo n s).lastjr ∧
    (apply_row key cols vals rtol k dv lo n s).jw 0 = d ∧
    Env (apply_row key cols vals rtol k dv lo n s) = Env g := by
  unfold apply_row
  simp only
  split
  · exact h
  · exact fill_loop_frame key cols vals _ rtol lo n _ g d h

theorem ComputeRmat_elim_step_frame (newperm newiperm : Nat → Nat) (rtol : ℚ)
    (ldu : FactorMatType) (cinfo : CommInfoType) (s g : hypre_PilutSolverGlobals) (d : Nat)
    (h : 1 ≤ s.lastjr ∧ s.jw 0 = d ∧ Env s = Env g) :
    1 ≤ (ComputeRmat_elim_step newperm newiperm rtol ldu cinfo s).lastjr ∧
    (ComputeRmat_elim_step newperm newiperm rtol ldu cinfo s).jw 0 = d ∧
    Env (ComputeRmat_elim_step newperm newiperm rtol ldu cinfo s) = Env g := by
  have h2 : 1 ≤ (ExtractMinLR s).2.lastjr ∧ (ExtractMinLR s).2.jw 0 = d ∧
      Env (ExtractMinLR s).2 = Env g := h
  unfold ComputeRmat_elim_step
  simp only
  split
  · exact apply_row_frame _ _ _ _ _ _ _ _ _ g d h2
  · exact apply_row_frame _ _ _ _ _ _ _ _ _ g d h2

theorem FactorLocal_elim_step_frame (diag : Nat) (newperm newiperm : Nat → Nat) (rtol : ℚ)
    (ldu : FactorMatType) (s g : hypre_PilutSolverGlobals) (d : Nat)
    (h : 1 ≤ s.lastjr ∧ s.jw 0 = d ∧ Env s = Env g) :
    1 ≤ (FactorLocal_elim_step diag newperm newiperm rtol ldu s).lastjr ∧
    (FactorLocal_elim_step diag newperm newiperm rtol ldu s).jw 0 = d ∧
    Env (FactorLocal_elim_step diag newperm newiperm rtol ldu s) = Env g := by
  have h2 : 1 ≤ (ExtractMinLR s).2.lastjr ∧ (ExtractMinLR s).2.jw 0 = d ∧
      Env (ExtractMinLR s).2 = Env g := h
  unfold FactorLocal_elim_step
  exact apply_row_frame _ _ _ _ _ _ _ _ _ g d h2

/-- The workspace of `ComputeRmat` after the seeding and any number of passes of the
elimination loop holds the diagonal of the row at position 0, and everything but the
workspace is as before the row. -/
theorem ComputeRmat_form_frame (newperm newiperm : Nat → Nat) (rtol : ℚ) (ldu : FactorMatType)
    (cinfo : CommInfoType) (nnz : Nat) (rcolind : Nat → Nat) (rvalues : Nat → ℚ)
    (g : hypre_PilutSolverGlobals) (n : Nat) :
    1 ≤ (ComputeRmat_form newperm newiperm rtol ldu cinfo nnz rcolind rvalues g n).lastjr ∧
    (ComputeRmat_form newperm newiperm rtol ldu cinfo nnz rcolind rvalues g n).jw 0 =
      rcolind 0 ∧
    Env (ComputeRmat_form newperm newiperm rtol ldu cinfo nnz rcolind rvalues g n) = Env g :=
  elim_loop_inv (ComputeRmat_elim_step newperm newiperm rtol ldu cinfo)
    (fun s => 1 ≤ s.lastjr ∧ s.jw 0 = rcolind 0 ∧ Env s = Env g)
    (fun s hs => ComputeRmat_elim_step_frame newperm newiperm rtol ldu cinfo s g (rcolind 0) hs)
    n _ (seed_row_frame _ nnz rcolind rvalues g)

theorem Env_map (s g : hypre_PilutSolverGlobals) (h : Env s = Env g) :
    s.map = g.map ∧ s.ndone = g.ndone ∧ s.firstrow = g.firstrow ∧ s.lastrow = g.lastrow ∧
    s.lnrows = g.lnrows ∧ s.global_maxnz = g.global_maxnz ∧ s.ntogo = g.ntogo :=
  ⟨congrArg (fun t => t.map) h, congrArg (fun t => t.ndone) h,
   congrArg (fun t => t.firstrow) h, congrArg (fun t => t.lastrow) h,
   congrArg (fun t => t.lnrows) h, congrArg (fun t => t.global_maxnz) h,
   congrArg (fun t => t.ntogo) h⟩

/-- The end of a row of `ComputeRmat` on a workspace with `lastjr >= 1`: it returns; the
emitted row has the diagonal of the workspace first; its off-diagonal entries are entries
of the workspace whose columns are not marked in the map; the other rows of the next
reduced matrix, the `U` and `D` parts of the factor and everything but the workspace are
left alone. -/
theorem ComputeRmat_store_unmarked (i inr : Nat) (nrmat : ReduceMatType) (rrowlen : Nat)
    (rcolind : Nat → Nat) (rvalues : Nat → ℚ)
    (fresh_colind : Nat → Nat) (fresh_values : Nat → ℚ) (tol : ℚ) (ldu : FactorMatType)
    (g : hypre_PilutSolverGlobals) (hl : 1 ≤ g.lastjr) :
    ∃ ldu2 nr2 g2, ComputeRmat_store i inr nrmat rrowlen rcolind rvalues fresh_colind
        fresh_values tol ldu g = some (ldu2, nr2, g2) ∧
      nr2.rmat_rcolind inr 0 = g.jw 0 ∧
      (∀ p, 1 ≤ p → p < nr2.rmat_rnz inr →
        IsInMIS (g.map (nr2.rmat_rcolind inr p)) = false ∧
        (nr2.rmat_rcolind inr p, nr2.rmat_rvalues inr p) ∈ entries g.jw g.w 1 g.lastjr) ∧
      (∀ r, r ≠ inr → nr2.rmat_rcolind r = nrmat.rmat_rcolind r ∧
        nr2.rmat_rvalues r = nrmat.rmat_rvalues r ∧ nr2.rmat_rnz r = nrmat.rmat_rnz r ∧
        nr2.rmat_rrowlen r = nrmat.rmat_rrowlen r) ∧
      (ldu2.usrowptr = ldu.usrowptr ∧ ldu2.uerowptr = ldu.uerowptr ∧
        ldu2.ucolind = ldu.ucolind ∧ ldu2.uvalues = ldu.uvalues ∧
        ldu2.dvalues = ldu.dvalues ∧ ldu2.nrm2s = ldu.nrm2s) ∧
      Env g2 = Env g := by
  obtain ⟨d1, d2, d3⟩ := SecondDropSmall_entries (ldu.nrm2s i * tol) g hl
  obtain ⟨m, jw, w, e1, m1, m2, m3, m4, hperm, hframe⟩ := SeperateLU_by_spec
    (inL_byMIS (SecondDropSmall (ldu.nrm2s i * tol) g))
    (SecondDropSmall (ldu.nrm2s i * tol) g) d2
  have hmap : (SecondDropSmall (ldu.nrm2s i * tol) g).map = g.map := rfl
  have henv : Env (SecondDropSmall (ldu.nrm2s i * tol) g) = Env g := rfl
  generalize hg1 : SecondDropSmall (ldu.nrm2s i * tol) g = g1
    at d1 d2 d3 e1 m1 m2 m3 m4 hperm hframe hmap henv
  have hres : ComputeRmat_store i inr nrmat rrowlen rcolind rvalues fresh_colind
      fresh_values tol ldu g =
      some (UpdateL i m ldu { g1 with jw := jw, w := w },
        (FormNRmat inr m nrmat g1.global_maxnz rrowlen rcolind rvalues fresh_colind
          fresh_values { g1 with jw := jw, w := w }).1,
        (FormNRmat inr m nrmat g1.global_maxnz rrowlen rcolind rvalues fresh_colind
          fresh_values { g1 with jw := jw, w := w }).2) := by
    unfold ComputeRmat_store SeperateLU_byMIS
    simp only [hg1, e1]
  refine ⟨_, _, _, hres, ?_, ?_, ?_, ⟨rfl, rfl, rfl, rfl, rfl, rfl⟩, ?_⟩
  · simp only [FormNRmat, upd_same]
    rw [(FormNRmat_fill_diag m g1.global_maxnz _ _ _).1]
    show jw 0 = g.jw 0
    rw [(hframe 0 (Or.inl (by omega))).1, d1]
  · simp only [FormNRmat, upd_same]
    obtain ⟨n1, n2, n3⟩ := FormNRmat_fill_subperm m g1.global_maxnz
      { g1 with jw := jw, w := w }
      (if FormNRmat_out_rowlen m g1.global_maxnz { g1 with jw := jw, w := w } >
          (rrowlen : Int) then fresh_colind else rcolind)
      (if FormNRmat_out_rowlen m g1.global_maxnz { g1 with jw := jw, w := w } >
          (rrowlen : Int) then fresh_values else rvalues)
    generalize FormNRmat_fill m g1.global_maxnz { g1 with jw := jw, w := w }
      (if FormNRmat_out_rowlen m g1.global_maxnz { g1 with jw := jw, w := w } >
          (rrowlen : Int) then fresh_colind else rcolind)
      (if FormNRmat_out_rowlen m g1.global_maxnz { g1 with jw := jw, w := w } >
          (rrowlen : Int) then fresh_values else rvalues) = t at n1 n2 n3
    intro p p1 p2
    have hmem : (t.rcolind p, t.rvalues p) ∈ entries t.rcolind t.rvalues 1 t.nz :=
      (mem_entries _ _ _ _ _).mpr ⟨p, p1, p2, rfl⟩
    have hmem2 : (t.rcolind p, t.rvalues p) ∈ entries jw w m g1.lastjr := n3.subset hmem
    obtain ⟨q, q1, q2, q3⟩ := (mem_entries _ _ _ _ _).mp hmem2
    have hc : jw q = t.rcolind p := congrArg Prod.fst q3
    constructor
    · have hin := m4 q q1 q2
      unfold inL_byMIS at hin
      rw [hmap, hc] at hin
      exact hin
    · have hmem3 : (t.rcolind p, t.rvalues p) ∈ entries jw w 1 g1.lastjr := by
        rw [← q3]
        exact (mem_entries _ _ _ _ _).mpr ⟨q, by omega, q2, rfl⟩
      have hmem4 := (hperm.trans d3).subset hmem3
      exact (List.mem_filter.mp hmem4).1
  · intro r hr
    simp only [FormNRmat]
    exact ⟨upd_other _ _ _ _ hr, upd_other _ _ _ _ hr, upd_other _ _ _ _ hr,
      upd_other _ _ _ _ hr⟩
  · show Env (FormNRmat inr m nrmat g1.global_maxnz rrowlen rcolind rvalues fresh_colind
      fresh_values { g1 with jw := jw, w := w }).2 = Env g
    exact henv


/-! ## The elimination loop ends -/

theorem absentCols_le (N : Nat) (jr : Nat → Int) : absentCols N jr ≤ N := by
  unfold absentCols
  have := List.countP_le_length (fun c => decide (jr c = -1)) (l := List.range N)
  rw [List.length_range] at this
  exact this

/-- A column that enters the workspace is no longer counted as absent. -/
theorem absentCols_upd (N : Nat) (jr : Nat → Int) (c : Nat) (v : Int) (hc : c < N)
    (h1 : jr c = -1) (hv : v ≠ -1) :
    absentCols N (upd jr c v) + 1 ≤ absentCols N jr := by
  unfold absentCols
  induction N with
  | zero => omega
  | succ M ih =>
    rw [List.range_succ, List.countP_append, List.countP_append]
    by_cases hcM : c = M
    · subst hcM
      have e : List.countP (fun x => decide (upd jr c v x = -1)) (List.range c) =
          List.countP (fun x => decide (jr x = -1)) (List.range c) := by
        apply List.countP_congr
        intro x hx
        have hx2 : x ≠ c := by
          have := List.mem_range.mp hx
          omega
        rw [upd_other _ _ _ _ hx2]
      rw [e]
      simp [upd_same, h1, hv]
    · have ih2 := ih (by omega)
      have e : List.countP (fun x => decide (upd jr c v x = -1)) [M] =
          List.countP (fun x => decide (jr x = -1)) [M] := by
        simp only [List.countP_singleton]
        rw [upd_other _ _ _ _ (Ne.symm hcM)]
      rw [e]
      omega

theorem lr_push_lastlr (key : Option Nat) (s : hypre_PilutSolverGlobals) :
    (lr_push key s).lastlr ≤ s.lastlr + 1 := by
  cases key
  · exact Nat.le_succ _
  · exact le_refl _

/-- One pass over an entry of the row that is applied does not raise the number of pending
entries plus the number of absent columns. -/
theorem fill_body_measure (N : Nat) (key : Nat → Option Nat) (cols : Nat → Nat)
    (vals : Nat → ℚ) (mult rtol : ℚ) (l : Nat) (s : hypre_PilutSolverGlobals)
    (hc : cols l < N) :
    (fill_body key cols vals mult rtol l s).lastlr +
        absentCols N (fill_body key cols vals mult rtol l s).jr ≤
      s.lastlr + absentCols N s.jr := by
  unfold fill_body
  by_cases hm : s.jr (cols l) = -1
  · simp only [hm, if_true]
    by_cases hsmall : fabs (mult * vals l) < rtol
    · simp only [hsmall, if_true]
      exact le_refl _
    · simp only [hsmall, if_false]
      obtain ⟨e1, _, _, e4⟩ := lr_push_fields (key (cols l)) s
      have h1 := lr_push_lastlr (key (cols l)) s
      rw [e1]
      have h2 := absentCols_upd N s.jr (cols l) ((lr_push (key (cols l)) s).lastjr : Int) hc hm
        (by omega)
      omega
  · simp only [hm, if_false]
    exact le_refl _

theorem fill_loop_measure (N : Nat) (key : Nat → Option Nat) (cols : Nat → Nat)
    (vals : Nat → ℚ) (mult rtol : ℚ) (lo n : Nat) (s : hypre_PilutSolverGlobals)
    (hc : ∀ l, cols l < N) :
    (forLoop lo (fill_body key cols vals mult rtol) n s).lastlr +
        absentCols N (forLoop lo (fill_body key cols vals mult rtol) n s).jr ≤
      s.lastlr + absentCols N s.jr :=
  forLoop_inv (fun _ t => t.lastlr + absentCols N t.jr ≤ s.lastlr + absentCols N s.jr) lo
    (fill_body key cols vals mult rtol) n s (le_refl _)
    (fun m t _ ht => le_trans (fill_body_measure N key cols vals mult rtol (lo + m) t (hc _)) ht)

theorem apply_row_measure (N : Nat) (key : Nat → Option Nat) (cols : Nat → Nat)
    (vals : Nat → ℚ) (rtol : ℚ) (k : Nat) (dv : ℚ) (lo n : Nat)
    (s : hypre_PilutSolverGlobals) (hc : ∀ l, cols l < N) :
    (apply_row key cols vals rtol k dv lo n s).lastlr +
        absentCols N (apply_row key cols vals rtol k dv lo n s).jr ≤
      s.lastlr + absentCols N s.jr := by
  unfold apply_row
  simp only
  split
  · exact le_refl _
  · exact fill_loop_measure N key cols vals _ rtol lo n _ hc

/-- Every pass of the elimination loop of `ComputeRmat` lowers the number of pending entries
plus the number of absent columns, when all columns of the `U` pool and of the receive
buffer are below `N`. -/
theorem ComputeRmat_elim_step_measure (N : Nat) (newperm newiperm : Nat → Nat) (rtol : ℚ)
    (ldu : FactorMatType) (cinfo : CommInfoType) (s : hypre_PilutSolverGlobals)
    (hu : ∀ l, ldu.ucolind l < N) (hi : ∀ l, cinfo.incolind l < N) (hl : s.lastlr ≠ 0) :
    (ComputeRmat_elim_step newperm newiperm rtol ldu cinfo s).lastlr +
        absentCols N (ComputeRmat_elim_step newperm newiperm rtol ldu cinfo s).jr + 1 ≤
      s.lastlr + absentCols N s.jr := by
  have h2 : (ExtractMinLR s).2.lastlr + absentCols N (ExtractMinLR s).2.jr + 1 =
      s.lastlr + absentCols N s.jr := by
    show s.lastlr - 1 + absentCols N s.jr + 1 = s.lastlr + absentCols N s.jr
    omega
  unfold ComputeRmat_elim_step
  simp only
  split
  · have := apply_row_measure N (ComputeRmat_key_local s newiperm) ldu.ucolind ldu.uvalues rtol
      (newperm (StripLocal (ExtractMinLR s).1) + s.firstrow)
      (ldu.dvalues (newperm (StripLocal (ExtractMinLR s).1)))
      (ldu.usrowptr (newperm (StripLocal (ExtractMinLR s).1)))
      (ldu.uerowptr (newperm (StripLocal (ExtractMinLR s).1)) -
        ldu.usrowptr (newperm (StripLocal (ExtractMinLR s).1))) (ExtractMinLR s).2 hu
    omega
  · have := apply_row_measure N (ComputeRmat_key_remote s) cinfo.incolind cinfo.invalues rtol
      (cinfo.incolind (StripLocal (ExtractMinLR s).1 + 1))
      (cinfo.invalues (StripLocal (ExtractMinLR s).1 + 1))
      (StripLocal (ExtractMinLR s).1 + 2)
      (StripLocal (ExtractMinLR s).1 + cinfo.incolind (StripLocal (ExtractMinLR s).1) + 1 -
        (StripLocal (ExtractMinLR s).1 + 2)) (ExtractMinLR s).2 hi
    omega

/-- A loop `while (lastlr != 0)` whose passes lower a measure ends within as many passes as
the measure allows. -/
theorem elim_loop_ends (step : hypre_PilutSolverGlobals → hypre_PilutSolverGlobals)
    (mu : hypre_PilutSolverGlobals → Nat)
    (hstep : ∀ s, s.lastlr ≠ 0 → mu (step s) + 1 ≤ mu s)
    (hmu : ∀ s, s.lastlr ≤ mu s) :
    ∀ n s, mu s ≤ n → (elim_loop step n s).lastlr = 0 := by
  intro n
  induction n with
  | zero =>
    intro s hs
    have := hmu s
    show s.lastlr = 0
    omega
  | succ m ih =>
    intro s hs
    unfold elim_loop
    by_cases hl : s.lastlr ≠ 0
    · rw [if_pos hl]
      exact ih (step s) (by have := hstep s hl; omega)
    · rw [if_neg hl]
      omega

theorem seed_row_lastlr (key : Nat → Option Nat) (nnz : Nat) (rcolind : Nat → Nat)
    (rvalues : Nat → ℚ) (g : hypre_PilutSolverGlobals) :
    (seed_row key nnz rcolind rvalues g).lastlr ≤ nnz - 1 := by
  have key1 := forLoop_inv
    (fun n (s : hypre_PilutSolverGlobals) => s.lastlr ≤ n) 1
    (seed_body key rcolind rvalues) (nnz - 1)
    { g with jr := upd g.jr (rcolind 0) 0, jw := upd g.jw 0 (rcolind 0),
             w := upd g.w 0 (rvalues 0), lastlr := 0 }
    (le_refl _)
    (by
      intro n t _ h1
      have := lr_push_lastlr (key (rcolind (1 + n))) t
      show (lr_push (key (rcolind (1 + n))) t).lastlr ≤ n + 1
      omega)
  exact key1

/-- The elimination loop of a row of `ComputeRmat` has ended after `nnz + N` passes, when all
columns of the `U` pool and of the receive buffer are below `N`. -/
theorem ComputeRmat_form_ends (N : Nat) (newperm newiperm : Nat → Nat) (rtol : ℚ)
    (ldu : FactorMatType) (cinfo : CommInfoType) (nnz : Nat) (rcolind : Nat → Nat)
    (rvalues : Nat → ℚ) (g : hypre_PilutSolverGlobals) (budget : Nat)
    (hu : ∀ l, ldu.ucolind l < N) (hi : ∀ l, cinfo.incolind l < N)
    (hb : nnz + N ≤ budget) :
    (ComputeRmat_form newperm newiperm rtol ldu cinfo nnz rcolind rvalues g budget).lastlr
      = 0 := by
  unfold ComputeRmat_form
  apply elim_loop_ends _ (fun s => s.lastlr + absentCols N s.jr)
    (fun s hl => ComputeRmat_elim_step_measure N newperm newiperm rtol ldu cinfo s hu hi hl)
    (fun s => Nat.le_add_right _ _)
  have h1 := seed_row_lastlr (ComputeRmat_key g newiperm) nnz rcolind rvalues g
  have h2 := absentCols_le N (seed_row (ComputeRmat_key g newiperm) nnz rcolind rvalues g).jr
  show (seed_row (ComputeRmat_key g newiperm) nnz rcolind rvalues g).lastlr +
    absentCols N (seed_row (ComputeRmat_key g newiperm) nnz rcolind rvalues g).jr ≤ budget
  omega

/-- One pass of the row loop of `ComputeRmat` returns when its elimination loop is given
`nnz + N` passes; the emitted row has the diagonal of the seeded row first and no marked
column after it; the other rows, the `U` and `D` parts of the factor and everything but the
workspace are left alone. -/
theorem ComputeRmat_row_spec (N budget : Nat) (newperm newiperm : Nat → Nat) (tol : ℚ)
    (ldu : FactorMatType) (cinfo : CommInfoType) (i inr : Nat) (nrmat : ReduceMatType)
    (nnz rrowlen : Nat) (rcolind : Nat → Nat) (rvalues : Nat → ℚ)
    (fresh_colind : Nat → Nat) (fresh_values : Nat → ℚ) (g : hypre_PilutSolverGlobals)
    (hu : ∀ l, ldu.ucolind l < N) (hi : ∀ l, cinfo.incolind l < N)
    (hb : nnz + N ≤ budget) :
    ∃ ldu2 nr2 g2, ComputeRmat_row budget newperm newiperm tol ldu cinfo i inr nrmat nnz
        rrowlen rcolind rvalues fresh_colind fresh_values g = some (ldu2, nr2, g2) ∧
      nr2.rmat_rcolind inr 0 = rcolind 0 ∧
      (∀ p, 1 ≤ p → p < nr2.rmat_rnz inr →
        IsInMIS (g.map (nr2.rmat_rcolind inr p)) = false) ∧
      (∀ r, r ≠ inr → nr2.rmat_rcolind r = nrmat.rmat_rcolind r ∧
        nr2.rmat_rvalues r = nrmat.rmat_rvalues r ∧ nr2.rmat_rnz r = nrmat.rmat_rnz r ∧
        nr2.rmat_rrowlen r = nrmat.rmat_rrowlen r) ∧
      (ldu2.usrowptr = ldu.usrowptr ∧ ldu2.uerowptr = ldu.uerowptr ∧
        ldu2.ucolind = ldu.ucolind ∧ ldu2.uvalues = ldu.uvalues ∧
        ldu2.dvalues = ldu.dvalues ∧ ldu2.nrm2s = ldu.nrm2s) ∧
      Env g2 = Env g := by
  have hend := ComputeRmat_form_ends N newperm newiperm (ldu.nrm2s i * tol) ldu cinfo nnz
    rcolind rvalues g budget hu hi hb
  obtain ⟨f1, f2, f3⟩ := ComputeRmat_form_frame newperm newiperm (ldu.nrm2s i * tol) ldu cinfo
    nnz rcolind rvalues g budget
  obtain ⟨ldu2, nr2, g2, r1, r2, r3, r4, r5, r6⟩ := ComputeRmat_store_unmarked i inr nrmat
    rrowlen rcolind rvalues fresh_colind fresh_values tol ldu
    (ComputeRmat_form newperm newiperm (ldu.nrm2s i * tol) ldu cinfo nnz rcolind rvalues g
      budget) f1
  refine ⟨ldu2, nr2, g2, ?_, r2.trans f2, ?_, r4, r5, r6.trans f3⟩
  · unfold ComputeRmat_row
    simp only
    rw [if_pos hend]
    exact r1
  · intro p p1 p2
    have := (r3 p p1 p2).1
    rw [(Env_map _ _ f3).1] at this
    exact this


/-! ## The rows that ComputeRmat emits -/

/-- The row loop of `ComputeRmat` after `n` rows, when the elimination loop of every row is
given enough passes: it has returned, `inr` is `n`, the row `r < n` of the next reduced
matrix has the diagonal of the row of the current reduced matrix that it was formed from,
and no off-diagonal column of it is marked in the map; the `U` and `D` parts of the factor
and everything but the workspace are as on entry. -/
theorem ComputeRmat_loop_spec (N budget : Nat) (ldu : FactorMatType)
    (rmat nrmat : ReduceMatType) (cinfo : CommInfoType) (iperm newperm newiperm : Nat → Nat)
    (nmis : Nat) (tol : ℚ) (fresh_colind : Nat → Nat → Nat) (fresh_values : Nat → Nat → ℚ)
    (g : hypre_PilutSolverGlobals)
    (hu : ∀ l, ldu.ucolind l < N) (hi : ∀ l, cinfo.incolind l < N)
    (hb : ∀ k, rmat.rmat_rnz k + N ≤ budget) (n : Nat) :
    ∃ t, forLoop (g.ndone + nmis)
        (ComputeRmat_body budget rmat cinfo iperm newperm newiperm tol fresh_colind
          fresh_values) n (some { inr := 0, ldu := ldu, nrmat := nrmat, globals := g })
        = some t ∧
      t.inr = n ∧ Env t.globals = Env g ∧ t.ldu.ucolind = ldu.ucolind ∧
      (∀ r, r < n →
        t.nrmat.rmat_rcolind r 0 =
          rmat.rmat_rcolind (iperm (newperm (g.ndone + nmis + r)) - g.ndone) 0 ∧
        ∀ p, 1 ≤ p → p < t.nrmat.rmat_rnz r →
          IsInMIS (g.map (t.nrmat.rmat_rcolind r p)) = false) := by
  induction n with
  | zero =>
    exact ⟨_, rfl, rfl, rfl, rfl, fun r hr => absurd hr (Nat.not_lt_zero r)⟩
  | succ m ih =>
    obtain ⟨t, ht, t1, t2, t3, t4⟩ := ih
    rw [forLoop_succ, ht]
    obtain ⟨e1, e2, _⟩ := Env_map _ _ t2
    obtain ⟨ldu2, nr2, g2, r1, r2, r3, r4, r5, r6⟩ := ComputeRmat_row_spec N budget newperm
      newiperm tol t.ldu cinfo (newperm (g.ndone + nmis + m)) t.inr t.nrmat
      (rmat.rmat_rnz (iperm (newperm (g.ndone + nmis + m)) - t.globals.ndone))
      (rmat.rmat_rrowlen (iperm (newperm (g.ndone + nmis + m)) - t.globals.ndone))
      (rmat.rmat_rcolind (iperm (newperm (g.ndone + nmis + m)) - t.globals.ndone))
      (rmat.rmat_rvalues (iperm (newperm (g.ndone + nmis + m)) - t.globals.ndone))
      (fresh_colind t.inr) (fresh_values t.inr) t.globals
      (by rw [t3]; exact hu) hi (hb _)
    refine ⟨{ inr := t.inr + 1, ldu := ldu2, nrmat := nr2, globals := g2 }, ?_, ?_, ?_, ?_, ?_⟩
    · unfold ComputeRmat_body
      simp only [r1]
    · show t.inr + 1 = m + 1
      rw [t1]
    · exact r6.trans t2
    · show ldu2.ucolind = ldu.ucolind
      rw [r5.2.2.1, t3]
    · intro r hr
      show nr2.rmat_rcolind r 0 = _ ∧ ∀ p, 1 ≤ p → p < nr2.rmat_rnz r →
        IsInMIS (g.map (nr2.rmat_rcolind r p)) = false
      by_cases hrm : r = m
      · subst hrm
        rw [t1] at r2 r3
        rw [e2] at r2
        rw [e1] at r3
        exact ⟨r2, r3⟩
      · have hne : r ≠ t.inr := by rw [t1]; exact hrm
        obtain ⟨c1, _, c3, _⟩ := r4 r hne
        rw [c1, c3]
        exact t4 r (by omega)

/-- C35. Eliminated columns leave the reduced matrix. When the elimination loop of every
row is given enough passes (`N` bounds the columns of the `U` pool and of the receive
buffer), `ComputeRmat` returns after `lnrows - (ndone + nmis)` rows, and no off-diagonal
column of a row that it emits through `FormNRmat` is marked in the map; so, the map
marking the rows selected locally and the rows received at this level, no emitted row
references one of them. -/
theorem ComputeRmat_drops_eliminated (N budget : Nat) (ldu : FactorMatType)
    (rmat nrmat : ReduceMatType) (cinfo : CommInfoType)
    (perm iperm newperm newiperm : Nat → Nat) (nmis : Nat) (tol : ℚ)
    (fresh_colind : Nat → Nat → Nat) (fresh_values : Nat → Nat → ℚ)
    (g : hypre_PilutSolverGlobals) (inCnt : Nat → Nat)
    (hu : ∀ l, ldu.ucolind l < N) (hi : ∀ l, cinfo.incolind l < N)
    (hb : ∀ k, rmat.rmat_rnz k + N ≤ budget)
    (hsel : ∀ c ∈ selectedRows g newperm nmis, IsInMIS (g.map c) = true)
    (hrecv : ∀ c ∈ recvDiagCols g cinfo inCnt, IsInMIS (g.map c) = true) :
    ∃ t, ComputeRmat budget ldu rmat nrmat cinfo perm iperm newperm newiperm nmis tol
        fresh_colind fresh_values g = some t ∧
      t.inr = g.lnrows - (g.ndone + nmis) ∧
      ∀ r, r < t.inr → ∀ p, 1 ≤ p → p < t.nrmat.rmat_rnz r →
        IsInMIS (g.map (t.nrmat.rmat_rcolind r p)) = false ∧
        t.nrmat.rmat_rcolind r p ∉ selectedRows g newperm nmis ∧
        t.nrmat.rmat_rcolind r p ∉ recvDiagCols g cinfo inCnt := by
  obtain ⟨t, ht, t1, _, _, t4⟩ := ComputeRmat_loop_spec N budget ldu rmat nrmat cinfo iperm
    newperm newiperm nmis tol fresh_colind fresh_values g hu hi hb
    (g.lnrows - (g.ndone + nmis))
  refine ⟨t, ht, t1, ?_⟩
  intro r hr p p1 p2
  have hf := (t4 r (by omega)).2 p p1 p2
  refine ⟨hf, ?_, ?_⟩
  · intro hc
    have := hsel _ hc
    rw [hf] at this
    exact absurd this (by decide)
  · intro hc
    have := hrecv _ hc
    rw [hf] at this
    exact absurd this (by decide)

/-- C34. Row storage stays aligned with the permutation. Let `perm`/`iperm` and
`newperm`/`newiperm` be inverse permutations of the local rows, `newperm` agree with `perm`
on the rows done before the level, and on entry let the row `ir` of the current reduced
matrix have the diagonal column `perm[ndone + ir] + firstrow` for every `ir < ntogo`. Then
`ComputeRmat` returns (the elimination loops being given enough passes) and the row of each
unselected local row `i = newperm[ir]`, `ndone + nmis <= ir < lnrows`, is emitted at the
index `newiperm[i] - (ndone + nmis)` of the next reduced matrix with the diagonal column
`i + firstrow`; so with the permutation of the next level (the active part of `newperm`
copied into `perm`, `ndone + nmis` rows done) the row `ir` of the next reduced matrix has
the diagonal column `perm[ndone + ir] + firstrow` again. -/
theorem ComputeRmat_row_alignment (N budget : Nat) (ldu : FactorMatType)
    (rmat nrmat : ReduceMatType) (cinfo : CommInfoType)
    (perm iperm newperm newiperm : Nat → Nat) (nmis : Nat) (tol : ℚ)
    (fresh_colind : Nat → Nat → Nat) (fresh_values : Nat → Nat → ℚ)
    (g : hypre_PilutSolverGlobals)
    (hu : ∀ l, ldu.ucolind l < N) (hi : ∀ l, cinfo.incolind l < N)
    (hb : ∀ k, rmat.rmat_rnz k + N ≤ budget)
    (hshape : g.ndone + g.ntogo = g.lnrows) (hnmis : nmis ≤ g.ntogo)
    (hperm : PermInv g.lnrows perm iperm) (hnew : PermInv g.lnrows newperm newiperm)
    (hold : ∀ j, j < g.ndone → newperm j = perm j)
    (halign : ∀ ir, ir < g.ntogo →
      rmat.rmat_rcolind ir 0 = perm (g.ndone + ir) + g.firstrow) :
    ∃ t, ComputeRmat budget ldu rmat nrmat cinfo perm iperm newperm newiperm nmis tol
        fresh_colind fresh_values g = some t ∧
      t.inr = g.ntogo - nmis ∧
      (∀ ir, g.ndone + nmis ≤ ir → ir < g.lnrows →
        g.ndone ≤ iperm (newperm ir) ∧ iperm (newperm ir) - g.ndone < g.ntogo ∧
        rmat.rmat_rcolind (iperm (newperm ir) - g.ndone) 0 = newperm ir + g.firstrow ∧
        t.nrmat.rmat_rcolind (newiperm (newperm ir) - (g.ndone + nmis)) 0 =
          newperm ir + g.firstrow) ∧
      (∀ ir, ir < g.ntogo - nmis →
        t.nrmat.rmat_rcolind ir 0 =
          memcpy_idx perm newperm g.ndone g.ntogo (g.ndone + nmis + ir) + g.firstrow) := by
  obtain ⟨t, ht, t1, _, _, t4⟩ := ComputeRmat_loop_spec N budget ldu rmat nrmat cinfo iperm
    newperm newiperm nmis tol fresh_colind fresh_values g hu hi hb
    (g.lnrows - (g.ndone + nmis))
  have hcnt : g.lnrows - (g.ndone + nmis) = g.ntogo - nmis := by omega
  have hrow : ∀ ir, g.ndone + nmis ≤ ir → ir < g.lnrows →
      g.ndone ≤ iperm (newperm ir) ∧ iperm (newperm ir) - g.ndone < g.ntogo ∧
      rmat.rmat_rcolind (iperm (newperm ir) - g.ndone) 0 = newperm ir + g.firstrow := by
    intro ir h1 h2
    obtain ⟨n1, n2⟩ := hnew.1 ir h2
    obtain ⟨p1, p2⟩ := hperm.2 (newperm ir) n1
    have hge : g.ndone ≤ iperm (newperm ir) := by
      by_contra hlt
      have hlt2 : iperm (newperm ir) < g.ndone := by omega
      have e1 := hold _ hlt2
      rw [p2] at e1
      have e2 := (hnew.1 (iperm (newperm ir)) (by omega)).2
      rw [e1, n2] at e2
      omega
    refine ⟨hge, by omega, ?_⟩
    rw [halign _ (by omega), show g.ndone + (iperm (newperm ir) - g.ndone) =
      iperm (newperm ir) by omega, p2]
  refine ⟨t, ht, by rw [t1, hcnt], ?_, ?_⟩
  · intro ir h1 h2
    obtain ⟨a1, a2, a3⟩ := hrow ir h1 h2
    refine ⟨a1, a2, a3, ?_⟩
    rw [(hnew.1 ir h2).2]
    have h := (t4 (ir - (g.ndone + nmis)) (by omega)).1
    rw [show g.ndone + nmis + (ir - (g.ndone + nmis)) = ir by omega] at h
    rw [h]
    exact a3
  · intro ir hir
    have h := (t4 ir (by omega)).1
    rw [h, (hrow (g.ndone + nmis + ir) (by omega) (by omega)).2.2]
    unfold memcpy_idx
    rw [if_pos ⟨by omega, by omega⟩]


theorem exLdul_ucolind_lt (l : Nat) : exLdul.ucolind l < 10 := by
  show upd (upd (fun _ => 0) 10 7) 11 8 l < 10
  unfold upd
  split
  · omega
  · split
    · omega
    · exact Nat.zero_lt_succ 9

theorem exCir_incolind_lt (l : Nat) : exCir.incolind l < 10 := by
  show ([2, 9, 8, 0, 0] : List Nat).getD l 0 < 10
  rcases l with _ | _ | _ | _ | _ | l <;> simp

theorem exRml_rnz_le (k : Nat) : exRml.rmat_rnz k + 10 ≤ 14 := by
  show ([4, 3] : List Nat).getD k 0 + 10 ≤ 14
  rcases k with _ | _ | k <;> simp

/-- Instance of C35: PE 0 at the level where the local row 1 and the received row 9 are in
the set; the row of the local row 0 is reduced. -/
theorem ComputeRmat_drops_eliminated_witness :
    ((∀ c ∈ selectedRows exGr (arr 0 [1, 0]) 1, IsInMIS (exGr.map c) = true) ∧
      (∀ c ∈ recvDiagCols exGr exCir (fun _ => 5), IsInMIS (exGr.map c) = true)) ∧
    ∃ t, ComputeRmat 14 exLdul exRml exNr exCir id id (arr 0 [1, 0]) (arr 0 [1, 0]) 1 1
        (fun _ _ => 0) (fun _ _ => 0) exGr = some t ∧
      t.inr = exGr.lnrows - (exGr.ndone + 1) ∧
      ∀ r, r < t.inr → ∀ p, 1 ≤ p → p < t.nrmat.rmat_rnz r →
        IsInMIS (exGr.map (t.nrmat.rmat_rcolind r p)) = false ∧
        t.nrmat.rmat_rcolind r p ∉ selectedRows exGr (arr 0 [1, 0]) 1 ∧
        t.nrmat.rmat_rcolind r p ∉ recvDiagCols exGr exCir (fun _ => 5) :=
  ⟨by decide,
   ComputeRmat_drops_eliminated 10 14 exLdul exRml exNr exCir id id (arr 0 [1, 0])
     (arr 0 [1, 0]) 1 1 (fun _ _ => 0) (fun _ _ => 0) exGr (fun _ => 5)
     exLdul_ucolind_lt exCir_incolind_lt exRml_rnz_le (by decide) (by decide)⟩

/-- Instance of C34: the same level; the rows 0 and 1 of the current reduced matrix have the
diagonal columns 0 and 1, and the row of the unselected row 0 is emitted at index 0. -/
theorem ComputeRmat_row_alignment_witness :
    (exGr.ndone + exGr.ntogo = exGr.lnrows ∧ 1 ≤ exGr.ntogo ∧
      PermInv exGr.lnrows id id ∧ PermInv exGr.lnrows (arr 0 [1, 0]) (arr 0 [1, 0]) ∧
      (∀ j, j < exGr.ndone → arr 0 [1, 0] j = id j) ∧
      (∀ ir, ir < exGr.ntogo → exRml.rmat_rcolind ir 0 = id (exGr.ndone + ir) + exGr.firstrow)) ∧
    ∃ t, ComputeRmat 14 exLdul exRml exNr exCir id id (arr 0 [1, 0]) (arr 0 [1, 0]) 1 1
        (fun _ _ => 0) (fun _ _ => 0) exGr = some t ∧
      t.inr = exGr.ntogo - 1 ∧
      (∀ ir, ir < exGr.ntogo - 1 →
        t.nrmat.rmat_rcolind ir 0 =
          memcpy_idx id (arr 0 [1, 0]) exGr.ndone exGr.ntogo (exGr.ndone + 1 + ir) +
            exGr.firstrow) :=
  ⟨by decide,
   match ComputeRmat_row_alignment 10 14 exLdul exRml exNr exCir id id (arr 0 [1, 0])
     (arr 0 [1, 0]) 1 1 (fun _ _ => 0) (fun _ _ => 0) exGr
     exLdul_ucolind_lt exCir_incolind_lt exRml_rnz_le (by decide) (by decide) (by decide)
     (by decide) (by decide) (by decide) with
   | ⟨t, h1, h2, _, h4⟩ => ⟨t, h1, h2, h4⟩⟩


/-! ## One elimination step -/

/-- Under the workspace invariant a column with `jr != -1` sits at the position `jr`. -/
theorem WSInv_present (g : hypre_PilutSolverGlobals) (h : WSInv g) (c : Nat)
    (hc : g.jr c ≠ -1) :
    ∃ q, q < g.lastjr ∧ g.jw q = c ∧ g.jr c = (q : Int) := by
  by_contra hno
  apply hc
  apply h.2 c
  intro p hp heq
  apply hno
  refine ⟨p, hp, heq, ?_⟩
  rw [← heq]
  exact h.1 p hp

theorem fillCount_mono (jr : Nat → Int) (cols : Nat → Nat) (vals : Nat → ℚ) (mult rtol : ℚ)
    (lo m : Nat) :
    fillCount jr cols vals mult rtol lo m ≤ fillCount jr cols vals mult rtol lo (m + 1) := by
  show _ ≤ fillCount jr cols vals mult rtol lo m + _
  omega

/-- The loop over the first `m` entries of the row that is applied, on a workspace `s0` that
satisfies the invariant, when the columns of the row are pairwise distinct. -/
theorem fill_loop_effect (key : Nat → Option Nat) (cols : Nat → Nat) (vals : Nat → ℚ)
    (mult rtol : ℚ) (lo n : Nat) (s0 : hypre_PilutSolverGlobals)
    (hW : WSInv s0) (hl : 1 ≤ s0.lastjr) (hdist : InjOnRange cols lo (lo + n)) :
    ∀ m, m ≤ n →
      WSInv (forLoop lo (fill_body key cols vals mult rtol) m s0) ∧
      (forLoop lo (fill_body key cols vals mult rtol) m s0).lastjr =
        s0.lastjr + fillCount s0.jr cols vals mult rtol lo m ∧
      (∀ c, (∀ l, lo ≤ l → l < lo + m → cols l ≠ c) →
        (forLoop lo (fill_body key cols vals mult rtol) m s0).jr c = s0.jr c) ∧
      (∀ p, p < s0.lastjr →
        (forLoop lo (fill_body key cols vals mult rtol) m s0).jw p = s0.jw p) ∧
      (∀ p, p < s0.lastjr → (∀ l, lo ≤ l → l < lo + m → s0.jr (cols l) ≠ (p : Int)) →
        (forLoop lo (fill_body key cols vals mult rtol) m s0).w p = s0.w p) ∧
      (∀ l, lo ≤ l → l < lo + m →
        (s0.jr (cols l) ≠ -1 →
          (forLoop lo (fill_body key cols vals mult rtol) m s0).jr (cols l) =
            s0.jr (cols l) ∧
          (forLoop lo (fill_body key cols vals mult rtol) m s0).w (s0.jr (cols l)).toNat =
            s0.w (s0.jr (cols l)).toNat - mult * vals l) ∧
        (s0.jr (cols l) = -1 → ¬ fabs (mult * vals l) < rtol →
          s0.lastjr + fillCount s0.jr cols vals mult rtol lo (l - lo) <
            (forLoop lo (fill_body key cols vals mult rtol) m s0).lastjr ∧
          (forLoop lo (fill_body key cols vals mult rtol) m s0).jr (cols l) =
            ((s0.lastjr + fillCount s0.jr cols vals mult rtol lo (l - lo) : Nat) : Int) ∧
          (forLoop lo (fill_body key cols vals mult rtol) m s0).jw
            (s0.lastjr + fillCount s0.jr cols vals mult rtol lo (l - lo)) = cols l ∧
          (forLoop lo (fill_body key cols vals mult rtol) m s0).w
            (s0.lastjr + fillCount s0.jr cols vals mult rtol lo (l - lo)) = -mult * vals l) ∧
        (s0.jr (cols l) = -1 → fabs (mult * vals l) < rtol →
          (forLoop lo (fill_body key cols vals mult rtol) m s0).jr (cols l) = -1)) := by
  intro m
  induction m with
  | zero =>
    intro _
    refine ⟨hW, by simp [fillCount], fun c _ => rfl, fun p _ => rfl, fun p _ _ => rfl, ?_⟩
    intro l h1 h2
    omega
  | succ m ih =>
    intro hm
    obtain ⟨i1, i2, i3, i4, i5, i6⟩ := ih (by omega)
    rw [forLoop_succ]
    generalize forLoop lo (fill_body key cols vals mult rtol) m s0 = t at i1 i2 i3 i4 i5 i6
    have hunproc : ∀ l, lo ≤ l → l < lo + m → cols l ≠ cols (lo + m) := by
      intro l h1 h2 heq
      have := hdist l (lo + m) h1 (by omega) (by omega) (by omega) heq
      omega
    have hjrc : t.jr (cols (lo + m)) = s0.jr (cols (lo + m)) := i3 _ hunproc
    have hlt : 1 ≤ t.lastjr := by omega
    have hW2 := (fill_body_inv key cols vals mult rtol (lo + m) t (t.jw 0) ⟨i1, hlt, rfl⟩).1
    have hcnt : fillCount s0.jr cols vals mult rtol lo (m + 1) =
        fillCount s0.jr cols vals mult rtol lo m +
          (if s0.jr (cols (lo + m)) = -1 ∧ ¬ fabs (mult * vals (lo + m)) < rtol then 1
            else 0) := rfl
    refine ⟨hW2, ?_⟩
    unfold fill_body
    by_cases hc : t.jr (cols (lo + m)) = -1
    · have hc0 : s0.jr (cols (lo + m)) = -1 := by rw [← hjrc]; exact hc
      simp only [hc, if_true]
      by_cases hsmall : fabs (mult * vals (lo + m)) < rtol
      · simp only [hsmall, if_true]
        have hz : (if s0.jr (cols (lo + m)) = -1 ∧ ¬ fabs (mult * vals (lo + m)) < rtol
            then 1 else 0) = 0 := by
          rw [if_neg]
          intro h
          exact h.2 hsmall
        rw [hcnt, hz, Nat.add_zero]
        refine ⟨i2, ?_, i4, ?_, ?_⟩
        · intro c hcc
          exact i3 c (fun l h1 h2 => hcc l h1 (by omega))
        · intro p hp hpp
          exact i5 p hp (fun l h1 h2 => hpp l h1 (by omega))
        · intro l h1 h2
          by_cases hlm : l = lo + m
          · subst hlm
            refine ⟨fun h => absurd hc0 h, fun _ h => absurd hsmall h, fun _ _ => hc⟩
          · exact i6 l h1 (by omega)
      · simp only [hsmall, if_false]
        obtain ⟨e1, e2, e3, e4⟩ := lr_push_fields (key (cols (lo + m))) t
        simp only [e1, e2, e3, e4]
        have ho : (if s0.jr (cols (lo + m)) = -1 ∧ ¬ fabs (mult * vals (lo + m)) < rtol
            then 1 else 0) = 1 := by
          rw [if_pos ⟨hc0, hsmall⟩]
        rw [hcnt, ho]
        refine ⟨by omega, ?_, ?_, ?_, ?_⟩
        · intro c hcc
          have hne : c ≠ cols (lo + m) := fun h => hcc (lo + m) (by omega) (by omega) h.symm
          rw [upd_other _ _ _ _ hne]
          exact i3 c (fun l h1 h2 => hcc l h1 (by omega))
        · intro p hp
          rw [upd_other _ _ _ _ (by omega)]
          exact i4 p hp
        · intro p hp hpp
          rw [upd_other _ _ _ _ (by omega)]
          exact i5 p hp (fun l h1 h2 => hpp l h1 (by omega))
        · intro l h1 h2
          by_cases hlm : l = lo + m
          · subst hlm
            have e : lo + m - lo = m := by omega
            rw [e, ← i2]
            refine ⟨fun h => absurd hc0 h, fun _ _ => ⟨by omega, ?_, ?_, ?_⟩,
              fun _ h => absurd h hsmall⟩
            · rw [upd_same]
            · rw [upd_same]
            · rw [upd_same]
          · obtain ⟨a, b, c⟩ := i6 l h1 (by omega)
            have hne : cols l ≠ cols (lo + m) := hunproc l h1 (by omega)
            refine ⟨?_, ?_, ?_⟩
            · intro hp
              obtain ⟨q, q1, q2, q3⟩ := WSInv_present s0 hW (cols l) hp
              obtain ⟨a1, a2⟩ := a hp
              rw [upd_other _ _ _ _ hne]
              refine ⟨a1, ?_⟩
              rw [upd_other _ _ _ _ (by rw [q3]; simp; omega)]
              exact a2
            · intro hp hbig
              obtain ⟨b1, b2, b3, b4⟩ := b hp hbig
              rw [upd_other _ _ _ _ hne, upd_other _ _ _ _ (by omega),
                upd_other _ _ _ _ (by omega)]
              exact ⟨by omega, b2, b3, b4⟩
            · intro hp hs
              rw [upd_other _ _ _ _ hne]
              exact c hp hs
    · have hc0 : ¬ s0.jr (cols (lo + m)) = -1 := by rw [← hjrc]; exact hc
      simp only [hc, if_false]
      have hz : (if s0.jr (cols (lo + m)) = -1 ∧ ¬ fabs (mult * vals (lo + m)) < rtol
          then 1 else 0) = 0 := by
        rw [if_neg]
        intro h
        exact hc0 h.1
      rw [hcnt, hz, Nat.add_zero]
      obtain ⟨q, q1, q2, q3⟩ := WSInv_present s0 hW (cols (lo + m)) hc0
      have hq : (t.jr (cols (lo + m))).toNat = q := by rw [hjrc, q3]; simp
      rw [hq]
      refine ⟨i2, ?_, i4, ?_, ?_⟩
      · intro c hcc
        exact i3 c (fun l h1 h2 => hcc l h1 (by omega))
      · intro p hp hpp
        have hne : p ≠ q := by
          intro h
          have := hpp (lo + m) (by omega) (by omega)
          rw [q3, h] at this
          exact this rfl
        rw [upd_other _ _ _ _ hne]
        exact i5 p hp (fun l h1 h2 => hpp l h1 (by omega))
      · intro l h1 h2
        by_cases hlm : l = lo + m
        · subst hlm
          refine ⟨fun _ => ⟨hjrc, ?_⟩, fun h => absurd h hc0, fun h => absurd h hc0⟩
          rw [q3]
          simp only [Int.toNat_ofNat]
          rw [upd_same]
          have hw : t.w q = s0.w q := by
            apply i5 q q1
            intro l h1 h2 heq
            have hp : s0.jr (cols l) ≠ -1 := by rw [heq]; omega
            obtain ⟨q', r1, r2, r3⟩ := WSInv_present s0 hW (cols l) hp
            have : q' = q := by rw [r3] at heq; exact_mod_cast heq
            rw [this] at r2
            exact hunproc l h1 h2 (r2.symm.trans q2 ▸ rfl)
          rw [hw]
        · obtain ⟨a, b, c⟩ := i6 l h1 (by omega)
          have hne : cols l ≠ cols (lo + m) := hunproc l h1 (by omega)
          refine ⟨?_, ?_, c⟩
          · intro hp
            obtain ⟨q', r1, r2, r3⟩ := WSInv_present s0 hW (cols l) hp
            obtain ⟨a1, a2⟩ := a hp
            refine ⟨a1, ?_⟩
            have hqq : (s0.jr (cols l)).toNat ≠ q := by
              rw [r3]
              simp only [Int.toNat_ofNat]
              intro h
              rw [h] at r2
              exact hne (r2.symm.trans q2)
            rw [upd_other _ _ _ _ hqq]
            exact a2
          · intro hp hbig
            obtain ⟨b1, b2, b3, b4⟩ := b hp hbig
            rw [upd_other _ _ _ _ (by omega)]
            exact ⟨b1, b2, b3, b4⟩


/-- The multiplier step and the loop over the row that is applied, on a workspace that
satisfies the invariant and holds the column `k`, for a row `cols/vals[lo .. lo+n)` with
pairwise distinct columns other than `k`. -/
theorem apply_row_effect (key : Nat → Option Nat) (cols : Nat → Nat) (vals : Nat → ℚ)
    (rtol : ℚ) (k : Nat) (d : ℚ) (lo n : Nat) (s : hypre_PilutSolverGlobals)
    (pk : Nat) (hpk : pk = (s.jr k).toNat) (mult : ℚ) (hmult : mult = s.w pk * d)
    (hW : WSInv s) (hk : s.jr k ≠ -1) (hdist : InjOnRange cols lo (lo + n))
    (hnk : ∀ l, lo ≤ l → l < lo + n → cols l ≠ k) :
    (fabs mult < rtol →
      apply_row key cols vals rtol k d lo n s = { s with w := upd s.w pk mult }) ∧
    (¬ fabs mult < rtol →
      (apply_row key cols vals rtol k d lo n s).w pk = mult ∧
      (apply_row key cols vals rtol k d lo n s).lastjr =
        s.lastjr + fillCount s.jr cols vals mult rtol lo n ∧
      (∀ l, lo ≤ l → l < lo + n →
        (s.jr (cols l) ≠ -1 →
          (apply_row key cols vals rtol k d lo n s).jr (cols l) = s.jr (cols l) ∧
          (apply_row key cols vals rtol k d lo n s).w (s.jr (cols l)).toNat =
            s.w (s.jr (cols l)).toNat - mult * vals l) ∧
        (s.jr (cols l) = -1 → ¬ fabs (mult * vals l) < rtol →
          (apply_row key cols vals rtol k d lo n s).jr (cols l) =
            ((s.lastjr + fillCount s.jr cols vals mult rtol lo (l - lo) : Nat) : Int) ∧
          (apply_row key cols vals rtol k d lo n s).jw
            (s.lastjr + fillCount s.jr cols vals mult rtol lo (l - lo)) = cols l ∧
          (apply_row key cols vals rtol k d lo n s).w
            (s.lastjr + fillCount s.jr cols vals mult rtol lo (l - lo)) = -mult * vals l) ∧
        (s.jr (cols l) = -1 → fabs (mult * vals l) < rtol →
          (apply_row key cols vals rtol k d lo n s).jr (cols l) = -1)) ∧
      (∀ p, p < s.lastjr → (apply_row key cols vals rtol k d lo n s).jw p = s.jw p) ∧
      (∀ p, p < s.lastjr → p ≠ pk →
        (∀ l, lo ≤ l → l < lo + n → s.jr (cols l) ≠ (p : Int)) →
        (apply_row key cols vals rtol k d lo n s).w p = s.w p) ∧
      (∀ c, (∀ l, lo ≤ l → l < lo + n → cols l ≠ c) →
        (apply_row key cols vals rtol k d lo n s).jr c = s.jr c)) := by
  subst hpk
  subst hmult
  obtain ⟨qk, k1, k2, k3⟩ := WSInv_present s hW k hk
  have hqk : (s.jr k).toNat = qk := by rw [k3]; simp
  constructor
  · intro hs
    unfold apply_row
    simp only
    rw [if_pos hs]
  · intro hs
    have hap : apply_row key cols vals rtol k d lo n s =
        forLoop lo (fill_body key cols vals (s.w (s.jr k).toNat * d) rtol) n
          { s with w := upd s.w (s.jr k).toNat (s.w (s.jr k).toNat * d) } := by
      unfold apply_row
      simp only
      rw [if_neg hs]
    rw [hap]
    have hW1 : WSInv { s with w := upd s.w (s.jr k).toNat (s.w (s.jr k).toNat * d) } := hW
    obtain ⟨_, i2, i3, i4, i5, i6⟩ := fill_loop_effect key cols vals
      (s.w (s.jr k).toNat * d) rtol lo n
      { s with w := upd s.w (s.jr k).toNat (s.w (s.jr k).toNat * d) }
      hW1 (by show 1 ≤ s.lastjr; omega) hdist n (le_refl _)
    generalize forLoop lo (fill_body key cols vals (s.w (s.jr k).toNat * d) rtol) n
      { s with w := upd s.w (s.jr k).toNat (s.w (s.jr k).toNat * d) } = F at i2 i3 i4 i5 i6
    simp only at i2 i3 i4 i5 i6
    have hnotk : ∀ l, lo ≤ l → l < lo + n → s.jr (cols l) ≠ (qk : Int) := by
      intro l h1 h2 heq
      have hp : s.jr (cols l) ≠ -1 := by rw [heq]; omega
      obtain ⟨q', r1, r2, r3⟩ := WSInv_present s hW (cols l) hp
      have : q' = qk := by rw [r3] at heq; exact_mod_cast heq
      rw [this] at r2
      exact hnk l h1 h2 (r2.symm.trans k2)
    rw [hqk] at i2 i5 i6 ⊢
    refine ⟨?_, i2, ?_, i4, ?_, i3⟩
    · rw [i5 qk k1 hnotk, upd_same]
    · intro l h1 h2
      obtain ⟨a, b, c⟩ := i6 l h1 h2
      refine ⟨?_, ?_, c⟩
      · intro hp
        obtain ⟨a1, a2⟩ := a hp
        refine ⟨a1, ?_⟩
        rw [a2]
        obtain ⟨q', r1, r2, r3⟩ := WSInv_present s hW (cols l) hp
        have hne : (s.jr (cols l)).toNat ≠ qk := by
          intro h
          apply hnotk l h1 h2
          rw [r3] at h ⊢
          simp only [Int.toNat_ofNat] at h
          rw [h]
        rw [upd_other _ _ _ _ hne]
      · intro hp hbig
        exact (b hp hbig).2
    · intro p hp hpk hpp
      rw [i5 p hp hpp, upd_other _ _ _ _ hpk]


/-- C32. One elimination step. Let `F` be the state after one pass of the elimination loop
of `FactorLocal`, or of `ComputeRmat` when the extracted entry is local, on a workspace
that satisfies the invariant; let `k = kk + firstrow` be the pending column processed,
present at `pk = jr[k]`, and `mult = w[pk] * dvalues[kk]`; let the `U` part of row `kk` have
pairwise distinct columns other than `k`. If `|mult| < rtol`, `F` is the state after the
extraction with `w[pk] = mult` and nothing else changed. Otherwise `w[pk] = mult` and for
every entry `(c, v)` of the `U` part of row `kk`: if `c` is in the workspace, `w[jr[c]]` is
lowered by `mult * v`; if `c` is absent and `|mult * v| >= rtol`, the entry `(c, -mult * v)`
is appended, at the position `lastjr` plus the number of entries appended before it, and
`jr[c]` is that position; if `c` is absent and `|mult * v| < rtol`, `c` stays absent. The
old positions keep their columns, the positions that no entry of the `U` part refers to
keep their values, and `lastjr` grows by the number of appended entries. -/
theorem elimination_step (diag : Nat) (newperm newiperm : Nat → Nat) (rtol : ℚ)
    (ldu : FactorMatType) (cinfo : CommInfoType) (g F : hypre_PilutSolverGlobals)
    (kk k pk : Nat) (mult : ℚ)
    (hF : (kk = newperm (ExtractMinLR g).1 ∧
        F = FactorLocal_elim_step diag newperm newiperm rtol ldu g) ∨
      (IsLocal (ExtractMinLR g).1 = true ∧ kk = newperm (StripLocal (ExtractMinLR g).1) ∧
        F = ComputeRmat_elim_step newperm newiperm rtol ldu cinfo g))
    (hk : k = kk + g.firstrow) (hpk : pk = (g.jr k).toNat)
    (hmult : mult = g.w pk * ldu.dvalues kk)
    (hW : WSInv g) (hpres : g.jr k ≠ -1)
    (hdist : InjOnRange ldu.ucolind (ldu.usrowptr kk) (ldu.uerowptr kk))
    (hnk : ∀ l, ldu.usrowptr kk ≤ l → l < ldu.uerowptr kk → ldu.ucolind l ≠ k) :
    (fabs mult < rtol → F = { (ExtractMinLR g).2 with w := upd g.w pk mult }) ∧
    (¬ fabs mult < rtol →
      F.w pk = mult ∧
      F.lastjr = g.lastjr + fillCount g.jr ldu.ucolind ldu.uvalues mult rtol
        (ldu.usrowptr kk) (ldu.uerowptr kk - ldu.usrowptr kk) ∧
      (∀ l, ldu.usrowptr kk ≤ l → l < ldu.uerowptr kk →
        (g.jr (ldu.ucolind l) ≠ -1 →
          F.jr (ldu.ucolind l) = g.jr (ldu.ucolind l) ∧
          F.w (g.jr (ldu.ucolind l)).toNat =
            g.w (g.jr (ldu.ucolind l)).toNat - mult * ldu.uvalues l) ∧
        (g.jr (ldu.ucolind l) = -1 → ¬ fabs (mult * ldu.uvalues l) < rtol →
          F.jr (ldu.ucolind l) =
            ((g.lastjr + fillCount g.jr ldu.ucolind ldu.uvalues mult rtol (ldu.usrowptr kk)
              (l - ldu.usrowptr kk) : Nat) : Int) ∧
          F.jw (g.lastjr + fillCount g.jr ldu.ucolind ldu.uvalues mult rtol (ldu.usrowptr kk)
              (l - ldu.usrowptr kk)) = ldu.ucolind l ∧
          F.w (g.lastjr + fillCount g.jr ldu.ucolind ldu.uvalues mult rtol (ldu.usrowptr kk)
              (l - ldu.usrowptr kk)) = -mult * ldu.uvalues l) ∧
        (g.jr (ldu.ucolind l) = -1 → fabs (mult * ldu.uvalues l) < rtol →
          F.jr (ldu.ucolind l) = -1)) ∧
      (∀ p, p < g.lastjr → F.jw p = g.jw p) ∧
      (∀ p, p < g.lastjr → p ≠ pk →
        (∀ l, ldu.usrowptr kk ≤ l → l < ldu.uerowptr kk → g.jr (ldu.ucolind l) ≠ (p : Int)) →
        F.w p = g.w p) ∧
      (∀ c, (∀ l, ldu.usrowptr kk ≤ l → l < ldu.uerowptr kk → ldu.ucolind l ≠ c) →
        F.jr c = g.jr c)) := by
  have hrange : ∀ l, ldu.usrowptr kk ≤ l →
      l < ldu.usrowptr kk + (ldu.uerowptr kk - ldu.usrowptr kk) → l < ldu.uerowptr kk := by
    intro l h1 h2
    omega
  have hdist2 : InjOnRange ldu.ucolind (ldu.usrowptr kk)
      (ldu.usrowptr kk + (ldu.uerowptr kk - ldu.usrowptr kk)) := by
    intro a b a1 a2 b1 b2 hab
    exact hdist a b a1 (hrange a a1 a2) b1 (hrange b b1 b2) hab
  have hWe : WSInv (ExtractMinLR g).2 := hW
  have hex : ∃ kf : Nat → Option Nat,
      F = apply_row kf ldu.ucolind ldu.uvalues rtol k (ldu.dvalues kk) (ldu.usrowptr kk)
        (ldu.uerowptr kk - ldu.usrowptr kk) (ExtractMinLR g).2 := by
    rcases hF with ⟨hkk, hFe⟩ | ⟨hloc, hkk, hFe⟩
    · refine ⟨FactorLocal_key g diag newiperm, ?_⟩
      rw [hFe, hk, hkk]
      rfl
    · refine ⟨ComputeRmat_key_local g newiperm, ?_⟩
      rw [hFe, hk, hkk]
      unfold ComputeRmat_elim_step
      simp only
      rw [if_pos hloc]
  obtain ⟨kf, hFe⟩ := hex
  have h := apply_row_effect kf ldu.ucolind ldu.uvalues rtol k (ldu.dvalues kk)
    (ldu.usrowptr kk) (ldu.uerowptr kk - ldu.usrowptr kk) (ExtractMinLR g).2 pk hpk mult
    hmult hWe hpres hdist2 (fun l h1 h2 => hnk l h1 (hrange l h1 h2))
  rw [← hFe] at h
  obtain ⟨s1, s2⟩ := h
  refine ⟨s1, ?_⟩
  intro hbig
  obtain ⟨b1, b2, b3, b4, b5, b6⟩ := s2 hbig
  refine ⟨b1, b2, ?_, b4, ?_, ?_⟩
  · intro l h1 h2
    exact b3 l h1 (by omega)
  · intro p hp hpk2 hpp
    exact b5 p hp hpk2 (fun l h1 h2 => hpp l h1 (hrange l h1 h2))
  · intro c hc
    exact b6 c (fun l h1 h2 => hc l h1 (hrange l h1 h2))

theorem exLdul_U_distinct :
    InjOnRange exLdul.ucolind (exLdul.usrowptr 1) (exLdul.uerowptr 1) ∧
    ∀ l, exLdul.usrowptr 1 ≤ l → l < exLdul.uerowptr 1 → exLdul.ucolind l ≠ 1 := by
  decide

/-- Instance of C32: `FactorLocal` forms the row 0 (columns `0, 1, 7`) after the row 1, whose
`U` part holds the columns 7 and 8; the pending column 1 is processed. -/
theorem elimination_step_witness :
    ((seed_row (FactorLocal_key exGl 1 (arr 0 [1, 0])) 3 (arr 0 [0, 1, 7]) (arr 0 [4, 1, -7])
        exGl).jr 1 ≠ -1 ∧
      InjOnRange exLdul.ucolind (exLdul.usrowptr 1) (exLdul.uerowptr 1) ∧
      ∀ l, exLdul.usrowptr 1 ≤ l → l < exLdul.uerowptr 1 → exLdul.ucolind l ≠ 1) ∧
    (¬ fabs ((seed_row (FactorLocal_key exGl 1 (arr 0 [1, 0])) 3 (arr 0 [0, 1, 7])
          (arr 0 [4, 1, -7]) exGl).w 1 * exLdul.dvalues 1) < 1 →
      (FactorLocal_elim_step 1 (arr 0 [1, 0]) (arr 0 [1, 0]) 1 exLdul
        (seed_row (FactorLocal_key exGl 1 (arr 0 [1, 0])) 3 (arr 0 [0, 1, 7])
          (arr 0 [4, 1, -7]) exGl)).w 1 =
        (seed_row (FactorLocal_key exGl 1 (arr 0 [1, 0])) 3 (arr 0 [0, 1, 7])
          (arr 0 [4, 1, -7]) exGl).w 1 * exLdul.dvalues 1) :=
  ⟨⟨by decide, exLdul_U_distinct.1, exLdul_U_distinct.2⟩,
   fun h => ((elimination_step 1 (arr 0 [1, 0]) (arr 0 [1, 0]) 1 exLdul exCil
      (seed_row (FactorLocal_key exGl 1 (arr 0 [1, 0])) 3 (arr 0 [0, 1, 7]) (arr 0 [4, 1, -7])
        exGl)
      (FactorLocal_elim_step 1 (arr 0 [1, 0]) (arr 0 [1, 0]) 1 exLdul
        (seed_row (FactorLocal_key exGl 1 (arr 0 [1, 0])) 3 (arr 0 [0, 1, 7])
          (arr 0 [4, 1, -7]) exGl))
      1 1 1
      ((seed_row (FactorLocal_key exGl 1 (arr 0 [1, 0])) 3 (arr 0 [0, 1, 7])
          (arr 0 [4, 1, -7]) exGl).w 1 * exLdul.dvalues 1)
      (Or.inl ⟨by decide, rfl⟩) (by decide) (by decide) rfl
      (seed_row_inv _ 3 (arr 0 [0, 1, 7]) (arr 0 [4, 1, -7]) exGl (fun _ => rfl) (by decide)).1
      (by decide) exLdul_U_distinct.1 exLdul_U_distinct.2).2 h).1⟩


/-! ## Pack and unpack of a factored row -/

/-- The record of the `t`-th row of the set in the two packed streams. -/
theorem SendFactoredRows_pack_record (ldu : FactorMatType) (newperm : Nat → Nat)
    (nmis : Nat) (g : hypre_PilutSolverGlobals) (sgatherbuf : Nat → Nat)
    (dgatherbuf : Nat → ℚ) (t : Nat) (ht : t < nmis)
    (hn : ldu.uerowptr (newperm (g.ndone + t)) - ldu.usrowptr (newperm (g.ndone + t))
      ≤ g.global_maxnz) :
    (SendFactoredRows_pack_colind ldu newperm nmis g sgatherbuf).2
        (t * (g.global_maxnz + 2) + 0)
      = ldu.uerowptr (newperm (g.ndone + t)) - ldu.usrowptr (newperm (g.ndone + t)) + 1 ∧
    (SendFactoredRows_pack_colind ldu newperm nmis g sgatherbuf).2
        (t * (g.global_maxnz + 2) + 1) = newperm (g.ndone + t) + g.firstrow ∧
    (∀ q, q < ldu.uerowptr (newperm (g.ndone + t)) - ldu.usrowptr (newperm (g.ndone + t)) →
      (SendFactoredRows_pack_colind ldu newperm nmis g sgatherbuf).2
          (t * (g.global_maxnz + 2) + (2 + q))
        = ldu.ucolind (ldu.usrowptr (newperm (g.ndone + t)) + q)) ∧
    (SendFactoredRows_pack_values ldu newperm nmis g dgatherbuf).2
        (t * (g.global_maxnz + 2) + 1) = ldu.dvalues (newperm (g.ndone + t)) ∧
    (∀ q, q < ldu.uerowptr (newperm (g.ndone + t)) - ldu.usrowptr (newperm (g.ndone + t)) →
      (SendFactoredRows_pack_values ldu newperm nmis g dgatherbuf).2
          (t * (g.global_maxnz + 2) + (2 + q))
        = ldu.uvalues (ldu.usrowptr (newperm (g.ndone + t)) + q)) := by
  obtain ⟨_, c2, _⟩ := pack_outer_spec (g.global_maxnz + 2) 0
    (fun j => 2 + (ldu.uerowptr (newperm j) - ldu.usrowptr (newperm j)))
    (fun j r => if r = 0 then ldu.uerowptr (newperm j) - ldu.usrowptr (newperm j) + 1
        else if r = 1 then newperm j + g.firstrow
        else ldu.ucolind (ldu.usrowptr (newperm j) + (r - 2)))
    (SendFactoredRows_pack_colind_body ldu newperm g)
    (fun j s => (SendFactoredRows_pack_colind_body_spec ldu newperm g j s).1)
    (fun j s => (SendFactoredRows_pack_colind_body_spec ldu newperm g j s).2.1)
    (fun j s => (SendFactoredRows_pack_colind_body_spec ldu newperm g j s).2.2)
    g.ndone nmis sgatherbuf
  obtain ⟨_, v2, _⟩ := pack_outer_spec (g.global_maxnz + 2) 1
    (fun j => 2 + (ldu.uerowptr (newperm j) - ldu.usrowptr (newperm j)))
    (fun j r => if r = 1 then ldu.dvalues (newperm j)
        else ldu.uvalues (ldu.usrowptr (newperm j) + (r - 2)))
    (SendFactoredRows_pack_values_body ldu newperm g)
    (fun j s => (SendFactoredRows_pack_values_body_spec ldu newperm g j s).1)
    (fun j s => (SendFactoredRows_pack_values_body_spec ldu newperm g j s).2.1)
    (fun j s => (SendFactoredRows_pack_values_body_spec ldu newperm g j s).2.2)
    g.ndone nmis dgatherbuf
  have c2t := c2 t ht (by omega)
  have v2t := v2 t ht (by omega)
  unfold SendFactoredRows_pack_colind SendFactoredRows_pack_values
  refine ⟨?_, ?_, ?_, ?_, ?_⟩
  · have := c2t 0 (le_refl _) (by omega)
    simpa using this
  · have := c2t 1 (by omega) (by omega)
    simpa using this
  · intro q hq
    have := c2t (2 + q) (by omega) (by omega)
    rw [this, if_neg (by omega), if_neg (by omega), show 2 + q - 2 = q by omega]
  · have := v2t 1 (by omega) (by omega)
    simpa using this
  · intro q hq
    have := v2t (2 + q) (by omega) (by omega)
    rw [this, if_neg (by omega), show 2 + q - 2 = q by omega]

/-- Two counted loops whose bodies agree position by position give the same result. -/
theorem forLoop_reindex {σ : Type} (lo1 lo2 : Nat) (b1 b2 : Nat → σ → σ) (n : Nat) (s : σ)
    (h : ∀ q, q < n → ∀ t, b1 (lo1 + q) t = b2 (lo2 + q) t) :
    forLoop lo1 b1 n s = forLoop lo2 b2 n s := by
  induction n with
  | zero => rfl
  | succ m ih =>
    rw [forLoop_succ, forLoop_succ, ih (fun q hq t => h q (by omega) t), h m (by omega)]

/-- Applying a row depends only on the diagonal, the pivot factor and the `n` entries of
the row, in their order. -/
theorem apply_row_congr (key : Nat → Option Nat) (cols1 cols2 : Nat → Nat)
    (vals1 vals2 : Nat → ℚ) (rtol : ℚ) (k : Nat) (d : ℚ) (lo1 lo2 n : Nat)
    (s : hypre_PilutSolverGlobals)
    (h : ∀ q, q < n → cols1 (lo1 + q) = cols2 (lo2 + q) ∧ vals1 (lo1 + q) = vals2 (lo2 + q)) :
    apply_row key cols1 vals1 rtol k d lo1 n s = apply_row key cols2 vals2 rtol k d lo2 n s := by
  unfold apply_row
  simp only
  split
  · rfl
  · apply forLoop_reindex
    intro q hq t
    obtain ⟨e1, e2⟩ := h q hq
    unfold fill_body
    rw [e1, e2]

/-- The entry `(o << 1) | 1` of `lr` is not local and names the offset `o`. -/
theorem remote_key (o : Nat) :
    IsLocal ((o <<< 1) ||| 1) = false ∧ StripLocal ((o <<< 1) ||| 1) = o := by
  have e1 : o <<< 1 = 2 ^ 1 * o := by rw [Nat.shiftLeft_eq, Nat.mul_comm]
  have e2 : 2 ^ 1 * o + 1 = 2 ^ 1 * o ||| 1 := Nat.mul_add_lt_is_or (by decide) o
  rw [e1, ← e2]
  unfold IsLocal StripLocal
  constructor
  · rw [decide_eq_false_iff_not]
    omega
  · omega

/-- The remote branch of one pass of the elimination loop of `ComputeRmat` on a record at
the offset `o` of the receive buffer whose index slots `[o, o+n+1]` and value slots
`[o+1, o+n+1]` hold the length `n + 1`, the row index `row`, the pivot factor `d` and the
`n` entries `cols/vals[lo .. lo+n)`. -/
theorem ComputeRmat_elim_step_remote (newperm newiperm : Nat → Nat) (rtol : ℚ)
    (ldu : FactorMatType) (cinfo : CommInfoType) (g : hypre_PilutSolverGlobals)
    (o n row : Nat) (d : ℚ) (cols : Nat → Nat) (vals : Nat → ℚ) (lo : Nat)
    (hkey : (ExtractMinLR g).1 = (o <<< 1) ||| 1)
    (h0 : cinfo.incolind (o + 0) = n + 1)
    (h1 : cinfo.incolind (o + 1) = row ∧ cinfo.invalues (o + 1) = d)
    (h2 : ∀ q, q < n → cinfo.incolind (o + (2 + q)) = cols (lo + q) ∧
      cinfo.invalues (o + (2 + q)) = vals (lo + q)) :
    ComputeRmat_elim_step newperm newiperm rtol ldu cinfo g =
      apply_row (ComputeRmat_key_remote g) cols vals rtol row d lo n (ExtractMinLR g).2 := by
  obtain ⟨k1, k2⟩ := remote_key o
  unfold ComputeRmat_elim_step
  simp only
  rw [hkey, k1, k2]
  have hf : ¬ (false = true) := by decide
  rw [if_neg hf]
  have e0 : o + 0 = o := rfl
  rw [e0] at h0
  rw [h1.1, h1.2, h0, show o + (n + 1) + 1 - (o + 2) = n by omega]
  apply apply_row_congr
  intro q hq
  have := h2 q hq
  rw [show o + 2 + q = o + (2 + q) by omega]
  exact this


/-- C33 fails as stated. On PE 0 the record of the row 9 packed by PE 1 (length 2, row 9,
`D = 1`, one `U` entry: column 8 with the value 3) is placed at the offset `o = 0` of the
receive buffer `exCir`, `map[9] = (0 << 1) | 1` and this entry is the pending one. The
buffer `exCirShort` has the same content in every index slot but the slot `o` and in every
value slot, yet the pass of the elimination loop gives another workspace on it (no fill
entry instead of one): the index slot at `o`, which holds the length, is read. -/
theorem pack_unpack_length_slot_counterexample :
    ((∀ r, r ≤ 2 → exCir.incolind (0 + r) =
        (SendFactoredRows_pack_colind exLdur (arr 0 [1, 0]) 1 exGsnd (fun _ => 0)).2
          (0 * (exGsnd.global_maxnz + 2) + r)) ∧
      (∀ r, 1 ≤ r → r ≤ 2 → exCir.invalues (0 + r) =
        (SendFactoredRows_pack_values exLdur (arr 0 [1, 0]) 1 exGsnd (fun _ => 0)).2
          (0 * (exGsnd.global_maxnz + 2) + r)) ∧
      exGseed.map 9 = (0 <<< 1) ||| 1 ∧ (ExtractMinLR exGseed).1 = exGseed.map 9) ∧
    ((∀ l, 1 ≤ l → exCirShort.incolind l = exCir.incolind l) ∧
      exCirShort.invalues = exCir.invalues) ∧
    (ComputeRmat_elim_step (arr 0 [1, 0]) (arr 0 [1, 0]) 1 exLdul exCir exGseed).lastjr = 4 ∧
    (ComputeRmat_elim_step (arr 0 [1, 0]) (arr 0 [1, 0]) 1 exLdul exCirShort exGseed).lastjr
      = 3 :=
  ⟨by decide, ⟨fun l hl => upd_other _ _ _ _ (by omega), rfl⟩,
   by with_unfolding_all decide, by with_unfolding_all decide⟩

/-- C33 (amended). Pack/unpack round trip. Let the `t`-th row of the set of the sending PE,
`kk = newperm[ndone + t]`, have a `U` part of `n <= maxnz` entries; let the index slots
`[o, o+n+1]` and the value slots `[o+1, o+n+1]` of the receive buffer hold what
`SendFactoredRows` packed for this row, let `map` of the row be `(o << 1) | 1` and let this
be the entry that `ExtractMinLR` returns. Then the pass of the elimination loop of
`ComputeRmat` takes the remote branch, reads the global index of the row as the row index
and `dvalues[kk]` as the pivot factor, and is the application of the `n` entries of the `U`
part of the row in their order. It reads no index slot outside `[o, o+n+1]` (the slot `o`
holds the length) and no value slot outside `[o+1, o+n+1]`, so never the value slot at
`o`: a buffer with the same content in these slots gives the same result. -/
theorem pack_unpack_round_trip (lduS : FactorMatType) (newpermS : Nat → Nat) (nmis : Nat)
    (gS : hypre_PilutSolverGlobals) (sgatherbuf : Nat → Nat) (dgatherbuf : Nat → ℚ)
    (t kk n : Nat) (newperm newiperm : Nat → Nat) (rtol : ℚ) (ldu : FactorMatType)
    (cinfo : CommInfoType) (g : hypre_PilutSolverGlobals) (o : Nat)
    (ht : t < nmis) (hkk : kk = newpermS (gS.ndone + t))
    (hn : n = lduS.uerowptr kk - lduS.usrowptr kk) (hfit : n ≤ gS.global_maxnz)
    (hcol : ∀ r, r ≤ n + 1 → cinfo.incolind (o + r) =
      (SendFactoredRows_pack_colind lduS newpermS nmis gS sgatherbuf).2
        (t * (gS.global_maxnz + 2) + r))
    (hval : ∀ r, 1 ≤ r → r ≤ n + 1 → cinfo.invalues (o + r) =
      (SendFactoredRows_pack_values lduS newpermS nmis gS dgatherbuf).2
        (t * (gS.global_maxnz + 2) + r))
    (hmap : g.map (kk + gS.firstrow) = (o <<< 1) ||| 1)
    (hkey : (ExtractMinLR g).1 = g.map (kk + gS.firstrow)) :
    IsLocal (ExtractMinLR g).1 = false ∧
    cinfo.incolind (StripLocal (ExtractMinLR g).1 + 1) = kk + gS.firstrow ∧
    cinfo.invalues (StripLocal (ExtractMinLR g).1 + 1) = lduS.dvalues kk ∧
    ComputeRmat_elim_step newperm newiperm rtol ldu cinfo g =
      apply_row (ComputeRmat_key_remote g) lduS.ucolind lduS.uvalues rtol
        (kk + gS.firstrow) (lduS.dvalues kk) (lduS.usrowptr kk) n (ExtractMinLR g).2 ∧
    ∀ cinfo2 : CommInfoType,
      (∀ r, r ≤ n + 1 → cinfo2.incolind (o + r) = cinfo.incolind (o + r)) →
      (∀ r, 1 ≤ r → r ≤ n + 1 → cinfo2.invalues (o + r) = cinfo.invalues (o + r)) →
      ComputeRmat_elim_step newperm newiperm rtol ldu cinfo2 g =
        ComputeRmat_elim_step newperm newiperm rtol ldu cinfo g := by
  subst hkk
  subst hn
  obtain ⟨p0, p1, p2, p3, p4⟩ := SendFactoredRows_pack_record lduS newpermS nmis gS sgatherbuf
    dgatherbuf t ht hfit
  have hk2 : (ExtractMinLR g).1 = (o <<< 1) ||| 1 := hkey.trans hmap
  obtain ⟨k1, k2⟩ := remote_key o
  have hstep : ∀ ci : CommInfoType,
      (∀ r, r ≤ lduS.uerowptr (newpermS (gS.ndone + t)) -
          lduS.usrowptr (newpermS (gS.ndone + t)) + 1 →
        ci.incolind (o + r) = cinfo.incolind (o + r)) →
      (∀ r, 1 ≤ r → r ≤ lduS.uerowptr (newpermS (gS.ndone + t)) -
          lduS.usrowptr (newpermS (gS.ndone + t)) + 1 →
        ci.invalues (o + r) = cinfo.invalues (o + r)) →
      ComputeRmat_elim_step newperm newiperm rtol ldu ci g =
        apply_row (ComputeRmat_key_remote g) lduS.ucolind lduS.uvalues rtol
          (newpermS (gS.ndone + t) + gS.firstrow) (lduS.dvalues (newpermS (gS.ndone + t)))
          (lduS.usrowptr (newpermS (gS.ndone + t)))
          (lduS.uerowptr (newpermS (gS.ndone + t)) - lduS.usrowptr (newpermS (gS.ndone + t)))
          (ExtractMinLR g).2 := by
    intro ci c1 c2
    apply ComputeRmat_elim_step_remote newperm newiperm rtol ldu ci g o _ _ _ _ _ _ hk2
    · rw [c1 0 (by omega), hcol 0 (by omega), p0]
    · constructor
      · rw [c1 1 (by omega), hcol 1 (by omega), p1]
      · rw [c2 1 (by omega) (by omega), hval 1 (by omega) (by omega), p3]
    · intro q hq
      constructor
      · rw [c1 (2 + q) (by omega), hcol (2 + q) (by omega), p2 q hq]
      · rw [c2 (2 + q) (by omega) (by omega), hval (2 + q) (by omega) (by omega), p4 q hq]
  refine ⟨by rw [hk2]; exact k1, ?_, ?_, hstep cinfo (fun _ _ => rfl) (fun _ _ _ => rfl), ?_⟩
  · rw [hk2, k2, hcol 1 (by omega), p1]
  · rw [hk2, k2, hval 1 (by omega) (by omega), p3]
  · intro cinfo2 c1 c2
    rw [hstep cinfo2 c1 c2, hstep cinfo (fun _ _ => rfl) (fun _ _ _ => rfl)]

/-- Instance of C33 (amended): the record of the row 9 sent by PE 1 at the offset 0 of the
receive buffer of PE 0. -/
theorem pack_unpack_round_trip_witness :
    ((0 < 1 ∧ 1 = (arr 0 [1, 0]) (exGsnd.ndone + 0) ∧
        1 = exLdur.uerowptr 1 - exLdur.usrowptr 1 ∧ 1 ≤ exGsnd.global_maxnz) ∧
      (∀ r, r ≤ 1 + 1 → exCir.incolind (0 + r) =
        (SendFactoredRows_pack_colind exLdur (arr 0 [1, 0]) 1 exGsnd (fun _ => 0)).2
          (0 * (exGsnd.global_maxnz + 2) + r)) ∧
      (∀ r, 1 ≤ r → r ≤ 1 + 1 → exCir.invalues (0 + r) =
        (SendFactoredRows_pack_values exLdur (arr 0 [1, 0]) 1 exGsnd (fun _ => 0)).2
          (0 * (exGsnd.global_maxnz + 2) + r)) ∧
      exGseed.map (1 + exGsnd.firstrow) = (0 <<< 1) ||| 1 ∧
      (ExtractMinLR exGseed).1 = exGseed.map (1 + exGsnd.firstrow)) ∧
    ComputeRmat_elim_step (arr 0 [1, 0]) (arr 0 [1, 0]) 1 exLdul exCir exGseed =
      apply_row (ComputeRmat_key_remote exGseed) exLdur.ucolind exLdur.uvalues 1
        (1 + exGsnd.firstrow) (exLdur.dvalues 1) (exLdur.usrowptr 1) 1
        (ExtractMinLR exGseed).2 :=
  ⟨by decide,
   (pack_unpack_round_trip exLdur (arr 0 [1, 0]) 1 exGsnd (fun _ => 0) (fun _ => 0) 0 1 1
      (arr 0 [1, 0]) (arr 0 [1, 0]) 1 exLdul exCir exGseed 0
      (by decide) (by decide) (by decide) (by decide) (by decide) (by decide) (by decide)
      (by decide)).2.2.2.1⟩


/-! ## The order of elimination in FactorLocal -/

/-- The entry that `ExtractMinLR` returns is a smallest pending entry, and the pending list
is the old one without it. -/
theorem ExtractMinLR_spec (g : hypre_PilutSolverGlobals) (h : g.lastlr ≠ 0) :
    (ExtractMinLR g).1 ∈ slice g.lr 0 g.lastlr ∧
    (∀ x ∈ slice g.lr 0 g.lastlr, (ExtractMinLR g).1 ≤ x) ∧
    List.Perm (slice g.lr 0 g.lastlr)
      ((ExtractMinLR g).1 :: slice (ExtractMinLR g).2.lr 0 (ExtractMinLR g).2.lastlr) ∧
    (ExtractMinLR g).2.lastlr = g.lastlr - 1 := by
  have key := forLoop_inv
    (fun n (m : Nat) => m < 1 + n ∧ ∀ j, j < 1 + n → g.lr m ≤ g.lr j) 1
    (fun j m => if g.lr j < g.lr m then j else m) (g.lastlr - 1) 0
    ⟨by omega, by
      intro j hj
      have : j = 0 := by omega
      rw [this]⟩
    (by
      intro n m _ ⟨i1, i2⟩
      by_cases hc : g.lr (1 + n) < g.lr m
      · simp only [hc, if_true]
        refine ⟨by omega, ?_⟩
        intro j hj
        by_cases hjn : j = 1 + n
        · rw [hjn]
        · exact le_trans (le_of_lt hc) (i2 j (by omega))
      · simp only [hc, if_false]
        refine ⟨by omega, ?_⟩
        intro j hj
        by_cases hjn : j = 1 + n
        · rw [hjn]; exact not_lt.mp hc
        · exact i2 j (by omega))
  beta_reduce at key
  have e : 1 + (g.lastlr - 1) = g.lastlr := by omega
  rw [e] at key
  obtain ⟨m1, m2⟩ := key
  generalize hmin : forLoop 1 (fun j m => if g.lr j < g.lr m then j else m)
    (g.lastlr - 1) 0 = mn at m1 m2
  have h1 : (ExtractMinLR g).1 = g.lr mn := by
    unfold ExtractMinLR
    simp only [hmin]
  have h2 : (ExtractMinLR g).2.lr = upd g.lr mn (g.lr (g.lastlr - 1)) := by
    unfold ExtractMinLR
    simp only [hmin]
  have h3 : (ExtractMinLR g).2.lastlr = g.lastlr - 1 := rfl
  rw [h1, h2, h3]
  refine ⟨?_, ?_, ?_, rfl⟩
  · rw [mem_slice]
    exact ⟨mn, by omega, by omega, rfl⟩
  · intro x hx
    rw [mem_slice] at hx
    obtain ⟨j, _, j2, j3⟩ := hx
    rw [← j3]
    exact m2 j (by omega)
  · have := slice_swap_out g.lr 0 (g.lastlr - 1) mn (by omega) (by omega)
    rw [show g.lastlr - 1 + 1 = g.lastlr by omega, Nat.zero_add] at this
    exact this

theorem lr_push_pend (key : Option Nat) (s : hypre_PilutSolverGlobals) :
    slice (lr_push key s).lr 0 (lr_push key s).lastlr =
      slice s.lr 0 s.lastlr ++ key.toList := by
  cases key with
  | none => simp [lr_push]
  | some v =>
    show slice (upd s.lr s.lastlr v) 0 (s.lastlr + 1) = slice s.lr 0 s.lastlr ++ [v]
    exact slice_push s.lr s.lastlr v

theorem filterMap_singleton_toList {α β : Type} (f : α → Option β) (a : α) :
    List.filterMap f [a] = (f a).toList := by
  cases h : f a <;> simp [List.filterMap_cons, h]

theorem FactorLocal_key_env (s g : hypre_PilutSolverGlobals) (diag : Nat)
    (newiperm : Nat → Nat) (h : Env s = Env g) :
    FactorLocal_key s diag newiperm = FactorLocal_key g diag newiperm := by
  obtain ⟨_, _, e3, e4, _⟩ := Env_map s g h
  funext c
  unfold FactorLocal_key
  rw [e3, e4]

theorem FactorLocal_key_some (g : hypre_PilutSolverGlobals) (diag : Nat)
    (newiperm : Nat → Nat) (c k : Nat) :
    FactorLocal_key g diag newiperm c = some k ↔
      (c ≥ g.firstrow ∧ c < g.lastrow ∧ newiperm (c - g.firstrow) < diag) ∧
      k = newiperm (c - g.firstrow) := by
  unfold FactorLocal_key
  split
  · rename_i h
    constructor
    · intro e
      exact ⟨h, (Option.some.inj e).symm⟩
    · intro e
      rw [e.2]
  · rename_i h
    constructor
    · intro e
      exact absurd e (by simp)
    · intro e
      exact absurd e.1 h

/-- The seeding loop leaves in `lr` the keys of the columns `1 .. n` of the row, in their
order. -/
theorem seed_loop_pending (key : Nat → Option Nat) (rcolind : Nat → Nat)
    (rvalues : Nat → ℚ) (s0 : hypre_PilutSolverGlobals) (h0 : s0.lastlr = 0) (n : Nat) :
    slice (forLoop 1 (seed_body key rcolind rvalues) n s0).lr 0
        (forLoop 1 (seed_body key rcolind rvalues) n s0).lastlr =
      (slice rcolind 1 n).filterMap key := by
  induction n with
  | zero =>
    simp only [forLoop_zero, h0]
    rfl
  | succ m ih =>
    rw [forLoop_succ]
    generalize forLoop 1 (seed_body key rcolind rvalues) m s0 = t at ih
    show slice (lr_push (key (rcolind (1 + m))) t).lr 0
      (lr_push (key (rcolind (1 + m))) t).lastlr = _
    rw [lr_push_pend, ih, slice_succ, List.filterMap_append, filterMap_singleton_toList]

theorem seed_row_pending (key : Nat → Option Nat) (nnz : Nat) (rcolind : Nat → Nat)
    (rvalues : Nat → ℚ) (g : hypre_PilutSolverGlobals) :
    slice (seed_row key nnz rcolind rvalues g).lr 0
        (seed_row key nnz rcolind rvalues g).lastlr =
      (slice (seed_row key nnz rcolind rvalues g).jw 1
        ((seed_row key nnz rcolind rvalues g).lastjr - 1)).filterMap key := by
  have h1 := seed_loop_pending key rcolind rvalues
    { g with jr := upd g.jr (rcolind 0) 0, jw := upd g.jw 0 (rcolind 0),
             w := upd g.w 0 (rvalues 0), lastlr := 0 } rfl (nnz - 1)
  obtain ⟨i1, _⟩ := seed_loop_jr key rcolind rvalues
    { g with jr := upd g.jr (rcolind 0) 0, jw := upd g.jw 0 (rcolind 0),
             w := upd g.w 0 (rvalues 0), lastlr := 0 }
    (rcolind 0) (by simp only [upd_same]) (fun h => absurd rfl h) (nnz - 1)
  have hl : max 1 nnz - 1 = nnz - 1 := by omega
  simp only [seed_row, hl]
  rw [h1]
  congr 1
  apply slice_congr
  intro i hi1 hi2
  exact (i1 i (by omega)).symm

/-- One pass over an entry of the row that is applied: the pending entries gain the key of
the column that enters the workspace, if it has one. -/
theorem fill_body_pending (key : Nat → Option Nat) (cols : Nat → Nat) (vals : Nat → ℚ)
    (mult rtol : ℚ) (l : Nat) (s : hypre_PilutSolverGlobals) (E : List Nat) (m : Nat)
    (hkey : ∀ k, key (cols l) = some k → m < k)
    (h : 1 ≤ s.lastjr ∧
      List.Perm (slice s.lr 0 s.lastlr ++ E) ((slice s.jw 1 (s.lastjr - 1)).filterMap key) ∧
      ∀ p ∈ slice s.lr 0 s.lastlr, m < p) :
    1 ≤ (fill_body key cols vals mult rtol l s).lastjr ∧
    List.Perm
      (slice (fill_body key cols vals mult rtol l s).lr 0
        (fill_body key cols vals mult rtol l s).lastlr ++ E)
      ((slice (fill_body key cols vals mult rtol l s).jw 1
        ((fill_body key cols vals mult rtol l s).lastjr - 1)).filterMap key) ∧
    ∀ p ∈ slice (fill_body key cols vals mult rtol l s).lr 0
        (fill_body key cols vals mult rtol l s).lastlr, m < p := by
  obtain ⟨h1, h2, h3⟩ := h
  unfold fill_body
  by_cases hm : s.jr (cols l) = -1
  · simp only [hm, if_true]
    by_cases hsmall : fabs (mult * vals l) < rtol
    · simp only [hsmall, if_true]
      exact ⟨h1, h2, h3⟩
    · simp only [hsmall, if_false]
      obtain ⟨_, e2, _, e4⟩ := lr_push_fields (key (cols l)) s
      have hp := lr_push_pend (key (cols l)) s
      refine ⟨by omega, ?_, ?_⟩
      · show List.Perm (slice (lr_push (key (cols l)) s).lr 0
          (lr_push (key (cols l)) s).lastlr ++ E) _
        rw [hp, e2, e4, show s.lastjr + 1 - 1 = (s.lastjr - 1) + 1 by omega, slice_succ,
          List.filterMap_append, filterMap_singleton_toList,
          show 1 + (s.lastjr - 1) = s.lastjr by omega, upd_same]
        have hc : slice (upd s.jw s.lastjr (cols l)) 1 (s.lastjr - 1) =
            slice s.jw 1 (s.lastjr - 1) := by
          apply slice_congr
          intro i _ hi
          exact upd_other _ _ _ _ (by omega)
        rw [hc]
        refine List.Perm.trans ?_ (List.Perm.append_right _ h2)
        rw [List.append_assoc, List.append_assoc]
        exact List.Perm.append_left _ List.perm_append_comm
      · intro p hpm
        have hpm2 : p ∈ slice (lr_push (key (cols l)) s).lr 0
            (lr_push (key (cols l)) s).lastlr := hpm
        rw [hp, List.mem_append] at hpm2
        rcases hpm2 with a | a
        · exact h3 p a
        · apply hkey p
          cases hk : key (cols l) with
          | none => rw [hk] at a; simp at a
          | some v =>
            rw [hk] at a
            simp at a
            rw [a]
  · simp only [hm, if_false]
    exact ⟨h1, h2, h3⟩

theorem fill_loop_pending (key : Nat → Option Nat) (cols : Nat → Nat) (vals : Nat → ℚ)
    (mult rtol : ℚ) (lo n : Nat) (s : hypre_PilutSolverGlobals) (E : List Nat) (m : Nat)
    (hkey : ∀ l, lo ≤ l → l < lo + n → ∀ k, key (cols l) = some k → m < k)
    (h : 1 ≤ s.lastjr ∧
      List.Perm (slice s.lr 0 s.lastlr ++ E) ((slice s.jw 1 (s.lastjr - 1)).filterMap key) ∧
      ∀ p ∈ slice s.lr 0 s.lastlr, m < p) :
    1 ≤ (forLoop lo (fill_body key cols vals mult rtol) n s).lastjr ∧
    List.Perm
      (slice (forLoop lo (fill_body key cols vals mult rtol) n s).lr 0
        (forLoop lo (fill_body key cols vals mult rtol) n s).lastlr ++ E)
      ((slice (forLoop lo (fill_body key cols vals mult rtol) n s).jw 1
        ((forLoop lo (fill_body key cols vals mult rtol) n s).lastjr - 1)).filterMap key) ∧
    ∀ p ∈ slice (forLoop lo (fill_body key cols vals mult rtol) n s).lr 0
        (forLoop lo (fill_body key cols vals mult rtol) n s).lastlr, m < p :=
  forLoop_inv
    (fun _ t => 1 ≤ t.lastjr ∧
      List.Perm (slice t.lr 0 t.lastlr ++ E) ((slice t.jw 1 (t.lastjr - 1)).filterMap key) ∧
      ∀ p ∈ slice t.lr 0 t.lastlr, m < p) lo
    (fill_body key cols vals mult rtol) n s h
    (fun q t hq ht => fill_body_pending key cols vals mult rtol (lo + q) t E m
      (hkey (lo + q) (by omega) (by omega)) ht)


/-- Every entry that has entered `lr` is less than `diag`. -/
theorem PendInv_lt (g : hypre_PilutSolverGlobals) (diag : Nat) (newiperm : Nat → Nat)
    (s : hypre_PilutSolverGlobals) (E : List Nat) (h : PendInv g diag newiperm s E) :
    ∀ k ∈ slice s.lr 0 s.lastlr ++ E, k < diag := by
  intro k hk
  have hk2 := h.2.2.2.1.subset hk
  rw [List.mem_filterMap] at hk2
  obtain ⟨c, _, hc⟩ := hk2
  obtain ⟨⟨_, _, c3⟩, c4⟩ := (FactorLocal_key_some g diag newiperm c k).mp hc
  rw [c4]
  exact c3

/-- The entries that have entered `lr` are pairwise distinct. -/
theorem PendInv_nodup (g : hypre_PilutSolverGlobals) (diag : Nat) (newperm newiperm : Nat → Nat)
    (s : hypre_PilutSolverGlobals) (E : List Nat)
    (hshape : g.lastrow = g.firstrow + g.lnrows) (hperm : PermInv g.lnrows newperm newiperm)
    (h : PendInv g diag newiperm s E) :
    (slice s.lr 0 s.lastlr ++ E).Nodup := by
  obtain ⟨hW, hl, _, hp, _, _⟩ := h
  rw [hp.nodup_iff]
  apply List.Nodup.filterMap
  · intro a a2 b hb hb2
    obtain ⟨⟨a1, a3, _⟩, a4⟩ := (FactorLocal_key_some g diag newiperm a b).mp hb
    obtain ⟨⟨b1, b3, _⟩, b4⟩ := (FactorLocal_key_some g diag newiperm a2 b).mp hb2
    have e1 := (hperm.2 (a - g.firstrow) (by omega)).2
    have e2 := (hperm.2 (a2 - g.firstrow) (by omega)).2
    rw [← a4] at e1
    rw [← b4] at e2
    omega
  · rw [nodup_slice_iff]
    intro i j i1 i2 j1 j2 heq
    have e1 := hW.1 i (by omega)
    have e2 := hW.1 j (by omega)
    rw [heq, e2] at e1
    omega

theorem apply_row_pending (key : Nat → Option Nat) (cols : Nat → Nat) (vals : Nat → ℚ)
    (rtol : ℚ) (k : Nat) (dv : ℚ) (lo n : Nat) (s : hypre_PilutSolverGlobals)
    (E : List Nat) (m : Nat)
    (hkey : ∀ l, lo ≤ l → l < lo + n → ∀ k, key (cols l) = some k → m < k)
    (h : 1 ≤ s.lastjr ∧
      List.Perm (slice s.lr 0 s.lastlr ++ E) ((slice s.jw 1 (s.lastjr - 1)).filterMap key) ∧
      ∀ p ∈ slice s.lr 0 s.lastlr, m < p) :
    1 ≤ (apply_row key cols vals rtol k dv lo n s).lastjr ∧
    List.Perm
      (slice (apply_row key cols vals rtol k dv lo n s).lr 0
        (apply_row key cols vals rtol k dv lo n s).lastlr ++ E)
      ((slice (apply_row key cols vals rtol k dv lo n s).jw 1
        ((apply_row key cols vals rtol k dv lo n s).lastjr - 1)).filterMap key) ∧
    ∀ p ∈ slice (apply_row key cols vals rtol k dv lo n s).lr 0
        (apply_row key cols vals rtol k dv lo n s).lastlr, m < p := by
  unfold apply_row
  simp only
  split
  · exact h
  · exact fill_loop_pending key cols vals _ rtol lo n _ E m hkey h

/-- One pass of the elimination loop of `FactorLocal` keeps the invariant of the pending
list, the extracted entry being added to the entries extracted so far. -/
theorem FactorLocal_elim_step_pend (diag : Nat) (newperm newiperm : Nat → Nat) (rtol : ℚ)
    (ldu : FactorMatType) (g s : hypre_PilutSolverGlobals) (E : List Nat)
    (hshape : g.lastrow = g.firstrow + g.lnrows) (hperm : PermInv g.lnrows newperm newiperm)
    (hdiag : diag ≤ g.lnrows)
    (hU : ∀ kk, kk < g.lnrows → newiperm kk < diag →
      ∀ l, ldu.usrowptr kk ≤ l → l < ldu.uerowptr kk →
        g.firstrow ≤ ldu.ucolind l → ldu.ucolind l < g.lastrow →
        newiperm kk < newiperm (ldu.ucolind l - g.firstrow))
    (h : PendInv g diag newiperm s E) (hl : s.lastlr ≠ 0) :
    PendInv g diag newiperm (FactorLocal_elim_step diag newperm newiperm rtol ldu s)
      (E ++ [(ExtractMinLR s).1]) := by
  have hlt := PendInv_lt g diag newiperm s E h
  have hnd := PendInv_nodup g diag newperm newiperm s E hshape hperm h
  obtain ⟨hW, h1, henv, hp, hpw, hord⟩ := h
  obtain ⟨x1, x2, x3, _⟩ := ExtractMinLR_spec s hl
  obtain ⟨w1, w2, _⟩ := FactorLocal_elim_step_inv diag newperm newiperm rtol ldu s (s.jw 0)
    ⟨hW, h1, rfl⟩
  obtain ⟨_, _, f3⟩ := FactorLocal_elim_step_frame diag newperm newiperm rtol ldu s g (s.jw 0)
    ⟨h1, rfl, henv⟩
  have hm_lt : (ExtractMinLR s).1 < diag := hlt _ (List.mem_append_left _ x1)
  have hnd2 : ((ExtractMinLR s).1 :: slice (ExtractMinLR s).2.lr 0
      (ExtractMinLR s).2.lastlr).Nodup :=
    (x3.nodup_iff).mp (List.Nodup.of_append_left hnd)
  have hbase : 1 ≤ (ExtractMinLR s).2.lastjr ∧
      List.Perm (slice (ExtractMinLR s).2.lr 0 (ExtractMinLR s).2.lastlr ++
          (E ++ [(ExtractMinLR s).1]))
        ((slice (ExtractMinLR s).2.jw 1 ((ExtractMinLR s).2.lastjr - 1)).filterMap
          (FactorLocal_key s diag newiperm)) ∧
      ∀ p ∈ slice (ExtractMinLR s).2.lr 0 (ExtractMinLR s).2.lastlr,
        (ExtractMinLR s).1 < p := by
    refine ⟨h1, ?_, ?_⟩
    · rw [FactorLocal_key_env s g diag newiperm henv]
      refine List.Perm.trans ?_ hp
      rw [← List.append_assoc]
      refine List.Perm.trans (List.perm_append_singleton _ _) ?_
      rw [← List.cons_append]
      exact List.Perm.append_right E x3.symm
    · intro p hpm
      have hle := x2 p (x3.symm.subset (List.mem_cons_of_mem _ hpm))
      have hne : p ≠ (ExtractMinLR s).1 := by
        intro heq
        rw [heq] at hpm
        exact (List.nodup_cons.mp hnd2).1 hpm
      omega
  have hkk := hperm.1 (ExtractMinLR s).1 (by omega)
  obtain ⟨_, _, e3, e4, _⟩ := Env_map s g henv
  have hkey : ∀ l, ldu.usrowptr (newperm (ExtractMinLR s).1) ≤ l →
      l < ldu.usrowptr (newperm (ExtractMinLR s).1) +
        (ldu.uerowptr (newperm (ExtractMinLR s).1) -
          ldu.usrowptr (newperm (ExtractMinLR s).1)) →
      ∀ k, FactorLocal_key s diag newiperm (ldu.ucolind l) = some k →
        (ExtractMinLR s).1 < k := by
    intro l l1 l2 k hk
    rw [FactorLocal_key_env s g diag newiperm henv] at hk
    obtain ⟨⟨c1, c2, _⟩, c4⟩ := (FactorLocal_key_some g diag newiperm _ k).mp hk
    have := hU (newperm (ExtractMinLR s).1) hkk.1 (by rw [hkk.2]; exact hm_lt) l l1
      (by omega) c1 c2
    rw [hkk.2] at this
    rw [c4]
    exact this
  have hap := apply_row_pending (FactorLocal_key s diag newiperm) ldu.ucolind ldu.uvalues rtol
    (newperm (ExtractMinLR s).1 + s.firstrow) (ldu.dvalues (newperm (ExtractMinLR s).1))
    (ldu.usrowptr (newperm (ExtractMinLR s).1))
    (ldu.uerowptr (newperm (ExtractMinLR s).1) - ldu.usrowptr (newperm (ExtractMinLR s).1))
    (ExtractMinLR s).2 (E ++ [(ExtractMinLR s).1]) (ExtractMinLR s).1 hkey hbase
  have hF : FactorLocal_elim_step diag newperm newiperm rtol ldu s =
      apply_row (FactorLocal_key s diag newiperm) ldu.ucolind ldu.uvalues rtol
        (newperm (ExtractMinLR s).1 + s.firstrow) (ldu.dvalues (newperm (ExtractMinLR s).1))
        (ldu.usrowptr (newperm (ExtractMinLR s).1))
        (ldu.uerowptr (newperm (ExtractMinLR s).1) -
          ldu.usrowptr (newperm (ExtractMinLR s).1)) (ExtractMinLR s).2 := rfl
  rw [← hF, FactorLocal_key_env s g diag newiperm henv] at hap
  obtain ⟨_, a2, a3⟩ := hap
  refine ⟨w1, w2, f3, a2, ?_, ?_⟩
  · rw [List.pairwise_append]
    refine ⟨hpw, List.pairwise_singleton _ _, ?_⟩
    intro a ha b hb
    rw [List.mem_singleton] at hb
    rw [hb]
    exact hord a ha _ x1
  · intro e he p hpm
    have hmp := a3 p hpm
    rw [List.mem_append] at he
    rcases he with he | he
    · have := hord e he _ x1
      omega
    · rw [List.mem_singleton] at he
      rw [he]
      exact hmp

/-- The elimination loop of `FactorLocal` keeps the invariant of the pending list. -/
theorem FactorLocal_elim_loop_pend (diag : Nat) (newperm newiperm : Nat → Nat) (rtol : ℚ)
    (ldu : FactorMatType) (g : hypre_PilutSolverGlobals)
    (hshape : g.lastrow = g.firstrow + g.lnrows) (hperm : PermInv g.lnrows newperm newiperm)
    (hdiag : diag ≤ g.lnrows)
    (hU : ∀ kk, kk < g.lnrows → newiperm kk < diag →
      ∀ l, ldu.usrowptr kk ≤ l → l < ldu.uerowptr kk →
        g.firstrow ≤ ldu.ucolind l → ldu.ucolind l < g.lastrow →
        newiperm kk < newiperm (ldu.ucolind l - g.firstrow)) :
    ∀ n s E, PendInv g diag newiperm s E →
      PendInv g diag newiperm
        (elim_loop (FactorLocal_elim_step diag newperm newiperm rtol ldu) n s)
        (E ++ elim_keys (FactorLocal_elim_step diag newperm newiperm rtol ldu) n s) := by
  intro n
  induction n with
  | zero =>
    intro s E h
    show PendInv g diag newiperm s (E ++ [])
    rw [List.append_nil]
    exact h
  | succ m ih =>
    intro s E h
    unfold elim_loop elim_keys
    by_cases hl : s.lastlr ≠ 0
    · rw [if_pos hl, if_pos hl]
      have h2 := FactorLocal_elim_step_pend diag newperm newiperm rtol ldu g s E hshape hperm
        hdiag hU h hl
      have h3 := ih _ _ h2
      rw [List.append_assoc] at h3
      exact h3
    · rw [if_neg hl, if_neg hl, List.append_nil]
      exact h

theorem elim_keys_length (step : hypre_PilutSolverGlobals → hypre_PilutSolverGlobals) :
    ∀ n s, (elim_loop step n s).lastlr ≠ 0 → (elim_keys step (n + 1) s).length = n + 1 := by
  intro n
  induction n with
  | zero =>
    intro s h
    have h2 : s.lastlr ≠ 0 := h
    unfold elim_keys
    rw [if_pos h2]
    rfl
  | succ m ih =>
    intro s h
    unfold elim_loop at h
    by_cases hl : s.lastlr ≠ 0
    · rw [if_pos hl] at h
      have := ih (step s) h
      rw [show elim_keys step (m + 1 + 1) s =
        (ExtractMinLR s).1 :: elim_keys step (m + 1) (step s) by
          conv => lhs; unfold elim_keys
          rw [if_pos hl]]
      rw [List.length_cons, this]
    · rw [if_neg hl] at h
      exact absurd h hl

/-- A strictly increasing list of numbers below `d` has at most `d` entries. -/
theorem length_le_of_increasing (l : List Nat) (d : Nat)
    (h1 : l.Pairwise (fun a b => a < b)) (h2 : ∀ x ∈ l, x < d) : l.length ≤ d := by
  have hnd : l.Nodup := h1.imp (fun h => Nat.ne_of_lt h)
  have hsub : l ⊆ List.range d := fun x hx => List.mem_range.mpr (h2 x hx)
  have := (List.subperm_of_subset hnd hsub).length_le
  rw [List.length_range] at this
  exact this


/-- C31. Ordering in `FactorLocal`. While the row with the new index `diag` is formed (from
a clean `jr`, a seeded row with pairwise distinct columns, `newperm`/`newiperm` inverse
permutations of the local rows, `diag <= lnrows`), a column has an entry for `lr` iff it is
local and its new index is less than `diag`; after every number `n` of passes the pending
entries together with the entries extracted so far are the new indices of exactly these
columns among the columns `[1, lastjr)` of the workspace. With `ExtractMinLR` returning the
smallest pending entry, and the `U` part of every row with a new index below `diag`
holding no local column whose new index is less than or equal to its own: the extracted
entries are strictly increasing in the order of extraction and less than `diag`, every
pending entry is greater than every extracted one, the rows processed are pairwise
different, and the loop has ended after `diag` passes. -/
theorem FactorLocal_elimination_order (diag : Nat) (newperm newiperm : Nat → Nat) (rtol : ℚ)
    (ldu : FactorMatType) (nnz : Nat) (rcolind : Nat → Nat) (rvalues : Nat → ℚ)
    (g : hypre_PilutSolverGlobals)
    (hjr : ∀ c, g.jr c = -1) (hrow : InjOnRange rcolind 0 nnz)
    (hshape : g.lastrow = g.firstrow + g.lnrows) (hperm : PermInv g.lnrows newperm newiperm)
    (hdiag : diag ≤ g.lnrows)
    (hU : ∀ kk, kk < g.lnrows → newiperm kk < diag →
      ∀ l, ldu.usrowptr kk ≤ l → l < ldu.uerowptr kk →
        g.firstrow ≤ ldu.ucolind l → ldu.ucolind l < g.lastrow →
        newiperm kk < newiperm (ldu.ucolind l - g.firstrow)) :
    (∀ c, (∃ k, FactorLocal_key g diag newiperm c = some k) ↔
      (c ≥ g.firstrow ∧ c < g.lastrow ∧ newiperm (c - g.firstrow) < diag)) ∧
    (∀ n,
      List.Perm
        (slice (FactorLocal_form diag newperm newiperm rtol ldu nnz rcolind rvalues g n).lr 0
            (FactorLocal_form diag newperm newiperm rtol ldu nnz rcolind rvalues g n).lastlr ++
          elim_keys (FactorLocal_elim_step diag newperm newiperm rtol ldu) n
            (seed_row (FactorLocal_key g diag newiperm) nnz rcolind rvalues g))
        ((slice (FactorLocal_form diag newperm newiperm rtol ldu nnz rcolind rvalues g n).jw 1
            ((FactorLocal_form diag newperm newiperm rtol ldu nnz rcolind rvalues g n).lastjr
              - 1)).filterMap (FactorLocal_key g diag newiperm)) ∧
      (elim_keys (FactorLocal_elim_step diag newperm newiperm rtol ldu) n
        (seed_row (FactorLocal_key g diag newiperm) nnz rcolind rvalues g)).Pairwise
          (fun a b => a < b) ∧
      (∀ k ∈ elim_keys (FactorLocal_elim_step diag newperm newiperm rtol ldu) n
          (seed_row (FactorLocal_key g diag newiperm) nnz rcolind rvalues g), k < diag) ∧
      (∀ k ∈ elim_keys (FactorLocal_elim_step diag newperm newiperm rtol ldu) n
          (seed_row (FactorLocal_key g diag newiperm) nnz rcolind rvalues g),
        ∀ p ∈ slice
            (FactorLocal_form diag newperm newiperm rtol ldu nnz rcolind rvalues g n).lr 0
            (FactorLocal_form diag newperm newiperm rtol ldu nnz rcolind rvalues g n).lastlr,
          k < p) ∧
      ((elim_keys (FactorLocal_elim_step diag newperm newiperm rtol ldu) n
        (seed_row (FactorLocal_key g diag newiperm) nnz rcolind rvalues g)).map
          (fun k => newperm k + g.firstrow)).Nodup) ∧
    (FactorLocal_form diag newperm newiperm rtol ldu nnz rcolind rvalues g diag).lastlr = 0 := by
  have hseed : PendInv g diag newiperm
      (seed_row (FactorLocal_key g diag newiperm) nnz rcolind rvalues g) [] := by
    obtain ⟨s1, s2, _⟩ := seed_row_inv (FactorLocal_key g diag newiperm) nnz rcolind rvalues g
      hjr hrow
    obtain ⟨_, _, s3⟩ := seed_row_frame (FactorLocal_key g diag newiperm) nnz rcolind rvalues g
    refine ⟨s1, s2, s3, ?_, List.Pairwise.nil, fun e he => absurd he (List.not_mem_nil e)⟩
    rw [List.append_nil, seed_row_pending]
  have hall : ∀ n, PendInv g diag newiperm
      (FactorLocal_form diag newperm newiperm rtol ldu nnz rcolind rvalues g n)
      (elim_keys (FactorLocal_elim_step diag newperm newiperm rtol ldu) n
        (seed_row (FactorLocal_key g diag newiperm) nnz rcolind rvalues g)) := by
    intro n
    have := FactorLocal_elim_loop_pend diag newperm newiperm rtol ldu g hshape hperm hdiag hU
      n _ [] hseed
    rw [List.nil_append] at this
    exact this
  refine ⟨?_, ?_, ?_⟩
  · intro c
    constructor
    · rintro ⟨k, hk⟩
      exact ((FactorLocal_key_some g diag newiperm c k).mp hk).1
    · intro hc
      exact ⟨_, (FactorLocal_key_some g diag newiperm c _).mpr ⟨hc, rfl⟩⟩
  · intro n
    have h := hall n
    have hlt := PendInv_lt g diag newiperm _ _ h
    obtain ⟨_, _, _, hp, hpw, hord⟩ := h
    refine ⟨hp, hpw, fun k hk => hlt k (List.mem_append_right _ hk), hord, ?_⟩
    have hnd : (elim_keys (FactorLocal_elim_step diag newperm newiperm rtol ldu) n
        (seed_row (FactorLocal_key g diag newiperm) nnz rcolind rvalues g)).Nodup :=
      hpw.imp (fun h => Nat.ne_of_lt h)
    apply List.Nodup.map_on _ hnd
    intro a ha b hb heq
    have ea := (hperm.1 a (by have := hlt a (List.mem_append_right _ ha); omega)).2
    have eb := (hperm.1 b (by have := hlt b (List.mem_append_right _ hb); omega)).2
    have : newperm a = newperm b := by omega
    rw [this, eb] at ea
    exact ea.symm
  · by_contra hne
    have hlen := elim_keys_length (FactorLocal_elim_step diag newperm newiperm rtol ldu) diag
      (seed_row (FactorLocal_key g diag newiperm) nnz rcolind rvalues g) hne
    have h := hall (diag + 1)
    have hlt := PendInv_lt g diag newiperm _ _ h
    have hle := length_le_of_increasing _ diag h.2.2.2.2.1
      (fun k hk => hlt k (List.mem_append_right _ hk))
    omega

/-- Instance of C31: three local rows with the new indices 0, 1, 2; `FactorLocal` forms the
row 2 (columns `2, 0`); the row 0 is applied and creates the fill column 1, then the row 1 is
applied: the extracted entries are `0, 1`. -/
theorem FactorLocal_elimination_order_witness :
    (InjOnRange (arr 0 [2, 0]) 0 2 ∧ exG3.lastrow = exG3.firstrow + exG3.lnrows ∧
      PermInv exG3.lnrows id id ∧ 2 ≤ exG3.lnrows ∧
      (∀ kk, kk < exG3.lnrows → id kk < 2 →
        ∀ l, exLdu3.usrowptr kk ≤ l → l < exLdu3.uerowptr kk →
          exG3.firstrow ≤ exLdu3.ucolind l → exLdu3.ucolind l < exG3.lastrow →
          id kk < id (exLdu3.ucolind l - exG3.firstrow))) ∧
    elim_keys (FactorLocal_elim_step 2 id id 1 exLdu3) 2
      (seed_row (FactorLocal_key exG3 2 id) 2 (arr 0 [2, 0]) (arr 0 [4, 1]) exG3) = [0, 1] ∧
    (FactorLocal_form 2 id id 1 exLdu3 2 (arr 0 [2, 0]) (arr 0 [4, 1]) exG3 2).lastlr = 0 :=
  ⟨by decide, by with_unfolding_all decide,
   (FactorLocal_elimination_order 2 id id 1 exLdu3 2 (arr 0 [2, 0]) (arr 0 [4, 1]) exG3
      (fun _ => rfl) (by decide) (by decide) (by decide) (by decide) (by decide)).2.2⟩


/-! ## The L part across the levels -/

/-! ## The columns of the L part through one row -/

theorem mem_Lcols (ldu : FactorMatType) (i c : Nat) :
    c ∈ Lcols ldu i ↔ ∃ p, ldu.lsrowptr i ≤ p ∧ p < ldu.lerowptr i ∧ ldu.lcolind p = c := by
  unfold Lcols
  rw [mem_slice]
  constructor
  · rintro ⟨p, p1, p2, p3⟩
    exact ⟨p, p1, by omega, p3⟩
  · rintro ⟨p, p1, p2, p3⟩
    exact ⟨p, p1, by omega, p3⟩

/-- `UpdateL(lrow, last)` on an `L` row with room: the row stays within its room, every
column of it is an old column of the row or the column of one of the workspace entries
`[1, last)`, and nothing else of the `L` part changes. -/
theorem UpdateL_cols (lrow last : Nat) (ldu : FactorMatType) (g : hypre_PilutSolverGlobals)
    (hmax : 1 ≤ g.global_maxnz) (hs : ldu.lsrowptr lrow ≤ ldu.lerowptr lrow)
    (hle : ldu.lerowptr lrow ≤ ldu.lsrowptr lrow + g.global_maxnz) :
    (UpdateL lrow last ldu g).lsrowptr = ldu.lsrowptr ∧
    (∀ r, r ≠ lrow → (UpdateL lrow last ldu g).lerowptr r = ldu.lerowptr r) ∧
    ldu.lsrowptr lrow ≤ (UpdateL lrow last ldu g).lerowptr lrow ∧
    (UpdateL lrow last ldu g).lerowptr lrow ≤ ldu.lsrowptr lrow + g.global_maxnz ∧
    (∀ p, ¬ (ldu.lsrowptr lrow ≤ p ∧ p < ldu.lsrowptr lrow + g.global_maxnz) →
      (UpdateL lrow last ldu g).lcolind p = ldu.lcolind p) ∧
    (∀ c, c ∈ Lcols (UpdateL lrow last ldu g) lrow →
      c ∈ Lcols ldu lrow ∨ ∃ q, 1 ≤ q ∧ q < last ∧ g.jw q = c) := by
  obtain ⟨a1, a2, ⟨D, d1, _, _⟩, a4⟩ := UpdateL_loop_select g (ldu.lsrowptr lrow)
    { «end» := ldu.lerowptr lrow, lcolind := ldu.lcolind, lvalues := ldu.lvalues }
    hmax hs (by show ldu.lerowptr lrow - ldu.lsrowptr lrow ≤ g.global_maxnz; omega) (last - 1)
  have e1 : (UpdateL lrow last ldu g).lerowptr lrow =
      (forLoop 1 (UpdateL_body g (ldu.lsrowptr lrow)) (last - 1)
        { «end» := ldu.lerowptr lrow, lcolind := ldu.lcolind,
          lvalues := ldu.lvalues }).«end» := by
    simp only [UpdateL, upd_same]
  have e2 : (UpdateL lrow last ldu g).lcolind =
      (forLoop 1 (UpdateL_body g (ldu.lsrowptr lrow)) (last - 1)
        { «end» := ldu.lerowptr lrow, lcolind := ldu.lcolind,
          lvalues := ldu.lvalues }).lcolind := rfl
  have e3 : (UpdateL lrow last ldu g).lvalues =
      (forLoop 1 (UpdateL_body g (ldu.lsrowptr lrow)) (last - 1)
        { «end» := ldu.lerowptr lrow, lcolind := ldu.lcolind,
          lvalues := ldu.lvalues }).lvalues := rfl
  have e4 : (UpdateL lrow last ldu g).lsrowptr = ldu.lsrowptr := rfl
  generalize forLoop 1 (UpdateL_body g (ldu.lsrowptr lrow)) (last - 1)
    { «end» := ldu.lerowptr lrow, lcolind := ldu.lcolind, lvalues := ldu.lvalues } = t
    at a1 a2 d1 a4 e1 e2 e3
  simp only at a2 d1 a4
  refine ⟨e4, fun r hr => upd_other _ _ _ _ hr, ?_, ?_, ?_, ?_⟩
  · rw [e1]; exact a1
  · rw [e1]
    have := Nat.min_le_left g.global_maxnz (ldu.lerowptr lrow - ldu.lsrowptr lrow + (last - 1))
    omega
  · intro p hp
    rw [e2]
    exact (a4 p hp).1
  · intro c hc
    rw [mem_Lcols] at hc
    obtain ⟨p, p1, p2, p3⟩ := hc
    rw [e4] at p1
    rw [e1] at p2
    rw [e2] at p3
    have hmem : (t.lcolind p, t.lvalues p) ∈
        entries t.lcolind t.lvalues (ldu.lsrowptr lrow) t.«end» ++ D :=
      List.mem_append_left _ ((mem_entries _ _ _ _ _).mpr ⟨p, p1, p2, rfl⟩)
    have hmem2 := d1.subset hmem
    rw [List.mem_append] at hmem2
    rcases hmem2 with h | h
    · left
      obtain ⟨q, q1, q2, q3⟩ := (mem_entries _ _ _ _ _).mp h
      rw [mem_Lcols]
      refine ⟨q, q1, q2, ?_⟩
      rw [← p3]
      exact congrArg Prod.fst q3
    · right
      obtain ⟨q, q1, q2, q3⟩ := (mem_entries _ _ _ _ _).mp h
      refine ⟨q, q1, by omega, ?_⟩
      rw [← p3]
      exact congrArg Prod.fst q3

/-- `UpdateL(i, last)` keeps the room of the `L` rows, and keeps a property of the columns of
the `L` parts that the columns of the workspace entries `[1, last)` have for the row `i`. -/
theorem UpdateL_sat (i last lnrows : Nat) (ldu : FactorMatType) (g : hypre_PilutSolverGlobals)
    (Q : Nat → Nat → Prop) (hmax : 1 ≤ g.global_maxnz) (hi : i < lnrows)
    (hroom : LRoom g.global_maxnz lnrows ldu) (hsat : LColsSat lnrows Q ldu)
    (hQ : ∀ q, 1 ≤ q → q < last → Q i (g.jw q)) :
    LRoom g.global_maxnz lnrows (UpdateL i last ldu g) ∧
    LColsSat lnrows Q (UpdateL i last ldu g) := by
  obtain ⟨r1, r2⟩ := hroom
  obtain ⟨u1, u2, u3, u4, u5, u6⟩ := UpdateL_cols i last ldu g hmax (r1 i hi).1 (r1 i hi).2
  have hother : ∀ r, r < lnrows → r ≠ i →
      Lcols (UpdateL i last ldu g) r = Lcols ldu r := by
    intro r hr hne
    unfold Lcols
    rw [u1, u2 r hne]
    apply slice_congr
    intro p p1 p2
    have hb := (r1 r hr)
    have hd := r2 r hr i hi hne
    exact u5 p (by omega)
  refine ⟨⟨?_, ?_⟩, ?_⟩
  · intro r hr
    rw [u1]
    by_cases hne : r = i
    · rw [hne]; exact ⟨u3, u4⟩
    · rw [u2 r hne]; exact r1 r hr
  · intro a ha b hb hab
    rw [u1]
    exact r2 a ha b hb hab
  · intro r hr c hc
    by_cases hne : r = i
    · rw [hne] at hc ⊢
      rcases u6 c hc with h | ⟨q, q1, q2, q3⟩
      · exact hsat i hi c h
      · rw [← q3]; exact hQ q q1 q2
    · rw [hother r hr hne] at hc
      exact hsat r hr c hc

/-- The workspace of `FactorLocal` after the seeding and any number of passes of the
elimination loop holds the diagonal of the row at position 0, and everything but the
workspace is as before the row. -/
theorem FactorLocal_form_frame (diag : Nat) (newperm newiperm : Nat → Nat) (rtol : ℚ)
    (ldu : FactorMatType) (nnz : Nat) (rcolind : Nat → Nat) (rvalues : Nat → ℚ)
    (g : hypre_PilutSolverGlobals) (n : Nat) :
    1 ≤ (FactorLocal_form diag newperm newiperm rtol ldu nnz rcolind rvalues g n).lastjr ∧
    (FactorLocal_form diag newperm newiperm rtol ldu nnz rcolind rvalues g n).jw 0 =
      rcolind 0 ∧
    Env (FactorLocal_form diag newperm newiperm rtol ldu nnz rcolind rvalues g n) = Env g :=
  elim_loop_inv (FactorLocal_elim_step diag newperm newiperm rtol ldu)
    (fun s => 1 ≤ s.lastjr ∧ s.jw 0 = rcolind 0 ∧ Env s = Env g)
    (fun s hs => FactorLocal_elim_step_frame diag newperm newiperm rtol ldu s g (rcolind 0) hs)
    n _ (seed_row_frame _ nnz rcolind rvalues g)

/-- The end of a row of `FactorLocal` keeps the room of the `L` rows and a property of the
columns of the `L` parts that every local column placed before `diag` has for the row `i`;
it writes the workspace only. -/
theorem FactorLocal_store_sat (i diag lnrows : Nat) (newiperm : Nat → Nat) (tol : ℚ)
    (ldu : FactorMatType) (g : hypre_PilutSolverGlobals) (Q : Nat → Nat → Prop)
    (hmax : 1 ≤ g.global_maxnz) (hi : i < lnrows)
    (hroom : LRoom g.global_maxnz lnrows ldu) (hsat : LColsSat lnrows Q ldu)
    (hQ : ∀ c, g.firstrow ≤ c → c < g.lastrow → newiperm (c - g.firstrow) < diag → Q i c)
    (ldu2 : FactorMatType) (g2 : hypre_PilutSolverGlobals)
    (h : FactorLocal_store i diag newiperm tol ldu g = some (ldu2, g2)) :
    LRoom g.global_maxnz lnrows ldu2 ∧ LColsSat lnrows Q ldu2 ∧ Env g2 = Env g := by
  obtain ⟨m, jw, w, e1, _, _, m3, _⟩ := SeperateLU_by_total
    (inL_byDIAG (SecondDropSmall (ldu.nrm2s i * tol) g) diag newiperm)
    (SecondDropSmall (ldu.nrm2s i * tol) g)
  have hE : Env (SecondDropSmall (ldu.nrm2s i * tol) g) = Env g := rfl
  have hin : ∀ c, inL_byDIAG (SecondDropSmall (ldu.nrm2s i * tol) g) diag newiperm c = true →
      g.firstrow ≤ c ∧ c < g.lastrow ∧ newiperm (c - g.firstrow) < diag := by
    intro c hc
    unfold inL_byDIAG at hc
    exact of_decide_eq_true hc
  unfold FactorLocal_store SeperateLU_byDIAG at h
  simp only [e1] at h
  generalize SecondDropSmall (ldu.nrm2s i * tol) g = g1 at e1 m3 hE hin h
  obtain ⟨a1, _, _, _, _, a6, _⟩ := Env_map _ _ hE
  have hu := UpdateL_sat i m lnrows ldu { g1 with jw := jw, w := w } Q
    (by show 1 ≤ g1.global_maxnz; rw [a6]; exact hmax) hi
    (by show LRoom g1.global_maxnz lnrows ldu; rw [a6]; exact hroom) hsat
    (by
      intro q q1 q2
      obtain ⟨c1, c2, c3⟩ := hin _ (m3 q q1 q2)
      exact hQ _ c1 c2 c3)
  have h1 := congrArg Prod.fst (Option.some.inj h)
  have h2 := congrArg Prod.snd (Option.some.inj h)
  simp only at h1 h2
  rw [← h1, ← h2]
  refine ⟨?_, ?_, ?_⟩
  · have := hu.1
    rw [← a6]
    exact this
  · exact hu.2
  · exact hE

/-- One pass of the row loop of `FactorLocal`, when it returns: the same as for the end of
the row. -/
theorem FactorLocal_row_sat (budget diag lnrows : Nat) (newperm newiperm : Nat → Nat) (tol : ℚ)
    (ldu : FactorMatType) (i nnz : Nat) (rcolind : Nat → Nat) (rvalues : Nat → ℚ)
    (g : hypre_PilutSolverGlobals) (Q : Nat → Nat → Prop)
    (hmax : 1 ≤ g.global_maxnz) (hi : i < lnrows)
    (hroom : LRoom g.global_maxnz lnrows ldu) (hsat : LColsSat lnrows Q ldu)
    (hQ : ∀ c, g.firstrow ≤ c → c < g.lastrow → newiperm (c - g.firstrow) < diag → Q i c)
    (ldu2 : FactorMatType) (g2 : hypre_PilutSolverGlobals)
    (h : FactorLocal_row budget diag newperm newiperm tol ldu i nnz rcolind rvalues g
      = some (ldu2, g2)) :
    LRoom g.global_maxnz lnrows ldu2 ∧ LColsSat lnrows Q ldu2 ∧ Env g2 = Env g := by
  obtain ⟨_, _, f3⟩ := FactorLocal_form_frame diag newperm newiperm (ldu.nrm2s i * tol) ldu nnz
    rcolind rvalues g budget
  unfold FactorLocal_row at h
  simp only at h
  generalize FactorLocal_form diag newperm newiperm (ldu.nrm2s i * tol) ldu nnz rcolind rvalues
    g budget = g1 at f3 h
  obtain ⟨a1, _, a3, a4, _, a6, _⟩ := Env_map _ _ f3
  by_cases hl : g1.lastlr = 0
  · rw [if_pos hl] at h
    obtain ⟨b1, b2, b3⟩ := FactorLocal_store_sat i diag lnrows newiperm tol ldu g1 Q
      (by rw [a6]; exact hmax) hi (by rw [a6]; exact hroom) hsat
      (by rw [a3, a4]; exact hQ) ldu2 g2 h
    rw [a6] at b1
    exact ⟨b1, b2, b3.trans f3⟩
  · rw [if_neg hl] at h
    exact absurd h (by simp)

/-- The end of a row of `ComputeRmat` keeps the room of the `L` rows and a property of the
columns of the `L` parts that every column marked in the map has for the row `i`; it writes
the workspace only. -/
theorem ComputeRmat_store_sat (i inr lnrows : Nat) (nrmat : ReduceMatType) (rrowlen : Nat)
    (rcolind : Nat → Nat) (rvalues : Nat → ℚ)
    (fresh_colind : Nat → Nat) (fresh_values : Nat → ℚ) (tol : ℚ) (ldu : FactorMatType)
    (g : hypre_PilutSolverGlobals) (Q : Nat → Nat → Prop)
    (hmax : 1 ≤ g.global_maxnz) (hi : i < lnrows)
    (hroom : LRoom g.global_maxnz lnrows ldu) (hsat : LColsSat lnrows Q ldu)
    (hQ : ∀ c, g.map c % 2 = 1 → Q i c)
    (ldu2 : FactorMatType) (nr2 : ReduceMatType) (g2 : hypre_PilutSolverGlobals)
    (h : ComputeRmat_store i inr nrmat rrowlen rcolind rvalues fresh_colind fresh_values tol
      ldu g = some (ldu2, nr2, g2)) :
    LRoom g.global_maxnz lnrows ldu2 ∧ LColsSat lnrows Q ldu2 ∧ Env g2 = Env g := by
  obtain ⟨m, jw, w, e1, _, _, m3, _⟩ := SeperateLU_by_total
    (inL_byMIS (SecondDropSmall (ldu.nrm2s i * tol) g))
    (SecondDropSmall (ldu.nrm2s i * tol) g)
  have hE : Env (SecondDropSmall (ldu.nrm2s i * tol) g) = Env g := rfl
  have hin : ∀ c, inL_byMIS (SecondDropSmall (ldu.nrm2s i * tol) g) c = true →
      g.map c % 2 = 1 := by
    intro c hc
    unfold inL_byMIS IsInMIS at hc
    exact of_decide_eq_true hc
  unfold ComputeRmat_store SeperateLU_byMIS at h
  simp only [e1] at h
  generalize SecondDropSmall (ldu.nrm2s i * tol) g = g1 at e1 m3 hE hin h
  obtain ⟨a1, _, _, _, _, a6, _⟩ := Env_map _ _ hE
  have hu := UpdateL_sat i m lnrows ldu { g1 with jw := jw, w := w } Q
    (by show 1 ≤ g1.global_maxnz; rw [a6]; exact hmax) hi
    (by show LRoom g1.global_maxnz lnrows ldu; rw [a6]; exact hroom) hsat
    (fun q q1 q2 => hQ _ (hin _ (m3 q q1 q2)))
  have h0 := Option.some.inj h
  have h1 := congrArg Prod.fst h0
  have h2 := congrArg (fun x => x.2.2) h0
  simp only at h1 h2
  rw [← h1, ← h2]
  refine ⟨?_, hu.2, hE⟩
  have := hu.1
  rw [← a6]
  exact this

/-- One pass of the row loop of `ComputeRmat`, when it returns: the same as for the end of
the row. -/
theorem ComputeRmat_row_sat (budget lnrows : Nat) (newperm newiperm : Nat → Nat) (tol : ℚ)
    (ldu : FactorMatType) (cinfo : CommInfoType) (i inr : Nat) (nrmat : ReduceMatType)
    (nnz rrowlen : Nat) (rcolind : Nat → Nat) (rvalues : Nat → ℚ)
    (fresh_colind : Nat → Nat) (fresh_values : Nat → ℚ) (g : hypre_PilutSolverGlobals)
    (Q : Nat → Nat → Prop)
    (hmax : 1 ≤ g.global_maxnz) (hi : i < lnrows)
    (hroom : LRoom g.global_maxnz lnrows ldu) (hsat : LColsSat lnrows Q ldu)
    (hQ : ∀ c, g.map c % 2 = 1 → Q i c)
    (ldu2 : FactorMatType) (nr2 : ReduceMatType) (g2 : hypre_PilutSolverGlobals)
    (h : ComputeRmat_row budget newperm newiperm tol ldu cinfo i inr nrmat nnz rrowlen rcolind
      rvalues fresh_colind fresh_values g = some (ldu2, nr2, g2)) :
    LRoom g.global_maxnz lnrows ldu2 ∧ LColsSat lnrows Q ldu2 ∧ Env g2 = Env g := by
  obtain ⟨_, _, f3⟩ := ComputeRmat_form_frame newperm newiperm (ldu.nrm2s i * tol) ldu cinfo
    nnz rcolind rvalues g budget
  unfold ComputeRmat_row at h
  simp only at h
  generalize ComputeRmat_form newperm newiperm (ldu.nrm2s i * tol) ldu cinfo nnz rcolind
    rvalues g budget = g1 at f3 h
  obtain ⟨a1, _, a3, a4, _, a6, _⟩ := Env_map _ _ f3
  by_cases hl : g1.lastlr = 0
  · rw [if_pos hl] at h
    obtain ⟨b1, b2, b3⟩ := ComputeRmat_store_sat i inr lnrows nrmat rrowlen rcolind rvalues
      fresh_colind fresh_values tol ldu g1 Q (by rw [a6]; exact hmax) hi
      (by rw [a6]; exact hroom) hsat (by rw [a1]; exact hQ) ldu2 nr2 g2 h
    rw [a6] at b1
    exact ⟨b1, b2, b3.trans f3⟩
  · rw [if_neg hl] at h
    exact absurd h (by simp)

/-! ## The columns of the L part through the row loops -/

/-- The row loop of `FactorLocal` after `n` rows, when it has returned: the room of the `L`
rows is kept, and so is a property of the columns of the `L` parts that, for every row
`i = newperm[ir]` of the loop, every local column placed before `i` in the new permutation
has. The loop writes the workspace only. -/
theorem FactorLocal_loop_sat (budget lnrows : Nat) (rmat : ReduceMatType)
    (iperm newperm newiperm : Nat → Nat) (tol : ℚ) (ldu : FactorMatType)
    (g : hypre_PilutSolverGlobals) (Q : Nat → Nat → Prop)
    (hmax : 1 ≤ g.global_maxnz)
    (hroom : LRoom g.global_maxnz lnrows ldu) (hsat : LColsSat lnrows Q ldu) (n : Nat)
    (hQ : ∀ ir, g.ndone ≤ ir → ir < g.ndone + n → newperm ir < lnrows ∧
      ∀ c, g.firstrow ≤ c → c < g.lastrow →
        newiperm (c - g.firstrow) < newiperm (newperm ir) → Q (newperm ir) c) :
    ∀ t, forLoop g.ndone (FactorLocal_body budget rmat iperm newperm newiperm tol) n
        (some (ldu, g)) = some t →
      LRoom g.global_maxnz lnrows t.1 ∧ LColsSat lnrows Q t.1 ∧ Env t.2 = Env g := by
  induction n with
  | zero =>
    intro t ht
    have := Option.some.inj ht
    rw [← this]
    exact ⟨hroom, hsat, rfl⟩
  | succ m ih =>
    intro t ht
    rw [forLoop_succ] at ht
    cases hprev : forLoop g.ndone (FactorLocal_body budget rmat iperm newperm newiperm tol) m
        (some (ldu, g)) with
    | none =>
      rw [hprev] at ht
      exact absurd ht (by simp [FactorLocal_body])
    | some t1 =>
      rw [hprev] at ht
      obtain ⟨i1, i2, i3⟩ := ih (fun ir a b => hQ ir a (by omega)) t1 hprev
      obtain ⟨_, _, a3, a4, _, a6, _⟩ := Env_map _ _ i3
      obtain ⟨q1, q2⟩ := hQ (g.ndone + m) (by omega) (by omega)
      have hrow : FactorLocal_row budget (newiperm (newperm (g.ndone + m))) newperm newiperm
          tol t1.1 (newperm (g.ndone + m))
          (rmat.rmat_rnz (iperm (newperm (g.ndone + m)) - t1.2.ndone))
          (rmat.rmat_rcolind (iperm (newperm (g.ndone + m)) - t1.2.ndone))
          (rmat.rmat_rvalues (iperm (newperm (g.ndone + m)) - t1.2.ndone)) t1.2
          = some (t.1, t.2) := ht
      obtain ⟨b1, b2, b3⟩ := FactorLocal_row_sat budget _ lnrows newperm newiperm tol t1.1 _ _
        _ _ t1.2 Q (by rw [a6]; exact hmax) q1 (by rw [a6]; exact i1) i2
        (by rw [a3, a4]; exact q2) t.1 t.2 hrow
      rw [a6] at b1
      exact ⟨b1, b2, b3.trans i3⟩

/-- The row loop of `ComputeRmat` after `n` rows, when it has returned: the room of the `L`
rows is kept, and so is a property of the columns of the `L` parts that, for every row
`i = newperm[ir]` of the loop, every column marked in the map has. The loop writes the
workspace only. -/
theorem ComputeRmat_loop_sat (budget lnrows : Nat) (rmat nrmat : ReduceMatType)
    (cinfo : CommInfoType) (iperm newperm newiperm : Nat → Nat) (nmis : Nat) (tol : ℚ)
    (fresh_colind : Nat → Nat → Nat) (fresh_values : Nat → Nat → ℚ) (ldu : FactorMatType)
    (g : hypre_PilutSolverGlobals) (Q : Nat → Nat → Prop)
    (hmax : 1 ≤ g.global_maxnz)
    (hroom : LRoom g.global_maxnz lnrows ldu) (hsat : LColsSat lnrows Q ldu) (n : Nat)
    (hQ : ∀ ir, g.ndone + nmis ≤ ir → ir < g.ndone + nmis + n → newperm ir < lnrows ∧
      ∀ c, g.map c % 2 = 1 → Q (newperm ir) c) :
    ∀ t, forLoop (g.ndone + nmis)
        (ComputeRmat_body budget rmat cinfo iperm newperm newiperm tol fresh_colind
          fresh_values) n (some { inr := 0, ldu := ldu, nrmat := nrmat, globals := g })
        = some t →
      LRoom g.global_maxnz lnrows t.ldu ∧ LColsSat lnrows Q t.ldu ∧
      Env t.globals = Env g := by
  induction n with
  | zero =>
    intro t ht
    have := Option.some.inj ht
    rw [← this]
    exact ⟨hroom, hsat, rfl⟩
  | succ m ih =>
    intro t ht
    rw [forLoop_succ] at ht
    cases hprev : forLoop (g.ndone + nmis)
        (ComputeRmat_body budget rmat cinfo iperm newperm newiperm tol fresh_colind
          fresh_values) m (some { inr := 0, ldu := ldu, nrmat := nrmat, globals := g }) with
    | none =>
      rw [hprev] at ht
      exact absurd ht (by simp [ComputeRmat_body])
    | some t1 =>
      rw [hprev] at ht
      obtain ⟨i1, i2, i3⟩ := ih (fun ir a b => hQ ir a (by omega)) t1 hprev
      obtain ⟨a1, _, _, _, _, a6, _⟩ := Env_map _ _ i3
      obtain ⟨q1, q2⟩ := hQ (g.ndone + nmis + m) (by omega) (by omega)
      unfold ComputeRmat_body at ht
      simp only at ht
      cases hrow : ComputeRmat_row budget newperm newiperm tol t1.ldu cinfo
          (newperm (g.ndone + nmis + m)) t1.inr t1.nrmat
          (rmat.rmat_rnz (iperm (newperm (g.ndone + nmis + m)) - t1.globals.ndone))
          (rmat.rmat_rrowlen (iperm (newperm (g.ndone + nmis + m)) - t1.globals.ndone))
          (rmat.rmat_rcolind (iperm (newperm (g.ndone + nmis + m)) - t1.globals.ndone))
          (rmat.rmat_rvalues (iperm (newperm (g.ndone + nmis + m)) - t1.globals.ndone))
          (fresh_colind t1.inr) (fresh_values t1.inr) t1.globals with
      | none =>
        rw [hrow] at ht
        exact absurd ht (by simp)
      | some r =>
        rw [hrow] at ht
        have ht2 := Option.some.inj ht
        obtain ⟨b1, b2, b3⟩ := ComputeRmat_row_sat budget lnrows newperm newiperm tol t1.ldu
          cinfo _ t1.inr t1.nrmat _ _ _ _ _ _ t1.globals Q (by rw [a6]; exact hmax) q1
          (by rw [a6]; exact i1) i2 (by rw [a1]; exact q2) r.1 r.2.1 r.2.2 hrow
        rw [a6] at b1
        rw [← ht2]
        exact ⟨b1, b2, b3.trans i3⟩

/-! ## The permutation and the map through one pass -/

/-- The new permutation that `SelectSet` writes at a level start: `newperm`/`newiperm` are
again inverse permutations of the local rows; the positions below `ndone` and the rows placed
there are as before; a row that was active keeps a position of at least `ndone`; and the map
is 0 outside the rows `newperm[ndone..ndone+num)` of the set. -/
theorem SelectSet_perm_step (rmat : ReduceMatType) (cinfo : CommInfoType)
    (perm iperm newperm newiperm : Nat → Nat) (g : hypre_PilutSolverGlobals)
    (hshape : LevelShape g) (hmap : ∀ x, g.map x = 0)
    (hpi : PermInv g.lnrows perm iperm)
    (hnew : ∀ i, i < g.lnrows → newperm i = perm i ∧ newiperm i = iperm i) :
    (SelectSet rmat cinfo perm iperm newperm newiperm g).num ≤ g.ntogo ∧
    PermInv g.lnrows (SelectSet rmat cinfo perm iperm newperm newiperm g).newperm
      (SelectSet rmat cinfo perm iperm newperm newiperm g).newiperm ∧
    (∀ i, i < g.ndone →
      (SelectSet rmat cinfo perm iperm newperm newiperm g).newperm i = perm i) ∧
    (∀ l, l < g.lnrows → iperm l < g.ndone →
      (SelectSet rmat cinfo perm iperm newperm newiperm g).newiperm l = iperm l) ∧
    (∀ l, l < g.lnrows → g.ndone ≤ iperm l →
      g.ndone ≤ (SelectSet rmat cinfo perm iperm newperm newiperm g).newiperm l) ∧
    (∀ z, z ∉ selectedRows g (SelectSet rmat cinfo perm iperm newperm newiperm g).newperm
        (SelectSet rmat cinfo perm iperm newperm newiperm g).num →
      (SelectSet rmat cinfo perm iperm newperm newiperm g).globals.map z = 0) := by
  obtain ⟨hp1, hp2⟩ := hpi
  have hinj : InjOnRange perm 0 g.lnrows := by
    intro i j _ hi _ hj e
    have a := (hp1 i hi).2
    have b := (hp1 j hj).2
    rw [e] at a
    omega
  have hmapl : ∀ x, g.firstrow ≤ x → x < g.lastrow → g.map x = 0 := fun x _ _ => hmap x
  have hframe := SelectSet_map_frame rmat cinfo perm iperm newperm newiperm g hshape
    (fun i hi => (hp1 i hi).1) hinj hmapl
  obtain ⟨l1, l2, l3, l4, l5, l6⟩ := SelectSet_layout rmat cinfo perm iperm newperm
    newiperm g hshape
    (InjOnRange_mono perm 0 g.lnrows g.ndone g.lnrows (Nat.zero_le _) (le_refl _) hinj)
    (activeRow_map_zero g perm hshape (fun i hi => (hp1 i hi).1) hmapl)
  obtain ⟨hs1, hs2⟩ := hshape
  generalize SelectSet rmat cinfo perm iperm newperm newiperm g = r
    at l1 l2 l3 l4 l5 l6 hframe
  have hA : ∀ l, l ∈ slice perm g.ndone g.ntogo → l < g.lnrows := by
    intro l hl
    rw [mem_slice] at hl
    obtain ⟨i, _, i2, rfl⟩ := hl
    exact (hp1 i (by omega)).1
  have hnotA : ∀ i, i < g.ndone → perm i ∉ slice perm g.ndone g.ntogo := by
    intro i hi hmem
    rw [mem_slice] at hmem
    obtain ⟨j, j1, j2, j3⟩ := hmem
    have := hinj j i (Nat.zero_le _) (by omega) (Nat.zero_le _) (by omega) j3
    omega
  have hlow : ∀ l, l < g.lnrows → iperm l < g.ndone → r.newiperm l = iperm l := by
    intro l hl hc
    obtain ⟨b1, b2⟩ := hp2 l hl
    have hnm : l ∉ slice perm g.ndone g.ntogo := by
      rw [← b2]
      exact hnotA _ hc
    rw [l6 l hnm]
    exact (hnew l hl).2
  have hhigh : ∀ l, l < g.lnrows → g.ndone ≤ iperm l →
      ∃ x, g.ndone ≤ x ∧ x < g.lnrows ∧ r.newperm x = l ∧ r.newiperm l = x := by
    intro l hl hc
    obtain ⟨b1, b2⟩ := hp2 l hl
    have hmem : l ∈ slice perm g.ndone g.ntogo :=
      (mem_slice _ _ _ _).mpr ⟨iperm l, hc, by omega, b2⟩
    have hx : ∃ x, g.ndone ≤ x ∧ x < g.lnrows ∧ r.newperm x = l := by
      by_cases hsel : r.globals.map (l + g.firstrow) = 1
      · have : l ∈ slice r.newperm g.ndone r.num := by
          rw [l2, List.mem_filter]
          exact ⟨hmem, by simpa using hsel⟩
        rw [mem_slice] at this
        obtain ⟨x, x1, x2, x3⟩ := this
        exact ⟨x, x1, by omega, x3⟩
      · have : l ∈ slice r.newperm (g.ndone + r.num) (g.ntogo - r.num) := by
          rw [l3, List.mem_filter]
          exact ⟨hmem, by simpa using hsel⟩
        rw [mem_slice] at this
        obtain ⟨x, x1, x2, x3⟩ := this
        exact ⟨x, by omega, by omega, x3⟩
    obtain ⟨x, x1, x2, x3⟩ := hx
    refine ⟨x, x1, x2, x3, ?_⟩
    rw [← x3]
    exact (l4 x x1 x2).1
  refine ⟨l1, ⟨?_, ?_⟩, ?_, hlow, ?_, fun z hz => (hframe z hz).trans (hmap z)⟩
  · intro i hi
    by_cases hc : g.ndone ≤ i
    · obtain ⟨a1, a2⟩ := l4 i hc hi
      exact ⟨hA _ a2, a1⟩
    · rw [l5 i (fun h => hc h.1), (hnew i hi).1]
      obtain ⟨b1, b2⟩ := hp1 i hi
      refine ⟨b1, ?_⟩
      rw [l6 _ (hnotA i (by omega)), (hnew _ b1).2]
      exact b2
  · intro l hl
    obtain ⟨b1, b2⟩ := hp2 l hl
    by_cases hc : g.ndone ≤ iperm l
    · obtain ⟨x, x1, x2, x3, x4⟩ := hhigh l hl hc
      rw [x4]
      exact ⟨x2, x3⟩
    · rw [hlow l hl (by omega)]
      refine ⟨b1, ?_⟩
      rw [l5 _ (fun h => hc h.1), (hnew _ b1).1]
      exact b2
  · intro i hi
    rw [l5 i (fun h => by omega)]
    exact (hnew i (by omega)).1
  · intro l hl hc
    obtain ⟨x, x1, _, _, x4⟩ := hhigh l hl hc
    rw [x4]
    exact x1

/-- A pass of the level loop that returns: `FactorLocal` and `ComputeRmat` have returned, and
the state after the pass is put together from their results. -/
theorem ParILUT_pass_some (budget : Nat) (tol : ℚ) (rowdist : Nat → Nat) (inp : LevelInput)
    (s t : ParState) (h : ParILUT_pass budget tol rowdist inp s = some t) :
    ∃ f tt,
      FactorLocal budget s.ldu s.rmat s.nrmat (ParILUT_pass_comm rowdist inp s).cinfo
        s.p.perm s.p.iperm (ParILUT_pass_set rowdist inp s).newperm
        (ParILUT_pass_set rowdist inp s).newiperm (ParILUT_pass_set rowdist inp s).num tol
        (ParILUT_pass_set rowdist inp s).globals = some f ∧
      ComputeRmat budget f.1 s.rmat s.nrmat (SendFactoredRows (ParILUT_pass_buf rowdist inp s) inp.inCnt f.2).1
        s.p.perm s.p.iperm (ParILUT_pass_set rowdist inp s).newperm
        (ParILUT_pass_set rowdist inp s).newiperm (ParILUT_pass_set rowdist inp s).num tol
        inp.fresh_colind inp.fresh_values (SendFactoredRows (ParILUT_pass_buf rowdist inp s) inp.inCnt f.2).2 = some tt ∧
      t =
        { ldu := { tt.ldu with
            perm := memcpy_idx s.p.perm (ParILUT_pass_set rowdist inp s).newperm
              s.globals.ndone s.globals.ntogo,
            iperm := memcpy_idx s.p.iperm (ParILUT_pass_set rowdist inp s).newiperm 0
              s.globals.lnrows },
          rmat := { tt.nrmat with
            rmat_ndone := s.globals.ndone + (ParILUT_pass_set rowdist inp s).num,
            rmat_ntogo := s.globals.ntogo - (ParILUT_pass_set rowdist inp s).num },
          nrmat := s.rmat,
          cinfo := (SendFactoredRows (ParILUT_pass_buf rowdist inp s) inp.inCnt f.2).1,
          pilu_send := (ParILUT_pass_comm rowdist inp s).pilu_send,
          p := { perm := memcpy_idx s.p.perm (ParILUT_pass_set rowdist inp s).newperm
                   s.globals.ndone s.globals.ntogo,
                 iperm := memcpy_idx s.p.iperm (ParILUT_pass_set rowdist inp s).newiperm 0
                   s.globals.lnrows,
                 newperm := (ParILUT_pass_set rowdist inp s).newperm,
                 newiperm := (ParILUT_pass_set rowdist inp s).newiperm },
          globals := { EraseMap (SendFactoredRows (ParILUT_pass_buf rowdist inp s) inp.inCnt f.2).1
              (ParILUT_pass_set rowdist inp s).newperm (ParILUT_pass_set rowdist inp s).num
              tt.globals with
            ndone := s.globals.ndone + (ParILUT_pass_set rowdist inp s).num,
            ntogo := s.globals.ntogo - (ParILUT_pass_set rowdist inp s).num,
            nleft := (GlobalSESum inp.others
              ((s.globals.ntogo - (ParILUT_pass_set rowdist inp s).num : Nat) : Int)).toNat },
          nlevel := s.nlevel + 1 } := by
  unfold ParILUT_pass at h
  simp only at h
  split at h
  · exact absurd h (by simp)
  · rename_i f hf
    split at h
    · exact absurd h (by simp)
    · rename_i tt hc
      exact ⟨f, tt, hf, hc, (Option.some.inj h).symm⟩

theorem recvDiagCols_congr (g g2 : hypre_PilutSolverGlobals) (cinfo cinfo2 : CommInfoType)
    (inCnt inCnt2 : Nat → Nat) (h1 : g2.global_maxnz = g.global_maxnz)
    (h2 : cinfo2.rnnbr = cinfo.rnnbr) (h3 : cinfo2.incolind = cinfo.incolind)
    (h4 : cinfo2.maxntogo = cinfo.maxntogo) (h5 : ∀ i, i < cinfo.rnnbr → inCnt2 i = inCnt i) :
    recvDiagCols g2 cinfo2 inCnt2 = recvDiagCols g cinfo inCnt := by
  unfold recvDiagCols
  rw [h1, h2, h3, h4]
  apply List.flatMap_congr
  intro i hi
  rw [h5 i (List.mem_range.mp hi)]

/-- The map after `ComputeCommInfo` is 0 when it was 0 before. -/
theorem ParILUT_pass_comm_map (rowdist : Nat → Nat) (inp : LevelInput) (s : ParState)
    (hmap : ∀ x, s.globals.map x = 0) (x : Nat) :
    (ParILUT_pass_comm rowdist inp s).map x = 0 := by
  have := ComputeCommInfo_local_map s.rmat s.cinfo rowdist inp.maxntogo s.pilu_send
    s.globals x
  show (ComputeCommInfo_local s.rmat s.cinfo rowdist inp.maxntogo s.pilu_send s.globals).map x
    = 0
  rw [this]
  split
  · rfl
  · exact hmap x

/-- The map in `ComputeRmat`: a column that is marked after `SelectSet` and
`SendFactoredRows` at a level start is a row of the set or the row of a received record. -/
theorem marked_selected_or_received (cinfo : CommInfoType) (inCnt : Nat → Nat)
    (newperm : Nat → Nat) (nmis : Nat) (gsel g : hypre_PilutSolverGlobals)
    (hsel : ∀ z, z ∉ selectedRows gsel newperm nmis → gsel.map z = 0)
    (hE : Env g = Env gsel) (c : Nat)
    (hc : (SendFactoredRows cinfo inCnt g).2.map c % 2 = 1) :
    c ∈ selectedRows gsel newperm nmis ∨ c ∈ recvDiagCols g cinfo inCnt := by
  by_cases h1 : c ∈ recvDiagCols g cinfo inCnt
  · exact Or.inr h1
  · left
    by_contra h2
    have e1 := (SendFactoredRows_spec cinfo inCnt g).2.1 c h1
    rw [e1, (Env_map _ _ hE).1, hsel c h2] at hc
    exact absurd hc (by decide)

/-- The `L` part through `FactorLocal`, `SendFactoredRows` and `ComputeRmat` of one pass, when
both row loops return: the room of the `L` rows is kept, and so is a property `Q` of the
columns of the `L` parts that holds, for a row of the set, of every local column placed
before it in the new permutation, and, for a row that is not in the set, of every row of the
set and of every row received. The globals change in the workspace and the map only. -/
theorem level_L_step (budget lnrows : Nat) (tol : ℚ) (rmat nrmat : ReduceMatType)
    (cinfoF cinfo : CommInfoType) (inCnt : Nat → Nat)
    (perm iperm newperm newiperm : Nat → Nat) (nmis : Nat) (ldu : FactorMatType)
    (fresh_colind : Nat → Nat → Nat) (fresh_values : Nat → Nat → ℚ)
    (gsel : hypre_PilutSolverGlobals) (Q : Nat → Nat → Prop)
    (f : FactorMatType × hypre_PilutSolverGlobals) (tt : RmatState)
    (hmax : 1 ≤ gsel.global_maxnz)
    (hroom : LRoom gsel.global_maxnz lnrows ldu) (hsat : LColsSat lnrows Q ldu)
    (hsel : ∀ z, z ∉ selectedRows gsel newperm nmis → gsel.map z = 0)
    (hF : ∀ ir, gsel.ndone ≤ ir → ir < gsel.ndone + nmis → newperm ir < lnrows ∧
      ∀ c, gsel.firstrow ≤ c → c < gsel.lastrow →
        newiperm (c - gsel.firstrow) < newiperm (newperm ir) → Q (newperm ir) c)
    (hC : ∀ ir, gsel.ndone + nmis ≤ ir → ir < gsel.lnrows → newperm ir < lnrows ∧
      ∀ c, (c ∈ selectedRows gsel newperm nmis ∨ c ∈ recvDiagCols gsel cinfo inCnt) →
        Q (newperm ir) c)
    (hf : FactorLocal budget ldu rmat nrmat cinfoF perm iperm newperm newiperm nmis tol gsel
      = some f)
    (hc : ComputeRmat budget f.1 rmat nrmat (SendFactoredRows cinfo inCnt f.2).1 perm iperm
      newperm newiperm nmis tol fresh_colind fresh_values (SendFactoredRows cinfo inCnt f.2).2
      = some tt) :
    LRoom gsel.global_maxnz lnrows tt.ldu ∧ LColsSat lnrows Q tt.ldu ∧
    Env f.2 = Env gsel ∧
    Env tt.globals = Env (SendFactoredRows cinfo inCnt f.2).2 := by
  obtain ⟨b1, b2, b3⟩ := FactorLocal_loop_sat budget lnrows rmat iperm newperm newiperm tol ldu
    gsel Q hmax hroom hsat nmis hF f hf
  obtain ⟨a1, a2, a3, a4, a5, a6, a7⟩ := Env_map _ _ b3
  have hrd : recvDiagCols f.2 cinfo inCnt = recvDiagCols gsel cinfo inCnt :=
    recvDiagCols_congr gsel f.2 cinfo cinfo inCnt inCnt a6 rfl rfl rfl (fun _ _ => rfl)
  have e2 : (SendFactoredRows cinfo inCnt f.2).2.ndone = gsel.ndone := a2
  have e5 : (SendFactoredRows cinfo inCnt f.2).2.lnrows = gsel.lnrows := a5
  have e6 : (SendFactoredRows cinfo inCnt f.2).2.global_maxnz = gsel.global_maxnz := a6
  obtain ⟨d1, d2, d3⟩ := ComputeRmat_loop_sat budget lnrows rmat nrmat
    (SendFactoredRows cinfo inCnt f.2).1 iperm newperm newiperm nmis tol fresh_colind
    fresh_values f.1 (SendFactoredRows cinfo inCnt f.2).2 Q
    (by rw [e6]; exact hmax) (by rw [e6]; exact b1) b2
    ((SendFactoredRows cinfo inCnt f.2).2.lnrows -
      ((SendFactoredRows cinfo inCnt f.2).2.ndone + nmis))
    (by
      intro ir i1 i2
      rw [e2] at i1
      rw [e2, e5] at i2
      obtain ⟨q1, q2⟩ := hC ir i1 (by omega)
      refine ⟨q1, ?_⟩
      intro c hmark
      apply q2
      rcases marked_selected_or_received cinfo inCnt newperm nmis gsel f.2 hsel b3 c hmark
        with h | h
      · exact Or.inl h
      · rw [hrd] at h
        exact Or.inr h)
    tt hc
  rw [e6] at d1
  exact ⟨d1, d2, b3, d3⟩

/-- One pass of the level loop keeps the invariant `LevelInv`, the rows received in the pass
being remote rows: they are added to the rows received so far, with the `ndone` after the
pass as their bound. The local rows and their number stay as they are, `ndone` does not go
down, a position below `ndone` keeps its row, and an active row stays at or above the old
`ndone`. -/
theorem ParILUT_pass_inv (budget : Nat) (tol : ℚ) (rowdist : Nat → Nat) (inp : LevelInput)
    (maxnz nd0 : Nat) (Rem : Nat → Nat → Prop) (s t : ParState)
    (hinv : LevelInv maxnz nd0 Rem s)
    (h : ParILUT_pass budget tol rowdist inp s = some t)
    (hrem : ∀ c, c ∈ recvDiagCols t.globals t.cinfo t.cinfo.rnbrptr →
      ¬ (s.globals.firstrow ≤ c ∧ c < s.globals.lastrow)) :
    LevelInv maxnz nd0
      (fun c b => Rem c b ∨
        (c ∈ recvDiagCols t.globals t.cinfo t.cinfo.rnbrptr ∧ b = t.globals.ndone)) t ∧
    t.nlevel = s.nlevel + 1 ∧
    t.globals.firstrow = s.globals.firstrow ∧ t.globals.lastrow = s.globals.lastrow ∧
    t.globals.lnrows = s.globals.lnrows ∧ s.globals.ndone ≤ t.globals.ndone ∧
    (∀ l, l < s.globals.lnrows →
      (s.p.iperm l < s.globals.ndone → t.p.iperm l = s.p.iperm l) ∧
      (s.globals.ndone ≤ s.p.iperm l → s.globals.ndone ≤ t.p.iperm l)) := by
  obtain ⟨sh, hmz, hm1, hnd, hpi, hnew, hmap, hroom, hsat⟩ := hinv
  obtain ⟨f, tt, hf, hc, ht⟩ := ParILUT_pass_some budget tol rowdist inp s t h
  have hCmap := ParILUT_pass_comm_map rowdist inp s hmap
  obtain ⟨c1, c2, c3, c4, c5, c6⟩ := SelectSet_perm_step s.rmat
    (ParILUT_pass_comm rowdist inp s).cinfo s.p.perm s.p.iperm s.p.newperm s.p.newiperm
    { s.globals with map := (ParILUT_pass_comm rowdist inp s).map } sh hCmap hpi hnew
  have c1' : (ParILUT_pass_set rowdist inp s).num ≤ s.globals.ntogo := c1
  have c2' : PermInv s.globals.lnrows (ParILUT_pass_set rowdist inp s).newperm
      (ParILUT_pass_set rowdist inp s).newiperm := c2
  have c3' : ∀ i, i < s.globals.ndone →
      (ParILUT_pass_set rowdist inp s).newperm i = s.p.perm i := c3
  have c4' : ∀ l, l < s.globals.lnrows → s.p.iperm l < s.globals.ndone →
      (ParILUT_pass_set rowdist inp s).newiperm l = s.p.iperm l := c4
  have c5' : ∀ l, l < s.globals.lnrows → s.globals.ndone ≤ s.p.iperm l →
      s.globals.ndone ≤ (ParILUT_pass_set rowdist inp s).newiperm l := c5
  have c6' : ∀ z, z ∉ selectedRows (ParILUT_pass_set rowdist inp s).globals
      (ParILUT_pass_set rowdist inp s).newperm (ParILUT_pass_set rowdist inp s).num →
      (ParILUT_pass_set rowdist inp s).globals.map z = 0 := c6
  have g1 : (ParILUT_pass_set rowdist inp s).globals.firstrow = s.globals.firstrow := rfl
  have g2 : (ParILUT_pass_set rowdist inp s).globals.lastrow = s.globals.lastrow := rfl
  have g3 : (ParILUT_pass_set rowdist inp s).globals.lnrows = s.globals.lnrows := rfl
  have g4 : (ParILUT_pass_set rowdist inp s).globals.ndone = s.globals.ndone := rfl
  have g5 : (ParILUT_pass_set rowdist inp s).globals.global_maxnz = s.globals.global_maxnz :=
    rfl
  clear c1 c2 c3 c4 c5 c6
  generalize ParILUT_pass_set rowdist inp s = R at hf hc ht c1' c2' c3' c4' c5' c6' g1 g2 g3 g4 g5
  generalize ParILUT_pass_buf rowdist inp s = CI at hc ht
  obtain ⟨sh1, sh2⟩ := sh
  obtain ⟨hp1, hp2⟩ := hpi
  obtain ⟨hq1, hq2⟩ := c2'
  -- the fields of the state after the pass
  have t_cinfo : t.cinfo = (SendFactoredRows CI inp.inCnt f.2).1 := by rw [ht]
  have t_nd : t.globals.ndone = s.globals.ndone + R.num := by rw [ht]
  have t_ntogo : t.globals.ntogo = s.globals.ntogo - R.num := by rw [ht]
  have t_gm : t.globals.global_maxnz = tt.globals.global_maxnz := by rw [ht]; rfl
  have t_fr : t.globals.firstrow = tt.globals.firstrow := by rw [ht]; rfl
  have t_lr : t.globals.lastrow = tt.globals.lastrow := by rw [ht]; rfl
  have t_ln : t.globals.lnrows = tt.globals.lnrows := by rw [ht]; rfl
  have t_map : t.globals.map = (EraseMap (SendFactoredRows CI inp.inCnt f.2).1 R.newperm R.num
      tt.globals).map := by rw [ht]
  have t_iperm : t.p.iperm = memcpy_idx s.p.iperm R.newiperm 0 s.globals.lnrows := by rw [ht]
  have t_perm : t.p.perm = memcpy_idx s.p.perm R.newperm s.globals.ndone s.globals.ntogo := by
    rw [ht]
  have t_newperm : t.p.newperm = R.newperm := by rw [ht]
  have t_newiperm : t.p.newiperm = R.newiperm := by rw [ht]
  have t_ls : t.ldu.lsrowptr = tt.ldu.lsrowptr := by rw [ht]
  have t_le : t.ldu.lerowptr = tt.ldu.lerowptr := by rw [ht]
  have t_lc : t.ldu.lcolind = tt.ldu.lcolind := by rw [ht]
  have t_nl : t.nlevel = s.nlevel + 1 := by rw [ht]
  have hip : ∀ l, l < s.globals.lnrows → t.p.iperm l = R.newiperm l := by
    intro l hl
    rw [t_iperm]
    unfold memcpy_idx
    rw [if_pos ⟨Nat.zero_le _, by omega⟩]
  have hpe : ∀ i, i < s.globals.lnrows → t.p.perm i = R.newperm i := by
    intro i hi
    rw [t_perm]
    unfold memcpy_idx
    by_cases hci : s.globals.ndone ≤ i ∧ i < s.globals.ndone + s.globals.ntogo
    · rw [if_pos hci]
    · rw [if_neg hci, c3' i (by omega)]
  -- everything but the workspace and the map is left alone by the two row loops
  have hQF : ∀ ir, R.globals.ndone ≤ ir → ir < R.globals.ndone + R.num →
      R.newperm ir < s.globals.lnrows := by
    intro ir _ i2
    rw [g4] at i2
    exact (hq1 ir (by omega)).1
  have hQC : ∀ ir, R.globals.ndone + R.num ≤ ir → ir < R.globals.lnrows →
      R.newperm ir < s.globals.lnrows := by
    intro ir _ i2
    rw [g3] at i2
    exact (hq1 ir i2).1
  obtain ⟨_, _, k3, k4⟩ := level_L_step budget s.globals.lnrows tol s.rmat s.nrmat
    (ParILUT_pass_comm rowdist inp s).cinfo CI inp.inCnt s.p.perm s.p.iperm R.newperm
    R.newiperm R.num s.ldu inp.fresh_colind inp.fresh_values R.globals (fun _ _ => True)
    f tt (by rw [g5, hmz]; exact hm1) (by rw [g5, hmz]; exact hroom)
    (fun _ _ _ _ => trivial) c6'
    (fun ir i1 i2 => ⟨hQF ir i1 i2, fun _ _ _ _ => trivial⟩)
    (fun ir i1 i2 => ⟨hQC ir i1 i2, fun _ _ => trivial⟩) hf hc
  obtain ⟨_, _, ef3, ef4, ef5, ef6, _⟩ := Env_map _ _ k3
  obtain ⟨et1, et2, et3, et4, et5, et6, _⟩ := Env_map _ _ k4
  have tt_fr : tt.globals.firstrow = s.globals.firstrow := et3.trans (ef3.trans g1)
  have tt_lr : tt.globals.lastrow = s.globals.lastrow := et4.trans (ef4.trans g2)
  have tt_ln : tt.globals.lnrows = s.globals.lnrows := et5.trans (ef5.trans g3)
  have tt_gm : tt.globals.global_maxnz = R.globals.global_maxnz := et6.trans ef6
  have tt_nd : tt.globals.ndone = R.globals.ndone := et2.trans ((Env_map _ _ k3).2.1)
  have hRD : recvDiagCols t.globals t.cinfo t.cinfo.rnbrptr =
      recvDiagCols R.globals CI inp.inCnt := by
    rw [t_cinfo]
    exact recvDiagCols_congr R.globals t.globals CI (SendFactoredRows CI inp.inCnt f.2).1
      inp.inCnt (SendFactoredRows CI inp.inCnt f.2).1.rnbrptr (t_gm.trans tt_gm) rfl rfl rfl
      (fun i hi => by rw [(SendFactoredRows_spec CI inp.inCnt f.2).1 i, if_pos hi])
  -- the property of the columns of the L parts after the pass
  have key := level_L_step budget s.globals.lnrows tol s.rmat s.nrmat
    (ParILUT_pass_comm rowdist inp s).cinfo CI inp.inCnt s.p.perm s.p.iperm R.newperm
    R.newiperm R.num s.ldu inp.fresh_colind inp.fresh_values R.globals
    (fun i c => nd0 ≤ R.newiperm i →
      (s.globals.firstrow ≤ c ∧ c < s.globals.lastrow →
        R.newiperm (c - s.globals.firstrow) < s.globals.ndone + R.num ∧
        R.newiperm (c - s.globals.firstrow) < R.newiperm i) ∧
      (¬ (s.globals.firstrow ≤ c ∧ c < s.globals.lastrow) →
        ∃ b, (Rem c b ∨ (c ∈ recvDiagCols R.globals CI inp.inCnt ∧
            b = s.globals.ndone + R.num)) ∧
          b ≤ s.globals.ndone + R.num ∧ b ≤ R.newiperm i))
    f tt (by rw [g5, hmz]; exact hm1) (by rw [g5, hmz]; exact hroom)
    (by
      intro i hi c hcm hge
      have old := hsat i hi c hcm
      have hold : nd0 ≤ s.p.iperm i := by
        by_cases hlt : s.p.iperm i < s.globals.ndone
        · rw [← c4' i hi hlt]; exact hge
        · omega
      obtain ⟨o1, o2⟩ := old hold
      refine ⟨?_, ?_⟩
      · intro hloc
        obtain ⟨p1, p2⟩ := o1 hloc
        have hcl : c - s.globals.firstrow < s.globals.lnrows := by omega
        rw [c4' _ hcl p1]
        refine ⟨by omega, ?_⟩
        by_cases hlt : s.p.iperm i < s.globals.ndone
        · rw [c4' i hi hlt]; exact p2
        · have := c5' i hi (by omega)
          omega
      · intro hrm
        obtain ⟨b, r1, r2, r3⟩ := o2 hrm
        refine ⟨b, Or.inl r1, by omega, ?_⟩
        by_cases hlt : s.p.iperm i < s.globals.ndone
        · rw [c4' i hi hlt]; exact r3
        · have := c5' i hi (by omega)
          omega)
    c6'
    (by
      intro ir i1 i2
      rw [g4] at i1 i2
      have hir : ir < s.globals.lnrows := by omega
      obtain ⟨x1, x2⟩ := hq1 ir hir
      refine ⟨x1, ?_⟩
      intro c d1 d2 d3 _
      rw [g1] at d1 d3
      rw [g2] at d2
      rw [x2] at d3 ⊢
      refine ⟨fun _ => ⟨by omega, d3⟩, fun hn => absurd ⟨d1, d2⟩ hn⟩)
    (by
      intro ir i1 i2
      rw [g4] at i1
      rw [g3] at i2
      obtain ⟨x1, x2⟩ := hq1 ir i2
      refine ⟨x1, ?_⟩
      intro c hcs _
      rw [x2]
      rcases hcs with hs | hr
      · unfold selectedRows at hs
        rw [mem_slice] at hs
        obtain ⟨j, j1, j2, j3⟩ := hs
        rw [g4] at j1 j2
        rw [g1] at j3
        have hj : j < s.globals.lnrows := by omega
        obtain ⟨y1, y2⟩ := hq1 j hj
        have hcj : c - s.globals.firstrow = R.newperm j := by omega
        refine ⟨fun _ => ?_, fun hn => absurd ⟨by omega, by omega⟩ hn⟩
        rw [hcj, y2]
        exact ⟨j2, by omega⟩
      · have hnl : ¬ (s.globals.firstrow ≤ c ∧ c < s.globals.lastrow) := by
          apply hrem
          rw [hRD]
          exact hr
        refine ⟨fun hl => absurd hl hnl, fun _ => ?_⟩
        exact ⟨s.globals.ndone + R.num, Or.inr ⟨hr, rfl⟩, le_refl _, i1⟩)
    hf hc
  obtain ⟨k1, k2, _, _⟩ := key
  have hmapt : ∀ x, t.globals.map x = 0 := by
    intro x
    rw [t_map, EraseMap_spec]
    split
    · rfl
    · rename_i hx
      rw [not_or] at hx
      obtain ⟨hx1, hx2⟩ := hx
      have hx1' : x ∉ selectedRows R.globals R.newperm R.num := by
        unfold selectedRows at hx1 ⊢
        rw [tt_fr, tt_nd] at hx1
        rw [g1]
        exact hx1
      have hx2' : x ∉ recvDiagCols f.2 CI inp.inCnt := by
        have e := recvDiagCols_congr f.2 tt.globals CI (SendFactoredRows CI inp.inCnt f.2).1
          inp.inCnt (SendFactoredRows CI inp.inCnt f.2).1.rnbrptr et6 rfl rfl rfl
          (fun i hi => by rw [(SendFactoredRows_spec CI inp.inCnt f.2).1 i, if_pos hi])
        rw [← e]
        exact hx2
      rw [et1, (SendFactoredRows_spec CI inp.inCnt f.2).2.1 x hx2', (Env_map _ _ k3).1]
      exact c6' x hx1'
  have hLc : ∀ i, Lcols t.ldu i = Lcols tt.ldu i := by
    intro i
    unfold Lcols
    rw [t_ls, t_le, t_lc]
  refine ⟨⟨⟨?_, ?_⟩, ?_, hm1, ?_, ⟨?_, ?_⟩, ?_, hmapt, ?_, ?_⟩, t_nl, t_fr.trans tt_fr,
    t_lr.trans tt_lr, t_ln.trans tt_ln, by omega, ?_⟩
  · rw [t_lr, t_fr, t_ln, tt_lr, tt_fr, tt_ln]
    exact sh1
  · rw [t_nd, t_ntogo, t_ln, tt_ln]
    omega
  · rw [t_gm, tt_gm, g5]
    exact hmz
  · omega
  · intro i hi
    rw [t_ln, tt_ln] at hi ⊢
    obtain ⟨x1, x2⟩ := hq1 i hi
    rw [hpe i hi, hip _ x1]
    exact ⟨x1, x2⟩
  · intro l hl
    rw [t_ln, tt_ln] at hl ⊢
    obtain ⟨x1, x2⟩ := hq2 l hl
    rw [hip l hl, hpe _ x1]
    exact ⟨x1, x2⟩
  · intro i hi
    rw [t_ln, tt_ln] at hi
    rw [t_newperm, t_newiperm, hpe i hi, hip i hi]
    exact ⟨rfl, rfl⟩
  · rw [t_ln, tt_ln]
    rw [g5, hmz] at k1
    obtain ⟨r1, r2⟩ := k1
    refine ⟨?_, ?_⟩
    · intro i hi
      rw [t_ls, t_le]
      exact r1 i hi
    · intro i hi j hj hij
      rw [t_ls]
      exact r2 i hi j hj hij
  · intro i hi c hcm
    rw [t_ln, tt_ln] at hi
    rw [hLc] at hcm
    have q := k2 i hi c hcm
    unfold LColOK
    rw [hip i hi, t_fr, tt_fr, t_lr, tt_lr, t_nd, hRD]
    intro hge
    obtain ⟨q1, q2⟩ := q hge
    refine ⟨?_, q2⟩
    intro hloc
    rw [hip _ (by omega)]
    exact q1 hloc
  · intro l hl
    rw [hip l hl]
    exact ⟨fun hlt => c4' l hl hlt, fun hge => c5' l hl hge⟩

/-! ## The invariant of the level loop -/

theorem LevelInv_mono (maxnz nd0 : Nat) (Rem Rem2 : Nat → Nat → Prop) (s : ParState)
    (hmono : ∀ c b, Rem c b → Rem2 c b) (h : LevelInv maxnz nd0 Rem s) :
    LevelInv maxnz nd0 Rem2 s := by
  obtain ⟨a1, a2, a3, a4, a5, a6, a7, a8, a9⟩ := h
  refine ⟨a1, a2, a3, a4, a5, a6, a7, a8, ?_⟩
  intro i hi c hc hge
  obtain ⟨q1, q2⟩ := a9 i hi c hc hge
  refine ⟨q1, ?_⟩
  intro hn
  obtain ⟨b, b1, b2, b3⟩ := q2 hn
  exact ⟨b, hmono c b b1, b2, b3⟩

/-- A further pass of the level loop that is made: the pass before it has been made, `nleft`
was positive, the body has returned, and `ldu->nnodes[nlevel] = ndone` has been recorded. -/
theorem ParILUT_passes_succ (MAXNLEVEL budget : Nat) (tol : ℚ) (rowdist : Nat → Nat)
    (inp : Nat → LevelInput) (s0 : ParState) (n : Nat) (s2 : ParState)
    (h : ParILUT_passes MAXNLEVEL budget tol rowdist inp s0 (n + 1) = some s2) :
    ∃ s t, ParILUT_passes MAXNLEVEL budget tol rowdist inp s0 n = some s ∧
      0 < s.globals.nleft ∧
      ParILUT_pass budget tol rowdist (inp s.nlevel) s = some t ∧
      t.nlevel ≤ MAXNLEVEL ∧
      s2.globals = t.globals ∧ s2.cinfo = t.cinfo ∧ s2.p = t.p ∧ s2.nlevel = t.nlevel ∧
      s2.ldu.lsrowptr = t.ldu.lsrowptr ∧ s2.ldu.lerowptr = t.ldu.lerowptr ∧
      s2.ldu.lcolind = t.ldu.lcolind := by
  unfold ParILUT_passes at h
  split at h
  · exact absurd h (by simp)
  · rename_i s hs
    split at h
    · rename_i hleft
      split at h
      · exact absurd h (by simp)
      · rename_i t ht
        split at h
        · exact absurd h (by simp)
        · rename_i hlev
          have e := (Option.some.inj h).symm
          refine ⟨s, t, hs, hleft, ht, by omega, ?_, ?_, ?_, ?_, ?_, ?_, ?_⟩ <;> rw [e]
    · exact absurd h (by simp)
/-- The rows received up to the boundary after `n` passes: `c` is received in a pass that is
made, after which `ndone` was `b`. -/
theorem ReceivedAt_of_pass (MAXNLEVEL budget : Nat) (tol : ℚ) (rowdist : Nat → Nat)
    (inp : Nat → LevelInput) (s0 : ParState) (l : Nat) (tl : ParState)
    (h : ParILUT_passes MAXNLEVEL budget tol rowdist inp s0 (l + 1) = some tl) :
    ReceivedAt MAXNLEVEL budget tol rowdist inp s0 l =
      recvDiagCols tl.globals tl.cinfo tl.cinfo.rnbrptr := by
  unfold ReceivedAt
  rw [h]

/-- The invariant of the level loop holds at every boundary that the loop reaches, when
every row received so far is a row of another PE: `LevelInv` with the rows received so far,
the pass counter, the constants of the PE, and against every earlier boundary `ndone` has
not decreased, the positions below the earlier `ndone` are frozen and the rows at or above
it have stayed at or above it. -/
theorem ParILUT_passes_inv (MAXNLEVEL budget : Nat) (tol : ℚ) (rowdist : Nat → Nat)
    (inp : Nat → LevelInput) (s0 : ParState) (maxnz nd0 : Nat)
    (h0 : LevelInv maxnz nd0 (fun _ _ => False) s0) (hl0 : s0.nlevel = 0) (n : Nat) :
    (∀ l, l < n → ∀ c, c ∈ ReceivedAt MAXNLEVEL budget tol rowdist inp s0 l →
      ¬ (s0.globals.firstrow ≤ c ∧ c < s0.globals.lastrow)) →
    ∀ s, ParILUT_passes MAXNLEVEL budget tol rowdist inp s0 n = some s →
      LevelInv maxnz nd0 (fun c b => ∃ l, l < n ∧ ∃ tl,
          ParILUT_passes MAXNLEVEL budget tol rowdist inp s0 (l + 1) = some tl ∧
          c ∈ recvDiagCols tl.globals tl.cinfo tl.cinfo.rnbrptr ∧ b = tl.globals.ndone) s ∧
      s.nlevel = n ∧
      s.globals.firstrow = s0.globals.firstrow ∧ s.globals.lastrow = s0.globals.lastrow ∧
      s.globals.lnrows = s0.globals.lnrows ∧
      ∀ l, l ≤ n → ∀ tl, ParILUT_passes MAXNLEVEL budget tol rowdist inp s0 l = some tl →
        tl.globals.ndone ≤ s.globals.ndone ∧
        ∀ i, i < s0.globals.lnrows →
          (tl.p.iperm i < tl.globals.ndone → s.p.iperm i = tl.p.iperm i) ∧
          (tl.globals.ndone ≤ tl.p.iperm i → tl.globals.ndone ≤ s.p.iperm i) := by
  induction n with
  | zero =>
    intro _ s hs
    have e : s0 = s := Option.some.inj hs
    subst e
    refine ⟨LevelInv_mono _ _ _ _ _ (fun _ _ hF => hF.elim) h0, hl0, rfl, rfl, rfl, ?_⟩
    intro l hl tl htl
    have hl2 : l = 0 := by omega
    subst hl2
    have e : s0 = tl := Option.some.inj htl
    subst e
    exact ⟨le_refl _, fun i _ => ⟨fun _ => rfl, fun hx => hx⟩⟩
  | succ n ih =>
    intro hrem s2 hs2
    obtain ⟨s, t, hs, hleft, ht, hlev, eg, ec, ep, el, e1, e2, e3⟩ :=
      ParILUT_passes_succ _ _ _ _ _ _ _ _ hs2
    obtain ⟨i1, i2, i3, i4, i5, i6⟩ := ih (fun l hl => hrem l (by omega)) s hs
    have hR := ReceivedAt_of_pass _ _ _ _ _ _ _ _ hs2
    have hremt : ∀ c, c ∈ recvDiagCols t.globals t.cinfo t.cinfo.rnbrptr →
        ¬ (s.globals.firstrow ≤ c ∧ c < s.globals.lastrow) := by
      intro c hc
      rw [i3, i4]
      apply hrem n (by omega) c
      rw [hR, eg, ec]
      exact hc
    obtain ⟨p1, p2, p3, p4, p5, p6, p7⟩ :=
      ParILUT_pass_inv budget tol rowdist (inp s.nlevel) maxnz nd0 _ s t i1 ht hremt
    have p1b := LevelInv_mono maxnz nd0 _ (fun c b => ∃ l, l < n + 1 ∧ ∃ tl,
          ParILUT_passes MAXNLEVEL budget tol rowdist inp s0 (l + 1) = some tl ∧
          c ∈ recvDiagCols tl.globals tl.cinfo tl.cinfo.rnbrptr ∧ b = tl.globals.ndone) t
      (by
        intro c b hcb
        rcases hcb with ⟨l, hl, tl, q1, q2, q3⟩ | ⟨q2, q3⟩
        · exact ⟨l, by omega, tl, q1, q2, q3⟩
        · refine ⟨n, by omega, s2, hs2, ?_, ?_⟩
          · rw [eg, ec]; exact q2
          · rw [eg]; exact q3) p1
    refine ⟨?_, ?_, ?_, ?_, ?_, ?_⟩
    · obtain ⟨a1, a2, a3, a4, a5, a6, a7, a8, a9⟩ := p1b
      refine ⟨by rw [eg]; exact a1, by rw [eg]; exact a2, a3, by rw [eg]; exact a4,
        by rw [eg, ep]; exact a5, by rw [eg, ep]; exact a6, by rw [eg]; exact a7, ?_, ?_⟩
      · rw [eg]
        unfold LRoom at a8 ⊢
        rw [e1, e2]
        exact a8
      · rw [eg]
        intro i hi c hc
        have hc2 : c ∈ Lcols t.ldu i := by
          unfold Lcols at hc ⊢
          rw [e1, e2, e3] at hc
          exact hc
        have q := a9 i hi c hc2
        unfold LColOK at q ⊢
        rw [eg, ep]
        exact q
    · rw [el, p2, i2]
    · rw [eg, p3, i3]
    · rw [eg, p4, i4]
    · rw [eg, p5, i5]
    · intro l hl tl htl
      rw [eg, ep]
      by_cases hln : l = n + 1
      · subst hln
        rw [hs2] at htl
        have e : s2 = tl := Option.some.inj htl
        subst e
        rw [eg, ep]
        exact ⟨le_refl _, fun i _ => ⟨fun _ => rfl, fun hx => hx⟩⟩
      · obtain ⟨k1, k2⟩ := i6 l (by omega) tl htl
        refine ⟨by omega, ?_⟩
        intro i hi
        obtain ⟨k3, k4⟩ := k2 i hi
        obtain ⟨k5, k6⟩ := p7 i (by rw [i5]; exact hi)
        constructor
        · intro hx
          have := k3 hx
          have := k5 (by omega)
          omega
        · intro hx
          have := k4 hx
          by_cases hy : s.p.iperm i < s.globals.ndone
          · have := k5 hy
            omega
          · have := k6 (by omega)
            omega
/-- The invariant of the level loop holds on entry to the loop: the state that `ParILUT`
sets up before `while (nleft > 0)`, when the local rows are `lnrows` consecutive rows, the
reduced matrix covers them, `perm`/`iperm` of the factor are inverse permutations, every `L`
row has room, and the `L` part of an active row holds only local columns that are placed
below `ndone`. -/
theorem ParILUT_start_inv (ddist_nrows ddist_lnrows : Nat) (rowdist : Nat → Nat)
    (ldu : FactorMatType) (rmat : ReduceMatType) (gmaxnz : Nat) (others : Int)
    (nrmat0 : ReduceMatType) (cinfo0 : CommInfoType) (pilu_send0 : Nat → Nat)
    (newperm0 newiperm0 : Nat → Nat) (g0 : hypre_PilutSolverGlobals)
    (hmax : 1 ≤ gmaxnz)
    (hrows : rowdist (g0.mype + 1) = rowdist g0.mype + ddist_lnrows)
    (hshape : rmat.rmat_ndone + rmat.rmat_ntogo = ddist_lnrows)
    (hperm : PermInv ddist_lnrows ldu.perm ldu.iperm)
    (hroom : LRoom gmaxnz ddist_lnrows ldu)
    (hL0 : ∀ i, i < ddist_lnrows → rmat.rmat_ndone ≤ ldu.iperm i → ∀ c, c ∈ Lcols ldu i →
      (rowdist g0.mype ≤ c ∧ c < rowdist (g0.mype + 1)) ∧
      ldu.iperm (c - rowdist g0.mype) < rmat.rmat_ndone) :
    LevelInv gmaxnz rmat.rmat_ndone (fun _ _ => False)
      (ParILUT_start ddist_nrows ddist_lnrows rowdist ldu rmat gmaxnz others nrmat0 cinfo0
        pilu_send0 newperm0 newiperm0 g0) := by
  refine ⟨⟨hrows, hshape⟩, rfl, hmax, le_refl _, hperm, ?_, fun _ => rfl, hroom, ?_⟩
  · intro i hi
    have hi2 : i < ddist_lnrows := hi
    constructor
    · show memcpy_idx newperm0 ldu.perm 0 ddist_lnrows i = ldu.perm i
      unfold memcpy_idx
      simp [hi2]
    · show memcpy_idx newiperm0 ldu.iperm 0 ddist_lnrows i = ldu.iperm i
      unfold memcpy_idx
      simp [hi2]
  · intro i hi c hc hge
    have hi2 : i < ddist_lnrows := hi
    have hc2 : c ∈ Lcols ldu i := hc
    have hge2 : rmat.rmat_ndone ≤ ldu.iperm i := hge
    obtain ⟨q1, q2⟩ := hL0 i hi2 hge2 c hc2
    constructor
    · intro _
      show ldu.iperm (c - rowdist g0.mype) < rmat.rmat_ndone ∧
        ldu.iperm (c - rowdist g0.mype) < ldu.iperm i
      exact ⟨q2, by omega⟩
    · intro hn
      exact absurd q1 hn
theorem EliminatedAt_passes (MAXNLEVEL budget : Nat) (tol : ℚ) (rowdist : Nat → Nat)
    (inp : Nat → LevelInput) (s0 : ParState) (l i : Nat)
    (h : EliminatedAt MAXNLEVEL budget tol rowdist inp s0 l i) :
    ∃ t t1, ParILUT_passes MAXNLEVEL budget tol rowdist inp s0 l = some t ∧
      ParILUT_passes MAXNLEVEL budget tol rowdist inp s0 (l + 1) = some t1 ∧
      t.globals.ndone ≤ t1.p.iperm i ∧ t1.p.iperm i < t1.globals.ndone := by
  unfold EliminatedAt at h
  split at h
  · rename_i t t1 e1 e2
    exact ⟨t, t1, e1, e2, h.1, h.2⟩
  · exact h.elim

/-- The `L` part across the levels, at any boundary of the level loop that is reached from
a state `s0` with the loop invariant: the `L` part of a row eliminated in pass `l1` holds no
local row eliminated in a later pass `l2`, and no row of another PE unless that row has been
received in one of the passes `0..l1`. -/
theorem ParILUT_passes_L (MAXNLEVEL budget : Nat) (tol : ℚ) (rowdist : Nat → Nat)
    (inp : Nat → LevelInput) (s0 : ParState) (maxnz nd0 : Nat)
    (h0 : LevelInv maxnz nd0 (fun _ _ => False) s0) (hl0 : s0.nlevel = 0)
    (n : Nat) (s : ParState)
    (hrem : ∀ l, l < n → ∀ c, c ∈ ReceivedAt MAXNLEVEL budget tol rowdist inp s0 l →
      ¬ (s0.globals.firstrow ≤ c ∧ c < s0.globals.lastrow))
    (hrun : ParILUT_passes MAXNLEVEL budget tol rowdist inp s0 n = some s) :
    (∀ l1 l2 r c, l1 < l2 → l2 < n → r < s0.globals.lnrows → c < s0.globals.lnrows →
      EliminatedAt MAXNLEVEL budget tol rowdist inp s0 l1 r →
      EliminatedAt MAXNLEVEL budget tol rowdist inp s0 l2 c →
      c + s0.globals.firstrow ∉ Lcols s.ldu r) ∧
    (∀ l1 r c, l1 < n → r < s0.globals.lnrows →
      EliminatedAt MAXNLEVEL budget tol rowdist inp s0 l1 r →
      ¬ (s0.globals.firstrow ≤ c ∧ c < s0.globals.lastrow) →
      (∀ l, l ≤ l1 → c ∉ ReceivedAt MAXNLEVEL budget tol rowdist inp s0 l) →
      c ∉ Lcols s.ldu r) := by
  obtain ⟨i1, i2, i3, i4, i5, i6⟩ :=
    ParILUT_passes_inv MAXNLEVEL budget tol rowdist inp s0 maxnz nd0 h0 hl0 n hrem s hrun
  obtain ⟨a1, a2, a3, a4, a5, a6, a7, a8, a9⟩ := i1
  have hshape := h0.1
  have hnd := h0.2.2.2.1
  -- the position of a row eliminated in pass `l1 < n` at the boundary `s`
  have hpos : ∀ l1 r, l1 < n → r < s0.globals.lnrows →
      ∀ t t1, ParILUT_passes MAXNLEVEL budget tol rowdist inp s0 l1 = some t →
        ParILUT_passes MAXNLEVEL budget tol rowdist inp s0 (l1 + 1) = some t1 →
        t.globals.ndone ≤ t1.p.iperm r → t1.p.iperm r < t1.globals.ndone →
        s.p.iperm r = t1.p.iperm r ∧ nd0 ≤ s.p.iperm r := by
    intro l1 r hl1 hr t t1 e1 e2 b1 b2
    have k := ((i6 (l1 + 1) (by omega) t1 e2).2 r hr).1 b2
    refine ⟨k, ?_⟩
    obtain ⟨j1, j2, j3, j4, j5, j6⟩ :=
      ParILUT_passes_inv MAXNLEVEL budget tol rowdist inp s0 maxnz nd0 h0 hl0 l1
        (fun l hl => hrem l (by omega)) t e1
    have := (j6 0 (by omega) s0 rfl).1
    omega
  constructor
  · intro l1 l2 r c hl hl2 hr hc hE1 hE2 hmem
    obtain ⟨t, t1, e1, e2, b1, b2⟩ := EliminatedAt_passes _ _ _ _ _ _ _ _ hE1
    obtain ⟨u, u1, f1, f2, c1, c2⟩ := EliminatedAt_passes _ _ _ _ _ _ _ _ hE2
    obtain ⟨k1, k2⟩ := hpos l1 r (by omega) hr t t1 e1 e2 b1 b2
    obtain ⟨k3, k4⟩ := hpos l2 c hl2 hc u u1 f1 f2 c1 c2
    obtain ⟨j1, j2, j3, j4, j5, j6⟩ :=
      ParILUT_passes_inv MAXNLEVEL budget tol rowdist inp s0 maxnz nd0 h0 hl0 l2
        (fun l hl => hrem l (by omega)) u f1
    have k5 := (j6 (l1 + 1) (by omega) t1 e2).1
    have q := (a9 r (by rw [i5]; exact hr) (c + s0.globals.firstrow) hmem k2).1
      (by rw [i3, i4, hshape.1]; omega)
    rw [i3] at q
    have e : c + s0.globals.firstrow - s0.globals.firstrow = c := by omega
    rw [e] at q
    omega
  · intro l1 r c hl1 hr hE1 hloc hnot hmem
    obtain ⟨t, t1, e1, e2, b1, b2⟩ := EliminatedAt_passes _ _ _ _ _ _ _ _ hE1
    obtain ⟨k1, k2⟩ := hpos l1 r hl1 hr t t1 e1 e2 b1 b2
    obtain ⟨b, ⟨l, hl, tl, q1, q2, q3⟩, q4, q5⟩ :=
      (a9 r (by rw [i5]; exact hr) c hmem k2).2 (by rw [i3, i4]; exact hloc)
    have hRl := ReceivedAt_of_pass _ _ _ _ _ _ _ _ q1
    by_cases hle : l ≤ l1
    · apply hnot l hle
      rw [hRl]
      exact q2
    · obtain ⟨j1, j2, j3, j4, j5, j6⟩ :=
        ParILUT_passes_inv MAXNLEVEL budget tol rowdist inp s0 maxnz nd0 h0 hl0 (l + 1)
          (fun l hl => hrem l (by omega)) tl q1
      have k5 := (j6 (l1 + 1) (by omega) t1 e2).1
      omega

/-- C13 (amended). Triangular `L` across levels. `ParILUT` is entered on a PE whose local rows
are `lnrows` consecutive rows, with `perm`/`iperm` inverse permutations, room for `maxnz >= 1`
entries in every `L` row and, in the `L` part of every active row, only local columns placed
below `ndone`; every row received in a pass is a row of another PE. At every boundary of the
loop `while (nleft > 0)` that the run reaches, with state `s` after `n` passes: for every
local row `r` eliminated in pass `l1` and every local row `c` eliminated in a later pass
`l2 > l1` (both among the `n` passes), the `L` part of row `r` contains no entry whose column
is `c`; and it contains no entry whose column is a row of another PE that has not been
received in one of the passes `0..l1`. -/
theorem L_triangular_across_levels (MAXNLEVEL budget : Nat) (tol : ℚ)
    (ddist_nrows ddist_lnrows : Nat) (rowdist : Nat → Nat)
    (ldu : FactorMatType) (rmat : ReduceMatType) (gmaxnz : Nat) (others : Int)
    (nrmat0 : ReduceMatType) (cinfo0 : CommInfoType) (pilu_send0 : Nat → Nat)
    (newperm0 newiperm0 : Nat → Nat) (g0 : hypre_PilutSolverGlobals)
    (inp : Nat → LevelInput) (n : Nat) (s : ParState)
    (hmax : 1 ≤ gmaxnz)
    (hrows : rowdist (g0.mype + 1) = rowdist g0.mype + ddist_lnrows)
    (hshape : rmat.rmat_ndone + rmat.rmat_ntogo = ddist_lnrows)
    (hperm : PermInv ddist_lnrows ldu.perm ldu.iperm)
    (hroom : LRoom gmaxnz ddist_lnrows ldu)
    (hL0 : ∀ i, i < ddist_lnrows → rmat.rmat_ndone ≤ ldu.iperm i → ∀ c, c ∈ Lcols ldu i →
      (rowdist g0.mype ≤ c ∧ c < rowdist (g0.mype + 1)) ∧
      ldu.iperm (c - rowdist g0.mype) < rmat.rmat_ndone)
    (hrem : ∀ l, l < n → ∀ c, c ∈ ReceivedAt MAXNLEVEL budget tol rowdist inp
        (ParILUT_start ddist_nrows ddist_lnrows rowdist ldu rmat gmaxnz others nrmat0 cinfo0
          pilu_send0 newperm0 newiperm0 g0) l →
      ¬ (rowdist g0.mype ≤ c ∧ c < rowdist (g0.mype + 1)))
    (hrun : ParILUT_passes MAXNLEVEL budget tol rowdist inp
        (ParILUT_start ddist_nrows ddist_lnrows rowdist ldu rmat gmaxnz others nrmat0 cinfo0
          pilu_send0 newperm0 newiperm0 g0) n = some s) :
    (∀ l1 l2 r c, l1 < l2 → l2 < n → r < ddist_lnrows → c < ddist_lnrows →
      EliminatedAt MAXNLEVEL budget tol rowdist inp
        (ParILUT_start ddist_nrows ddist_lnrows rowdist ldu rmat gmaxnz others nrmat0 cinfo0
          pilu_send0 newperm0 newiperm0 g0) l1 r →
      EliminatedAt MAXNLEVEL budget tol rowdist inp
        (ParILUT_start ddist_nrows ddist_lnrows rowdist ldu rmat gmaxnz others nrmat0 cinfo0
          pilu_send0 newperm0 newiperm0 g0) l2 c →
      c + rowdist g0.mype ∉ Lcols s.ldu r) ∧
    (∀ l1 r c, l1 < n → r < ddist_lnrows →
      EliminatedAt MAXNLEVEL budget tol rowdist inp
        (ParILUT_start ddist_nrows ddist_lnrows rowdist ldu rmat gmaxnz others nrmat0 cinfo0
          pilu_send0 newperm0 newiperm0 g0) l1 r →
      ¬ (rowdist g0.mype ≤ c ∧ c < rowdist (g0.mype + 1)) →
      (∀ l, l ≤ l1 → c ∉ ReceivedAt MAXNLEVEL budget tol rowdist inp
        (ParILUT_start ddist_nrows ddist_lnrows rowdist ldu rmat gmaxnz others nrmat0 cinfo0
          pilu_send0 newperm0 newiperm0 g0) l) →
      c ∉ Lcols s.ldu r) :=
  ParILUT_passes_L MAXNLEVEL budget tol rowdist inp
    (ParILUT_start ddist_nrows ddist_lnrows rowdist ldu rmat gmaxnz others nrmat0 cinfo0
      pilu_send0 newperm0 newiperm0 g0) gmaxnz rmat.rmat_ndone
    (ParILUT_start_inv ddist_nrows ddist_lnrows rowdist ldu rmat gmaxnz others nrmat0 cinfo0
      pilu_send0 newperm0 newiperm0 g0 hmax hrows hshape hperm hroom hL0) rfl n s hrem hrun

set_option maxRecDepth 100000 in
/-- Instance of C13 (amended): PE 1 of two, local rows 2, 3, 4 with the columns `2, 3`,
`3, 2, 4` and `4, 1, 3`, `maxnz = 3`; the first pass receives row 1 of PE 0 and eliminates
the rows 2 and 3 (row 4 waits for row 1 of the lower PE), the second pass eliminates row 4
and ends the loop. The local row 1 (row 3) is eliminated in pass 0 and the local row 2
(row 4) in pass 1: the `L` part of row 3 holds neither the column 4 nor the column 0 of
PE 0, which is never received, while the `L` part of row 4 does hold the column 3 and the
received column 1. -/
theorem L_triangular_across_levels_witness :
    (ParILUT_passes 10 20 0 (arr 0 [0, 2, 5]) exInp exS2 2 = some exS2_end ∧
      EliminatedAt 10 20 0 (arr 0 [0, 2, 5]) exInp exS2 0 1 ∧
      EliminatedAt 10 20 0 (arr 0 [0, 2, 5]) exInp exS2 1 2) ∧
    (2 + arr 0 [0, 2, 5] exG2.mype = 4 ∧ 2 + arr 0 [0, 2, 5] exG2.mype ∉ Lcols exS2_end.ldu 1 ∧
      0 ∉ Lcols exS2_end.ldu 1) ∧
    (3 ∈ Lcols exS2_end.ldu 2 ∧ 1 ∈ Lcols exS2_end.ldu 2) := by
  have hrun : ParILUT_passes 10 20 0 (arr 0 [0, 2, 5]) exInp exS2 2 = some exS2_end := by
    have h : (ParILUT_passes 10 20 0 (arr 0 [0, 2, 5]) exInp exS2 2).isSome = true := by
      decide!
    unfold exS2_end
    cases hp : ParILUT_passes 10 20 0 (arr 0 [0, 2, 5]) exInp exS2 2 with
    | none => rw [hp] at h; exact absurd h (by decide)
    | some s => rfl
  have he1 : EliminatedAt 10 20 0 (arr 0 [0, 2, 5]) exInp exS2 0 1 := by decide!
  have he2 : EliminatedAt 10 20 0 (arr 0 [0, 2, 5]) exInp exS2 1 2 := by decide!
  have h := L_triangular_across_levels 10 20 0 5 3 (arr 0 [0, 2, 5]) exLdu exRm2 3 1 exNr
    exCi0 (fun _ => 0) (fun _ => 0) (fun _ => 0) exG2 exInp 2 exS2_end (by decide) (by decide)
    (by decide) (by unfold PermInv; decide) (by decide) (by decide) (by decide!) hrun
  exact ⟨⟨hrun, he1, he2⟩,
    ⟨by decide, h.1 0 1 1 2 (by decide) (by decide) (by decide) (by decide) he1 he2,
      h.2 0 1 0 (by decide) (by decide) he1 (by decide) (by decide!)⟩,
    by decide!, by decide!⟩

end ParILUT
